import Mathlib

/-! STM32 SAES driver: register protocol, session context and streaming operations.

A shallow embedding of `drivers/st/crypto/stm32_saes.c` together with the two
register headers `stm32_saes_reg.h` and `stm32_cryp2_saes_reg.h`.

Modelling conventions.

* The compile-time switch `STM32_SAES_CRYP2` is the parameter `L : Layout`.
* 32-bit machine words are natural numbers, reduced with `% 2 ^ 32` where a
  value is stored or read.  `int` return codes are integers.
* The register window of the engine is addressed by a base address and a
  symbolic register (`Reg`); `Reg.offset` gives the offsets of the headers.
  The control register reads back the last value written; every other read is
  answered by the device, a function of the whole access history.
* Every register access and every `udelay` is appended to a log, newest first.
* `timeout_init_us` opens a window that allows `Hw.window` negative polls;
  `timeout_elapsed` answers true once that many polls have failed.
* Caller buffers are byte memories indexed from the pointer, word-aligned (the
  driver asserts it), read and written as little-endian 32-bit words.
* `size_t` lengths are below `2 ^ 32`, so that the `unsigned int` block index
  of the streaming loops never wraps.
-/

namespace Saes

/-! ## Register layouts and bit-field constants -/

/-- The two register layouts selected by `STM32_SAES_CRYP2`. -/
inductive Layout where
  | SAES
  | CRYP2
deriving DecidableEq, Repr

/-- Modelled from the spec: `BIT(nr)` of `lib/utils_def.h`, the single-bit mask. -/
def BIT (nr : Nat) : Nat := (1 <<< nr) % 2 ^ 32

/-- Modelled from the spec: `GENMASK_32(h, l)` of `lib/utils_def.h`, the mask
of the bits `l .. h` of a 32-bit word. -/
def GENMASK_32 (h l : Nat) : Nat :=
  ((0xFFFFFFFF <<< l) % 2 ^ 32) &&& (0xFFFFFFFF >>> (32 - 1 - h))

/-- Modelled from the spec: `round_down(value, boundary)` of `lib/utils_def.h`
for a power-of-two boundary: the largest multiple of `boundary` below or equal
to `value`. -/
def round_down (value boundary : Nat) : Nat := value / boundary * boundary

/-- Modelled from the spec: `MIN` of `lib/utils_def.h`. -/
def MIN (a b : Nat) : Nat := if a < b then a else b

/-- Modelled from the spec: `errno.h` is not part of the sources; the codes are
those of the firmware C library. -/
def EINVAL : Int := 22

/-- Modelled from the spec: `errno.h`, the code reported as Unsupported. -/
def ENODEV : Int := 19

/-- Modelled from the spec: `errno.h`, the code reported as Timeout. -/
def ETIMEDOUT : Int := 60

def UINT8_BIT : Nat := 8
def AES_BLOCK_SIZE_BIT : Nat := 128
def AES_BLOCK_SIZE : Nat := AES_BLOCK_SIZE_BIT / UINT8_BIT
def AES_KEYSIZE_128 : Nat := 16
def AES_KEYSIZE_192 : Nat := 24
def AES_KEYSIZE_256 : Nat := 32
def AES_IVSIZE : Nat := 16
def SAES_RESET_DELAY : Nat := 20

def _SAES_CR_RESET_VALUE : Nat := 0x0
def _SAES_CR_IPRST : Nat := BIT 31
def _SAES_CR_KEYSEL_MASK : Nat := GENMASK_32 30 28
def _SAES_CR_KEYSEL_SHIFT : Nat := 28
def _SAES_CR_KEYSEL_SOFT : Nat := 0x0
def _SAES_CR_KEYSEL_DHUK : Nat := 0x1
def _SAES_CR_KEYSEL_BHK : Nat := 0x2
def _SAES_CR_KEYSEL_BHU_XOR_BH_K : Nat := 0x4

/-- The key-size field: `_SAES_CR_KEYSIZE` (one bit) in the first layout,
`_SAES_CR_KEYSIZE_MASK` (two bits) in the second. -/
def _SAES_CR_KEYSIZE_MASK : Layout → Nat
  | .SAES => BIT 18
  | .CRYP2 => GENMASK_32 18 17

def _SAES_CR_KEYSIZE_SHIFT : Layout → Nat
  | .SAES => 18
  | .CRYP2 => 17

def _SAES_CR_KEYSIZE_128 : Nat := 0x0

/-- Only defined by the second layout. -/
def _SAES_CR_KEYSIZE_192 : Nat := 0x1

def _SAES_CR_KEYSIZE_256 : Layout → Nat
  | .SAES => 0x1
  | .CRYP2 => 0x2

def _SAES_CR_GCMPH_MASK : Nat := GENMASK_32 14 13
def _SAES_CR_GCMPH_SHIFT : Nat := 13
def _SAES_CR_GCMPH_INIT : Nat := 0
def _SAES_CR_GCMPH_HEADER : Nat := 1
def _SAES_CR_GCMPH_PAYLOAD : Nat := 2
def _SAES_CR_GCMPH_FINAL : Nat := 3

def _SAES_CR_CHMOD_MASK : Layout → Nat
  | .SAES => BIT 16 ||| GENMASK_32 6 5
  | .CRYP2 => GENMASK_32 8 5

def _SAES_CR_CHMOD_SHIFT : Nat := 5
def _SAES_CR_CHMOD_ECB : Nat := 0x0
def _SAES_CR_CHMOD_CBC : Nat := 0x1
def _SAES_CR_CHMOD_CTR : Nat := 0x2
def _SAES_CR_CHMOD_GCM : Nat := 0x3

def _SAES_CR_CHMOD_CCM : Layout → Nat
  | .SAES => 0x800
  | .CRYP2 => 0x4

def _SAES_CR_MODE_MASK : Nat := GENMASK_32 4 3
def _SAES_CR_MODE_SHIFT : Nat := 3
def _SAES_CR_MODE_ENC : Nat := 0
def _SAES_CR_MODE_KEYPREP : Nat := 1
def _SAES_CR_MODE_DEC : Nat := 2
def _SAES_CR_DATATYPE_MASK : Nat := GENMASK_32 2 1
def _SAES_CR_DATATYPE_SHIFT : Nat := 1
def _SAES_CR_DATATYPE_BYTE : Nat := 2
def _SAES_CR_EN : Nat := BIT 0

def _SAES_SR_KEYVALID : Nat := BIT 7

def _SAES_SR_BUSY : Layout → Nat
  | .SAES => BIT 3
  | .CRYP2 => BIT 4

def _SAES_I_CCF : Layout → Nat
  | .SAES => BIT 0
  | .CRYP2 => BIT 2

/-! ## Enumerations of `stm32_saes.h` -/

/-- Modelled from the spec: `enum stm32_saes_chaining_mode` of `stm32_saes.h`
(the header is not part of the sources): the five chaining modes.  The
`default` branches of the driver serve values outside the enumeration. -/
inductive stm32_saes_chaining_mode where
  | STM32_SAES_MODE_ECB
  | STM32_SAES_MODE_CBC
  | STM32_SAES_MODE_CTR
  | STM32_SAES_MODE_GCM
  | STM32_SAES_MODE_CCM
deriving DecidableEq, Repr

/-- Modelled from the spec: `enum stm32_saes_key_selection` of `stm32_saes.h`:
the software key and the four hardware-held key sources. -/
inductive stm32_saes_key_selection where
  | STM32_SAES_KEY_SOFT
  | STM32_SAES_KEY_DHU
  | STM32_SAES_KEY_BH
  | STM32_SAES_KEY_BHU_XOR_BH
  | STM32_SAES_KEY_WRAPPED
deriving DecidableEq, Repr

open stm32_saes_chaining_mode stm32_saes_key_selection

/-- The field value `_SAES_CR_CHMOD_##mod` of a chaining mode. -/
def chmod_value (L : Layout) : stm32_saes_chaining_mode → Nat
  | STM32_SAES_MODE_ECB => _SAES_CR_CHMOD_ECB
  | STM32_SAES_MODE_CBC => _SAES_CR_CHMOD_CBC
  | STM32_SAES_MODE_CTR => _SAES_CR_CHMOD_CTR
  | STM32_SAES_MODE_GCM => _SAES_CR_CHMOD_GCM
  | STM32_SAES_MODE_CCM => _SAES_CR_CHMOD_CCM L

/-! ## Words, bytes and buffers -/

/-- Byte `k` (0 the least significant) of a 32-bit word. -/
def byte_of (v k : Nat) : Nat := v / 256 ^ k % 256

/-- The 32-bit word with the given bytes, least significant first. -/
def word_of (b0 b1 b2 b3 : Nat) : Nat :=
  b0 % 256 + 256 * (b1 % 256) + 65536 * (b2 % 256) + 16777216 * (b3 % 256)

/-- Word `w` of a byte buffer seen through a `uint32_t *` on the
little-endian host. -/
def load32 (buf : Nat → Nat) (w : Nat) : Nat :=
  word_of (buf (4 * w)) (buf (4 * w + 1)) (buf (4 * w + 2)) (buf (4 * w + 3))

/-- Store of a word at word index `w` of a byte buffer. -/
def store32 (buf : Nat → Nat) (w v : Nat) : Nat → Nat :=
  fun j => if j / 4 = w then byte_of v (j % 4) else buf j

/-- Modelled from the spec: `htobe32` of `endian.h` on the little-endian host:
the word whose memory image is the big-endian image of the argument. -/
def htobe32 (v : Nat) : Nat :=
  word_of (byte_of v 3) (byte_of v 2) (byte_of v 1) (byte_of v 0)

/-- Read-modify-write helpers of `lib/mmio.h` on a 32-bit value. -/
def setbits32 (v set : Nat) : Nat := (v ||| set) % 2 ^ 32

def clrbits32 (v clear : Nat) : Nat := (v &&& (0xFFFFFFFF ^^^ clear)) % 2 ^ 32

def clrsetbits32 (v clear set : Nat) : Nat :=
  ((v &&& (0xFFFFFFFF ^^^ clear)) ||| set) % 2 ^ 32

/-! ## The register window -/

/-- Registers of the engine.  `KEYR i` is key register `i` (`_SAES_KEYR0 + 4 i`
for `i < 4`, `_SAES_KEYR4 + 4 (i - 4)` above), `IVR i` is `_SAES_IVR0 + 4 i`. -/
inductive Reg where
  | CR
  | SR
  | DINR
  | DOUTR
  | KEYR (i : Nat)
  | IVR (i : Nat)
  | ISR
  | ICR
deriving DecidableEq, Repr

/-- Byte offsets of the registers in the two headers. -/
def Reg.offset (L : Layout) : Reg → Nat
  | .CR => 0x0
  | .SR => 0x04
  | .DINR => 0x08
  | .DOUTR => 0x0C
  | .KEYR i =>
    match L with
    | .SAES => if i < 4 then 0x10 + 4 * i else 0x30 + 4 * (i - 4)
    | .CRYP2 => 0x20 + 4 * i
  | .IVR i =>
    match L with
    | .SAES => 0x20 + 4 * i
    | .CRYP2 => 0x40 + 4 * i
  | .ISR => 0x304
  | .ICR => 0x308

/-- One step of the access history. -/
inductive Ev where
  | rd (base : Nat) (r : Reg) (v : Nat)
  | wr (base : Nat) (r : Reg) (v : Nat)
  | delay (us : Nat)
deriving DecidableEq, Repr

/-- The engine as the driver sees it: the control register (which reads back
what was written), the access history (newest first), the answer of the device
to a read of any other register, and the number of negative polls a timeout
window opened at a given history allows. -/
structure Hw where
  cr : Nat
  log : List Ev
  dev : List Ev → Nat → Reg → Nat
  window : List Ev → Nat

/-- Modelled from the spec: `mmio_read_32` of `lib/mmio.h`. -/
def mmio_read_32 (base : Nat) (r : Reg) (hw : Hw) : Nat × Hw :=
  let v := (if r = Reg.CR then hw.cr else hw.dev hw.log base r) % 2 ^ 32
  (v, { hw with log := Ev.rd base r v :: hw.log })

/-- Modelled from the spec: `mmio_write_32` of `lib/mmio.h`. -/
def mmio_write_32 (base : Nat) (r : Reg) (v : Nat) (hw : Hw) : Hw :=
  { hw with
    cr := if r = Reg.CR then v % 2 ^ 32 else hw.cr
    log := Ev.wr base r (v % 2 ^ 32) :: hw.log }

/-- Modelled from the spec: `mmio_setbits_32` of `lib/mmio.h`. -/
def mmio_setbits_32 (base : Nat) (r : Reg) (set : Nat) (hw : Hw) : Hw :=
  let (v, hw1) := mmio_read_32 base r hw
  mmio_write_32 base r (setbits32 v set) hw1

/-- Modelled from the spec: `mmio_clrbits_32` of `lib/mmio.h`. -/
def mmio_clrbits_32 (base : Nat) (r : Reg) (clear : Nat) (hw : Hw) : Hw :=
  let (v, hw1) := mmio_read_32 base r hw
  mmio_write_32 base r (clrbits32 v clear) hw1

/-- Modelled from the spec: `mmio_clrsetbits_32` of `lib/mmio.h`. -/
def mmio_clrsetbits_32 (base : Nat) (r : Reg) (clear set : Nat) (hw : Hw) : Hw :=
  let (v, hw1) := mmio_read_32 base r hw
  mmio_write_32 base r (clrsetbits32 v clear set) hw1

/-- Modelled from the spec: `udelay` of `drivers/delay_timer.h`. -/
def udelay (us : Nat) (hw : Hw) : Hw :=
  { hw with log := Ev.delay us :: hw.log }

/-- The register writes of a history, oldest first. -/
def reg_writes : List Ev → List (Reg × Nat)
  | [] => []
  | Ev.wr _ r v :: l => reg_writes l ++ [(r, v)]
  | Ev.rd _ _ _ :: l => reg_writes l
  | Ev.delay _ :: l => reg_writes l

/-- The values written to the data-in register, oldest first. -/
def dinr_writes (log : List Ev) : List Nat :=
  (reg_writes log).filterMap (fun p => if p.1 = Reg.DINR then some p.2 else none)

/-- The values written to the control register, oldest first. -/
def cr_writes (log : List Ev) : List Nat :=
  (reg_writes log).filterMap (fun p => if p.1 = Reg.CR then some p.2 else none)

/-- The writes to the control register and to the data-in register, in the
order in which they were made. -/
def cd_writes (log : List Ev) : List (Reg × Nat) :=
  (reg_writes log).filter (fun p => decide (p.1 = Reg.CR) || decide (p.1 = Reg.DINR))

/-- The values read from the data-out register, oldest first. -/
def doutr_reads : List Ev → List Nat
  | [] => []
  | Ev.rd _ r v :: l => if r = Reg.DOUTR then doutr_reads l ++ [v] else doutr_reads l
  | Ev.wr _ _ _ :: l => doutr_reads l
  | Ev.delay _ :: l => doutr_reads l

/-- The number of `udelay` calls of a history.  The driver calls `udelay` only
between the two writes of a reset pulse (set `IPRST`, wait, clear `IPRST`). -/
def delays : List Ev → Nat
  | [] => 0
  | Ev.delay _ :: l => delays l + 1
  | Ev.rd _ _ _ :: l => delays l
  | Ev.wr _ _ _ :: l => delays l

/-! ## Session context -/

/-- Modelled from the spec: `struct stm32_saes_context` of `stm32_saes.h`: the
base address, the control shadow, the two 32-bit bit-length counters, the key
shadow (8 words) and the IV shadow (4 words). -/
structure stm32_saes_context where
  base : Nat
  cr : Nat
  assoc_len : Nat
  load_len : Nat
  key : Nat → Nat
  iv : Nat → Nat

/-- Store of a word into an array of the context. -/
def set_word (a : Nat → Nat) (i v : Nat) : Nat → Nat :=
  fun j => if j = i then v % 2 ^ 32 else a j

/-! ## Predicates on the control register image -/

/-- The macro `IS_CHAINING_MODE(mod, cr)`. -/
def IS_CHAINING_MODE (L : Layout) (mod : stm32_saes_chaining_mode) (cr : Nat) : Bool :=
  (cr &&& _SAES_CR_CHMOD_MASK L) == ((chmod_value L mod <<< _SAES_CR_CHMOD_SHIFT) % 2 ^ 32)

/-- The macro `SET_CHAINING_MODE(mod, cr)` applied to the control shadow. -/
def SET_CHAINING_MODE (L : Layout) (mod : stm32_saes_chaining_mode) (cr : Nat) : Nat :=
  clrsetbits32 cr (_SAES_CR_CHMOD_MASK L) (chmod_value L mod <<< _SAES_CR_CHMOD_SHIFT)

def does_chaining_mode_need_iv (L : Layout) (cr : Nat) : Bool :=
  !(IS_CHAINING_MODE L STM32_SAES_MODE_ECB cr)

def is_encrypt (cr : Nat) : Bool :=
  (cr &&& _SAES_CR_MODE_MASK) == (_SAES_CR_MODE_ENC <<< _SAES_CR_MODE_SHIFT)

def is_decrypt (cr : Nat) : Bool :=
  (cr &&& _SAES_CR_MODE_MASK) == (_SAES_CR_MODE_DEC <<< _SAES_CR_MODE_SHIFT)

/-! ## Timeout-bounded polling -/

/-- The loop of `wait_computation_completed`: read the interrupt status
register until the completion flag shows; `k` is the number of negative polls
the timeout still allows. -/
def wait_computation_completed_loop (L : Layout) (base : Nat) : Nat → Hw → Int × Hw
  | 0, hw =>
    let (v, hw1) := mmio_read_32 base Reg.ISR hw
    if (v &&& _SAES_I_CCF L) != _SAES_I_CCF L then (-ETIMEDOUT, hw1) else (0, hw1)
  | k + 1, hw =>
    let (v, hw1) := mmio_read_32 base Reg.ISR hw
    if (v &&& _SAES_I_CCF L) != _SAES_I_CCF L then wait_computation_completed_loop L base k hw1
    else (0, hw1)

def wait_computation_completed (L : Layout) (base : Nat) (hw : Hw) : Int × Hw :=
  wait_computation_completed_loop L base (hw.window hw.log) hw

def clear_computation_completed (L : Layout) (base : Nat) (hw : Hw) : Hw :=
  mmio_setbits_32 base Reg.ICR (_SAES_I_CCF L) hw

/-- The loop of `wait_key_valid`. -/
def wait_key_valid_loop (base : Nat) : Nat → Hw → Int × Hw
  | 0, hw =>
    let (v, hw1) := mmio_read_32 base Reg.SR hw
    if (v &&& _SAES_SR_KEYVALID) != _SAES_SR_KEYVALID then (-ETIMEDOUT, hw1) else (0, hw1)
  | k + 1, hw =>
    let (v, hw1) := mmio_read_32 base Reg.SR hw
    if (v &&& _SAES_SR_KEYVALID) != _SAES_SR_KEYVALID then wait_key_valid_loop base k hw1
    else (0, hw1)

def wait_key_valid (base : Nat) (hw : Hw) : Int × Hw :=
  wait_key_valid_loop base (hw.window hw.log) hw

/-- The busy-wait loop of `saes_start`. -/
def saes_start_loop (L : Layout) (base : Nat) : Nat → Hw → Int × Hw
  | 0, hw =>
    let (v, hw1) := mmio_read_32 base Reg.SR hw
    if (v &&& _SAES_SR_BUSY L) == _SAES_SR_BUSY L then (-ETIMEDOUT, hw1) else (0, hw1)
  | k + 1, hw =>
    let (v, hw1) := mmio_read_32 base Reg.SR hw
    if (v &&& _SAES_SR_BUSY L) == _SAES_SR_BUSY L then saes_start_loop L base k hw1
    else (0, hw1)

/-! ## Lifecycle -/

def saes_start (L : Layout) (ctx : stm32_saes_context) (hw : Hw) : Int × Hw :=
  let (sr, hw1) := mmio_read_32 ctx.base Reg.SR hw
  let hw2 :=
    if (sr &&& _SAES_SR_BUSY L) != _SAES_SR_BUSY L then
      mmio_clrbits_32 ctx.base Reg.CR _SAES_CR_IPRST
        (udelay SAES_RESET_DELAY (mmio_setbits_32 ctx.base Reg.CR _SAES_CR_IPRST hw1))
    else hw1
  saes_start_loop L ctx.base (hw2.window hw2.log) hw2

def saes_end (ctx : stm32_saes_context) (prev_error : Int) (hw : Hw) : Hw :=
  let hw1 :=
    if prev_error ≠ 0 then
      mmio_clrbits_32 ctx.base Reg.CR _SAES_CR_IPRST
        (udelay SAES_RESET_DELAY (mmio_setbits_32 ctx.base Reg.CR _SAES_CR_IPRST hw))
    else hw
  mmio_clrbits_32 ctx.base Reg.CR _SAES_CR_EN hw1

/-- The loop `for (i = 0; i < n; i++) mmio_write_32(base + reg(i), src[i])`. -/
def write_words (base : Nat) (reg : Nat → Reg) (src : Nat → Nat) : Nat → Hw → Hw
  | 0, hw => hw
  | i + 1, hw => mmio_write_32 base (reg i) (src i) (write_words base reg src i hw)

/-- The loop `for (i = 0; i < n; i++) dst[i] = mmio_read_32(base + reg(i))`:
the updated array and the hardware state. -/
def read_words (base : Nat) (reg : Nat → Reg) : Nat → (Nat → Nat) × Hw → (Nat → Nat) × Hw
  | 0, s => s
  | i + 1, s =>
    let s1 := read_words base reg i s
    let r := mmio_read_32 base (reg i) s1.2
    (set_word s1.1 i r.1, r.2)

def saes_write_iv (L : Layout) (ctx : stm32_saes_context) (hw : Hw) : Hw :=
  if does_chaining_mode_need_iv L ctx.cr then
    write_words ctx.base Reg.IVR ctx.iv (AES_IVSIZE / 4) hw
  else hw

def saes_get_keysize (L : Layout) (ctx : stm32_saes_context) : Nat :=
  let keysize := (ctx.cr &&& _SAES_CR_KEYSIZE_MASK L) >>> _SAES_CR_KEYSIZE_SHIFT L
  if keysize = _SAES_CR_KEYSIZE_256 L then AES_KEYSIZE_256
  else if L = Layout.CRYP2 ∧ keysize = _SAES_CR_KEYSIZE_192 then AES_KEYSIZE_192
  else if keysize = _SAES_CR_KEYSIZE_128 then AES_KEYSIZE_128
  else 0

/-- The result `none` stands for `panic()`. -/
def saes_write_key (L : Layout) (ctx : stm32_saes_context) (hw : Hw) : Option Hw :=
  if (ctx.cr &&& _SAES_CR_KEYSEL_MASK) = (_SAES_CR_KEYSEL_SOFT <<< _SAES_CR_KEYSEL_SHIFT) then
    let ks := saes_get_keysize L ctx
    if ks = 0 then none
    else
      let hw1 := write_words ctx.base Reg.KEYR ctx.key (AES_KEYSIZE_128 / 4) hw
      if ks > AES_KEYSIZE_128 then
        some (write_words ctx.base (fun i => Reg.KEYR (4 + i)) (fun i => ctx.key (i + 4))
          ((ks - AES_KEYSIZE_128) / 4) hw1)
      else some hw1
  else some hw

/-- The key-size step of `saes_prepare_key`, compiled only without
`STM32_SAES_CRYP2`. -/
def prepare_key_size (L : Layout) (ctx : stm32_saes_context) (hw : Hw) : Hw :=
  match L with
  | .SAES =>
    if (ctx.cr &&& _SAES_CR_KEYSIZE_MASK .SAES) ≠ 0 then
      mmio_setbits_32 ctx.base Reg.CR (_SAES_CR_KEYSIZE_MASK .SAES) hw
    else mmio_clrbits_32 ctx.base Reg.CR (_SAES_CR_KEYSIZE_MASK .SAES) hw
  | .CRYP2 => hw

def saes_prepare_key (L : Layout) (ctx : stm32_saes_context) (hw : Hw) : Option (Int × Hw) :=
  let hw1 := mmio_clrbits_32 ctx.base Reg.CR _SAES_CR_EN hw
  let hw2 := prepare_key_size L ctx hw1
  match saes_write_key L ctx hw2 with
  | none => none
  | some hw3 =>
    let r := wait_key_valid ctx.base hw3
    if r.1 ≠ 0 then some (r.1, r.2)
    else if (IS_CHAINING_MODE L STM32_SAES_MODE_ECB ctx.cr
          || IS_CHAINING_MODE L STM32_SAES_MODE_CBC ctx.cr) && is_decrypt ctx.cr then
      let hw5 := mmio_clrsetbits_32 ctx.base Reg.CR _SAES_CR_MODE_MASK
        (_SAES_CR_MODE_KEYPREP <<< _SAES_CR_MODE_SHIFT) r.2
      let hw6 := mmio_setbits_32 ctx.base Reg.CR _SAES_CR_EN hw5
      let c := wait_computation_completed L ctx.base hw6
      if c.1 ≠ 0 then some (c.1, c.2)
      else
        let hw8 := clear_computation_completed L ctx.base c.2
        some (0, mmio_clrsetbits_32 ctx.base Reg.CR _SAES_CR_MODE_MASK
          (_SAES_CR_MODE_DEC <<< _SAES_CR_MODE_SHIFT) hw8)
    else some (0, r.2)

def save_context (L : Layout) (ctx : stm32_saes_context) (hw : Hw) :
    Int × stm32_saes_context × Hw :=
  let i := mmio_read_32 ctx.base Reg.ISR hw
  if (i.1 &&& _SAES_I_CCF L) ≠ 0 then (-EINVAL, ctx, i.2)
  else
    let c := mmio_read_32 ctx.base Reg.CR i.2
    let ctx1 := { ctx with cr := c.1 }
    let s :=
      if does_chaining_mode_need_iv L ctx1.cr then
        read_words ctx1.base Reg.IVR (AES_IVSIZE / 4) (ctx1.iv, c.2)
      else (ctx1.iv, c.2)
    (0, { ctx1 with iv := s.1 }, mmio_clrbits_32 ctx1.base Reg.CR _SAES_CR_EN s.2)

def restore_context (L : Layout) (ctx : stm32_saes_context) (hw : Hw) : Option (Int × Hw) :=
  let c := mmio_read_32 ctx.base Reg.CR hw
  if (c.1 &&& _SAES_CR_EN) ≠ 0 then some (-EINVAL, c.2)
  else
    let hw1 := mmio_setbits_32 ctx.base Reg.CR _SAES_CR_IPRST c.2
    let hw2 := mmio_write_32 ctx.base Reg.CR ctx.cr hw1
    match saes_prepare_key L ctx hw2 with
    | none => none
    | some r =>
      if r.1 ≠ 0 then some (r.1, r.2)
      else
        let hw4 := saes_write_iv L ctx r.2
        some (0, mmio_setbits_32 ctx.base Reg.CR _SAES_CR_EN hw4)

/-- The loops of `stm32_saes_init` that save the key or the IV:
`for (i = 0; i < n; i++) dst[i] = htobe32(src_u32[n - 1 - i])`. -/
def save_words (src : Nat → Nat) (n : Nat) : Nat → (Nat → Nat) → (Nat → Nat)
  | 0, dst => dst
  | i + 1, dst => set_word (save_words src n i dst) i (htobe32 (load32 src (n - 1 - i)))

/-- The key-size switch of `stm32_saes_init`: the new control shadow, or `none`
for the `default` branch. -/
def init_keysize (L : Layout) (key_size cr : Nat) : Option Nat :=
  match L with
  | .CRYP2 =>
    if key_size = AES_KEYSIZE_128 then
      some (clrsetbits32 cr (_SAES_CR_KEYSIZE_MASK .CRYP2)
        (_SAES_CR_KEYSIZE_128 <<< _SAES_CR_KEYSIZE_SHIFT .CRYP2))
    else if key_size = AES_KEYSIZE_192 then
      some (clrsetbits32 cr (_SAES_CR_KEYSIZE_MASK .CRYP2)
        (_SAES_CR_KEYSIZE_192 <<< _SAES_CR_KEYSIZE_SHIFT .CRYP2))
    else if key_size = AES_KEYSIZE_256 then
      some (clrsetbits32 cr (_SAES_CR_KEYSIZE_MASK .CRYP2)
        (_SAES_CR_KEYSIZE_256 .CRYP2 <<< _SAES_CR_KEYSIZE_SHIFT .CRYP2))
    else none
  | .SAES =>
    if key_size = AES_KEYSIZE_128 then some (clrbits32 cr (_SAES_CR_KEYSIZE_MASK .SAES))
    else if key_size = AES_KEYSIZE_256 then some (setbits32 cr (_SAES_CR_KEYSIZE_MASK .SAES))
    else none

/-- The inner switch of the software-key branch of `stm32_saes_init`: the new
key shadow, or `none` for the `default` branch. -/
def init_save_key (L : Layout) (key : Nat → Nat) (key_size : Nat) (dst : Nat → Nat) :
    Option (Nat → Nat) :=
  if key_size = AES_KEYSIZE_128 then
    some (save_words key (AES_KEYSIZE_128 / 4) (AES_KEYSIZE_128 / 4) dst)
  else if L = Layout.CRYP2 ∧ key_size = AES_KEYSIZE_192 then
    some (save_words key (AES_KEYSIZE_192 / 4) (AES_KEYSIZE_192 / 4) dst)
  else if key_size = AES_KEYSIZE_256 then
    some (save_words key (AES_KEYSIZE_256 / 4) (AES_KEYSIZE_256 / 4) dst)
  else none

/-- The key-source field value that `stm32_saes_init` selects. -/
def keysel_value : stm32_saes_key_selection → Nat
  | STM32_SAES_KEY_SOFT => _SAES_CR_KEYSEL_SOFT
  | STM32_SAES_KEY_DHU => _SAES_CR_KEYSEL_DHUK
  | STM32_SAES_KEY_BH => _SAES_CR_KEYSEL_BHK
  | STM32_SAES_KEY_BHU_XOR_BH => _SAES_CR_KEYSEL_BHU_XOR_BH_K
  | STM32_SAES_KEY_WRAPPED => _SAES_CR_KEYSEL_SOFT

/-- The session constructor.  `pdata_base` is `saes_pdata.base`; the IV pointer
may be `NULL` (`none`). -/
def stm32_saes_init (L : Layout) (pdata_base : Nat) (ctx : stm32_saes_context) (is_dec : Bool)
    (ch_mode : stm32_saes_chaining_mode) (key_select : stm32_saes_key_selection)
    (key : Nat → Nat) (key_size : Nat) (iv : Option (Nat → Nat)) (iv_size : Nat) (hw : Hw) :
    Int × stm32_saes_context × Hw :=
  let ctx0 : stm32_saes_context :=
    { ctx with assoc_len := 0, load_len := 0, base := pdata_base, cr := _SAES_CR_RESET_VALUE }
  let cr1 :=
    if is_dec then
      clrsetbits32 ctx0.cr _SAES_CR_MODE_MASK (_SAES_CR_MODE_DEC <<< _SAES_CR_MODE_SHIFT)
    else
      clrsetbits32 ctx0.cr _SAES_CR_MODE_MASK (_SAES_CR_MODE_ENC <<< _SAES_CR_MODE_SHIFT)
  let ctx1 : stm32_saes_context := { ctx0 with cr := cr1 }
  let ctx2 : stm32_saes_context := { ctx1 with cr := SET_CHAINING_MODE L ch_mode ctx1.cr }
  let cr3 := clrsetbits32 ctx2.cr _SAES_CR_DATATYPE_MASK
    (_SAES_CR_DATATYPE_BYTE <<< _SAES_CR_DATATYPE_SHIFT)
  let ctx3 : stm32_saes_context := { ctx2 with cr := cr3 }
  match init_keysize L key_size ctx3.cr with
  | none => (-EINVAL, ctx3, hw)
  | some cr4 =>
    let ctx4 : stm32_saes_context := { ctx3 with cr := cr4 }
    let cr5 := clrsetbits32 ctx4.cr _SAES_CR_KEYSEL_MASK
      (keysel_value key_select <<< _SAES_CR_KEYSEL_SHIFT)
    let ctx5 : stm32_saes_context := { ctx4 with cr := cr5 }
    let saved : Option (Nat → Nat) :=
      if key_select = STM32_SAES_KEY_SOFT then init_save_key L key key_size ctx5.key
      else some ctx5.key
    match saved with
    | none => (-EINVAL, ctx5, hw)
    | some k =>
      let ctx6 : stm32_saes_context := { ctx5 with key := k }
      if ch_mode ≠ STM32_SAES_MODE_ECB then
        match iv with
        | none => (-EINVAL, ctx6, hw)
        | some ivb =>
          if iv_size ≠ AES_IVSIZE then (-EINVAL, ctx6, hw)
          else
            let iv7 := save_words ivb (AES_IVSIZE / 4) (AES_IVSIZE / 4) ctx6.iv
            let ctx7 : stm32_saes_context := { ctx6 with iv := iv7 }
            let r := saes_start L ctx7 hw
            (r.1, ctx7, r.2)
      else
        let r := saes_start L ctx6 hw
        (r.1, ctx6, r.2)

/-! ## Streaming operations -/

/-- The four writes of one block to the data-in register: words `w .. w + 3`
of the buffer. -/
def write_block (base : Nat) (data_u32 : Nat → Nat) (w : Nat) (hw : Hw) : Hw :=
  mmio_write_32 base Reg.DINR (data_u32 (w + 3))
    (mmio_write_32 base Reg.DINR (data_u32 (w + 2))
      (mmio_write_32 base Reg.DINR (data_u32 (w + 1))
        (mmio_write_32 base Reg.DINR (data_u32 (w + 0)) hw)))

/-- The four reads of one block from the data-out register into words
`w .. w + 3` of the output buffer. -/
def read_block (base : Nat) (out : Nat → Nat) (w : Nat) (hw : Hw) : (Nat → Nat) × Hw :=
  let r0 := mmio_read_32 base Reg.DOUTR hw
  let r1 := mmio_read_32 base Reg.DOUTR r0.2
  let r2 := mmio_read_32 base Reg.DOUTR r1.2
  let r3 := mmio_read_32 base Reg.DOUTR r2.2
  (store32 (store32 (store32 (store32 out (w + 0) r0.1) (w + 1) r1.1) (w + 2) r2.1) (w + 3) r3.1,
    r3.2)

/-- Result of an operation without output buffer. -/
structure CtxResult where
  ret : Int
  ctx : stm32_saes_context
  hw : Hw

/-- Result of an operation with an output buffer; `i` is the byte index the
block loop reached. -/
structure DataResult where
  ret : Int
  i : Nat
  ctx : stm32_saes_context
  out : Nat → Nat
  hw : Hw

/-- The block loop of `stm32_saes_update_assodata`; `n` is the number of
iterations left, `round_down(data_size, AES_BLOCK_SIZE) / AES_BLOCK_SIZE` at
the start, and `i` the byte index. -/
def assodata_loop (L : Layout) (data : Nat → Nat) :
    Nat → Nat → stm32_saes_context → Hw → Int × Nat × stm32_saes_context × Hw
  | 0, i, ctx, hw => (0, i, ctx, hw)
  | n + 1, i, ctx, hw =>
    let w := i / 4
    let hw1 := write_block ctx.base (load32 data) w hw
    let c := wait_computation_completed L ctx.base hw1
    if c.1 ≠ 0 then (c.1, i, ctx, c.2)
    else
      let hw3 := clear_computation_completed L ctx.base c.2
      assodata_loop L data n (i + AES_BLOCK_SIZE)
        { ctx with assoc_len := (ctx.assoc_len + AES_BLOCK_SIZE_BIT) % 2 ^ 32 } hw3

/-- The label `out:` of the authenticated operations. -/
def auth_out (ret : Int) (ctx : stm32_saes_context) (hw : Hw) : CtxResult :=
  if ret ≠ 0 then { ret := ret, ctx := ctx, hw := saes_end ctx ret hw }
  else { ret := ret, ctx := ctx, hw := hw }

/-- The second half of `stm32_saes_update_assodata`: the block loop, the check
of a non-aligned last block and the label `out:`, from the hardware state in
which the loop is entered. -/
def assodata_blocks (L : Layout) (ctx : stm32_saes_context) (last_block : Bool) (d : Nat → Nat)
    (data_size : Nat) (hw4 : Hw) : CtxResult :=
  let l := assodata_loop L d (round_down data_size AES_BLOCK_SIZE / AES_BLOCK_SIZE) 0 ctx hw4
  if l.1 ≠ 0 then auth_out l.1 l.2.2.1 l.2.2.2
  else if last_block && decide (l.2.1 < data_size) then auth_out (-ENODEV) l.2.2.1 l.2.2.2
  else auth_out 0 l.2.2.1 l.2.2.2

/-- Associated-data update; `data` may be `NULL` (`none`).  The result `none`
stands for `panic()`. -/
def stm32_saes_update_assodata (L : Layout) (ctx : stm32_saes_context) (last_block : Bool)
    (data : Option (Nat → Nat)) (data_size : Nat) (hw : Hw) : Option CtxResult :=
  match restore_context L ctx hw with
  | none => none
  | some r =>
    if r.1 ≠ 0 then some (auth_out r.1 ctx r.2)
    else
      let c := wait_computation_completed L ctx.base r.2
      if c.1 ≠ 0 then some { ret := c.1, ctx := ctx, hw := c.2 }
      else
        let hw2 := clear_computation_completed L ctx.base c.2
        match data with
        | none => some (auth_out 0 ctx hw2)
        | some d =>
          if data_size = 0 then some (auth_out 0 ctx hw2)
          else
            let hw3 := mmio_clrsetbits_32 ctx.base Reg.CR _SAES_CR_GCMPH_MASK
              (_SAES_CR_GCMPH_HEADER <<< _SAES_CR_GCMPH_SHIFT) hw2
            let hw4 := mmio_setbits_32 ctx.base Reg.CR _SAES_CR_EN hw3
            some (assodata_blocks L ctx last_block d data_size hw4)

/-- The block loop of `stm32_saes_update_load`. -/
def load_loop (L : Layout) (data_in : Nat → Nat) :
    Nat → Nat → stm32_saes_context → (Nat → Nat) → Hw → DataResult
  | 0, i, ctx, out, hw => { ret := 0, i := i, ctx := ctx, out := out, hw := hw }
  | n + 1, i, ctx, out, hw =>
    let w := i / 4
    let hw1 := write_block ctx.base (load32 data_in) w hw
    let c := wait_computation_completed L ctx.base hw1
    if c.1 ≠ 0 then { ret := c.1, i := i, ctx := ctx, out := out, hw := c.2 }
    else
      let o := read_block ctx.base out w c.2
      let hw3 := clear_computation_completed L ctx.base o.2
      load_loop L data_in n (i + AES_BLOCK_SIZE)
        { ctx with load_len := (ctx.load_len + AES_BLOCK_SIZE_BIT) % 2 ^ 32 } o.1 hw3

/-- The scratch block `block_in` after `memcpy(block_in, data_in + i, n)` on a
zeroed block. -/
def block_in (data_in : Nat → Nat) (i n : Nat) : Nat → Nat :=
  fun j => if j < n then data_in (i + j) else 0

/-- The output buffer after `memcpy(data_out + i, block, n)`. -/
def memcpy_out (out : Nat → Nat) (i : Nat) (block : Nat → Nat) (n : Nat) : Nat → Nat :=
  fun j => if i ≤ j ∧ j < i + n then block (j - i) % 256 else out j

/-- The label `out:` of `stm32_saes_update_load`. -/
def load_out (ret : Int) (i : Nat) (ctx : stm32_saes_context) (out : Nat → Nat) (hw : Hw) :
    DataResult :=
  { ret := ret, i := i, ctx := ctx, out := out
    hw := if ret ≠ 0 then saes_end ctx ret hw else hw }

/-- The second half of `stm32_saes_update_load`: the block loop, the
non-aligned last block and the label `out:`, from the hardware state in which
the loop is entered. -/
def load_blocks (L : Layout) (ctx : stm32_saes_context) (last_block : Bool) (d : Nat → Nat)
    (data_out : Nat → Nat) (data_size : Nat) (hw2 : Hw) : DataResult :=
  let l := load_loop L d (round_down data_size AES_BLOCK_SIZE / AES_BLOCK_SIZE) 0 ctx
    data_out hw2
  if l.ret ≠ 0 then load_out l.ret l.i l.ctx l.out l.hw
  else if last_block && decide (l.i < data_size) then
    let bin := block_in d l.i (data_size - l.i)
    let hw3 := write_block ctx.base (load32 bin) 0 l.hw
    let c := wait_computation_completed L ctx.base hw3
    if c.1 ≠ 0 then load_out c.1 l.i l.ctx l.out c.2
    else
      let o := read_block ctx.base (fun _ => 0) 0 c.2
      let hw5 := clear_computation_completed L ctx.base o.2
      let out1 := memcpy_out l.out l.i o.1 (data_size - l.i)
      let len := (l.ctx.load_len + (data_size - l.i) * UINT8_BIT) % 2 ^ 32
      load_out 0 l.i { l.ctx with load_len := len } out1 hw5
  else load_out 0 l.i l.ctx l.out l.hw

/-- Authenticated payload update; `data_in` may be `NULL` (`none`). -/
def stm32_saes_update_load (L : Layout) (ctx : stm32_saes_context) (last_block : Bool)
    (data_in : Option (Nat → Nat)) (data_out : Nat → Nat) (data_size : Nat) (hw : Hw) :
    DataResult :=
  let p := mmio_read_32 ctx.base Reg.CR hw
  let prev_cr := p.1
  match data_in with
  | none => load_out 0 0 ctx data_out p.2
  | some d =>
    if data_size = 0 then load_out 0 0 ctx data_out p.2
    else
      let hw1 := mmio_clrsetbits_32 ctx.base Reg.CR _SAES_CR_GCMPH_MASK
        (_SAES_CR_GCMPH_PAYLOAD <<< _SAES_CR_GCMPH_SHIFT) p.2
      let hw2 :=
        if (prev_cr &&& _SAES_CR_GCMPH_MASK) = (_SAES_CR_GCMPH_INIT <<< _SAES_CR_GCMPH_SHIFT) then
          mmio_setbits_32 ctx.base Reg.CR _SAES_CR_EN hw1
        else hw1
      load_blocks L ctx last_block d data_out data_size hw2

/-- Result of `stm32_saes_final`. -/
structure TagResult where
  ret : Int
  tag : Nat → Nat
  hw : Hw

/-- The first half of `stm32_saes_final`: the phase field is set to FINAL, the
engine is enabled if the phase read on entry was INIT, and the length block is
written to the data-in register. -/
def final_length_block (ctx : stm32_saes_context) (hw : Hw) : Hw :=
  let p := mmio_read_32 ctx.base Reg.CR hw
  let prev_cr := p.1
  let hw1 := mmio_clrsetbits_32 ctx.base Reg.CR _SAES_CR_GCMPH_MASK
    (_SAES_CR_GCMPH_FINAL <<< _SAES_CR_GCMPH_SHIFT) p.2
  let hw2 :=
    if (prev_cr &&& _SAES_CR_GCMPH_MASK) = (_SAES_CR_GCMPH_INIT <<< _SAES_CR_GCMPH_SHIFT) then
      mmio_setbits_32 ctx.base Reg.CR _SAES_CR_EN hw1
    else hw1
  mmio_write_32 ctx.base Reg.DINR ctx.load_len
    (mmio_write_32 ctx.base Reg.DINR 0
      (mmio_write_32 ctx.base Reg.DINR ctx.assoc_len
        (mmio_write_32 ctx.base Reg.DINR 0 hw2)))

def stm32_saes_final (L : Layout) (ctx : stm32_saes_context) (tag : Nat → Nat) (tag_size : Nat)
    (hw : Hw) : TagResult :=
  let hw3 := final_length_block ctx hw
  let c := wait_computation_completed L ctx.base hw3
  if c.1 ≠ 0 then { ret := c.1, tag := tag, hw := saes_end ctx c.1 c.2 }
  else
    let o := read_block ctx.base (fun _ => 0) 0 c.2
    let hw5 := clear_computation_completed L ctx.base o.2
    { ret := 0, tag := memcpy_out tag 0 o.1 (MIN 16 tag_size), hw := saes_end ctx 0 hw5 }

/-- The block loop of `stm32_saes_update`. -/
def update_loop (L : Layout) (base : Nat) (data_in : Nat → Nat) :
    Nat → Nat → (Nat → Nat) → Hw → Int × Nat × (Nat → Nat) × Hw
  | 0, i, out, hw => (0, i, out, hw)
  | n + 1, i, out, hw =>
    let w := i / 4
    let hw1 := write_block base (load32 data_in) w hw
    let c := wait_computation_completed L base hw1
    if c.1 ≠ 0 then (c.1, i, out, c.2)
    else
      let o := read_block base out w c.2
      let hw3 := clear_computation_completed L base o.2
      update_loop L base data_in n (i + AES_BLOCK_SIZE) o.1 hw3

/-- The label `out:` of `stm32_saes_update`. -/
def update_out (last_block : Bool) (ret : Int) (i : Nat) (ctx : stm32_saes_context)
    (out : Nat → Nat) (hw : Hw) : DataResult :=
  { ret := ret, i := i, ctx := ctx, out := out
    hw := if last_block || decide (ret ≠ 0) then saes_end ctx ret hw else hw }

/-- Plain streaming update.  The result `none` stands for `panic()`. -/
def stm32_saes_update (L : Layout) (ctx : stm32_saes_context) (last_block : Bool)
    (data_in : Nat → Nat) (data_out : Nat → Nat) (data_size : Nat) (hw : Hw) :
    Option DataResult :=
  if !last_block && decide (round_down data_size AES_BLOCK_SIZE ≠ data_size) then
    some (update_out last_block (-EINVAL) 0 ctx data_out hw)
  else if last_block && IS_CHAINING_MODE L STM32_SAES_MODE_CBC ctx.cr && is_encrypt ctx.cr
      && decide (round_down data_size AES_BLOCK_SIZE ≠ data_size) then
    if data_size < AES_BLOCK_SIZE * 2 then
      some (update_out last_block (-EINVAL) 0 ctx data_out hw)
    else some (update_out last_block (-ENODEV) 0 ctx data_out hw)
  else
    match restore_context L ctx hw with
    | none => none
    | some r =>
      if r.1 ≠ 0 then some (update_out last_block r.1 0 ctx data_out r.2)
      else
        let l := update_loop L ctx.base data_in
          (round_down data_size AES_BLOCK_SIZE / AES_BLOCK_SIZE) 0 data_out r.2
        if l.1 ≠ 0 then some (update_out last_block l.1 l.2.1 ctx l.2.2.1 l.2.2.2)
        else if last_block && decide (l.2.1 < data_size) then
          some (update_out last_block (-ENODEV) l.2.1 ctx l.2.2.1 l.2.2.2)
        else if !last_block then
          let s := save_context L ctx l.2.2.2
          some (update_out last_block s.1 l.2.1 s.2.1 l.2.2.1 s.2.2)
        else some (update_out last_block 0 l.2.1 ctx l.2.2.1 l.2.2.2)

/-! ## Closed forms used by the statements -/

/-- The key-size field value `_SAES_CR_KEYSIZE_*` of a key size in bytes. -/
def keysize_value (L : Layout) (key_size : Nat) : Nat :=
  if key_size = AES_KEYSIZE_256 then _SAES_CR_KEYSIZE_256 L
  else if key_size = AES_KEYSIZE_192 then _SAES_CR_KEYSIZE_192
  else _SAES_CR_KEYSIZE_128

/-- The mode field value `_SAES_CR_MODE_*` of a direction. -/
def mode_value (is_dec : Bool) : Nat := if is_dec then _SAES_CR_MODE_DEC else _SAES_CR_MODE_ENC

/-- The OR of the five field encodings of a session. -/
def init_cr (L : Layout) (is_dec : Bool) (ch_mode : stm32_saes_chaining_mode)
    (key_select : stm32_saes_key_selection) (key_size : Nat) : Nat :=
  (_SAES_CR_DATATYPE_BYTE <<< _SAES_CR_DATATYPE_SHIFT)
    ||| (mode_value is_dec <<< _SAES_CR_MODE_SHIFT)
    ||| (chmod_value L ch_mode <<< _SAES_CR_CHMOD_SHIFT)
    ||| (keysize_value L key_size <<< _SAES_CR_KEYSIZE_SHIFT L)
    ||| (keysel_value key_select <<< _SAES_CR_KEYSEL_SHIFT)

/-- The context that a call of `stm32_saes_init` passing validation builds. -/
def init_ctx (L : Layout) (pdata_base : Nat) (ctx : stm32_saes_context) (is_dec : Bool)
    (ch_mode : stm32_saes_chaining_mode) (key_select : stm32_saes_key_selection)
    (key : Nat → Nat) (key_size : Nat) (iv : Option (Nat → Nat)) : stm32_saes_context :=
  { base := pdata_base
    cr := init_cr L is_dec ch_mode key_select key_size
    assoc_len := 0
    load_len := 0
    key :=
      if key_select = STM32_SAES_KEY_SOFT then
        save_words key (key_size / 4) (key_size / 4) ctx.key
      else ctx.key
    iv :=
      if ch_mode = STM32_SAES_MODE_ECB then ctx.iv
      else save_words (iv.getD (fun _ => 0)) 4 4 ctx.iv }

/-- Validation of `stm32_saes_init`: a key size the layout supports and, outside
ECB, an IV of 16 bytes. -/
def init_args_valid (L : Layout) (ch_mode : stm32_saes_chaining_mode) (key_size : Nat)
    (iv : Option (Nat → Nat)) (iv_size : Nat) : Prop :=
  (key_size = 16 ∨ key_size = 32 ∨ (key_size = 24 ∧ L = Layout.CRYP2))
    ∧ (ch_mode = STM32_SAES_MODE_ECB ∨ (iv ≠ none ∧ iv_size = 16))

/-- The 32-bit number that bytes `4 w .. 4 w + 3` of a buffer spell in
big-endian order. -/
def be32 (buf : Nat → Nat) (w : Nat) : Nat :=
  word_of (buf (4 * w + 3)) (buf (4 * w + 2)) (buf (4 * w + 1)) (buf (4 * w))

/-- Byte `j` of the memory image of a word array on the little-endian host. -/
def byte_image (a : Nat → Nat) (j : Nat) : Nat := byte_of (a (j / 4)) (j % 4)

/-- The key and IV transform of `stm32_saes_init` on byte buffers of `n` words:
the memory image of the shadow that the save loop builds. -/
def shadow_transform (n : Nat) (buf : Nat → Nat) : Nat → Nat :=
  byte_image (save_words buf n n (fun _ => 0))

/-! ## Concrete inputs -/

/-- A device that answers every read with all bits set: never busy, key valid,
computation complete. -/
def hw_ready : Hw :=
  { cr := 0, log := [], dev := fun _ _ _ => 0xFFFFFFFF, window := fun _ => 2 }

/-- A device that answers every read with zero: no flag ever shows. -/
def hw_silent : Hw :=
  { cr := 0, log := [], dev := fun _ _ _ => 0, window := fun _ => 2 }

/-- A context with all fields zero. -/
def ctx_zero : stm32_saes_context :=
  { base := 0x42050000, cr := 0, assoc_len := 0, load_len := 0,
    key := fun _ => 0, iv := fun _ => 0 }

/-- The byte buffer `0, 1, 2, ...`. -/
def buf_count : Nat → Nat := fun j => j % 256

/-- Two hardware states between which the driver only polled: the control
register, the device, the register writes, the data-out reads and the number of
`udelay` calls are the same. -/
def reads_only (hw hw1 : Hw) : Prop :=
  hw1.cr = hw.cr ∧ hw1.dev = hw.dev ∧ hw1.window = hw.window
    ∧ reg_writes hw1.log = reg_writes hw.log
    ∧ doutr_reads hw1.log = doutr_reads hw.log
    ∧ delays hw1.log = delays hw.log

/-- Two hardware states between which the driver wrote neither the control
register nor the data-in register, read no data and made no reset pulse. -/
def engine_kept (hw hw1 : Hw) : Prop :=
  hw1.cr = hw.cr ∧ hw1.dev = hw.dev ∧ hw1.window = hw.window
    ∧ cd_writes hw1.log = cd_writes hw.log
    ∧ doutr_reads hw1.log = doutr_reads hw.log
    ∧ delays hw1.log = delays hw.log

/-- Two hardware states between which the driver neither wrote the data-in
register nor read the data-out register. -/
def data_kept (hw hw1 : Hw) : Prop :=
  dinr_writes hw1.log = dinr_writes hw.log ∧ doutr_reads hw1.log = doutr_reads hw.log
    ∧ hw1.dev = hw.dev ∧ hw1.window = hw.window

/-- The values that `saes_end` writes to the control register when it finds
the value `c` there: with an error the reset pulse (set `IPRST`, clear `IPRST`)
and then the disable, without error the disable alone. -/
def saes_end_writes (prev_error : Int) (c : Nat) : List Nat :=
  if prev_error ≠ 0 then
    [setbits32 (c % 2 ^ 32) _SAES_CR_IPRST,
      clrbits32 (setbits32 (c % 2 ^ 32) _SAES_CR_IPRST) _SAES_CR_IPRST,
      clrbits32 (clrbits32 (setbits32 (c % 2 ^ 32) _SAES_CR_IPRST) _SAES_CR_IPRST) _SAES_CR_EN]
  else [clrbits32 (c % 2 ^ 32) _SAES_CR_EN]

/-- A GCM encryption context with a 128-bit software key (second layout). -/
def ctx_gcm : stm32_saes_context :=
  { base := 0x42050000, cr := 0x64, assoc_len := 0, load_len := 0,
    key := fun _ => 0, iv := fun _ => 0 }

/-- The state of the always-ready device after `restore_context` of `ctx_gcm`. -/
def hw_gcm_restored : Hw :=
  ((restore_context Layout.CRYP2 ctx_gcm hw_ready).getD (0, hw_ready)).2

/-- A GCM context after one block of associated data and 20 bytes of payload. -/
def ctx_gcm_lens : stm32_saes_context :=
  { base := 0x42050000, cr := 0x64, assoc_len := 128, load_len := 160,
    key := fun _ => 0, iv := fun _ => 0 }

/-- The register reads of a history with the values returned, oldest first. -/
def reg_reads : List Ev → List (Reg × Nat)
  | [] => []
  | Ev.rd _ r v :: l => reg_reads l ++ [(r, v)]
  | Ev.wr _ _ _ :: l => reg_reads l
  | Ev.delay _ :: l => reg_reads l

/-- The key-register writes of `saes_write_key`: words `0 .. k/4 - 1` of the key
shadow when the key-select field of the control shadow is `SOFT`, none
otherwise; `k` is the key size that `saes_get_keysize` decodes. -/
def key_writes (L : Layout) (ctx : stm32_saes_context) : List (Reg × Nat) :=
  if (ctx.cr &&& _SAES_CR_KEYSEL_MASK) = (_SAES_CR_KEYSEL_SOFT <<< _SAES_CR_KEYSEL_SHIFT) then
    (List.range (saes_get_keysize L ctx / 4)).map (fun i => (Reg.KEYR i, ctx.key i % 2 ^ 32))
  else []

/-- An always-ready device whose control register has the enable bit set. -/
def hw_enabled : Hw :=
  { cr := 1, log := [], dev := fun _ _ _ => 0xFFFFFFFF, window := fun _ => 2 }

/-- The two argument checks that `stm32_saes_update` makes before it calls
`restore_context`: a non-final call with a length that is not a multiple of the
block size, and a final CBC encryption call with such a length. -/
def update_rejects (L : Layout) (ctx : stm32_saes_context) (last_block : Bool)
    (data_size : Nat) : Bool :=
  (!last_block && decide (round_down data_size AES_BLOCK_SIZE ≠ data_size))
    || (last_block && IS_CHAINING_MODE L STM32_SAES_MODE_CBC ctx.cr && is_encrypt ctx.cr
      && decide (round_down data_size AES_BLOCK_SIZE ≠ data_size))

/-- A device whose key is valid at once and whose completion flag never shows:
the status register reads `KEYVALID`, every other register reads zero. -/
def hw_keyed : Hw :=
  { cr := 0, log := [], dev := fun _ _ r => if r = Reg.SR then 0x80 else 0,
    window := fun _ => 2 }

/-- A CTR encryption context with a 128-bit software key (second layout): the
control shadow that `stm32_saes_init` builds. -/
def ctx_ctr : stm32_saes_context :=
  { base := 0x42050000, cr := 0x44, assoc_len := 0, load_len := 0,
    key := fun i => 0x100 + i, iv := fun i => 0x200 + i }

/-- A call of one of the four streaming operations, with its arguments. -/
inductive stream_call where
  | assodata (last_block : Bool) (data : Option (Nat → Nat)) (data_size : Nat)
  | load (last_block : Bool) (data_in : Option (Nat → Nat)) (data_out : Nat → Nat)
      (data_size : Nat)
  | final (tag : Nat → Nat) (tag_size : Nat)
  | update (last_block : Bool) (data_in data_out : Nat → Nat) (data_size : Nat)

/-- The session context and the hardware state that a streaming call leaves;
`none` stands for `panic()`.  `stm32_saes_final` takes the context for reading
only. -/
def run_call (L : Layout) (c : stream_call) (ctx : stm32_saes_context) (hw : Hw) :
    Option (stm32_saes_context × Hw) :=
  match c with
  | .assodata last_block data data_size =>
    (stm32_saes_update_assodata L ctx last_block data data_size hw).map (fun r => (r.ctx, r.hw))
  | .load last_block data_in data_out data_size =>
    some ((stm32_saes_update_load L ctx last_block data_in data_out data_size hw).ctx,
      (stm32_saes_update_load L ctx last_block data_in data_out data_size hw).hw)
  | .final tag tag_size => some (ctx, (stm32_saes_final L ctx tag tag_size hw).hw)
  | .update last_block data_in data_out data_size =>
    (stm32_saes_update L ctx last_block data_in data_out data_size hw).map (fun r => (r.ctx, r.hw))

/-- A sequence of streaming calls on one session, first call first.  Between
two calls the engine may be used by other sessions: `env k` is what happens to
the hardware before the call that has `k` calls after it. -/
def run_calls (L : Layout) (env : Nat → Hw → Hw) :
    List stream_call → stm32_saes_context → Hw → Option (stm32_saes_context × Hw)
  | [], ctx, hw => some (ctx, hw)
  | c :: cs, ctx, hw =>
    match run_call L c ctx (env cs.length hw) with
    | none => none
    | some p => run_calls L env cs p.1 p.2

/-! ## The engine as a deterministic machine -/

/-- Modelled from the spec: the state of the engine as a deterministic machine:
the contents of the control, key and IV registers, the words of the block that
is being fed and the words of the finished block that are still to be read. -/
structure Engine where
  cr : Nat
  key : Nat → Nat
  iv : Nat → Nat
  din : List Nat
  dout : List Nat

/-- Modelled from the spec: the type of a block transform: from the control
register value, the key registers, the IV registers and the four words of a
block to the output words and the next contents of the IV registers. -/
abbrev BlockFn : Type :=
  Nat → (Nat → Nat) → (Nat → Nat) → List Nat → List Nat × (Nat → Nat)

/-- Modelled from the spec: the effect of one access on the engine.  A write to
the control register with the reset bit set drops the block being fed and the
block to be read; the fourth word written to the data-in register completes a
block, whose four output words and next IV register contents are given by the
block transform `blk cr key iv block` (a parameter: all block transforms occur
inside the hardware); a read of the data-out register consumes one output word;
no other access changes the state. -/
def Engine.step (blk : BlockFn) (s : Engine) : Ev → Engine
  | Ev.wr _ Reg.CR v =>
    if v &&& _SAES_CR_IPRST ≠ 0 then { s with cr := v, din := [], dout := [] }
    else { s with cr := v }
  | Ev.wr _ (Reg.KEYR i) v => { s with key := fun j => if j = i then v else s.key j }
  | Ev.wr _ (Reg.IVR i) v => { s with iv := fun j => if j = i then v else s.iv j }
  | Ev.wr _ Reg.DINR v =>
    if s.din.length = 3 then
      { s with
        din := []
        dout := (blk s.cr s.key s.iv (s.din ++ [v])).1.take 4
        iv := fun j => (blk s.cr s.key s.iv (s.din ++ [v])).2 j % 2 ^ 32 }
    else { s with din := s.din ++ [v] }
  | Ev.rd _ Reg.DOUTR _ => { s with dout := s.dout.tail }
  | _ => s

/-- Modelled from the spec: the state of the engine after an access history
(newest access first). -/
def engine_of (blk : BlockFn) : List Ev → Engine
  | [] => { cr := 0, key := fun _ => 0, iv := fun _ => 0, din := [], dout := [] }
  | e :: l => Engine.step blk (engine_of blk l) e

/-- Modelled from the spec: the device seen by the driver when the engine is this
machine: a read of the data-out register returns the next output word, a read
of an IV register its contents; the flags of the other registers are any
function of the history. -/
def engine_dev (blk : BlockFn) (flags : List Ev → Reg → Nat) :
    List Ev → Nat → Reg → Nat :=
  fun log _ r =>
    match r with
    | Reg.DOUTR => (engine_of blk log).dout.headD 0
    | Reg.IVR i => (engine_of blk log).iv i
    | r => flags log r

/-- The number of key registers that a control register value makes the engine
use: the words of the key size it encodes when its key-select field is `SOFT`,
none when the key comes from the hardware. -/
def key_words (L : Layout) (cr : Nat) : Nat :=
  if (cr &&& _SAES_CR_KEYSEL_MASK) = (_SAES_CR_KEYSEL_SOFT <<< _SAES_CR_KEYSEL_SHIFT) then
    saes_get_keysize L
      { base := 0, cr := cr, assoc_len := 0, load_len := 0, key := fun _ => 0, iv := fun _ => 0 } / 4
  else 0

/-- Modelled from the spec: the block transform reads only the registers that
the control register value selects: the key registers of the configured key
size (none for a hardware key) and, outside ECB, the four IV registers. -/
def blk_respects (L : Layout) (blk : BlockFn) : Prop :=
  ∀ (cr : Nat) (k k1 v v1 : Nat → Nat) (b : List Nat),
    (∀ i, i < key_words L cr → k i = k1 i) →
    (does_chaining_mode_need_iv L cr = true → ∀ i, i < 4 → v i = v1 i) →
    (blk cr k v b).1 = (blk cr k1 v1 b).1
      ∧ (does_chaining_mode_need_iv L cr = true →
        ∀ i, i < 4 → (blk cr k v b).2 i = (blk cr k1 v1 b).2 i)

/-- A toy block transform for the concrete runs: output word `i` is the input
word xor IV word `i` xor key word `i` (each only if the control value selects
it), and the next IV is the IV with word 3 incremented. -/
def toy_blk (L : Layout) : BlockFn :=
  fun cr key iv b =>
    ((List.range 4).map (fun i =>
        b.getD i 0 ^^^ (if does_chaining_mode_need_iv L cr then iv i else 0)
          ^^^ (if i < key_words L cr then key i else 0)),
      fun i => if i = 3 then iv 3 + 1 else iv i)

/-- The register written by the newest write of a history. -/
def newest_write : List Ev → Option Reg
  | [] => none
  | Ev.wr _ r _ :: _ => some r
  | Ev.rd _ _ _ :: l => newest_write l
  | Ev.delay _ :: l => newest_write l

/-- Flags for the concrete runs: the key is valid at once; the completion flag
(both layouts' bit) shows while the newest write of the history is the last
word of a block, and is clear after the write that clears it. -/
def toy_flags : List Ev → Reg → Nat
  | _, Reg.SR => 0x80
  | log, Reg.ISR => if newest_write log = some Reg.DINR then 0x5 else 0
  | _, _ => 0

/-- A disabled engine with the toy block transform (second layout). -/
def hw_engine : Hw :=
  { cr := 0, log := [], dev := engine_dev (toy_blk Layout.CRYP2) toy_flags,
    window := fun _ => 2 }

/-- The writes of a history that went to a key register, oldest first. -/
def key_reg_writes (log : List Ev) : List (Reg × Nat) :=
  (reg_writes log).filter (fun p => match p.1 with | Reg.KEYR _ => true | _ => false)

/-- A context as a caller's memory may hold it before `stm32_saes_init`: the key
shadow holds left-over words. -/
def ctx_stale : stm32_saes_context :=
  { base := 0, cr := 0, assoc_len := 0, load_len := 0,
    key := fun i => 0xDEAD0000 + i, iv := fun _ => 0 }

/-- The result of creating a CTR encryption session with a 128-bit key of the
given source in the context `ctx_stale`, on the toy engine. -/
def init_stale (key_select : stm32_saes_key_selection) : Int × stm32_saes_context × Hw :=
  stm32_saes_init Layout.CRYP2 0x42050000 ctx_stale false STM32_SAES_MODE_CTR key_select
    buf_count 16 (some buf_count) 16 hw_engine

/-- A CBC encryption context with a 128-bit software key (second layout). -/
def ctx_cbc_enc : stm32_saes_context :=
  { base := 0x42050000, cr := 0x24, assoc_len := 0, load_len := 0,
    key := fun i => 0x100 + i, iv := fun i => 0x200 + i }

/-! ## RIFSC peripheral access check (`stm32_rifsc.c`) -/

/-- `EACCES` of `errno.h`. -/
def EACCES : Int := 13

/-- The macro `BIT_32(nr)` of `utils_def.h`: `U(1) << nr` on 32 bits. -/
def BIT_32 (nr : Nat) : Nat := (1 <<< nr) % 2 ^ 32

/-- The RIFSC registers that the check reads for a peripheral id, named after
the macros `_RIFSC_RISC_SECCFGR(id)`, `_RIFSC_RISC_PRIVCFGR(id)`,
`_RIFSC_RISC_PERy_CIDCFGR(id)` and `_RIFSC_RISC_PERy_SEMCR(id)`. -/
inductive RifscReg where
  | SECCFGR (id : Nat)
  | PRIVCFGR (id : Nat)
  | PERy_CIDCFGR (id : Nat)
  | PERy_SEMCR (id : Nat)
deriving DecidableEq, Repr

/-- The field constants that the check takes from `stm32mp_rifsc_regs.h` and
`dt-bindings/soc/rif.h`; these headers are not among the sources, so the check
is parametrised by them. -/
structure RifscDefs where
  _RIFSC_CIDCFGR_CFEN : Nat
  _RIFSC_CIDCFGR_SEM_EN : Nat
  _RIFSC_CIDCFGR_SEML_SHIFT : Nat
  _RIFSC_CIDCFGR_SCID_MASK : Nat
  _RIFSC_CIDCFGR_SCID_SHIFT : Nat
  _RIFSC_SEMCR_SEM_MUTEX : Nat
  RIF_CID1 : Nat

/-- The check of one peripheral; `mem` is the contents of the RIFSC
registers. -/
def stm32_rifsc_access_check (D : RifscDefs) (mem : RifscReg → Nat) (id : Nat) : Int :=
  let periph_offset := id % 32
  let sec_reg_value := mem (RifscReg.SECCFGR id) % 2 ^ 32
  let priv_reg_value := mem (RifscReg.PRIVCFGR id) % 2 ^ 32
  let cid_reg_value := mem (RifscReg.PERy_CIDCFGR id) % 2 ^ 32
  let sem_reg_value := mem (RifscReg.PERy_SEMCR id) % 2 ^ 32
  if (cid_reg_value &&& D._RIFSC_CIDCFGR_CFEN) = 0 then 0
  else if (sec_reg_value &&& BIT_32 periph_offset) = 0
      ∧ (priv_reg_value &&& BIT_32 periph_offset) = 0 then -EACCES
  else if (cid_reg_value &&& D._RIFSC_CIDCFGR_SEM_EN) ≠ 0 then
    if (cid_reg_value &&& BIT (D.RIF_CID1 + D._RIFSC_CIDCFGR_SEML_SHIFT)) ≠ 0
        ∧ (sem_reg_value &&& D._RIFSC_SEMCR_SEM_MUTEX) = 0 then -EACCES
    else 0
  else if ((cid_reg_value &&& D._RIFSC_CIDCFGR_SCID_MASK) >>> D._RIFSC_CIDCFGR_SCID_SHIFT)
      ≠ D.RIF_CID1 then -EACCES
  else 0

/-- The loop of `stm32_rifsc_check_peripheral_access` over the entries of the
table that are left, with the current value of `ret`. -/
def check_peripheral_loop (D : RifscDefs) (mem : RifscReg → Nat) : List Nat → Int → Int
  | [], ret => ret
  | id :: ids, ret =>
    if stm32_rifsc_access_check D mem id ≠ 0 then check_peripheral_loop D mem ids (-EACCES)
    else check_peripheral_loop D mem ids ret

/-- The check of the table `rifsc_periph`, whose entries are platform macros and
so a parameter here. -/
def stm32_rifsc_check_peripheral_access (D : RifscDefs) (mem : RifscReg → Nat)
    (rifsc_periph : List Nat) : Int :=
  check_peripheral_loop D mem rifsc_periph 0

/-- An instance of the field constants: `CFEN` is bit 0 and `SEM_EN` bit 1 of
the CID configuration register, the static CID is in bits 6..4, the semaphore
white list starts at bit 16, the mutex is bit 0 of the semaphore register and
`RIF_CID1` is 1. -/
def rifsc_defs : RifscDefs :=
  { _RIFSC_CIDCFGR_CFEN := BIT 0
    _RIFSC_CIDCFGR_SEM_EN := BIT 1
    _RIFSC_CIDCFGR_SEML_SHIFT := 16
    _RIFSC_CIDCFGR_SCID_MASK := GENMASK_32 6 4
    _RIFSC_CIDCFGR_SCID_SHIFT := 4
    _RIFSC_SEMCR_SEM_MUTEX := BIT 0
    RIF_CID1 := 1 }

/-- RIFSC contents in which peripheral 94 is filtered (`CFEN`), statically
assigned to CID 1, secure, and not privileged; every other register reads
zero. -/
def rifsc_secure_unprivileged : RifscReg → Nat
  | RifscReg.SECCFGR 94 => BIT_32 30
  | RifscReg.PERy_CIDCFGR 94 => 0x11
  | _ => 0

/-- The engine is at a block boundary with the given key and IV register
contents, and its control register is the one the driver sees. -/
def engine_sync (blk : BlockFn) (hw : Hw) (key iv : Nat → Nat) : Prop :=
  engine_of blk hw.log = { cr := hw.cr, key := key, iv := iv, din := [], dout := [] }

/-- A CBC encryption context of another session, with a 256-bit software key
(second layout): its key and IV differ from those of the other contexts. -/
def ctx_other : stm32_saes_context :=
  { base := 0x42050000, cr := 0x40024, assoc_len := 0, load_len := 0,
    key := fun i => 0xA000 + i, iv := fun i => 0xB000 + i }

/-- The toy engine as a second call of a CTR session finds it when another
session used it in between: after the non-final update of the CTR session over
the first block of `buf_count`, and then a final update of the session
`ctx_other` over one block. -/
def hw_engine_shared : Hw :=
  match stm32_saes_update Layout.CRYP2 ctx_ctr false buf_count (fun _ => 0) 16 hw_engine with
  | none => hw_engine
  | some r1 =>
    match stm32_saes_update Layout.CRYP2 ctx_other true (fun j => 255 - j % 256) (fun _ => 0) 16
        r1.hw with
    | none => r1.hw
    | some r => r.hw

/-! ## Engines outside the model of the suspend/resume equivalence -/

/-- The value of the newest write to a register in a history, 0 if there is
none. -/
def written_value (r : Reg) : List Ev → Nat
  | [] => 0
  | Ev.wr _ r1 v :: l => if r1 = r then v else written_value r l
  | Ev.rd _ _ _ :: l => written_value r l
  | Ev.delay _ :: l => written_value r l

/-- Modelled from the spec: a device like `engine_dev` that keeps its chaining
state inside: a read of an IV register returns the value last written to it,
not the contents that the block transform left. -/
def hidden_dev (blk : BlockFn) (flags : List Ev → Reg → Nat) :
    List Ev → Nat → Reg → Nat :=
  fun log _ r =>
    match r with
    | Reg.DOUTR => (engine_of blk log).dout.headD 0
    | Reg.IVR i => written_value (Reg.IVR i) log
    | r => flags log r

/-- A block transform that reads key register 7 whatever the key size is:
output word `i` is the input word xor key word 7; the IV is kept. -/
def leaky_key_blk : BlockFn :=
  fun _ key iv b => ((List.range 4).map (fun i => b.getD i 0 ^^^ key 7), iv)

/-- A block transform that reads IV register 0 whatever the chaining mode is:
output word `i` is the input word xor IV word 0; the IV is kept. -/
def leaky_iv_blk : BlockFn :=
  fun _ _ iv b => ((List.range 4).map (fun i => b.getD i 0 ^^^ iv 0), iv)

/-- The number of data-in writes of a history since the newest write of the
control register with the reset bit set. -/
def dinr_since_reset : List Ev → Nat
  | [] => 0
  | Ev.wr _ Reg.DINR _ :: l => dinr_since_reset l + 1
  | Ev.wr _ Reg.CR v :: l => if v &&& _SAES_CR_IPRST ≠ 0 then 0 else dinr_since_reset l
  | Ev.wr _ _ _ :: l => dinr_since_reset l
  | Ev.rd _ _ _ :: l => dinr_since_reset l
  | Ev.delay _ :: l => dinr_since_reset l

/-- Flags of a device that completes only the first block after a reset: the
key is valid at once; the completion flag shows while the newest write of the
history is the last word of the first block since the reset. -/
def stall_flags : List Ev → Reg → Nat
  | _, Reg.SR => 0x80
  | log, Reg.ISR =>
    if newest_write log = some Reg.DINR ∧ dinr_since_reset log ≤ 4 then 0x5 else 0
  | _, _ => 0

/-- A disabled device with an empty history. -/
def hw_of (dev : List Ev → Nat → Reg → Nat) : Hw :=
  { cr := 0, log := [], dev := dev, window := fun _ => 2 }

/-- An ECB encryption context with a 128-bit software key (second layout). -/
def ctx_ecb_enc : stm32_saes_context :=
  { base := 0x42050000, cr := 0x4, assoc_len := 0, load_len := 0,
    key := fun i => 0x100 + i, iv := fun _ => 0 }

/-- The use of the engine by another session: a final update of the session
`ctx_other` over one block; the state is left as found if that call panics. -/
def other_session (hw : Hw) : Hw :=
  match stm32_saes_update Layout.CRYP2 ctx_other true (fun j => 255 - j % 256) (fun _ => 0) 16
      hw with
  | none => hw
  | some r => r.hw

/-- One final update over the 32 bytes `0 .. 31`: the result and output bytes
`16 .. 31`. -/
def single_run (ctx : stm32_saes_context) (hw : Hw) : Option (Int × List Nat) :=
  (stm32_saes_update Layout.CRYP2 ctx true buf_count (fun _ => 0) 32 hw).map
    (fun r => (r.ret, (List.range 16).map (fun j => r.out (16 + j))))

/-- A non-final update over the bytes `0 .. 15`, then what `between` does to
the engine, then a final update with the saved context over the bytes
`16 .. 31`: the two results and the 16 output bytes of the second call. -/
def split_run (ctx : stm32_saes_context) (hw : Hw) (between : Hw → Hw) :
    Option (Int × Int × List Nat) :=
  match stm32_saes_update Layout.CRYP2 ctx false buf_count (fun _ => 0) 16 hw with
  | none => none
  | some r1 =>
    (stm32_saes_update Layout.CRYP2 r1.ctx true (fun j => buf_count (16 + j)) (fun _ => 0) 16
      (between r1.hw)).map (fun r2 => (r1.ret, r2.ret, (List.range 16).map r2.out))

/-! # Theorems -/

/-! ## Session creation -/

theorem init_keysize_some (L : Layout) (key_size cr c : Nat)
    (h : init_keysize L key_size cr = some c) :
    key_size = 16 ∨ key_size = 32 ∨ (key_size = 24 ∧ L = Layout.CRYP2) := by
  unfold init_keysize at h
  cases L <;> simp only [AES_KEYSIZE_128, AES_KEYSIZE_192, AES_KEYSIZE_256] at h
  · split at h
    · left; assumption
    · split at h
      · right; left; assumption
      · cases h
  · split at h
    · left; assumption
    · split at h
      · right; right; exact ⟨by assumption, rfl⟩
      · split at h
        · right; left; assumption
        · cases h

/-- C1: `stm32_saes_init` returns `-EINVAL` without any register access, for
every direction, key source and key, when the chaining mode is not ECB and the
IV pointer is `NULL` or `iv_size` is not 16, when `key_size` is none of 16, 24
and 32 (in ECB as in every other mode), and when it is 24 on the layout
without 192-bit keys: the hardware state, its access log included, is the one
on entry, so `saes_start` was not reached. -/
theorem C1_init_rejects_bad_arguments (L : Layout) (pdata_base : Nat)
    (ctx : stm32_saes_context) (is_dec : Bool) (ch_mode : stm32_saes_chaining_mode)
    (key_select : stm32_saes_key_selection) (key : Nat → Nat) (key_size : Nat)
    (iv : Option (Nat → Nat)) (iv_size : Nat) (hw : Hw)
    (h : (ch_mode ≠ STM32_SAES_MODE_ECB ∧ (iv = none ∨ iv_size ≠ 16))
      ∨ (key_size ≠ 16 ∧ key_size ≠ 24 ∧ key_size ≠ 32)
      ∨ (key_size = 24 ∧ L = Layout.SAES)) :
    (stm32_saes_init L pdata_base ctx is_dec ch_mode key_select key key_size iv iv_size hw).1
        = -EINVAL
      ∧ (stm32_saes_init L pdata_base ctx is_dec ch_mode key_select key key_size iv iv_size hw).2.2
        = hw := by
  unfold stm32_saes_init
  simp only []
  split
  · exact ⟨rfl, rfl⟩
  · rename_i cr4 hks
    have hv := init_keysize_some _ _ _ _ hks
    have hbad : ¬ ((key_size ≠ 16 ∧ key_size ≠ 24 ∧ key_size ≠ 32)
        ∨ (key_size = 24 ∧ L = Layout.SAES)) := by
      rintro (h | ⟨h1, h2⟩)
      · omega
      · subst h2
        rcases hv with hv | hv | hv
        · omega
        · omega
        · cases hv.2
    split
    · exact ⟨rfl, rfl⟩
    · split
      · split
        · exact ⟨rfl, rfl⟩
        · split
          · exact ⟨rfl, rfl⟩
          · rename_i hiv
            simp only [AES_IVSIZE, ne_eq, not_not] at hiv
            rcases h with h | h | h
            · rcases h.2 with h2 | h2
              · cases h2
              · exact absurd hiv h2
            · exact absurd (Or.inl h) hbad
            · exact absurd (Or.inr h) hbad
      · rename_i hm
        simp only [ne_eq, not_not] at hm
        rcases h with h | h | h
        · exact absurd hm h.1
        · exact absurd (Or.inl h) hbad
        · exact absurd (Or.inr h) hbad

theorem C1_init_rejects_bad_arguments_witness :
    (stm32_saes_init Layout.CRYP2 0x42050000 ctx_zero false STM32_SAES_MODE_CBC
        STM32_SAES_KEY_SOFT buf_count 16 none 16 hw_ready).1 = -EINVAL
      ∧ (stm32_saes_init Layout.CRYP2 0x42050000 ctx_zero false STM32_SAES_MODE_CBC
        STM32_SAES_KEY_SOFT buf_count 16 none 16 hw_ready).2.2 = hw_ready :=
  C1_init_rejects_bad_arguments Layout.CRYP2 0x42050000 ctx_zero false STM32_SAES_MODE_CBC
    STM32_SAES_KEY_SOFT buf_count 16 none 16 hw_ready (Or.inl ⟨by decide, Or.inl rfl⟩)

theorem init_keysize_valid (L : Layout) (is_dec : Bool) (ch_mode : stm32_saes_chaining_mode)
    (key_size : Nat)
    (hk : key_size = 16 ∨ key_size = 32 ∨ (key_size = 24 ∧ L = Layout.CRYP2)) :
    ∃ cr4, init_keysize L key_size
      (clrsetbits32 (SET_CHAINING_MODE L ch_mode
        (if is_dec = true then
          clrsetbits32 _SAES_CR_RESET_VALUE _SAES_CR_MODE_MASK
            (_SAES_CR_MODE_DEC <<< _SAES_CR_MODE_SHIFT)
        else
          clrsetbits32 _SAES_CR_RESET_VALUE _SAES_CR_MODE_MASK
            (_SAES_CR_MODE_ENC <<< _SAES_CR_MODE_SHIFT)))
        _SAES_CR_DATATYPE_MASK (_SAES_CR_DATATYPE_BYTE <<< _SAES_CR_DATATYPE_SHIFT)) = some cr4
      ∧ ∀ ks, clrsetbits32 cr4 _SAES_CR_KEYSEL_MASK (keysel_value ks <<< _SAES_CR_KEYSEL_SHIFT)
          = init_cr L is_dec ch_mode ks key_size := by
  rcases hk with hk | hk | ⟨hk, hL⟩
  · subst hk
    cases L <;> cases is_dec <;> cases ch_mode <;>
      exact ⟨_, rfl, fun ks => by cases ks <;> decide⟩
  · subst hk
    cases L <;> cases is_dec <;> cases ch_mode <;>
      exact ⟨_, rfl, fun ks => by cases ks <;> decide⟩
  · subst hk hL
    cases is_dec <;> cases ch_mode <;>
      exact ⟨_, rfl, fun ks => by cases ks <;> decide⟩

theorem init_save_key_valid (L : Layout) (key : Nat → Nat) (key_size : Nat) (dst : Nat → Nat)
    (hk : key_size = 16 ∨ key_size = 32 ∨ (key_size = 24 ∧ L = Layout.CRYP2)) :
    init_save_key L key key_size dst
      = some (save_words key (key_size / 4) (key_size / 4) dst) := by
  rcases hk with hk | hk | ⟨hk, hL⟩
  · subst hk; rfl
  · subst hk; cases L <;> rfl
  · subst hk hL; rfl

/-- A call that passes validation reaches `saes_start` with the context
`init_ctx`. -/
theorem init_valid (L : Layout) (pdata_base : Nat) (ctx : stm32_saes_context) (is_dec : Bool)
    (ch_mode : stm32_saes_chaining_mode) (key_select : stm32_saes_key_selection)
    (key : Nat → Nat) (key_size : Nat) (iv : Option (Nat → Nat)) (iv_size : Nat) (hw : Hw)
    (hv : init_args_valid L ch_mode key_size iv iv_size) :
    stm32_saes_init L pdata_base ctx is_dec ch_mode key_select key key_size iv iv_size hw
      = ((saes_start L (init_ctx L pdata_base ctx is_dec ch_mode key_select key key_size iv) hw).1,
         init_ctx L pdata_base ctx is_dec ch_mode key_select key key_size iv,
         (saes_start L (init_ctx L pdata_base ctx is_dec ch_mode key_select key key_size iv)
          hw).2) := by
  obtain ⟨hk, hiv⟩ := hv
  obtain ⟨cr4, h4, h5⟩ := init_keysize_valid L is_dec ch_mode key_size hk
  unfold stm32_saes_init
  simp only [h4]
  have hs : (if key_select = STM32_SAES_KEY_SOFT then init_save_key L key key_size ctx.key
      else some ctx.key)
      = some (if key_select = STM32_SAES_KEY_SOFT then
          save_words key (key_size / 4) (key_size / 4) ctx.key else ctx.key) := by
    cases key_select <;> simp [init_save_key_valid L key key_size ctx.key hk]
  simp only [hs, h5]
  rcases hiv with h | ⟨h1, h2⟩
  · subst h
    simp [init_ctx, hs]
  · cases iv with
    | none => exact absurd rfl h1
    | some b =>
      subst h2
      by_cases hm : ch_mode = STM32_SAES_MODE_ECB
      · subst hm; simp [init_ctx, hs]
      · simp [init_ctx, hm, AES_IVSIZE, hs]

theorem init_cr_fields (L : Layout) (is_dec : Bool) (ch_mode : stm32_saes_chaining_mode)
    (key_select : stm32_saes_key_selection) (key_size : Nat)
    (hk : key_size = 16 ∨ key_size = 32 ∨ (key_size = 24 ∧ L = Layout.CRYP2)) :
    init_cr L is_dec ch_mode key_select key_size &&& _SAES_CR_EN = 0
      ∧ init_cr L is_dec ch_mode key_select key_size &&& _SAES_CR_IPRST = 0
      ∧ init_cr L is_dec ch_mode key_select key_size &&& _SAES_CR_GCMPH_MASK
          = _SAES_CR_GCMPH_INIT <<< _SAES_CR_GCMPH_SHIFT
      ∧ ∀ m, IS_CHAINING_MODE L m (init_cr L is_dec ch_mode key_select key_size) = true
          ↔ m = ch_mode := by
  rcases hk with hk | hk | ⟨hk, hL⟩
  · subst hk
    cases L <;> cases is_dec <;> cases ch_mode <;> cases key_select <;>
      exact ⟨by decide, by decide, by decide, fun m => by cases m <;> decide⟩
  · subst hk
    cases L <;> cases is_dec <;> cases ch_mode <;> cases key_select <;>
      exact ⟨by decide, by decide, by decide, fun m => by cases m <;> decide⟩
  · subst hk hL
    cases is_dec <;> cases ch_mode <;> cases key_select <;>
      exact ⟨by decide, by decide, by decide, fun m => by cases m <;> decide⟩

/-- C2: for every call of `stm32_saes_init` that passes validation, the control
shadow is exactly the OR of the five field encodings (datatype BYTE, direction,
chaining mode, key size, key source); the enable bit, the reset bit and the
phase field are zero, both bit-length counters are zero, the chaining-mode
field encodings of the five modes are pairwise distinct under both layouts, and
`IS_CHAINING_MODE(m, ctx->cr)` holds exactly for the requested mode. -/
theorem C2_init_control_shadow (L : Layout) (pdata_base : Nat) (ctx : stm32_saes_context)
    (is_dec : Bool) (ch_mode : stm32_saes_chaining_mode)
    (key_select : stm32_saes_key_selection) (key : Nat → Nat) (key_size : Nat)
    (iv : Option (Nat → Nat)) (iv_size : Nat) (hw : Hw)
    (hv : init_args_valid L ch_mode key_size iv iv_size) :
    (stm32_saes_init L pdata_base ctx is_dec ch_mode key_select key key_size iv iv_size hw).2.1.cr
        = (_SAES_CR_DATATYPE_BYTE <<< _SAES_CR_DATATYPE_SHIFT)
          ||| ((if is_dec then _SAES_CR_MODE_DEC else _SAES_CR_MODE_ENC) <<< _SAES_CR_MODE_SHIFT)
          ||| (chmod_value L ch_mode <<< _SAES_CR_CHMOD_SHIFT)
          ||| (keysize_value L key_size <<< _SAES_CR_KEYSIZE_SHIFT L)
          ||| (keysel_value key_select <<< _SAES_CR_KEYSEL_SHIFT)
      ∧ (stm32_saes_init L pdata_base ctx is_dec ch_mode key_select key key_size iv iv_size
          hw).2.1.cr &&& _SAES_CR_EN = 0
      ∧ (stm32_saes_init L pdata_base ctx is_dec ch_mode key_select key key_size iv iv_size
          hw).2.1.cr &&& _SAES_CR_IPRST = 0
      ∧ (stm32_saes_init L pdata_base ctx is_dec ch_mode key_select key key_size iv iv_size
          hw).2.1.cr &&& _SAES_CR_GCMPH_MASK = _SAES_CR_GCMPH_INIT <<< _SAES_CR_GCMPH_SHIFT
      ∧ (stm32_saes_init L pdata_base ctx is_dec ch_mode key_select key key_size iv iv_size
          hw).2.1.assoc_len = 0
      ∧ (stm32_saes_init L pdata_base ctx is_dec ch_mode key_select key key_size iv iv_size
          hw).2.1.load_len = 0
      ∧ (∀ m, IS_CHAINING_MODE L m (stm32_saes_init L pdata_base ctx is_dec ch_mode key_select
          key key_size iv iv_size hw).2.1.cr = true ↔ m = ch_mode)
      ∧ (∀ L1 m1 m2, chmod_value L1 m1 <<< _SAES_CR_CHMOD_SHIFT
          = chmod_value L1 m2 <<< _SAES_CR_CHMOD_SHIFT → m1 = m2) := by
  rw [init_valid L pdata_base ctx is_dec ch_mode key_select key key_size iv iv_size hw hv]
  obtain ⟨h1, h2, h3, h4⟩ := init_cr_fields L is_dec ch_mode key_select key_size hv.1
  refine ⟨rfl, h1, h2, h3, rfl, rfl, h4, ?_⟩
  intro L1 m1 m2
  cases L1 <;> cases m1 <;> cases m2 <;> decide

theorem C2_init_control_shadow_witness :
    init_args_valid Layout.CRYP2 STM32_SAES_MODE_GCM 24 (some buf_count) 16
      ∧ (stm32_saes_init Layout.CRYP2 0x42050000 ctx_zero true STM32_SAES_MODE_GCM
          STM32_SAES_KEY_SOFT buf_count 24 (some buf_count) 16 hw_ready).2.1.cr = 0x20074 :=
  ⟨⟨Or.inr (Or.inr ⟨rfl, rfl⟩), Or.inr ⟨by simp, rfl⟩⟩,
    (C2_init_control_shadow Layout.CRYP2 0x42050000 ctx_zero true STM32_SAES_MODE_GCM
      STM32_SAES_KEY_SOFT buf_count 24 (some buf_count) 16 hw_ready
      ⟨Or.inr (Or.inr ⟨rfl, rfl⟩), Or.inr ⟨by simp, rfl⟩⟩).1.trans (by decide)⟩

/-! ## Byte order of the key and IV shadows -/

theorem word_of_lt (b0 b1 b2 b3 : Nat) : word_of b0 b1 b2 b3 < 2 ^ 32 := by
  unfold word_of
  omega

theorem byte_of_word_of (b0 b1 b2 b3 : Nat) :
    byte_of (word_of b0 b1 b2 b3) 0 = b0 % 256
      ∧ byte_of (word_of b0 b1 b2 b3) 1 = b1 % 256
      ∧ byte_of (word_of b0 b1 b2 b3) 2 = b2 % 256
      ∧ byte_of (word_of b0 b1 b2 b3) 3 = b3 % 256 := by
  unfold byte_of word_of
  norm_num
  omega

theorem htobe32_load32 (buf : Nat → Nat) (w : Nat) : htobe32 (load32 buf w) = be32 buf w := by
  obtain ⟨h0, h1, h2, h3⟩ :=
    byte_of_word_of (buf (4 * w)) (buf (4 * w + 1)) (buf (4 * w + 2)) (buf (4 * w + 3))
  unfold htobe32 load32 be32
  rw [h0, h1, h2, h3]
  unfold word_of
  simp only [Nat.mod_mod]

theorem htobe32_lt (v : Nat) : htobe32 v < 2 ^ 32 := word_of_lt _ _ _ _

theorem save_words_apply (src : Nat → Nat) (n : Nat) (dst : Nat → Nat) (m i : Nat) :
    save_words src n m dst i = if i < m then htobe32 (load32 src (n - 1 - i)) else dst i := by
  induction m with
  | zero => simp [save_words]
  | succ m ih =>
    simp only [save_words, set_word]
    by_cases h : i = m
    · subst h
      have hlt := htobe32_lt (load32 src (n - 1 - i))
      norm_num at hlt
      simp [Nat.mod_eq_of_lt hlt]
    · rw [if_neg h, ih]
      by_cases h2 : i < m
      · simp [h2, Nat.lt_succ_of_lt h2]
      · have : ¬ i < m + 1 := by omega
        simp [h2, this]

theorem byte_image_save_words (src : Nat → Nat) (n : Nat) (dst : Nat → Nat) (j : Nat)
    (hj : j < 4 * n) :
    byte_image (save_words src n n dst) j = src (4 * n - 1 - j) % 256 := by
  have hq : j / 4 < n := by omega
  unfold byte_image
  rw [save_words_apply, if_pos hq, htobe32_load32]
  obtain ⟨h0, h1, h2, h3⟩ := byte_of_word_of (src (4 * (n - 1 - j / 4) + 3))
    (src (4 * (n - 1 - j / 4) + 2)) (src (4 * (n - 1 - j / 4) + 1)) (src (4 * (n - 1 - j / 4)))
  unfold be32
  have hr : j % 4 = 0 ∨ j % 4 = 1 ∨ j % 4 = 2 ∨ j % 4 = 3 := by omega
  rcases hr with hr | hr | hr | hr <;> rw [hr]
  · rw [h0]; congr 2; omega
  · rw [h1]; congr 2; omega
  · rw [h2]; congr 2; omega
  · rw [h3]; congr 2; omega

theorem shadow_transform_apply (n : Nat) (buf : Nat → Nat) (j : Nat) (hj : j < 4 * n) :
    shadow_transform n buf j = buf (4 * n - 1 - j) % 256 :=
  byte_image_save_words buf n _ j hj

theorem init_key_shadow (L : Layout) (pdata_base : Nat) (ctx : stm32_saes_context)
    (is_dec : Bool) (ch_mode : stm32_saes_chaining_mode)
    (key_select : stm32_saes_key_selection) (key : Nat → Nat) (key_size : Nat)
    (iv : Option (Nat → Nat)) (iv_size : Nat) (hw : Hw)
    (hk : key_size = 16 ∨ key_size = 32 ∨ (key_size = 24 ∧ L = Layout.CRYP2)) :
    (stm32_saes_init L pdata_base ctx is_dec ch_mode key_select key key_size iv iv_size hw).2.1.key
      = if key_select = STM32_SAES_KEY_SOFT then
          save_words key (key_size / 4) (key_size / 4) ctx.key
        else ctx.key := by
  obtain ⟨cr4, h4, _⟩ := init_keysize_valid L is_dec ch_mode key_size hk
  have hs : (if key_select = STM32_SAES_KEY_SOFT then init_save_key L key key_size ctx.key
      else some ctx.key)
      = some (if key_select = STM32_SAES_KEY_SOFT then
          save_words key (key_size / 4) (key_size / 4) ctx.key else ctx.key) := by
    cases key_select <;> simp [init_save_key_valid L key key_size ctx.key hk]
  unfold stm32_saes_init
  simp only [h4, hs]
  split
  · split
    · rfl
    · split <;> rfl
  · rfl

/-- C3: for a software key of `n = key_size / 4` words (4 or 8, and 6 on the
layout with 192-bit keys), `stm32_saes_init` stores
`key_shadow[i] = htobe32(key_word[n - 1 - i])` for `i < n` and leaves the words
at index `n` and above as they were; outside ECB, with an IV of 16 bytes, it
stores `iv_shadow[i] = htobe32(iv_word[3 - i])` for `i < 4`.  Each shadow word
is the big-endian value of the caller bytes of the mirrored word, the memory
image of the shadow on the little-endian host is the caller byte sequence in
reversed order, and the transform applied twice gives the original bytes
back. -/
theorem C3_init_key_iv_byte_order (L : Layout) (pdata_base : Nat) (ctx : stm32_saes_context)
    (is_dec : Bool) (ch_mode : stm32_saes_chaining_mode)
    (key_select : stm32_saes_key_selection) (key : Nat → Nat) (key_size : Nat)
    (iv : Option (Nat → Nat)) (iv_size : Nat) (hw : Hw)
    (hk : key_size = 16 ∨ key_size = 32 ∨ (key_size = 24 ∧ L = Layout.CRYP2)) :
    (key_select = STM32_SAES_KEY_SOFT →
        (∀ i, i < key_size / 4 →
          (stm32_saes_init L pdata_base ctx is_dec ch_mode key_select key key_size iv iv_size
              hw).2.1.key i = htobe32 (load32 key (key_size / 4 - 1 - i))
          ∧ (stm32_saes_init L pdata_base ctx is_dec ch_mode key_select key key_size iv iv_size
              hw).2.1.key i = be32 key (key_size / 4 - 1 - i))
        ∧ (∀ i, key_size / 4 ≤ i →
          (stm32_saes_init L pdata_base ctx is_dec ch_mode key_select key key_size iv iv_size
              hw).2.1.key i = ctx.key i)
        ∧ (∀ j, j < key_size →
          byte_image (stm32_saes_init L pdata_base ctx is_dec ch_mode key_select key key_size iv
              iv_size hw).2.1.key j = key (key_size - 1 - j) % 256))
      ∧ (ch_mode ≠ STM32_SAES_MODE_ECB → ∀ ivb, iv = some ivb → iv_size = 16 →
        (∀ i, i < 4 →
          (stm32_saes_init L pdata_base ctx is_dec ch_mode key_select key key_size iv iv_size
              hw).2.1.iv i = htobe32 (load32 ivb (3 - i))
          ∧ (stm32_saes_init L pdata_base ctx is_dec ch_mode key_select key key_size iv iv_size
              hw).2.1.iv i = be32 ivb (3 - i))
        ∧ (∀ j, j < 16 →
          byte_image (stm32_saes_init L pdata_base ctx is_dec ch_mode key_select key key_size iv
              iv_size hw).2.1.iv j = ivb (15 - j) % 256))
      ∧ (∀ n buf j, j < 4 * n → shadow_transform n buf j = buf (4 * n - 1 - j) % 256)
      ∧ (∀ n buf j, j < 4 * n → shadow_transform n (shadow_transform n buf) j = buf j % 256) := by
  have h4 : 4 * (key_size / 4) = key_size := by
    rcases hk with h | h | ⟨h, _⟩ <;> subst h <;> rfl
  refine ⟨?_, ?_, ?_, ?_⟩
  · intro hs
    rw [init_key_shadow L pdata_base ctx is_dec ch_mode key_select key key_size iv iv_size hw hk,
      if_pos hs]
    refine ⟨?_, ?_, ?_⟩
    · intro i hi
      rw [save_words_apply, if_pos hi]
      exact ⟨rfl, htobe32_load32 _ _⟩
    · intro i hi
      rw [save_words_apply, if_neg (by omega)]
    · intro j hj
      rw [byte_image_save_words key (key_size / 4) ctx.key j (by omega), h4]
  · intro hm ivb hiv hsz
    subst hiv
    rw [init_valid L pdata_base ctx is_dec ch_mode key_select key key_size (some ivb) iv_size hw
      ⟨hk, Or.inr ⟨by simp, hsz⟩⟩]
    simp only [init_ctx, if_neg hm, Option.getD_some]
    refine ⟨?_, ?_⟩
    · intro i hi
      rw [save_words_apply, if_pos hi]
      exact ⟨rfl, htobe32_load32 _ _⟩
    · intro j hj
      rw [byte_image_save_words ivb 4 ctx.iv j (by omega)]
  · intro n buf j hj
    exact shadow_transform_apply n buf j hj
  · intro n buf j hj
    rw [shadow_transform_apply n _ j hj, shadow_transform_apply n buf _ (by omega)]
    rw [Nat.mod_mod]
    congr 2
    omega

theorem C3_init_key_iv_byte_order_witness :
    ((16 : Nat) = 16 ∨ (16 : Nat) = 32 ∨ ((16 : Nat) = 24 ∧ Layout.SAES = Layout.CRYP2))
      ∧ (stm32_saes_init Layout.SAES 0x42050000 ctx_zero false STM32_SAES_MODE_CBC
          STM32_SAES_KEY_SOFT buf_count 16 (some buf_count) 16 hw_ready).2.1.key 0
        = htobe32 (load32 buf_count 3)
      ∧ htobe32 (load32 buf_count 3) = 0x0C0D0E0F
      ∧ (stm32_saes_init Layout.SAES 0x42050000 ctx_zero false STM32_SAES_MODE_CBC
          STM32_SAES_KEY_SOFT buf_count 16 (some buf_count) 16 hw_ready).2.1.iv 3
        = htobe32 (load32 buf_count (3 - 3)) :=
  ⟨Or.inl rfl,
    (((C3_init_key_iv_byte_order Layout.SAES 0x42050000 ctx_zero false STM32_SAES_MODE_CBC
      STM32_SAES_KEY_SOFT buf_count 16 (some buf_count) 16 hw_ready (Or.inl rfl)).1 rfl).1 0
      (by decide)).1,
    by decide,
    (((C3_init_key_iv_byte_order Layout.SAES 0x42050000 ctx_zero false STM32_SAES_MODE_CBC
      STM32_SAES_KEY_SOFT buf_count 16 (some buf_count) 16 hw_ready (Or.inl rfl)).2.1 (by decide)
      buf_count rfl rfl).1 3 (by decide)).1⟩

/-! ## Plain streaming update: argument checks -/

theorem round_down_ne (data_size : Nat) :
    round_down data_size AES_BLOCK_SIZE ≠ data_size ↔ data_size % 16 ≠ 0 := by
  have h16 : AES_BLOCK_SIZE = 16 := rfl
  rw [h16]
  unfold round_down
  omega

/-- C4: `stm32_saes_update` called with `last_block = false` and a `data_size`
that is not a multiple of 16 returns `-EINVAL`, for every context and every
hardware state; the output buffer and every field of the session context are
the ones passed in.  (The only effect is the one of the label `out:`, the
error cleanup `saes_end` on the engine.) -/
theorem C4_update_rejects_unaligned_nonfinal (L : Layout) (ctx : stm32_saes_context)
    (data_in data_out : Nat → Nat) (data_size : Nat) (hw : Hw) (h : data_size % 16 ≠ 0) :
    ∃ r, stm32_saes_update L ctx false data_in data_out data_size hw = some r
      ∧ r.ret = -EINVAL ∧ r.out = data_out ∧ r.ctx = ctx
      ∧ r.hw = saes_end ctx (-EINVAL) hw := by
  have h1 := (round_down_ne data_size).2 h
  refine ⟨update_out false (-EINVAL) 0 ctx data_out hw, ?_, rfl, rfl, rfl, ?_⟩
  · unfold stm32_saes_update
    simp [h1]
  · simp [update_out, EINVAL]

theorem C4_update_rejects_unaligned_nonfinal_witness :
    20 % 16 ≠ 0
      ∧ ∃ r, stm32_saes_update Layout.SAES ctx_zero false buf_count buf_count 20 hw_ready = some r
        ∧ r.ret = -EINVAL ∧ r.out = buf_count ∧ r.ctx = ctx_zero
        ∧ r.hw = saes_end ctx_zero (-EINVAL) hw_ready :=
  ⟨by decide,
    C4_update_rejects_unaligned_nonfinal Layout.SAES ctx_zero buf_count buf_count 20 hw_ready
      (by decide)⟩

/-! ## Effects of the register helpers and of the block loops -/

theorem cr_writes_of_cd (log : List Ev) :
    cr_writes log = (cd_writes log).filterMap (fun p => if p.1 = Reg.CR then some p.2 else none) := by
  unfold cr_writes cd_writes
  rw [List.filterMap_filter]
  congr 1
  funext p
  by_cases h : p.1 = Reg.CR <;> simp [h]

theorem dinr_writes_of_cd (log : List Ev) :
    dinr_writes log
      = (cd_writes log).filterMap (fun p => if p.1 = Reg.DINR then some p.2 else none) := by
  unfold dinr_writes cd_writes
  rw [List.filterMap_filter]
  congr 1
  funext p
  by_cases h : p.1 = Reg.DINR <;> simp [h]

theorem reads_only_refl (hw : Hw) : reads_only hw hw := ⟨rfl, rfl, rfl, rfl, rfl, rfl⟩

theorem reads_only_trans {a b c : Hw} (hab : reads_only a b) (hbc : reads_only b c) :
    reads_only a c := by
  unfold reads_only at *
  refine ⟨?_, ?_, ?_, ?_, ?_, ?_⟩
  · rw [hbc.1, hab.1]
  · rw [hbc.2.1, hab.2.1]
  · rw [hbc.2.2.1, hab.2.2.1]
  · rw [hbc.2.2.2.1, hab.2.2.2.1]
  · rw [hbc.2.2.2.2.1, hab.2.2.2.2.1]
  · rw [hbc.2.2.2.2.2, hab.2.2.2.2.2]

theorem reads_only_read (base : Nat) (r : Reg) (hr : r ≠ Reg.DOUTR) (hw : Hw) :
    reads_only hw (mmio_read_32 base r hw).2 := by
  refine ⟨rfl, rfl, rfl, rfl, ?_, rfl⟩
  simp [mmio_read_32, doutr_reads, hr]

theorem wait_cc_loop_spec (L : Layout) (base : Nat) (k : Nat) (hw : Hw) :
    ((wait_computation_completed_loop L base k hw).1 = 0
        ∨ (wait_computation_completed_loop L base k hw).1 = -ETIMEDOUT)
      ∧ reads_only hw (wait_computation_completed_loop L base k hw).2 := by
  induction k generalizing hw with
  | zero =>
    simp only [wait_computation_completed_loop]
    split
    · exact ⟨Or.inr rfl, reads_only_read base Reg.ISR (by decide) hw⟩
    · exact ⟨Or.inl rfl, reads_only_read base Reg.ISR (by decide) hw⟩
  | succ k ih =>
    simp only [wait_computation_completed_loop]
    split
    · obtain ⟨h1, h2⟩ := ih (mmio_read_32 base Reg.ISR hw).2
      exact ⟨h1, reads_only_trans (reads_only_read base Reg.ISR (by decide) hw) h2⟩
    · exact ⟨Or.inl rfl, reads_only_read base Reg.ISR (by decide) hw⟩

theorem engine_kept_refl (hw : Hw) : engine_kept hw hw := ⟨rfl, rfl, rfl, rfl, rfl, rfl⟩

theorem engine_kept_trans {a b c : Hw} (hab : engine_kept a b) (hbc : engine_kept b c) :
    engine_kept a c := by
  unfold engine_kept at *
  refine ⟨?_, ?_, ?_, ?_, ?_, ?_⟩
  · rw [hbc.1, hab.1]
  · rw [hbc.2.1, hab.2.1]
  · rw [hbc.2.2.1, hab.2.2.1]
  · rw [hbc.2.2.2.1, hab.2.2.2.1]
  · rw [hbc.2.2.2.2.1, hab.2.2.2.2.1]
  · rw [hbc.2.2.2.2.2, hab.2.2.2.2.2]

theorem engine_kept_of_reads_only {a b : Hw} (h : reads_only a b) : engine_kept a b := by
  obtain ⟨h1, h2, h3, h4, h5, h6⟩ := h
  exact ⟨h1, h2, h3, by simp [cd_writes, h4], h5, h6⟩

theorem wait_cc_spec (L : Layout) (base : Nat) (hw : Hw) :
    ((wait_computation_completed L base hw).1 = 0
        ∨ (wait_computation_completed L base hw).1 = -ETIMEDOUT)
      ∧ reads_only hw (wait_computation_completed L base hw).2 :=
  wait_cc_loop_spec L base _ hw

theorem clear_cc_kept (L : Layout) (base : Nat) (hw : Hw) :
    engine_kept hw (clear_computation_completed L base hw) := by
  refine ⟨?_, rfl, rfl, ?_, ?_, ?_⟩ <;>
    simp [clear_computation_completed, mmio_setbits_32, mmio_write_32, mmio_read_32,
      cd_writes, reg_writes, doutr_reads, delays]

theorem write_block_spec (base : Nat) (f : Nat → Nat) (w : Nat) (hw : Hw) :
    (write_block base f w hw).cr = hw.cr
      ∧ (write_block base f w hw).dev = hw.dev
      ∧ (write_block base f w hw).window = hw.window
      ∧ cd_writes (write_block base f w hw).log
          = cd_writes hw.log
            ++ [(Reg.DINR, f w % 2 ^ 32), (Reg.DINR, f (w + 1) % 2 ^ 32),
                (Reg.DINR, f (w + 2) % 2 ^ 32), (Reg.DINR, f (w + 3) % 2 ^ 32)]
      ∧ doutr_reads (write_block base f w hw).log = doutr_reads hw.log
      ∧ delays (write_block base f w hw).log = delays hw.log := by
  refine ⟨?_, rfl, rfl, ?_, ?_, ?_⟩ <;>
    simp [write_block, mmio_write_32, cd_writes, reg_writes, doutr_reads, delays]

theorem read_block_spec (base : Nat) (out : Nat → Nat) (w : Nat) (hw : Hw) :
    ∃ v0 v1 v2 v3,
      (read_block base out w hw).1
          = store32 (store32 (store32 (store32 out w v0) (w + 1) v1) (w + 2) v2) (w + 3) v3
      ∧ doutr_reads (read_block base out w hw).2.log = doutr_reads hw.log ++ [v0, v1, v2, v3]
      ∧ (read_block base out w hw).2.cr = hw.cr
      ∧ (read_block base out w hw).2.dev = hw.dev
      ∧ (read_block base out w hw).2.window = hw.window
      ∧ reg_writes (read_block base out w hw).2.log = reg_writes hw.log
      ∧ delays (read_block base out w hw).2.log = delays hw.log := by
  refine ⟨_, _, _, _, rfl, ?_, rfl, rfl, rfl, ?_, ?_⟩ <;>
    simp [read_block, mmio_read_32, reg_writes, doutr_reads, delays]

theorem load32_lt (buf : Nat → Nat) (w : Nat) : load32 buf w < 2 ^ 32 := word_of_lt _ _ _ _

theorem load32_mod (buf : Nat → Nat) (w : Nat) : load32 buf w % 2 ^ 32 = load32 buf w :=
  Nat.mod_eq_of_lt (load32_lt buf w)

theorem range_four_mul_succ {α : Type} (n : Nat) (f : Nat → α) :
    (List.range (4 * (n + 1))).map f
      = [f 0, f 1, f 2, f 3] ++ (List.range (4 * n)).map (fun k => f (4 + k)) := by
  have h : 4 * (n + 1) = 4 + 4 * n := by ring
  rw [h, List.range_add, List.map_append, List.map_map]
  rfl

theorem store32_block (out : Nat → Nat) (w v0 v1 v2 v3 j : Nat) :
    store32 (store32 (store32 (store32 out w v0) (w + 1) v1) (w + 2) v2) (w + 3) v3 j
      = if 4 * w ≤ j ∧ j < 4 * w + 16 then
          byte_of ([v0, v1, v2, v3].getD (j / 4 - w) 0) (j % 4)
        else out j := by
  unfold store32
  by_cases h3 : j / 4 = w + 3
  · have : 4 * w ≤ j ∧ j < 4 * w + 16 := by omega
    have h' : j / 4 - w = 3 := by omega
    simp [h3, this, h']
  · by_cases h2 : j / 4 = w + 2
    · have : 4 * w ≤ j ∧ j < 4 * w + 16 := by omega
      have h' : j / 4 - w = 2 := by omega
      simp [h2, this, h']
    · by_cases h1 : j / 4 = w + 1
      · have : 4 * w ≤ j ∧ j < 4 * w + 16 := by omega
        have h' : j / 4 - w = 1 := by omega
        simp [h1, this, h']
      · by_cases h0 : j / 4 = w
        · have : 4 * w ≤ j ∧ j < 4 * w + 16 := by omega
          have h' : j / 4 - w = 0 := by omega
          simp [h0, this, h']
        · have : ¬ (4 * w ≤ j ∧ j < 4 * w + 16) := by omega
          simp [h0, h1, h2, h3, this]


theorem cr_writes_write_block (base : Nat) (f : Nat → Nat) (w : Nat) (hw : Hw) :
    cr_writes (write_block base f w hw).log = cr_writes hw.log := by
  simp [write_block, mmio_write_32, cr_writes, reg_writes]

theorem cr_writes_of_kept {a b : Hw} (h : engine_kept a b) :
    cr_writes b.log = cr_writes a.log := by
  rw [cr_writes_of_cd, cr_writes_of_cd, h.2.2.2.1]

theorem load_loop_spec (L : Layout) (d : Nat → Nat) (n : Nat) :
    ∀ (i : Nat) (ctx : stm32_saes_context) (out : Nat → Nat) (hw : Hw), i % 4 = 0 →
      ((load_loop L d n i ctx out hw).ret = 0 ∨ (load_loop L d n i ctx out hw).ret = -ETIMEDOUT)
      ∧ ((load_loop L d n i ctx out hw).ctx.base = ctx.base
        ∧ (load_loop L d n i ctx out hw).ctx.cr = ctx.cr
        ∧ (load_loop L d n i ctx out hw).ctx.key = ctx.key
        ∧ (load_loop L d n i ctx out hw).ctx.iv = ctx.iv
        ∧ (load_loop L d n i ctx out hw).ctx.assoc_len = ctx.assoc_len)
      ∧ ((load_loop L d n i ctx out hw).hw.cr = hw.cr
        ∧ (load_loop L d n i ctx out hw).hw.dev = hw.dev
        ∧ (load_loop L d n i ctx out hw).hw.window = hw.window
        ∧ cr_writes (load_loop L d n i ctx out hw).hw.log = cr_writes hw.log
        ∧ delays (load_loop L d n i ctx out hw).hw.log = delays hw.log)
      ∧ (∀ j, j < i ∨ i + 16 * n ≤ j → (load_loop L d n i ctx out hw).out j = out j)
      ∧ ((load_loop L d n i ctx out hw).ret = 0 →
        (load_loop L d n i ctx out hw).i = i + 16 * n
        ∧ (load_loop L d n i ctx out hw).ctx.load_len % 2 ^ 32
            = (ctx.load_len + 128 * n) % 2 ^ 32
        ∧ cd_writes (load_loop L d n i ctx out hw).hw.log
            = cd_writes hw.log
              ++ (List.range (4 * n)).map (fun k => (Reg.DINR, load32 d (i / 4 + k)))
        ∧ ∃ R, doutr_reads (load_loop L d n i ctx out hw).hw.log = doutr_reads hw.log ++ R
          ∧ R.length = 4 * n
          ∧ ∀ j, i ≤ j → j < i + 16 * n →
            (load_loop L d n i ctx out hw).out j = byte_of (R.getD ((j - i) / 4) 0) (j % 4)) := by
  induction n with
  | zero =>
    intro i ctx out hw _
    refine ⟨Or.inl rfl, ⟨rfl, rfl, rfl, rfl, rfl⟩, ⟨rfl, rfl, rfl, rfl, rfl⟩, fun _ _ => rfl, ?_⟩
    intro _
    refine ⟨rfl, rfl, by simp [load_loop], [], by simp [load_loop], rfl, ?_⟩
    intro j h1 h2
    omega
  | succ n ih =>
    intro i ctx out hw hi
    obtain ⟨w1, w2, w3, w5, w6, w7⟩ := write_block_spec ctx.base (load32 d) (i / 4) hw
    have w4 := cr_writes_write_block ctx.base (load32 d) (i / 4) hw
    obtain ⟨c1, c2⟩ := wait_cc_spec L ctx.base (write_block ctx.base (load32 d) (i / 4) hw)
    have c3 := engine_kept_of_reads_only c2
    have k4 := cr_writes_of_kept c3
    obtain ⟨k1, k2, k3, k5, k6, k7⟩ := c3
    simp only [load_loop]
    by_cases hc : (wait_computation_completed L ctx.base
        (write_block ctx.base (load32 d) (i / 4) hw)).1 ≠ 0
    · rw [if_pos hc]
      refine ⟨c1, ⟨rfl, rfl, rfl, rfl, rfl⟩,
        ⟨k1.trans w1, k2.trans w2, k3.trans w3, k4.trans w4, k7.trans w7⟩, fun _ _ => rfl, ?_⟩
      intro h0
      exact absurd h0 hc
    · rw [if_neg hc]
      obtain ⟨v0, v1, v2, v3, r1, r2, r3, r4, r5, r6, r7⟩ := read_block_spec ctx.base out (i / 4)
        (wait_computation_completed L ctx.base (write_block ctx.base (load32 d) (i / 4) hw)).2
      have ek := clear_cc_kept L ctx.base
        (read_block ctx.base out (i / 4)
          (wait_computation_completed L ctx.base
            (write_block ctx.base (load32 d) (i / 4) hw)).2).2
      have e4 := cr_writes_of_kept ek
      obtain ⟨e1, e2, e3, e5, e6, e7⟩ := ek
      have hi' : (i + AES_BLOCK_SIZE) % 4 = 0 := by
        have : AES_BLOCK_SIZE = 16 := rfl
        omega
      obtain ⟨a1, a2, a3, a4, a5⟩ := ih (i + AES_BLOCK_SIZE)
        { ctx with load_len := (ctx.load_len + AES_BLOCK_SIZE_BIT) % 2 ^ 32 }
        (read_block ctx.base out (i / 4)
          (wait_computation_completed L ctx.base
            (write_block ctx.base (load32 d) (i / 4) hw)).2).1
        (clear_computation_completed L ctx.base
          (read_block ctx.base out (i / 4)
            (wait_computation_completed L ctx.base
              (write_block ctx.base (load32 d) (i / 4) hw)).2).2) hi'
      have hB : AES_BLOCK_SIZE = 16 := rfl
      have hBB : AES_BLOCK_SIZE_BIT = 128 := rfl
      have hw4 : 4 * (i / 4) = i := by omega
      have hout : ∀ j, (read_block ctx.base out (i / 4)
          (wait_computation_completed L ctx.base
            (write_block ctx.base (load32 d) (i / 4) hw)).2).1 j
          = if i ≤ j ∧ j < i + 16 then byte_of ([v0, v1, v2, v3].getD (j / 4 - i / 4) 0) (j % 4)
            else out j := by
        intro j
        rw [r1, store32_block, hw4]
      refine ⟨a1, a2, ?_, ?_, ?_⟩
      · obtain ⟨b1, b2, b3, b4, b5⟩ := a3
        refine ⟨?_, ?_, ?_, ?_, ?_⟩
        · rw [b1, e1, r3, k1, w1]
        · rw [b2, e2, r4, k2, w2]
        · rw [b3, e3, r5, k3, w3]
        · rw [b4, e4]
          simp only [cr_writes, r6]
          exact k4.trans w4
        · rw [b5, e7, r7, k7, w7]
      · intro j hj
        rw [a4 j (by omega), hout j, if_neg (by omega)]
      · intro h0
        obtain ⟨s1, s2, s3, R, s4, s5, s6⟩ := a5 h0
        refine ⟨by rw [s1]; omega, ?_, ?_, [v0, v1, v2, v3] ++ R, ?_, ?_, ?_⟩
        · rw [s2]
          simp only [hBB]
          omega
        · rw [s3, e5]
          simp only [cd_writes, r6]
          have := k5.trans w5
          simp only [cd_writes] at this
          rw [this, range_four_mul_succ]
          simp only [load32_mod, List.append_assoc, hB]
          congr 1
          have h44 : (i + 16) / 4 = i / 4 + 4 := by omega
          simp only [h44, Nat.add_zero, Nat.add_assoc, List.cons_append, List.nil_append]
        · rw [s4, e6, r2, k6, w6, List.append_assoc]
        · simp [s5]; omega
        · intro j h1 h2
          by_cases hj : j < i + 16
          · rw [a4 j (Or.inl (by omega)), hout j, if_pos ⟨h1, hj⟩]
            have hk : j / 4 - i / 4 = (j - i) / 4 := by omega
            have hk4 : (j - i) / 4 < 4 := by omega
            rw [hk]
            congr 1
            rcases (by omega : (j - i) / 4 = 0 ∨ (j - i) / 4 = 1 ∨ (j - i) / 4 = 2
              ∨ (j - i) / 4 = 3) with h | h | h | h <;> rw [h] <;> rfl
          · rw [s6 j (by omega) (by omega)]
            have hk : (j - i) / 4 = 4 + (j - (i + AES_BLOCK_SIZE)) / 4 := by omega
            rw [hk]
            congr 1
            generalize (j - (i + AES_BLOCK_SIZE)) / 4 = k
            have hk4 : 4 + k = k + 1 + 1 + 1 + 1 := by omega
            rw [hk4]
            simp [List.getD_eq_getElem?_getD]

/-! ## Authenticated payload update -/

theorem round_down_blocks (q r : Nat) (hr : r < 16) :
    round_down (16 * q + r) AES_BLOCK_SIZE / AES_BLOCK_SIZE = q := by
  have h16 : AES_BLOCK_SIZE = 16 := rfl
  rw [h16]
  unfold round_down
  omega

theorem filterMap_dinr_map (f : Nat → Nat) (l : List Nat) :
    (l.map (fun k => (Reg.DINR, f k))).filterMap
        (fun p => if p.1 = Reg.DINR then some p.2 else none) = l.map f := by
  induction l with
  | nil => rfl
  | cons a l ih => simp [ih]

theorem filterMap_cr_map (f : Nat → Nat) (l : List Nat) :
    (l.map (fun k => (Reg.DINR, f k))).filterMap
        (fun p => if p.1 = Reg.CR then some p.2 else none) = [] := by
  induction l with
  | nil => rfl
  | cons a l ih => simp [ih]

theorem byte_of_lt (v k : Nat) : byte_of v k < 256 := by
  unfold byte_of
  omega

theorem getD_append_block (R : List Nat) (v0 v1 v2 v3 k : Nat) :
    (R ++ [v0, v1, v2, v3]).getD k 0
      = if k < R.length then R.getD k 0 else [v0, v1, v2, v3].getD (k - R.length) 0 := by
  simp only [List.getD_eq_getElem?_getD]
  by_cases h : k < R.length
  · rw [if_pos h, List.getElem?_append_left h]
  · rw [if_neg h, List.getElem?_append_right (by omega)]

theorem load_blocks_tail (L : Layout) (ctx : stm32_saes_context) (d out : Nat → Nat)
    (q r : Nat) (hw2 : Hw) (hr0 : 0 < r) (hr : r < 16) :
    ((load_blocks L ctx true d out (16 * q + r) hw2).ret = 0
        ∨ (load_blocks L ctx true d out (16 * q + r) hw2).ret = -ETIMEDOUT)
      ∧ ((load_blocks L ctx true d out (16 * q + r) hw2).ret = 0 →
        (∀ j, 16 * q + r ≤ j → (load_blocks L ctx true d out (16 * q + r) hw2).out j = out j)
        ∧ (∃ R, doutr_reads (load_blocks L ctx true d out (16 * q + r) hw2).hw.log
              = doutr_reads hw2.log ++ R
            ∧ R.length = 4 * q + 4
            ∧ ∀ j, j < 16 * q + r →
              (load_blocks L ctx true d out (16 * q + r) hw2).out j
                = byte_of (R.getD (j / 4) 0) (j % 4))
        ∧ cd_writes (load_blocks L ctx true d out (16 * q + r) hw2).hw.log
            = cd_writes hw2.log ++ (List.range (4 * q)).map (fun k => (Reg.DINR, load32 d k))
              ++ [(Reg.DINR, load32 (block_in d (16 * q) r) 0),
                  (Reg.DINR, load32 (block_in d (16 * q) r) 1),
                  (Reg.DINR, load32 (block_in d (16 * q) r) 2),
                  (Reg.DINR, load32 (block_in d (16 * q) r) 3)]
        ∧ (load_blocks L ctx true d out (16 * q + r) hw2).ctx.load_len
            = (ctx.load_len + 8 * (16 * q + r)) % 2 ^ 32
        ∧ (load_blocks L ctx true d out (16 * q + r) hw2).hw.cr = hw2.cr
        ∧ cr_writes (load_blocks L ctx true d out (16 * q + r) hw2).hw.log = cr_writes hw2.log) := by
  obtain ⟨l1, ⟨lb, _, _, _, _⟩, ⟨lc1, lc2, lc3, lc4, lc5⟩, l4, l5⟩ :=
    load_loop_spec L d q 0 ctx out hw2 rfl
  unfold load_blocks
  simp only [round_down_blocks q r hr]
  by_cases hl : (load_loop L d q 0 ctx out hw2).ret ≠ 0
  · rw [if_pos hl]
    refine ⟨l1, fun h0 => absurd h0 hl⟩
  · rw [if_neg hl]
    simp only [ne_eq, not_not] at hl
    obtain ⟨s1, s2, s3, R, s4, s5, s6⟩ := l5 hl
    have hi : (load_loop L d q 0 ctx out hw2).i = 16 * q := by rw [s1]; omega
    have hlast : (true && decide ((load_loop L d q 0 ctx out hw2).i < 16 * q + r)) = true := by
      simp [hi]; omega
    rw [if_pos hlast, hi]
    have hsub : 16 * q + r - 16 * q = r := by omega
    simp only [hsub]
    obtain ⟨w1, w2, w3, w5, w6, w7⟩ := write_block_spec ctx.base
      (load32 (block_in d (16 * q) r)) 0 (load_loop L d q 0 ctx out hw2).hw
    have w4 := cr_writes_write_block ctx.base
      (load32 (block_in d (16 * q) r)) 0 (load_loop L d q 0 ctx out hw2).hw
    obtain ⟨c1, c2⟩ := wait_cc_spec L ctx.base (write_block ctx.base
      (load32 (block_in d (16 * q) r)) 0 (load_loop L d q 0 ctx out hw2).hw)
    have k4 := cr_writes_of_kept (engine_kept_of_reads_only c2)
    obtain ⟨k1, k2, k3, k5, k6, k7⟩ := engine_kept_of_reads_only c2
    by_cases hc : (wait_computation_completed L ctx.base (write_block ctx.base
        (load32 (block_in d (16 * q) r)) 0 (load_loop L d q 0 ctx out hw2).hw)).1 ≠ 0
    · rw [if_pos hc]
      exact ⟨c1, fun h0 => absurd h0 hc⟩
    · rw [if_neg hc]
      obtain ⟨v0, v1, v2, v3, r1, r2, r3, r4, r5, r6, r7⟩ := read_block_spec ctx.base
        (fun _ => 0) 0 (wait_computation_completed L ctx.base (write_block ctx.base
          (load32 (block_in d (16 * q) r)) 0 (load_loop L d q 0 ctx out hw2).hw)).2
      have ek := clear_cc_kept L ctx.base
        (read_block ctx.base (fun _ => 0) 0 (wait_computation_completed L ctx.base
          (write_block ctx.base (load32 (block_in d (16 * q) r)) 0
            (load_loop L d q 0 ctx out hw2).hw)).2).2
      have e4 := cr_writes_of_kept ek
      obtain ⟨e1, e2, e3, e5, e6, e7⟩ := ek
      refine ⟨Or.inl rfl, fun _ => ⟨?_, ⟨R ++ [v0, v1, v2, v3], ?_, ?_, ?_⟩, ?_, ?_, ?_, ?_⟩⟩
      · intro j hj
        simp only [load_out, memcpy_out]
        rw [if_neg (by omega)]
        exact l4 j (Or.inr (by omega))
      · simp only [load_out]
        rw [if_neg (by simp), e6, r2, k6, w6, s4, List.append_assoc]
      · simp [s5]
      · intro j hj
        simp only [load_out, memcpy_out]
        rw [getD_append_block, s5]
        by_cases hj2 : j < 16 * q
        · rw [if_neg (by omega), if_pos (by omega), s6 j (by omega) (by omega)]
          simp
        · rw [if_pos (by omega), if_neg (by omega), r1, store32_block, if_pos (by omega),
            Nat.mod_eq_of_lt (byte_of_lt _ _)]
          have h1 : (j - 16 * q) / 4 - 0 = j / 4 - 4 * q := by omega
          have h2 : (j - 16 * q) % 4 = j % 4 := by omega
          rw [h1, h2]
      · simp only [load_out]
        rw [if_neg (by simp), e5]
        simp only [cd_writes, r6]
        have := k5.trans w5
        simp only [cd_writes] at this
        rw [this]
        have s3' := s3
        simp only [cd_writes] at s3'
        rw [s3']
        have hlt := fun k => load32_lt (block_in d (16 * q) r) k
        norm_num at hlt
        simp [load32_mod, hlt]
      · simp only [load_out, UINT8_BIT]
        omega
      · simp only [load_out]
        rw [if_neg (by simp), e1, r3, k1, w1, lc1]
      · simp only [load_out]
        rw [if_neg (by simp), e4]
        simp only [cr_writes, r6]
        have := k4.trans w4
        simp only [cr_writes] at this
        rw [this]
        exact lc4

/-! ## A device that always signals completion -/

/-- The device answers every read of the interrupt status register with the
computation-complete flag set. -/
theorem wait_cc_ready (L : Layout) (base : Nat) (hw : Hw)
    (h : ∀ log, (hw.dev log base Reg.ISR % 2 ^ 32) &&& _SAES_I_CCF L = _SAES_I_CCF L) :
    (wait_computation_completed L base hw).1 = 0 := by
  have h1 : ((mmio_read_32 base Reg.ISR hw).1 &&& _SAES_I_CCF L != _SAES_I_CCF L) = false := by
    have := h hw.log
    simp [mmio_read_32]
    simpa using this
  unfold wait_computation_completed
  cases hw.window hw.log with
  | zero => simp [wait_computation_completed_loop, h1]
  | succ k => simp [wait_computation_completed_loop, h1]

theorem load_loop_ready (L : Layout) (d : Nat → Nat) (n : Nat) :
    ∀ (i : Nat) (ctx : stm32_saes_context) (out : Nat → Nat) (hw : Hw),
      (∀ log, (hw.dev log ctx.base Reg.ISR % 2 ^ 32) &&& _SAES_I_CCF L = _SAES_I_CCF L) →
      (load_loop L d n i ctx out hw).ret = 0 := by
  induction n with
  | zero => intro i ctx out hw _; rfl
  | succ n ih =>
    intro i ctx out hw h
    obtain ⟨_, w2, _, _, _, _⟩ := write_block_spec ctx.base (load32 d) (i / 4) hw
    have hc := wait_cc_ready L ctx.base (write_block ctx.base (load32 d) (i / 4) hw)
      (by rw [w2]; exact h)
    obtain ⟨_, c2⟩ := wait_cc_spec L ctx.base (write_block ctx.base (load32 d) (i / 4) hw)
    obtain ⟨_, _, _, _, _, _, _, r4, _, _, _⟩ := read_block_spec ctx.base out (i / 4)
      (wait_computation_completed L ctx.base (write_block ctx.base (load32 d) (i / 4) hw)).2
    obtain ⟨_, e2, _, _, _, _⟩ := clear_cc_kept L ctx.base
      (read_block ctx.base out (i / 4)
        (wait_computation_completed L ctx.base
          (write_block ctx.base (load32 d) (i / 4) hw)).2).2
    simp only [load_loop, hc, ne_eq, not_true_eq_false, if_false]
    apply ih
    intro log
    rw [e2, r4, c2.2.1, w2]
    exact h log

theorem load_blocks_ready (L : Layout) (ctx : stm32_saes_context) (last_block : Bool)
    (d out : Nat → Nat) (data_size : Nat) (hw2 : Hw)
    (h : ∀ log, (hw2.dev log ctx.base Reg.ISR % 2 ^ 32) &&& _SAES_I_CCF L = _SAES_I_CCF L) :
    (load_blocks L ctx last_block d out data_size hw2).ret = 0 := by
  have hl := load_loop_ready L d (round_down data_size AES_BLOCK_SIZE / AES_BLOCK_SIZE) 0 ctx
    out hw2 h
  obtain ⟨_, ⟨lb, _, _, _, _⟩, ⟨_, ld, _, _, _⟩, _, _⟩ := load_loop_spec L d
    (round_down data_size AES_BLOCK_SIZE / AES_BLOCK_SIZE) 0 ctx out hw2 rfl
  unfold load_blocks
  simp only [hl, ne_eq, not_true_eq_false, if_false]
  split
  · obtain ⟨_, w2, _, _, _, _⟩ := write_block_spec ctx.base
      (load32 (block_in d (load_loop L d (round_down data_size AES_BLOCK_SIZE / AES_BLOCK_SIZE)
        0 ctx out hw2).i (data_size - (load_loop L d
        (round_down data_size AES_BLOCK_SIZE / AES_BLOCK_SIZE) 0 ctx out hw2).i))) 0
      (load_loop L d (round_down data_size AES_BLOCK_SIZE / AES_BLOCK_SIZE) 0 ctx out hw2).hw
    have hc := wait_cc_ready L ctx.base _ (by rw [w2, ld]; exact h)
    simp only [hc, not_true_eq_false, if_false]
    rfl
  · rfl

/-- C6: a final `stm32_saes_update_load` call with `data_size = 16 q + r`,
`0 < r < 16`, returns 0 or `-ETIMEDOUT` (a completion poll failed).  When it
returns 0, that is when every completion poll succeeded: output bytes at
offsets `data_size` and above are unchanged; the bytes below are, in order, the
bytes of the `4 q + 4` words read from the data-out register, so that of the
last block read only the first `r` bytes reach the caller; the words written to
the data-in register are the words of the `q` full blocks followed by the four
words of the scratch block, which holds the `r` tail bytes followed by `16 - r`
zero bytes; and `load_len` has grown by `8 * data_size` modulo `2 ^ 32`.  A
device that shows the completion flag at every read of the interrupt status
register makes the call return 0. -/
theorem C6_update_load_final_tail (L : Layout) (ctx : stm32_saes_context) (d out : Nat → Nat)
    (q r : Nat) (hw : Hw) (hr0 : 0 < r) (hr : r < 16) (_hsize : 16 * q + r < 2 ^ 32) :
    ((stm32_saes_update_load L ctx true (some d) out (16 * q + r) hw).ret = 0
        ∨ (stm32_saes_update_load L ctx true (some d) out (16 * q + r) hw).ret = -ETIMEDOUT)
      ∧ ((stm32_saes_update_load L ctx true (some d) out (16 * q + r) hw).ret = 0 →
        (∀ j, 16 * q + r ≤ j →
          (stm32_saes_update_load L ctx true (some d) out (16 * q + r) hw).out j = out j)
        ∧ (∃ R, doutr_reads (stm32_saes_update_load L ctx true (some d) out (16 * q + r) hw).hw.log
              = doutr_reads hw.log ++ R
            ∧ R.length = 4 * q + 4
            ∧ ∀ j, j < 16 * q + r →
              (stm32_saes_update_load L ctx true (some d) out (16 * q + r) hw).out j
                = byte_of (R.getD (j / 4) 0) (j % 4))
        ∧ dinr_writes (stm32_saes_update_load L ctx true (some d) out (16 * q + r) hw).hw.log
            = dinr_writes hw.log ++ (List.range (4 * q)).map (load32 d)
              ++ [load32 (block_in d (16 * q) r) 0, load32 (block_in d (16 * q) r) 1,
                  load32 (block_in d (16 * q) r) 2, load32 (block_in d (16 * q) r) 3]
        ∧ (∀ j, j < 16 → block_in d (16 * q) r j = if j < r then d (16 * q + j) else 0)
        ∧ (stm32_saes_update_load L ctx true (some d) out (16 * q + r) hw).ctx.load_len
            = (ctx.load_len + 8 * (16 * q + r)) % 2 ^ 32)
      ∧ ((∀ log, (hw.dev log ctx.base Reg.ISR % 2 ^ 32) &&& _SAES_I_CCF L = _SAES_I_CCF L) →
        (stm32_saes_update_load L ctx true (some d) out (16 * q + r) hw).ret = 0) := by
  have aux : ∀ hw2 : Hw, dinr_writes hw2.log = dinr_writes hw.log →
      doutr_reads hw2.log = doutr_reads hw.log →
      ((load_blocks L ctx true d out (16 * q + r) hw2).ret = 0
        ∨ (load_blocks L ctx true d out (16 * q + r) hw2).ret = -ETIMEDOUT)
      ∧ ((load_blocks L ctx true d out (16 * q + r) hw2).ret = 0 →
        (∀ j, 16 * q + r ≤ j → (load_blocks L ctx true d out (16 * q + r) hw2).out j = out j)
        ∧ (∃ R, doutr_reads (load_blocks L ctx true d out (16 * q + r) hw2).hw.log
              = doutr_reads hw.log ++ R
            ∧ R.length = 4 * q + 4
            ∧ ∀ j, j < 16 * q + r →
              (load_blocks L ctx true d out (16 * q + r) hw2).out j
                = byte_of (R.getD (j / 4) 0) (j % 4))
        ∧ dinr_writes (load_blocks L ctx true d out (16 * q + r) hw2).hw.log
            = dinr_writes hw.log ++ (List.range (4 * q)).map (load32 d)
              ++ [load32 (block_in d (16 * q) r) 0, load32 (block_in d (16 * q) r) 1,
                  load32 (block_in d (16 * q) r) 2, load32 (block_in d (16 * q) r) 3]
        ∧ (∀ j, j < 16 → block_in d (16 * q) r j = if j < r then d (16 * q + j) else 0)
        ∧ (load_blocks L ctx true d out (16 * q + r) hw2).ctx.load_len
            = (ctx.load_len + 8 * (16 * q + r)) % 2 ^ 32) := by
    intro hw2 h1 h2
    obtain ⟨t1, t2⟩ := load_blocks_tail L ctx d out q r hw2 hr0 hr
    refine ⟨t1, fun h0 => ?_⟩
    obtain ⟨u1, u2, u3, u4, _, _⟩ := t2 h0
    rw [h2] at u2
    refine ⟨u1, u2, ?_, fun j _ => rfl, u4⟩
    rw [dinr_writes_of_cd, u3, ← h1, dinr_writes_of_cd]
    simp only [List.filterMap_append, filterMap_dinr_map]
    simp
  have hne : ¬ (16 * q + r = 0) := by omega
  unfold stm32_saes_update_load
  simp only [hne, if_false]
  refine ⟨(aux _ ?_ ?_).1, (aux _ ?_ ?_).2, fun hdev => ?_⟩
  · split <;>
      simp [mmio_setbits_32, mmio_clrsetbits_32, mmio_write_32, mmio_read_32, dinr_writes,
        reg_writes]
  · split <;>
      simp [mmio_setbits_32, mmio_clrsetbits_32, mmio_write_32, mmio_read_32, doutr_reads]
  · split <;>
      simp [mmio_setbits_32, mmio_clrsetbits_32, mmio_write_32, mmio_read_32, dinr_writes,
        reg_writes]
  · split <;>
      simp [mmio_setbits_32, mmio_clrsetbits_32, mmio_write_32, mmio_read_32, doutr_reads]
  · apply load_blocks_ready
    intro log
    have hd : ∀ h2 : Hw, h2.dev = hw.dev →
        (h2.dev log ctx.base Reg.ISR % 2 ^ 32) &&& _SAES_I_CCF L = _SAES_I_CCF L := by
      intro h2 e
      rw [e]
      exact hdev log
    apply hd
    split <;> rfl

theorem C6_update_load_final_tail_witness :
    (0 < 4 ∧ 4 < 16 ∧ 16 * 1 + 4 < 2 ^ 32)
      ∧ (stm32_saes_update_load Layout.CRYP2 ctx_zero true (some buf_count) (fun _ => 0xAA)
          (16 * 1 + 4) hw_ready).ret = 0
      ∧ (stm32_saes_update_load Layout.CRYP2 ctx_zero true (some buf_count) (fun _ => 0xAA)
          (16 * 1 + 4) hw_ready).ctx.load_len = 160
      ∧ (stm32_saes_update_load Layout.CRYP2 ctx_zero true (some buf_count) (fun _ => 0xAA)
          (16 * 1 + 4) hw_ready).out 19 = 0xFF
      ∧ (stm32_saes_update_load Layout.CRYP2 ctx_zero true (some buf_count) (fun _ => 0xAA)
          (16 * 1 + 4) hw_ready).out 20 = 0xAA :=
  have h0 : (stm32_saes_update_load Layout.CRYP2 ctx_zero true (some buf_count) (fun _ => 0xAA)
      (16 * 1 + 4) hw_ready).ret = 0 := by decide
  ⟨⟨by decide, by decide, by decide⟩, h0,
    (((C6_update_load_final_tail Layout.CRYP2 ctx_zero buf_count (fun _ => 0xAA) 1 4 hw_ready
      (by decide) (by decide) (by decide)).2.1 h0).2.2.2.2).trans (by decide),
    by decide,
    ((C6_update_load_final_tail Layout.CRYP2 ctx_zero buf_count (fun _ => 0xAA) 1 4 hw_ready
      (by decide) (by decide) (by decide)).2.1 h0).1 20 (by decide)⟩

/-! ## Bit fields of the control register -/

theorem and_mod32 (x m : Nat) (hm : m < 2 ^ 32) : (x % 2 ^ 32) &&& m = x &&& m := by
  apply Nat.eq_of_testBit_eq
  intro i
  simp only [Nat.testBit_and, Nat.testBit_mod_two_pow]
  by_cases hi : i < 32
  · simp [hi]
  · have h2 : m.testBit i = false := by
      apply Nat.testBit_eq_false_of_lt
      have : 2 ^ 32 ≤ 2 ^ i := Nat.pow_le_pow_right (by decide) (by omega)
      omega
    simp [h2]

/-- A field written by `clrsetbits32` reads back as written. -/
theorem clrsetbits32_field (v m f : Nat) (hm : m < 2 ^ 32) (hf : f &&& m = f) :
    clrsetbits32 v m f &&& m = f := by
  unfold clrsetbits32
  rw [and_mod32 _ _ hm]
  apply Nat.eq_of_testBit_eq
  intro i
  have h1 := congrArg (fun x => x.testBit i) hf
  simp only [Nat.testBit_and, Nat.testBit_or, Nat.testBit_xor] at h1 ⊢
  by_cases hi : i < 32
  · have hW : (0xFFFFFFFF : Nat).testBit i = true := by
      have : (0xFFFFFFFF : Nat) = 2 ^ 32 - 1 := by decide
      rw [this, Nat.testBit_two_pow_sub_one]
      simp [hi]
    rw [hW]
    revert h1
    cases v.testBit i <;> cases m.testBit i <;> cases f.testBit i <;> simp
  · have h2 : m.testBit i = false := by
      apply Nat.testBit_eq_false_of_lt
      have : 2 ^ 32 ≤ 2 ^ i := Nat.pow_le_pow_right (by decide) (by omega)
      omega
    revert h1
    rw [h2]
    cases f.testBit i <;> simp

/-- Bits outside the set mask are kept by `setbits32`. -/
theorem setbits32_other (v s m : Nat) (hm : m < 2 ^ 32) (hs : s &&& m = 0) :
    setbits32 v s &&& m = v &&& m := by
  unfold setbits32
  rw [and_mod32 _ _ hm]
  apply Nat.eq_of_testBit_eq
  intro i
  have h1 := congrArg (fun x => x.testBit i) hs
  simp only [Nat.testBit_and, Nat.testBit_or, Nat.zero_testBit] at h1 ⊢
  revert h1
  cases v.testBit i <;> cases m.testBit i <;> cases s.testBit i <;> simp

theorem setbits32_self (v s : Nat) (hs : s < 2 ^ 32) : setbits32 v s &&& s = s := by
  unfold setbits32
  rw [and_mod32 _ _ hs]
  apply Nat.eq_of_testBit_eq
  intro i
  simp only [Nat.testBit_and, Nat.testBit_or]
  cases v.testBit i <;> cases s.testBit i <;> simp

theorem clrbits32_self (v s : Nat) (hs : s < 2 ^ 32) : clrbits32 v s &&& s = 0 := by
  unfold clrbits32
  rw [and_mod32 _ _ hs]
  apply Nat.eq_of_testBit_eq
  intro i
  simp only [Nat.testBit_and, Nat.testBit_xor, Nat.zero_testBit]
  by_cases hi : i < 32
  · have hW : (0xFFFFFFFF : Nat).testBit i = true := by
      have : (0xFFFFFFFF : Nat) = 2 ^ 32 - 1 := by decide
      rw [this, Nat.testBit_two_pow_sub_one]
      simp [hi]
    rw [hW]
    cases v.testBit i <;> cases s.testBit i <;> simp
  · have h2 : s.testBit i = false := by
      apply Nat.testBit_eq_false_of_lt
      have : 2 ^ 32 ≤ 2 ^ i := Nat.pow_le_pow_right (by decide) (by omega)
      omega
    rw [h2]
    simp

theorem setbits32_lt (v s : Nat) : setbits32 v s < 2 ^ 32 := Nat.mod_lt _ (by decide)

theorem clrbits32_lt (v s : Nat) : clrbits32 v s < 2 ^ 32 := Nat.mod_lt _ (by decide)

theorem clrsetbits32_lt (v m s : Nat) : clrsetbits32 v m s < 2 ^ 32 := Nat.mod_lt _ (by decide)

theorem setbits32_mod (v s : Nat) : setbits32 v s % 2 ^ 32 = setbits32 v s :=
  Nat.mod_eq_of_lt (setbits32_lt v s)

theorem clrbits32_mod (v s : Nat) : clrbits32 v s % 2 ^ 32 = clrbits32 v s :=
  Nat.mod_eq_of_lt (clrbits32_lt v s)

theorem clrsetbits32_mod (v m s : Nat) : clrsetbits32 v m s % 2 ^ 32 = clrsetbits32 v m s :=
  Nat.mod_eq_of_lt (clrsetbits32_lt v m s)

/-- Effect of a read-modify-write of the control register. -/
theorem setbits_cr_spec (base s : Nat) (hw : Hw) :
    (mmio_setbits_32 base Reg.CR s hw).cr = setbits32 (hw.cr % 2 ^ 32) s
      ∧ (mmio_setbits_32 base Reg.CR s hw).dev = hw.dev
      ∧ (mmio_setbits_32 base Reg.CR s hw).window = hw.window
      ∧ cd_writes (mmio_setbits_32 base Reg.CR s hw).log
          = cd_writes hw.log ++ [(Reg.CR, setbits32 (hw.cr % 2 ^ 32) s)]
      ∧ doutr_reads (mmio_setbits_32 base Reg.CR s hw).log = doutr_reads hw.log
      ∧ delays (mmio_setbits_32 base Reg.CR s hw).log = delays hw.log := by
  refine ⟨?_, rfl, rfl, ?_, ?_, ?_⟩ <;>
    simp [mmio_setbits_32, mmio_write_32, mmio_read_32, cd_writes, reg_writes, doutr_reads,
      delays] <;> exact setbits32_lt _ _

theorem clrbits_cr_spec (base s : Nat) (hw : Hw) :
    (mmio_clrbits_32 base Reg.CR s hw).cr = clrbits32 (hw.cr % 2 ^ 32) s
      ∧ (mmio_clrbits_32 base Reg.CR s hw).dev = hw.dev
      ∧ (mmio_clrbits_32 base Reg.CR s hw).window = hw.window
      ∧ cd_writes (mmio_clrbits_32 base Reg.CR s hw).log
          = cd_writes hw.log ++ [(Reg.CR, clrbits32 (hw.cr % 2 ^ 32) s)]
      ∧ doutr_reads (mmio_clrbits_32 base Reg.CR s hw).log = doutr_reads hw.log
      ∧ delays (mmio_clrbits_32 base Reg.CR s hw).log = delays hw.log := by
  refine ⟨?_, rfl, rfl, ?_, ?_, ?_⟩ <;>
    simp [mmio_clrbits_32, mmio_write_32, mmio_read_32, cd_writes, reg_writes, doutr_reads,
      delays] <;> exact clrbits32_lt _ _

theorem clrsetbits_cr_spec (base m s : Nat) (hw : Hw) :
    (mmio_clrsetbits_32 base Reg.CR m s hw).cr = clrsetbits32 (hw.cr % 2 ^ 32) m s
      ∧ (mmio_clrsetbits_32 base Reg.CR m s hw).dev = hw.dev
      ∧ (mmio_clrsetbits_32 base Reg.CR m s hw).window = hw.window
      ∧ cd_writes (mmio_clrsetbits_32 base Reg.CR m s hw).log
          = cd_writes hw.log ++ [(Reg.CR, clrsetbits32 (hw.cr % 2 ^ 32) m s)]
      ∧ doutr_reads (mmio_clrsetbits_32 base Reg.CR m s hw).log = doutr_reads hw.log
      ∧ delays (mmio_clrsetbits_32 base Reg.CR m s hw).log = delays hw.log := by
  refine ⟨?_, rfl, rfl, ?_, ?_, ?_⟩ <;>
    simp [mmio_clrsetbits_32, mmio_write_32, mmio_read_32, cd_writes, reg_writes, doutr_reads,
      delays] <;> exact clrsetbits32_lt _ _ _

/-- Effect of `saes_end`: the control-register writes are those of
`saes_end_writes`, the enable bit ends clear, and `udelay` is called once if
and only if there was an error. -/
theorem saes_end_spec (ctx : stm32_saes_context) (e : Int) (hw : Hw) :
    cd_writes (saes_end ctx e hw).log
        = cd_writes hw.log ++ (saes_end_writes e hw.cr).map (fun v => (Reg.CR, v))
      ∧ (saes_end ctx e hw).cr &&& _SAES_CR_EN = 0
      ∧ doutr_reads (saes_end ctx e hw).log = doutr_reads hw.log
      ∧ delays (saes_end ctx e hw).log = delays hw.log + (if e ≠ 0 then 1 else 0)
      ∧ (saes_end ctx e hw).dev = hw.dev
      ∧ (saes_end ctx e hw).window = hw.window := by
  have hEN : _SAES_CR_EN < 2 ^ 32 := by decide
  unfold saes_end saes_end_writes
  by_cases he : e ≠ 0
  · simp only [if_pos he]
    obtain ⟨a1, a2, a3, a4, a5, a6⟩ := setbits_cr_spec ctx.base _SAES_CR_IPRST hw
    have u : ∀ h : Hw, (udelay SAES_RESET_DELAY h).cr = h.cr
        ∧ (udelay SAES_RESET_DELAY h).dev = h.dev
        ∧ (udelay SAES_RESET_DELAY h).window = h.window
        ∧ cd_writes (udelay SAES_RESET_DELAY h).log = cd_writes h.log
        ∧ doutr_reads (udelay SAES_RESET_DELAY h).log = doutr_reads h.log
        ∧ delays (udelay SAES_RESET_DELAY h).log = delays h.log + 1 := by
      intro h
      refine ⟨rfl, rfl, rfl, ?_, ?_, ?_⟩ <;> simp [udelay, cd_writes, reg_writes, doutr_reads, delays]
    obtain ⟨u1, u2, u3, u4, u5, u6⟩ := u (mmio_setbits_32 ctx.base Reg.CR _SAES_CR_IPRST hw)
    obtain ⟨b1, b2, b3, b4, b5, b6⟩ := clrbits_cr_spec ctx.base _SAES_CR_IPRST
      (udelay SAES_RESET_DELAY (mmio_setbits_32 ctx.base Reg.CR _SAES_CR_IPRST hw))
    obtain ⟨c1, c2, c3, c4, c5, c6⟩ := clrbits_cr_spec ctx.base _SAES_CR_EN
      (mmio_clrbits_32 ctx.base Reg.CR _SAES_CR_IPRST
        (udelay SAES_RESET_DELAY (mmio_setbits_32 ctx.base Reg.CR _SAES_CR_IPRST hw)))
    refine ⟨?_, ?_, ?_, ?_, ?_, ?_⟩
    · rw [c4, b4, u4, a4, b1, u1, a1, setbits32_mod, clrbits32_mod]
      simp
    · rw [c1]
      exact clrbits32_self _ _ hEN
    · rw [c5, b5, u5, a5]
    · rw [c6, b6, u6, a6]
    · rw [c2, b2, u2, a2]
    · rw [c3, b3, u3, a3]
  · simp only [if_neg he]
    obtain ⟨c1, c2, c3, c4, c5, c6⟩ := clrbits_cr_spec ctx.base _SAES_CR_EN hw
    refine ⟨?_, ?_, c5, ?_, c2, c3⟩
    · rw [c4]
      simp
    · rw [c1]
      exact clrbits32_self _ _ hEN
    · rw [c6]
      simp

/-! ## Associated-data update -/

theorem assodata_loop_spec (L : Layout) (d : Nat → Nat) (n : Nat) :
    ∀ (i : Nat) (ctx : stm32_saes_context) (hw : Hw), i % 4 = 0 →
      ((assodata_loop L d n i ctx hw).1 = 0 ∨ (assodata_loop L d n i ctx hw).1 = -ETIMEDOUT)
      ∧ ((assodata_loop L d n i ctx hw).2.2.1.base = ctx.base
        ∧ (assodata_loop L d n i ctx hw).2.2.1.cr = ctx.cr
        ∧ (assodata_loop L d n i ctx hw).2.2.1.key = ctx.key
        ∧ (assodata_loop L d n i ctx hw).2.2.1.iv = ctx.iv
        ∧ (assodata_loop L d n i ctx hw).2.2.1.load_len = ctx.load_len)
      ∧ ((assodata_loop L d n i ctx hw).2.2.2.cr = hw.cr
        ∧ (assodata_loop L d n i ctx hw).2.2.2.dev = hw.dev
        ∧ (assodata_loop L d n i ctx hw).2.2.2.window = hw.window
        ∧ cr_writes (assodata_loop L d n i ctx hw).2.2.2.log = cr_writes hw.log
        ∧ delays (assodata_loop L d n i ctx hw).2.2.2.log = delays hw.log
        ∧ doutr_reads (assodata_loop L d n i ctx hw).2.2.2.log = doutr_reads hw.log)
      ∧ ((assodata_loop L d n i ctx hw).1 = 0 →
        (assodata_loop L d n i ctx hw).2.1 = i + 16 * n
        ∧ (assodata_loop L d n i ctx hw).2.2.1.assoc_len % 2 ^ 32
            = (ctx.assoc_len + 128 * n) % 2 ^ 32
        ∧ cd_writes (assodata_loop L d n i ctx hw).2.2.2.log
            = cd_writes hw.log
              ++ (List.range (4 * n)).map (fun k => (Reg.DINR, load32 d (i / 4 + k)))) := by
  induction n with
  | zero =>
    intro i ctx hw _
    refine ⟨Or.inl rfl, ⟨rfl, rfl, rfl, rfl, rfl⟩, ⟨rfl, rfl, rfl, rfl, rfl, rfl⟩, ?_⟩
    intro _
    exact ⟨rfl, rfl, by simp [assodata_loop]⟩
  | succ n ih =>
    intro i ctx hw hi
    obtain ⟨w1, w2, w3, w5, w6, w7⟩ := write_block_spec ctx.base (load32 d) (i / 4) hw
    have w4 := cr_writes_write_block ctx.base (load32 d) (i / 4) hw
    obtain ⟨c1, c2⟩ := wait_cc_spec L ctx.base (write_block ctx.base (load32 d) (i / 4) hw)
    have c3 := engine_kept_of_reads_only c2
    have k4 := cr_writes_of_kept c3
    obtain ⟨k1, k2, k3, k5, k6, k7⟩ := c3
    simp only [assodata_loop]
    by_cases hc : (wait_computation_completed L ctx.base
        (write_block ctx.base (load32 d) (i / 4) hw)).1 ≠ 0
    · rw [if_pos hc]
      refine ⟨c1, ⟨rfl, rfl, rfl, rfl, rfl⟩,
        ⟨k1.trans w1, k2.trans w2, k3.trans w3, k4.trans w4, k7.trans w7, k6.trans w6⟩, ?_⟩
      intro h0
      exact absurd h0 hc
    · rw [if_neg hc]
      have ek := clear_cc_kept L ctx.base
        (wait_computation_completed L ctx.base (write_block ctx.base (load32 d) (i / 4) hw)).2
      have e4 := cr_writes_of_kept ek
      obtain ⟨e1, e2, e3, e5, e6, e7⟩ := ek
      have hB : AES_BLOCK_SIZE = 16 := rfl
      have hBB : AES_BLOCK_SIZE_BIT = 128 := rfl
      have hi' : (i + AES_BLOCK_SIZE) % 4 = 0 := by omega
      obtain ⟨a1, a2, a3, a5⟩ := ih (i + AES_BLOCK_SIZE)
        { ctx with assoc_len := (ctx.assoc_len + AES_BLOCK_SIZE_BIT) % 2 ^ 32 }
        (clear_computation_completed L ctx.base
          (wait_computation_completed L ctx.base
            (write_block ctx.base (load32 d) (i / 4) hw)).2) hi'
      refine ⟨a1, a2, ?_, ?_⟩
      · obtain ⟨b1, b2, b3, b4, b5, b6⟩ := a3
        refine ⟨?_, ?_, ?_, ?_, ?_, ?_⟩
        · rw [b1, e1, k1, w1]
        · rw [b2, e2, k2, w2]
        · rw [b3, e3, k3, w3]
        · rw [b4, e4, k4, w4]
        · rw [b5, e7, k7, w7]
        · rw [b6, e6, k6, w6]
      · intro h0
        obtain ⟨s1, s2, s3⟩ := a5 h0
        refine ⟨by rw [s1]; omega, ?_, ?_⟩
        · rw [s2]
          simp only [hBB]
          omega
        · rw [s3, e5, k5, w5, range_four_mul_succ]
          simp only [load32_mod, List.append_assoc, hB]
          congr 1
          have h44 : (i + 16) / 4 = i / 4 + 4 := by omega
          simp only [h44, Nat.add_zero, Nat.add_assoc, List.cons_append, List.nil_append]

theorem round_down_div (data_size : Nat) :
    round_down data_size AES_BLOCK_SIZE / AES_BLOCK_SIZE = data_size / 16 := by
  have h16 : AES_BLOCK_SIZE = 16 := rfl
  rw [h16]
  unfold round_down
  omega

theorem auth_out_spec (ret : Int) (ctx : stm32_saes_context) (hw : Hw) :
    (auth_out ret ctx hw).ret = ret ∧ (auth_out ret ctx hw).ctx = ctx
      ∧ (auth_out ret ctx hw).hw = if ret ≠ 0 then saes_end ctx ret hw else hw := by
  unfold auth_out
  split <;> simp [*]

theorem assodata_blocks_spec (L : Layout) (ctx : stm32_saes_context) (last_block : Bool)
    (d : Nat → Nat) (data_size : Nat) (hw4 : Hw) :
    ((assodata_blocks L ctx last_block d data_size hw4).ret = 0
        ∨ (assodata_blocks L ctx last_block d data_size hw4).ret = -ENODEV
        ∨ (assodata_blocks L ctx last_block d data_size hw4).ret = -ETIMEDOUT)
      ∧ ((assodata_blocks L ctx last_block d data_size hw4).ret ≠ -ETIMEDOUT →
        cd_writes (assodata_blocks L ctx last_block d data_size hw4).hw.log
            = cd_writes hw4.log
              ++ (List.range (4 * (data_size / 16))).map (fun k => (Reg.DINR, load32 d k))
              ++ (if (assodata_blocks L ctx last_block d data_size hw4).ret = 0 then []
                  else (saes_end_writes (assodata_blocks L ctx last_block d data_size hw4).ret
                    hw4.cr).map (fun v => (Reg.CR, v)))
        ∧ (assodata_blocks L ctx last_block d data_size hw4).ctx.assoc_len % 2 ^ 32
            = (ctx.assoc_len + 128 * (data_size / 16)) % 2 ^ 32
        ∧ (assodata_blocks L ctx last_block d data_size hw4).ctx.load_len = ctx.load_len
        ∧ (assodata_blocks L ctx last_block d data_size hw4).ctx.cr = ctx.cr
        ∧ (assodata_blocks L ctx last_block d data_size hw4).ctx.key = ctx.key
        ∧ (assodata_blocks L ctx last_block d data_size hw4).ctx.iv = ctx.iv
        ∧ (assodata_blocks L ctx last_block d data_size hw4).ret
            = if last_block = true ∧ data_size % 16 ≠ 0 then -ENODEV else 0) := by
  obtain ⟨l1, ⟨_, lcr, lkey, liv, lload⟩, ⟨lc1, _, _, _, _, _⟩, l5⟩ :=
    assodata_loop_spec L d (data_size / 16) 0 ctx hw4 rfl
  unfold assodata_blocks
  simp only [round_down_div]
  by_cases hl : (assodata_loop L d (data_size / 16) 0 ctx hw4).1 ≠ 0
  · rw [if_pos hl]
    have hT : (assodata_loop L d (data_size / 16) 0 ctx hw4).1 = -ETIMEDOUT := by
      rcases l1 with h | h
      · exact absurd h hl
      · exact h
    obtain ⟨o1, _, _⟩ := auth_out_spec (assodata_loop L d (data_size / 16) 0 ctx hw4).1
      (assodata_loop L d (data_size / 16) 0 ctx hw4).2.2.1
      (assodata_loop L d (data_size / 16) 0 ctx hw4).2.2.2
    refine ⟨Or.inr (Or.inr (o1.trans hT)), fun h => absurd (o1.trans hT) h⟩
  · rw [if_neg hl]
    simp only [ne_eq, not_not] at hl
    obtain ⟨s1, s2, s3⟩ := l5 hl
    have hi : (assodata_loop L d (data_size / 16) 0 ctx hw4).2.1 = 16 * (data_size / 16) := by
      rw [s1]; omega
    simp only [Nat.zero_div, Nat.zero_add] at s3
    by_cases hlast : last_block = true ∧ data_size % 16 ≠ 0
    · have hcond : (last_block
          && decide ((assodata_loop L d (data_size / 16) 0 ctx hw4).2.1 < data_size)) = true := by
        rw [hi, hlast.1]
        simp
        omega
      rw [if_pos hcond, if_pos hlast]
      obtain ⟨o1, o2, o3⟩ := auth_out_spec (-ENODEV)
        (assodata_loop L d (data_size / 16) 0 ctx hw4).2.2.1
        (assodata_loop L d (data_size / 16) 0 ctx hw4).2.2.2
      have hne : (-ENODEV : Int) ≠ 0 := by decide
      rw [if_pos hne] at o3
      obtain ⟨e1, _, _, _, _, _⟩ := saes_end_spec
        (assodata_loop L d (data_size / 16) 0 ctx hw4).2.2.1 (-ENODEV)
        (assodata_loop L d (data_size / 16) 0 ctx hw4).2.2.2
      refine ⟨Or.inr (Or.inl o1), fun _ => ⟨?_, ?_, ?_, ?_, ?_, ?_, o1⟩⟩
      · rw [o3, e1, s3, o1, if_neg hne, lc1]
      · rw [o2]; exact s2
      · rw [o2]; exact lload
      · rw [o2]; exact lcr
      · rw [o2]; exact lkey
      · rw [o2]; exact liv
    · have hcond : ¬ ((last_block
          && decide ((assodata_loop L d (data_size / 16) 0 ctx hw4).2.1 < data_size)) = true) := by
        rw [hi]
        intro h
        simp only [Bool.and_eq_true, decide_eq_true_eq] at h
        exact hlast ⟨h.1, by omega⟩
      rw [if_neg hcond, if_neg hlast]
      obtain ⟨o1, o2, o3⟩ := auth_out_spec 0
        (assodata_loop L d (data_size / 16) 0 ctx hw4).2.2.1
        (assodata_loop L d (data_size / 16) 0 ctx hw4).2.2.2
      rw [if_neg (by simp)] at o3
      refine ⟨Or.inl o1, fun _ => ⟨?_, ?_, ?_, ?_, ?_, ?_, o1⟩⟩
      · rw [o3, s3, o1, if_pos rfl, List.append_nil]
      · rw [o2]; exact s2
      · rw [o2]; exact lload
      · rw [o2]; exact lcr
      · rw [o2]; exact lkey
      · rw [o2]; exact liv

theorem assodata_loop_ready (L : Layout) (d : Nat → Nat) (n : Nat) :
    ∀ (i : Nat) (ctx : stm32_saes_context) (hw : Hw),
      (∀ log, (hw.dev log ctx.base Reg.ISR % 2 ^ 32) &&& _SAES_I_CCF L = _SAES_I_CCF L) →
      (assodata_loop L d n i ctx hw).1 = 0 := by
  induction n with
  | zero => intro i ctx hw _; rfl
  | succ n ih =>
    intro i ctx hw h
    obtain ⟨_, w2, _, _, _, _⟩ := write_block_spec ctx.base (load32 d) (i / 4) hw
    have hc := wait_cc_ready L ctx.base (write_block ctx.base (load32 d) (i / 4) hw)
      (by rw [w2]; exact h)
    obtain ⟨_, c2⟩ := wait_cc_spec L ctx.base (write_block ctx.base (load32 d) (i / 4) hw)
    obtain ⟨_, e2, _, _, _, _⟩ := clear_cc_kept L ctx.base
      (wait_computation_completed L ctx.base (write_block ctx.base (load32 d) (i / 4) hw)).2
    simp only [assodata_loop, hc, ne_eq, not_true_eq_false, if_false]
    apply ih
    intro log
    rw [e2, c2.2.1, w2]
    exact h log

theorem assodata_blocks_ready (L : Layout) (ctx : stm32_saes_context) (last_block : Bool)
    (d : Nat → Nat) (data_size : Nat) (hw4 : Hw)
    (h : ∀ log, (hw4.dev log ctx.base Reg.ISR % 2 ^ 32) &&& _SAES_I_CCF L = _SAES_I_CCF L) :
    (assodata_blocks L ctx last_block d data_size hw4).ret ≠ -ETIMEDOUT := by
  obtain ⟨b1, b2⟩ := assodata_blocks_spec L ctx last_block d data_size hw4
  have hl := assodata_loop_ready L d (round_down data_size AES_BLOCK_SIZE / AES_BLOCK_SIZE) 0
    ctx hw4 h
  have hN : (-ENODEV : Int) ≠ -ETIMEDOUT := by decide
  have h0 : (0 : Int) ≠ -ETIMEDOUT := by decide
  unfold assodata_blocks
  simp only [hl, ne_eq, not_true_eq_false, if_false]
  split
  · rw [(auth_out_spec _ _ _).1]; exact hN
  · rw [(auth_out_spec _ _ _).1]; exact h0

/-- C7: `stm32_saes_update_assodata` with non-empty data, after a successful
`restore_context`, returns 0, `-ENODEV` or `-ETIMEDOUT` (a completion poll
failed).  When no poll failed: the first two control-register writes after the
restore select the HEADER phase and then set the enable bit; next the words of
the first `16 * (data_size / 16)` bytes are written to the data-in register in
buffer order (followed, on the `-ENODEV` path only, by the writes of
`saes_end`); `assoc_len` has grown by `128 * (data_size / 16)` modulo `2 ^ 32`;
`load_len`, the control shadow, the key shadow and the IV shadow are unchanged;
the result is `-ENODEV` if `last_block` is set and `data_size` is not a
multiple of 16, and 0 otherwise.  A device that shows the completion flag at
every read of the interrupt status register makes no poll fail. -/
theorem C7_update_assodata_blocks (L : Layout) (ctx : stm32_saes_context) (last_block : Bool)
    (d : Nat → Nat) (data_size : Nat) (hw hw1 : Hw) (hds : data_size ≠ 0)
    (_hsize : data_size < 2 ^ 32) (hrest : restore_context L ctx hw = some (0, hw1)) :
    ∃ res, stm32_saes_update_assodata L ctx last_block (some d) data_size hw = some res
      ∧ (res.ret = 0 ∨ res.ret = -ENODEV ∨ res.ret = -ETIMEDOUT)
      ∧ (res.ret ≠ -ETIMEDOUT →
        clrsetbits32 (hw1.cr % 2 ^ 32) _SAES_CR_GCMPH_MASK
            (_SAES_CR_GCMPH_HEADER <<< _SAES_CR_GCMPH_SHIFT) &&& _SAES_CR_GCMPH_MASK
          = _SAES_CR_GCMPH_HEADER <<< _SAES_CR_GCMPH_SHIFT
        ∧ setbits32 (clrsetbits32 (hw1.cr % 2 ^ 32) _SAES_CR_GCMPH_MASK
            (_SAES_CR_GCMPH_HEADER <<< _SAES_CR_GCMPH_SHIFT)) _SAES_CR_EN &&& _SAES_CR_GCMPH_MASK
          = _SAES_CR_GCMPH_HEADER <<< _SAES_CR_GCMPH_SHIFT
        ∧ setbits32 (clrsetbits32 (hw1.cr % 2 ^ 32) _SAES_CR_GCMPH_MASK
            (_SAES_CR_GCMPH_HEADER <<< _SAES_CR_GCMPH_SHIFT)) _SAES_CR_EN &&& _SAES_CR_EN
          = _SAES_CR_EN
        ∧ cd_writes res.hw.log
          = cd_writes hw1.log
            ++ [(Reg.CR, clrsetbits32 (hw1.cr % 2 ^ 32) _SAES_CR_GCMPH_MASK
                  (_SAES_CR_GCMPH_HEADER <<< _SAES_CR_GCMPH_SHIFT)),
                (Reg.CR, setbits32 (clrsetbits32 (hw1.cr % 2 ^ 32) _SAES_CR_GCMPH_MASK
                  (_SAES_CR_GCMPH_HEADER <<< _SAES_CR_GCMPH_SHIFT)) _SAES_CR_EN)]
            ++ (List.range (4 * (data_size / 16))).map (fun k => (Reg.DINR, load32 d k))
            ++ (if res.ret = 0 then []
                else (saes_end_writes res.ret
                  (setbits32 (clrsetbits32 (hw1.cr % 2 ^ 32) _SAES_CR_GCMPH_MASK
                    (_SAES_CR_GCMPH_HEADER <<< _SAES_CR_GCMPH_SHIFT)) _SAES_CR_EN)).map
                  (fun v => (Reg.CR, v)))
        ∧ dinr_writes res.hw.log
          = dinr_writes hw1.log ++ (List.range (4 * (data_size / 16))).map (load32 d)
        ∧ res.ctx.assoc_len % 2 ^ 32 = (ctx.assoc_len + 128 * (data_size / 16)) % 2 ^ 32
        ∧ res.ctx.load_len = ctx.load_len
        ∧ res.ctx.cr = ctx.cr
        ∧ res.ctx.key = ctx.key
        ∧ res.ctx.iv = ctx.iv
        ∧ res.ret = if last_block = true ∧ data_size % 16 ≠ 0 then -ENODEV else 0)
      ∧ ((∀ log, (hw1.dev log ctx.base Reg.ISR % 2 ^ 32) &&& _SAES_I_CCF L = _SAES_I_CCF L) →
        res.ret ≠ -ETIMEDOUT) := by
  obtain ⟨c1, c2⟩ := wait_cc_spec L ctx.base hw1
  obtain ⟨k1, k2, k3, k5, k6, k7⟩ := engine_kept_of_reads_only c2
  obtain ⟨e1, e2, e3, e5, e6, e7⟩ :=
    clear_cc_kept L ctx.base (wait_computation_completed L ctx.base hw1).2
  unfold stm32_saes_update_assodata
  simp only [hrest, ne_eq, not_true_eq_false, if_false, hds]
  by_cases hc : (wait_computation_completed L ctx.base hw1).1 ≠ 0
  · have hT : (wait_computation_completed L ctx.base hw1).1 = -ETIMEDOUT := by
      rcases c1 with h | h
      · exact absurd h hc
      · exact h
    simp only [ne_eq] at hc
    simp only [hc, if_false, not_false_eq_true, if_true]
    refine ⟨_, rfl, Or.inr (Or.inr hT), fun h => absurd hT h, fun hdev => ?_⟩
    exact absurd (wait_cc_ready L ctx.base hw1 hdev) hc
  · simp only [ne_eq, not_not] at hc
    simp only [hc, not_true_eq_false, if_false]
    refine ⟨_, rfl, ?_⟩
    obtain ⟨h1, h2, h3, h4, h5, h6⟩ := clrsetbits_cr_spec ctx.base _SAES_CR_GCMPH_MASK
      (_SAES_CR_GCMPH_HEADER <<< _SAES_CR_GCMPH_SHIFT)
      (clear_computation_completed L ctx.base (wait_computation_completed L ctx.base hw1).2)
    obtain ⟨n1, n2, n3, n4, n5, n6⟩ := setbits_cr_spec ctx.base _SAES_CR_EN
      (mmio_clrsetbits_32 ctx.base Reg.CR _SAES_CR_GCMPH_MASK
        (_SAES_CR_GCMPH_HEADER <<< _SAES_CR_GCMPH_SHIFT)
        (clear_computation_completed L ctx.base (wait_computation_completed L ctx.base hw1).2))
    obtain ⟨b1, b2⟩ := assodata_blocks_spec L ctx last_block d data_size
      (mmio_setbits_32 ctx.base Reg.CR _SAES_CR_EN
        (mmio_clrsetbits_32 ctx.base Reg.CR _SAES_CR_GCMPH_MASK
          (_SAES_CR_GCMPH_HEADER <<< _SAES_CR_GCMPH_SHIFT)
          (clear_computation_completed L ctx.base (wait_computation_completed L ctx.base hw1).2)))
    refine ⟨b1, fun hne => ?_, fun hdev => ?_⟩
    swap
    · apply assodata_blocks_ready
      intro log
      rw [n2, h2, e2, k2]
      exact hdev log
    obtain ⟨t1, t2, t3, t4, t5, t6, t7⟩ := b2 hne
    have hcr : (clear_computation_completed L ctx.base
        (wait_computation_completed L ctx.base hw1).2).cr = hw1.cr := e1.trans k1
    have hcd : cd_writes (clear_computation_completed L ctx.base
        (wait_computation_completed L ctx.base hw1).2).log = cd_writes hw1.log := e5.trans k5
    rw [n4, h4, n1, h1, hcr, hcd, clrsetbits32_mod] at t1
    have hM : _SAES_CR_GCMPH_MASK < 2 ^ 32 := by decide
    have hE : _SAES_CR_EN < 2 ^ 32 := by decide
    have hF := clrsetbits32_field (hw1.cr % 2 ^ 32) _SAES_CR_GCMPH_MASK
      (_SAES_CR_GCMPH_HEADER <<< _SAES_CR_GCMPH_SHIFT) hM (by decide)
    refine ⟨hF, ?_, setbits32_self _ _ hE, ?_, ?_, t2, t3, t4, t5, t6, t7⟩
    · rw [setbits32_other _ _ _ hM (by decide)]
      exact hF
    · rw [t1]
      simp only [List.append_assoc, List.cons_append, List.nil_append]
    · rw [dinr_writes_of_cd, t1, dinr_writes_of_cd]
      simp only [List.filterMap_append, filterMap_dinr_map]
      have hz : ∀ l : List Nat, (l.map (fun v => (Reg.CR, v))).filterMap
          (fun p : Reg × Nat => if p.1 = Reg.DINR then some p.2 else none) = [] := by
        intro l
        induction l with
        | nil => rfl
        | cons a l ih => simp [ih]
      split
      · simp
      · rw [hz]
        simp

theorem C7_update_assodata_blocks_witness :
    (32 ≠ 0 ∧ 32 < 2 ^ 32
        ∧ restore_context Layout.CRYP2 ctx_gcm hw_ready = some (0, hw_gcm_restored))
      ∧ ∃ res, stm32_saes_update_assodata Layout.CRYP2 ctx_gcm true (some buf_count) 32 hw_ready
          = some res
        ∧ res.ret = 0 ∧ res.ctx.assoc_len % 2 ^ 32 = 256 := by
  have hr : restore_context Layout.CRYP2 ctx_gcm hw_ready = some (0, hw_gcm_restored) := rfl
  refine ⟨⟨by decide, by decide, hr⟩, ?_⟩
  obtain ⟨res, h1, _, h3, _⟩ := C7_update_assodata_blocks Layout.CRYP2 ctx_gcm true buf_count 32
    hw_ready hw_gcm_restored (by decide) (by decide) hr
  have h0 : (stm32_saes_update_assodata Layout.CRYP2 ctx_gcm true (some buf_count) 32
      hw_ready).map CtxResult.ret = some 0 := by decide
  rw [h1] at h0
  have hret : res.ret = 0 := by simpa using h0
  have hne : res.ret ≠ -ETIMEDOUT := by rw [hret]; decide
  exact ⟨res, h1, hret, (h3 hne).2.2.2.2.2.1⟩

/-! ## Plain streaming update: the block loop -/

/-- The block loop of `stm32_saes_update` drives the engine like the one of
`stm32_saes_update_load`; only the counter of the latter is missing. -/
theorem update_loop_eq_load_loop (L : Layout) (d : Nat → Nat) (n : Nat) :
    ∀ (i : Nat) (ctx : stm32_saes_context) (out : Nat → Nat) (hw : Hw),
      update_loop L ctx.base d n i out hw
        = ((load_loop L d n i ctx out hw).ret, (load_loop L d n i ctx out hw).i,
            (load_loop L d n i ctx out hw).out, (load_loop L d n i ctx out hw).hw) := by
  induction n with
  | zero => intro i ctx out hw; rfl
  | succ n ih =>
    intro i ctx out hw
    simp only [update_loop, load_loop]
    split
    · rfl
    · exact ih (i + AES_BLOCK_SIZE)
        { ctx with load_len := (ctx.load_len + AES_BLOCK_SIZE_BIT) % 2 ^ 32 } _ _

theorem update_loop_spec (L : Layout) (base : Nat) (d : Nat → Nat) (n : Nat) (out : Nat → Nat)
    (hw : Hw) :
    ((update_loop L base d n 0 out hw).1 = 0 ∨ (update_loop L base d n 0 out hw).1 = -ETIMEDOUT)
      ∧ (update_loop L base d n 0 out hw).2.2.2.cr = hw.cr
      ∧ (∀ j, 16 * n ≤ j → (update_loop L base d n 0 out hw).2.2.1 j = out j)
      ∧ ((update_loop L base d n 0 out hw).1 = 0 →
        (update_loop L base d n 0 out hw).2.1 = 16 * n
        ∧ cd_writes (update_loop L base d n 0 out hw).2.2.2.log
            = cd_writes hw.log ++ (List.range (4 * n)).map (fun k => (Reg.DINR, load32 d k))
        ∧ ∃ R, doutr_reads (update_loop L base d n 0 out hw).2.2.2.log = doutr_reads hw.log ++ R
          ∧ R.length = 4 * n
          ∧ ∀ j, j < 16 * n →
            (update_loop L base d n 0 out hw).2.2.1 j = byte_of (R.getD (j / 4) 0) (j % 4)) := by
  have he := update_loop_eq_load_loop L d n 0
    { base := base, cr := 0, assoc_len := 0, load_len := 0, key := fun _ => 0, iv := fun _ => 0 }
    out hw
  simp only at he
  obtain ⟨l1, _, ⟨lc, _, _, _, _⟩, l4, l5⟩ := load_loop_spec L d n 0
    { base := base, cr := 0, assoc_len := 0, load_len := 0, key := fun _ => 0, iv := fun _ => 0 }
    out hw rfl
  rw [he]
  refine ⟨l1, lc, fun j hj => l4 j (Or.inr (by omega)), fun h0 => ?_⟩
  obtain ⟨s1, _, s3, R, s4, s5, s6⟩ := l5 h0
  simp only [Nat.zero_div, Nat.zero_add] at s3 s1
  refine ⟨s1, s3, R, s4, s5, fun j hj => ?_⟩
  have := s6 j (by omega) (by omega)
  simpa using this

/-- On a device that shows the completion flag at every read of the interrupt
status register no poll of the block loop of `stm32_saes_update` fails. -/
theorem update_loop_ready (L : Layout) (base : Nat) (d : Nat → Nat) (n i : Nat)
    (out : Nat → Nat) (hw : Hw)
    (h : ∀ log, (hw.dev log base Reg.ISR % 2 ^ 32) &&& _SAES_I_CCF L = _SAES_I_CCF L) :
    (update_loop L base d n i out hw).1 = 0 := by
  have he := update_loop_eq_load_loop L d n i
    { base := base, cr := 0, assoc_len := 0, load_len := 0, key := fun _ => 0, iv := fun _ => 0 }
    out hw
  simp only at he
  rw [he]
  exact load_loop_ready L d n i
    { base := base, cr := 0, assoc_len := 0, load_len := 0, key := fun _ => 0, iv := fun _ => 0 }
    out hw h

theorem update_final_cbc_enc (L : Layout) (ctx : stm32_saes_context)
    (data_in data_out : Nat → Nat) (data_size : Nat) (hw : Hw) (hna : data_size % 16 ≠ 0)
    (hcbc : IS_CHAINING_MODE L STM32_SAES_MODE_CBC ctx.cr = true ∧ is_encrypt ctx.cr = true) :
    stm32_saes_update L ctx true data_in data_out data_size hw
      = some (update_out true (if data_size < 32 then -EINVAL else -ENODEV) 0 ctx data_out hw) := by
  have h1 := (round_down_ne data_size).2 hna
  have h32 : AES_BLOCK_SIZE * 2 = 32 := rfl
  unfold stm32_saes_update
  simp only [h32, hcbc.1, hcbc.2, h1]
  by_cases h : data_size < 32 <;> simp [h, h1]

theorem update_final_other (L : Layout) (ctx : stm32_saes_context)
    (data_in data_out : Nat → Nat) (data_size : Nat) (hw : Hw) (hna : data_size % 16 ≠ 0)
    (hcbc : ¬ (IS_CHAINING_MODE L STM32_SAES_MODE_CBC ctx.cr = true ∧ is_encrypt ctx.cr = true)) :
    stm32_saes_update L ctx true data_in data_out data_size hw
      = match restore_context L ctx hw with
        | none => none
        | some r =>
          if r.1 ≠ 0 then some (update_out true r.1 0 ctx data_out r.2)
          else if (update_loop L ctx.base data_in (data_size / 16) 0 data_out r.2).1 ≠ 0 then
            some (update_out true (update_loop L ctx.base data_in (data_size / 16) 0 data_out r.2).1
              (update_loop L ctx.base data_in (data_size / 16) 0 data_out r.2).2.1 ctx
              (update_loop L ctx.base data_in (data_size / 16) 0 data_out r.2).2.2.1
              (update_loop L ctx.base data_in (data_size / 16) 0 data_out r.2).2.2.2)
          else
            some (update_out true (-ENODEV)
              (update_loop L ctx.base data_in (data_size / 16) 0 data_out r.2).2.1 ctx
              (update_loop L ctx.base data_in (data_size / 16) 0 data_out r.2).2.2.1
              (update_loop L ctx.base data_in (data_size / 16) 0 data_out r.2).2.2.2) := by
  have h1 := (round_down_ne data_size).2 hna
  have hc : (true && IS_CHAINING_MODE L STM32_SAES_MODE_CBC ctx.cr && is_encrypt ctx.cr
      && decide (round_down data_size AES_BLOCK_SIZE ≠ data_size)) = false := by
    cases h2 : IS_CHAINING_MODE L STM32_SAES_MODE_CBC ctx.cr
    · simp
    · cases h3 : is_encrypt ctx.cr
      · simp
      · exact absurd ⟨h2, h3⟩ hcbc
  unfold stm32_saes_update
  simp only [hc, round_down_div]
  cases hr : restore_context L ctx hw with
  | none => simp
  | some r =>
    simp only [Bool.not_true, Bool.false_and, Bool.false_eq_true, if_false]
    by_cases h0 : r.1 ≠ 0
    · simp only [if_pos h0]
    · simp only [if_neg h0]
      obtain ⟨l1, _, _, l5⟩ := update_loop_spec L ctx.base data_in (data_size / 16) data_out r.2
      by_cases hl : (update_loop L ctx.base data_in (data_size / 16) 0 data_out r.2).1 ≠ 0
      · simp only [if_pos hl]
      · simp only [if_neg hl]
        simp only [ne_eq, not_not] at hl
        have hi := (l5 hl).1
        have hlt : (true && decide ((update_loop L ctx.base data_in (data_size / 16) 0 data_out
            r.2).2.1 < data_size)) = true := by
          rw [hi]
          simp
          omega
        rw [if_pos hlt]

/-! ## Finalization -/

@[simp] theorem setbits32_mod_lit (v s : Nat) : setbits32 v s % 4294967296 = setbits32 v s :=
  setbits32_mod v s

@[simp] theorem clrbits32_mod_lit (v s : Nat) : clrbits32 v s % 4294967296 = clrbits32 v s :=
  clrbits32_mod v s

@[simp] theorem clrsetbits32_mod_lit (v m s : Nat) :
    clrsetbits32 v m s % 4294967296 = clrsetbits32 v m s :=
  clrsetbits32_mod v m s

theorem final_length_block_spec (ctx : stm32_saes_context) (hw : Hw) :
    (final_length_block ctx hw).cr
        = (if (hw.cr % 2 ^ 32) &&& _SAES_CR_GCMPH_MASK
              = _SAES_CR_GCMPH_INIT <<< _SAES_CR_GCMPH_SHIFT then
            setbits32 (clrsetbits32 (hw.cr % 2 ^ 32) _SAES_CR_GCMPH_MASK
              (_SAES_CR_GCMPH_FINAL <<< _SAES_CR_GCMPH_SHIFT)) _SAES_CR_EN
          else clrsetbits32 (hw.cr % 2 ^ 32) _SAES_CR_GCMPH_MASK
              (_SAES_CR_GCMPH_FINAL <<< _SAES_CR_GCMPH_SHIFT))
      ∧ cd_writes (final_length_block ctx hw).log
        = cd_writes hw.log
          ++ [(Reg.CR, clrsetbits32 (hw.cr % 2 ^ 32) _SAES_CR_GCMPH_MASK
                (_SAES_CR_GCMPH_FINAL <<< _SAES_CR_GCMPH_SHIFT))]
          ++ (if (hw.cr % 2 ^ 32) &&& _SAES_CR_GCMPH_MASK
                = _SAES_CR_GCMPH_INIT <<< _SAES_CR_GCMPH_SHIFT then
              [(Reg.CR, setbits32 (clrsetbits32 (hw.cr % 2 ^ 32) _SAES_CR_GCMPH_MASK
                (_SAES_CR_GCMPH_FINAL <<< _SAES_CR_GCMPH_SHIFT)) _SAES_CR_EN)]
            else [])
          ++ [(Reg.DINR, 0), (Reg.DINR, ctx.assoc_len % 2 ^ 32), (Reg.DINR, 0),
              (Reg.DINR, ctx.load_len % 2 ^ 32)]
      ∧ doutr_reads (final_length_block ctx hw).log = doutr_reads hw.log
      ∧ delays (final_length_block ctx hw).log = delays hw.log
      ∧ (final_length_block ctx hw).dev = hw.dev
      ∧ (final_length_block ctx hw).window = hw.window := by
  unfold final_length_block
  by_cases h : (hw.cr % 2 ^ 32) &&& _SAES_CR_GCMPH_MASK
      = _SAES_CR_GCMPH_INIT <<< _SAES_CR_GCMPH_SHIFT
  · have h' : (mmio_read_32 ctx.base Reg.CR hw).1 &&& _SAES_CR_GCMPH_MASK
        = _SAES_CR_GCMPH_INIT <<< _SAES_CR_GCMPH_SHIFT := by
      simpa [mmio_read_32] using h
    simp only [h', if_true, h]
    refine ⟨?_, ?_, ?_, ?_, ?_, ?_⟩ <;>
      simp [mmio_setbits_32, mmio_clrsetbits_32, mmio_write_32, mmio_read_32, cd_writes,
        reg_writes, doutr_reads, delays]
  · have h' : ¬ ((mmio_read_32 ctx.base Reg.CR hw).1 &&& _SAES_CR_GCMPH_MASK
        = _SAES_CR_GCMPH_INIT <<< _SAES_CR_GCMPH_SHIFT) := by
      simpa [mmio_read_32] using h
    simp only [h', if_false, h]
    refine ⟨?_, ?_, ?_, ?_, ?_, ?_⟩ <;>
      simp [mmio_setbits_32, mmio_clrsetbits_32, mmio_write_32, mmio_read_32, cd_writes,
        reg_writes, doutr_reads, delays]

theorem final_spec (L : Layout) (ctx : stm32_saes_context) (tag : Nat → Nat) (tag_size : Nat)
    (hw : Hw) :
    ((stm32_saes_final L ctx tag tag_size hw).ret = 0
        ∨ (stm32_saes_final L ctx tag tag_size hw).ret = -ETIMEDOUT)
      ∧ cd_writes (stm32_saes_final L ctx tag tag_size hw).hw.log
        = cd_writes (final_length_block ctx hw).log
          ++ (saes_end_writes (stm32_saes_final L ctx tag tag_size hw).ret
              (final_length_block ctx hw).cr).map (fun v => (Reg.CR, v))
      ∧ (stm32_saes_final L ctx tag tag_size hw).hw.cr &&& _SAES_CR_EN = 0
      ∧ delays (stm32_saes_final L ctx tag tag_size hw).hw.log
        = delays hw.log + (if (stm32_saes_final L ctx tag tag_size hw).ret ≠ 0 then 1 else 0)
      ∧ (∃ hX, (stm32_saes_final L ctx tag tag_size hw).hw
            = saes_end ctx (stm32_saes_final L ctx tag tag_size hw).ret hX
          ∧ delays hX.log = delays hw.log)
      ∧ ((stm32_saes_final L ctx tag tag_size hw).ret ≠ 0 →
        (stm32_saes_final L ctx tag tag_size hw).tag = tag
        ∧ doutr_reads (stm32_saes_final L ctx tag tag_size hw).hw.log = doutr_reads hw.log)
      ∧ ((stm32_saes_final L ctx tag tag_size hw).ret = 0 →
        ∃ v0 v1 v2 v3,
          doutr_reads (stm32_saes_final L ctx tag tag_size hw).hw.log
            = doutr_reads hw.log ++ [v0, v1, v2, v3]
          ∧ (∀ j, j < MIN 16 tag_size →
            (stm32_saes_final L ctx tag tag_size hw).tag j
              = byte_of ([v0, v1, v2, v3].getD (j / 4) 0) (j % 4))
          ∧ (∀ j, MIN 16 tag_size ≤ j → (stm32_saes_final L ctx tag tag_size hw).tag j = tag j)) := by
  obtain ⟨f1, f2, f3, f4, f5, f6⟩ := final_length_block_spec ctx hw
  obtain ⟨c1, c2⟩ := wait_cc_spec L ctx.base (final_length_block ctx hw)
  obtain ⟨k1, k2, k3, k5, k6, k7⟩ := engine_kept_of_reads_only c2
  unfold stm32_saes_final
  simp only
  by_cases hc : (wait_computation_completed L ctx.base (final_length_block ctx hw)).1 ≠ 0
  · have hT : (wait_computation_completed L ctx.base (final_length_block ctx hw)).1
        = -ETIMEDOUT := by
      rcases c1 with h | h
      · exact absurd h hc
      · exact h
    rw [if_pos hc]
    obtain ⟨e1, e2, e3, e4, _, _⟩ := saes_end_spec ctx
      (wait_computation_completed L ctx.base (final_length_block ctx hw)).1
      (wait_computation_completed L ctx.base (final_length_block ctx hw)).2
    refine ⟨Or.inr hT, ?_, e2, ?_, ⟨_, rfl, k7.trans f4⟩, fun _ => ⟨rfl, ?_⟩,
      fun h0 => absurd h0 hc⟩
    · rw [e1, k5, k1]
    · rw [e4, k7, f4]
    · rw [e3, k6, f3]
  · rw [if_neg hc]
    obtain ⟨v0, v1, v2, v3, r1, r2, r3, r4, r5, r6, r7⟩ := read_block_spec ctx.base
      (fun _ => 0) 0 (wait_computation_completed L ctx.base (final_length_block ctx hw)).2
    obtain ⟨q1, q2, q3, q5, q6, q7⟩ := clear_cc_kept L ctx.base
      (read_block ctx.base (fun _ => 0) 0
        (wait_computation_completed L ctx.base (final_length_block ctx hw)).2).2
    obtain ⟨e1, e2, e3, e4, _, _⟩ := saes_end_spec ctx 0
      (clear_computation_completed L ctx.base
        (read_block ctx.base (fun _ => 0) 0
          (wait_computation_completed L ctx.base (final_length_block ctx hw)).2).2)
    refine ⟨Or.inl rfl, ?_, e2, ?_, ⟨_, rfl, ?_⟩, fun h => absurd rfl h,
      fun _ => ⟨v0, v1, v2, v3, ?_, ?_, ?_⟩⟩
    · rw [e1, q5, q1, r3, k1]
      simp only [cd_writes, r6]
      have := k5
      simp only [cd_writes] at this
      rw [this]
    · rw [e4, q7, r7, k7, f4]
    · rw [q7, r7, k7, f4]
    · rw [e3, q6, r2, k6, f3]
    · intro j hj
      have h16 : j < 16 := by
        unfold MIN at hj
        split at hj <;> omega
      simp only [memcpy_out]
      rw [if_pos ⟨Nat.zero_le _, by omega⟩, r1, store32_block, if_pos (by omega),
        Nat.mod_eq_of_lt (byte_of_lt _ _)]
      simp
    · intro j hj
      simp only [memcpy_out]
      rw [if_neg (by omega)]

/-- C8: `stm32_saes_final` first writes the control register with the phase
field set to FINAL, then, if and only if the phase field read on entry was
INIT, writes it again with the enable bit set, and then writes exactly four
words to the data-in register, in this order: 0, `assoc_len`, 0, `load_len`.
The only later writes to the control or data-in register are those of
`saes_end`, which go to the control register.  This holds for every context
and every hardware state. -/
theorem C8_final_length_block (L : Layout) (ctx : stm32_saes_context) (tag : Nat → Nat)
    (tag_size : Nat) (hw : Hw) :
    clrsetbits32 (hw.cr % 2 ^ 32) _SAES_CR_GCMPH_MASK
          (_SAES_CR_GCMPH_FINAL <<< _SAES_CR_GCMPH_SHIFT) &&& _SAES_CR_GCMPH_MASK
        = _SAES_CR_GCMPH_FINAL <<< _SAES_CR_GCMPH_SHIFT
      ∧ setbits32 (clrsetbits32 (hw.cr % 2 ^ 32) _SAES_CR_GCMPH_MASK
          (_SAES_CR_GCMPH_FINAL <<< _SAES_CR_GCMPH_SHIFT)) _SAES_CR_EN &&& _SAES_CR_EN
        = _SAES_CR_EN
      ∧ setbits32 (clrsetbits32 (hw.cr % 2 ^ 32) _SAES_CR_GCMPH_MASK
          (_SAES_CR_GCMPH_FINAL <<< _SAES_CR_GCMPH_SHIFT)) _SAES_CR_EN &&& _SAES_CR_GCMPH_MASK
        = _SAES_CR_GCMPH_FINAL <<< _SAES_CR_GCMPH_SHIFT
      ∧ cd_writes (stm32_saes_final L ctx tag tag_size hw).hw.log
        = cd_writes hw.log
          ++ [(Reg.CR, clrsetbits32 (hw.cr % 2 ^ 32) _SAES_CR_GCMPH_MASK
                (_SAES_CR_GCMPH_FINAL <<< _SAES_CR_GCMPH_SHIFT))]
          ++ (if (hw.cr % 2 ^ 32) &&& _SAES_CR_GCMPH_MASK
                = _SAES_CR_GCMPH_INIT <<< _SAES_CR_GCMPH_SHIFT then
              [(Reg.CR, setbits32 (clrsetbits32 (hw.cr % 2 ^ 32) _SAES_CR_GCMPH_MASK
                (_SAES_CR_GCMPH_FINAL <<< _SAES_CR_GCMPH_SHIFT)) _SAES_CR_EN)]
            else [])
          ++ [(Reg.DINR, 0), (Reg.DINR, ctx.assoc_len % 2 ^ 32), (Reg.DINR, 0),
              (Reg.DINR, ctx.load_len % 2 ^ 32)]
          ++ (saes_end_writes (stm32_saes_final L ctx tag tag_size hw).ret
              (final_length_block ctx hw).cr).map (fun v => (Reg.CR, v))
      ∧ dinr_writes (stm32_saes_final L ctx tag tag_size hw).hw.log
        = dinr_writes hw.log ++ [0, ctx.assoc_len % 2 ^ 32, 0, ctx.load_len % 2 ^ 32]
      ∧ (ctx.assoc_len < 2 ^ 32 → ctx.load_len < 2 ^ 32 →
        dinr_writes (stm32_saes_final L ctx tag tag_size hw).hw.log
          = dinr_writes hw.log ++ [0, ctx.assoc_len, 0, ctx.load_len]) := by
  have hM : _SAES_CR_GCMPH_MASK < 2 ^ 32 := by decide
  have hE : _SAES_CR_EN < 2 ^ 32 := by decide
  have hF := clrsetbits32_field (hw.cr % 2 ^ 32) _SAES_CR_GCMPH_MASK
    (_SAES_CR_GCMPH_FINAL <<< _SAES_CR_GCMPH_SHIFT) hM (by decide)
  obtain ⟨_, f2, _, _, _, _⟩ := final_length_block_spec ctx hw
  obtain ⟨_, s2, _, _, _, _, _⟩ := final_spec L ctx tag tag_size hw
  have hz : ∀ l : List Nat, (l.map (fun v => (Reg.CR, v))).filterMap
      (fun p : Reg × Nat => if p.1 = Reg.DINR then some p.2 else none) = [] := by
    intro l
    induction l with
    | nil => rfl
    | cons a l ih => simp [ih]
  have hd : dinr_writes (stm32_saes_final L ctx tag tag_size hw).hw.log
      = dinr_writes hw.log ++ [0, ctx.assoc_len % 2 ^ 32, 0, ctx.load_len % 2 ^ 32] := by
    rw [dinr_writes_of_cd, s2, f2, dinr_writes_of_cd]
    simp only [List.filterMap_append, hz]
    split <;> simp
  refine ⟨hF, setbits32_self _ _ hE, ?_, ?_, hd, ?_⟩
  · rw [setbits32_other _ _ _ hM (by decide)]
    exact hF
  · rw [s2, f2]
  · intro ha hl
    rw [hd, Nat.mod_eq_of_lt ha, Nat.mod_eq_of_lt hl]

theorem C8_final_length_block_witness :
    (ctx_gcm_lens.assoc_len < 2 ^ 32 ∧ ctx_gcm_lens.load_len < 2 ^ 32)
      ∧ dinr_writes (stm32_saes_final Layout.CRYP2 ctx_gcm_lens (fun _ => 0) 16 hw_ready).hw.log
        = [0, 128, 0, 160] :=
  ⟨⟨by decide, by decide⟩,
    (C8_final_length_block Layout.CRYP2 ctx_gcm_lens (fun _ => 0) 16 hw_ready).2.2.2.2.2
      (by decide) (by decide)⟩

/-- C9: `stm32_saes_final` returns the result of its completion poll, which is
0 or `-ETIMEDOUT`; a device that shows the completion flag at every read of the
interrupt status register makes the poll succeed.  When the completion poll
succeeds it reads four words from the data-out register and copies the
first `MIN(16, tag_size)` bytes of their memory image, in read order, to the
tag buffer; tag bytes at higher offsets are unchanged, and nothing is written
when `tag_size` is 0.  When the poll times out the tag buffer is unchanged and
no data is read.  In both outcomes the last thing done is `saes_end`: after
the length block the control register is written by the reset pulse (set
`IPRST`, `udelay`, clear `IPRST`) exactly when the result is an error, and
then with the enable bit cleared; the enable bit is clear on return. -/
theorem C9_final_tag_and_cleanup (L : Layout) (ctx : stm32_saes_context) (tag : Nat → Nat)
    (tag_size : Nat) (hw : Hw) :
    ((stm32_saes_final L ctx tag tag_size hw).ret = 0
        ∨ (stm32_saes_final L ctx tag tag_size hw).ret = -ETIMEDOUT)
      ∧ ((stm32_saes_final L ctx tag tag_size hw).ret = 0 →
        ∃ v0 v1 v2 v3,
          doutr_reads (stm32_saes_final L ctx tag tag_size hw).hw.log
            = doutr_reads hw.log ++ [v0, v1, v2, v3]
          ∧ (∀ j, j < MIN 16 tag_size →
            (stm32_saes_final L ctx tag tag_size hw).tag j
              = byte_of ([v0, v1, v2, v3].getD (j / 4) 0) (j % 4))
          ∧ (∀ j, MIN 16 tag_size ≤ j → (stm32_saes_final L ctx tag tag_size hw).tag j = tag j))
      ∧ (tag_size = 0 → (stm32_saes_final L ctx tag tag_size hw).tag = tag)
      ∧ ((stm32_saes_final L ctx tag tag_size hw).ret = -ETIMEDOUT →
        (stm32_saes_final L ctx tag tag_size hw).tag = tag
        ∧ doutr_reads (stm32_saes_final L ctx tag tag_size hw).hw.log = doutr_reads hw.log)
      ∧ (∃ hX, (stm32_saes_final L ctx tag tag_size hw).hw
            = saes_end ctx (stm32_saes_final L ctx tag tag_size hw).ret hX
          ∧ delays hX.log = delays hw.log)
      ∧ (stm32_saes_final L ctx tag tag_size hw).hw.cr &&& _SAES_CR_EN = 0
      ∧ cd_writes (stm32_saes_final L ctx tag tag_size hw).hw.log
        = cd_writes (final_length_block ctx hw).log
          ++ (if (stm32_saes_final L ctx tag tag_size hw).ret ≠ 0 then
              [(Reg.CR, setbits32 ((final_length_block ctx hw).cr % 2 ^ 32) _SAES_CR_IPRST),
               (Reg.CR, clrbits32 (setbits32 ((final_length_block ctx hw).cr % 2 ^ 32)
                  _SAES_CR_IPRST) _SAES_CR_IPRST),
               (Reg.CR, clrbits32 (clrbits32 (setbits32 ((final_length_block ctx hw).cr % 2 ^ 32)
                  _SAES_CR_IPRST) _SAES_CR_IPRST) _SAES_CR_EN)]
            else [(Reg.CR, clrbits32 ((final_length_block ctx hw).cr % 2 ^ 32) _SAES_CR_EN)])
      ∧ setbits32 ((final_length_block ctx hw).cr % 2 ^ 32) _SAES_CR_IPRST &&& _SAES_CR_IPRST
        = _SAES_CR_IPRST
      ∧ clrbits32 (setbits32 ((final_length_block ctx hw).cr % 2 ^ 32) _SAES_CR_IPRST)
          _SAES_CR_IPRST &&& _SAES_CR_IPRST = 0
      ∧ delays (stm32_saes_final L ctx tag tag_size hw).hw.log
        = delays hw.log + (if (stm32_saes_final L ctx tag tag_size hw).ret ≠ 0 then 1 else 0)
      ∧ (stm32_saes_final L ctx tag tag_size hw).ret
        = (wait_computation_completed L ctx.base (final_length_block ctx hw)).1
      ∧ ((∀ log, (hw.dev log ctx.base Reg.ISR % 2 ^ 32) &&& _SAES_I_CCF L = _SAES_I_CCF L) →
        (stm32_saes_final L ctx tag tag_size hw).ret = 0) := by
  obtain ⟨s1, s2, s3, s4, s5, s6, s7⟩ := final_spec L ctx tag tag_size hw
  have hI : _SAES_CR_IPRST < 2 ^ 32 := by decide
  have hTne : (-ETIMEDOUT : Int) ≠ 0 := by decide
  have hpoll : (stm32_saes_final L ctx tag tag_size hw).ret
      = (wait_computation_completed L ctx.base (final_length_block ctx hw)).1 := by
    unfold stm32_saes_final
    simp only
    by_cases hc : (wait_computation_completed L ctx.base (final_length_block ctx hw)).1 ≠ 0
    · rw [if_pos hc]
    · rw [if_neg hc]
      exact (not_not.mp hc).symm
  have hready : (∀ log, (hw.dev log ctx.base Reg.ISR % 2 ^ 32) &&& _SAES_I_CCF L
      = _SAES_I_CCF L) → (stm32_saes_final L ctx tag tag_size hw).ret = 0 := by
    intro h
    rw [hpoll]
    exact wait_cc_ready L ctx.base (final_length_block ctx hw)
      (by rw [(final_length_block_spec ctx hw).2.2.2.2.1]; exact h)
  refine ⟨s1, s7, ?_, ?_, s5, s3, ?_, setbits32_self _ _ hI, clrbits32_self _ _ hI, s4,
    hpoll, hready⟩
  · intro h0
    rcases s1 with h | h
    · obtain ⟨v0, v1, v2, v3, _, _, t3⟩ := s7 h
      funext j
      exact t3 j (by subst h0; simp [MIN])
    · exact (s6 (by rw [h]; exact hTne)).1
  · intro h
    exact s6 (by rw [h]; exact hTne)
  · rw [s2]
    unfold saes_end_writes
    split <;> simp

theorem C9_final_tag_and_cleanup_witness :
    ((stm32_saes_final Layout.CRYP2 ctx_gcm_lens (fun _ => 0xAA) 12 hw_ready).ret = 0
        ∧ doutr_reads (stm32_saes_final Layout.CRYP2 ctx_gcm_lens (fun _ => 0xAA) 12 hw_ready).hw.log
          = [0xFFFFFFFF, 0xFFFFFFFF, 0xFFFFFFFF, 0xFFFFFFFF]
        ∧ (∀ j, j < 12 →
          (stm32_saes_final Layout.CRYP2 ctx_gcm_lens (fun _ => 0xAA) 12 hw_ready).tag j = 0xFF)
        ∧ (∀ j, 12 ≤ j →
          (stm32_saes_final Layout.CRYP2 ctx_gcm_lens (fun _ => 0xAA) 12 hw_ready).tag j = 0xAA)
        ∧ delays (stm32_saes_final Layout.CRYP2 ctx_gcm_lens (fun _ => 0xAA) 12 hw_ready).hw.log
          = 0)
      ∧ (stm32_saes_final Layout.CRYP2 ctx_gcm_lens (fun _ => 0) 0 hw_silent).ret = -ETIMEDOUT
      ∧ (stm32_saes_final Layout.CRYP2 ctx_gcm_lens (fun _ => 0) 0 hw_silent).tag = (fun _ => 0)
      ∧ (stm32_saes_final Layout.CRYP2 ctx_gcm_lens (fun _ => 0) 0 hw_silent).hw.cr
          &&& _SAES_CR_EN = 0 := by
  have hrdy : ∀ log : List Ev, (hw_ready.dev log ctx_gcm_lens.base Reg.ISR % 2 ^ 32)
      &&& _SAES_I_CCF Layout.CRYP2 = _SAES_I_CCF Layout.CRYP2 := by
    intro log
    show (0xFFFFFFFF % 2 ^ 32) &&& _SAES_I_CCF Layout.CRYP2 = _SAES_I_CCF Layout.CRYP2
    decide
  have hc := C9_final_tag_and_cleanup Layout.CRYP2 ctx_gcm_lens (fun _ => 0xAA) 12 hw_ready
  have h0 : (stm32_saes_final Layout.CRYP2 ctx_gcm_lens (fun _ => 0xAA) 12 hw_ready).ret = 0 :=
    hc.2.2.2.2.2.2.2.2.2.2.2 hrdy
  obtain ⟨v0, v1, v2, v3, t1, t2, t3⟩ := hc.2.1 h0
  have hreads : [v0, v1, v2, v3] = [0xFFFFFFFF, 0xFFFFFFFF, 0xFFFFFFFF, 0xFFFFFFFF] := by
    have hd : doutr_reads (stm32_saes_final Layout.CRYP2 ctx_gcm_lens (fun _ => 0xAA) 12
        hw_ready).hw.log = [0xFFFFFFFF, 0xFFFFFFFF, 0xFFFFFFFF, 0xFFFFFFFF] := by decide
    rw [t1] at hd
    exact hd
  have hd0 : delays (stm32_saes_final Layout.CRYP2 ctx_gcm_lens (fun _ => 0xAA) 12
      hw_ready).hw.log = 0 := by
    rw [hc.2.2.2.2.2.2.2.2.2.1, if_neg (fun hne => hne h0)]
    rfl
  refine ⟨⟨h0, by rw [t1, hreads]; rfl, fun j hj => ?_, fun j hj => ?_, hd0⟩, by decide,
    (C9_final_tag_and_cleanup Layout.CRYP2 ctx_gcm_lens (fun _ => 0) 0 hw_silent).2.2.1 rfl,
    (C9_final_tag_and_cleanup Layout.CRYP2 ctx_gcm_lens (fun _ => 0) 0 hw_silent).2.2.2.2.2.1⟩
  · rw [t2 j (by simpa [MIN] using hj), hreads]
    have h3 : j / 4 < 3 := by omega
    have h4 : j % 4 < 4 := Nat.mod_lt _ (by decide)
    interval_cases hq : j / 4 <;> interval_cases hr : j % 4 <;> rfl
  · exact t3 j (by simpa [MIN] using hj)

/-! ## Context save -/

theorem save_context_busy (L : Layout) (ctx : stm32_saes_context) (hw : Hw)
    (h : (hw.dev hw.log ctx.base Reg.ISR % 2 ^ 32) &&& _SAES_I_CCF L ≠ 0) :
    save_context L ctx hw = (-EINVAL, ctx, (mmio_read_32 ctx.base Reg.ISR hw).2) := by
  have h1 : (mmio_read_32 ctx.base Reg.ISR hw).1 &&& _SAES_I_CCF L ≠ 0 := by
    simpa [mmio_read_32] using h
  unfold save_context
  simp only [h1, ne_eq, not_false_eq_true, if_true]

theorem save_context_idle (L : Layout) (ctx : stm32_saes_context) (hw : Hw)
    (h : (hw.dev hw.log ctx.base Reg.ISR % 2 ^ 32) &&& _SAES_I_CCF L = 0) :
    (save_context L ctx hw).1 = 0
      ∧ (save_context L ctx hw).2.1.cr = hw.cr % 2 ^ 32
      ∧ (save_context L ctx hw).2.1.base = ctx.base
      ∧ (save_context L ctx hw).2.1.key = ctx.key
      ∧ (save_context L ctx hw).2.1.assoc_len = ctx.assoc_len
      ∧ (save_context L ctx hw).2.1.load_len = ctx.load_len
      ∧ (save_context L ctx hw).2.2.cr = clrbits32 (hw.cr % 2 ^ 32) _SAES_CR_EN
      ∧ reg_writes (save_context L ctx hw).2.2.log
        = reg_writes hw.log ++ [(Reg.CR, clrbits32 (hw.cr % 2 ^ 32) _SAES_CR_EN)]
      ∧ (does_chaining_mode_need_iv L (hw.cr % 2 ^ 32) = false →
        (save_context L ctx hw).2.1.iv = ctx.iv
        ∧ reg_reads (save_context L ctx hw).2.2.log
          = reg_reads hw.log
            ++ [(Reg.ISR, hw.dev hw.log ctx.base Reg.ISR % 2 ^ 32), (Reg.CR, hw.cr % 2 ^ 32),
                (Reg.CR, hw.cr % 2 ^ 32)])
      ∧ (does_chaining_mode_need_iv L (hw.cr % 2 ^ 32) = true →
        ∃ v0 v1 v2 v3,
          reg_reads (save_context L ctx hw).2.2.log
            = reg_reads hw.log
              ++ [(Reg.ISR, hw.dev hw.log ctx.base Reg.ISR % 2 ^ 32), (Reg.CR, hw.cr % 2 ^ 32),
                  (Reg.IVR 0, v0), (Reg.IVR 1, v1), (Reg.IVR 2, v2), (Reg.IVR 3, v3),
                  (Reg.CR, hw.cr % 2 ^ 32)]
          ∧ (save_context L ctx hw).2.1.iv 0 = v0
          ∧ (save_context L ctx hw).2.1.iv 1 = v1
          ∧ (save_context L ctx hw).2.1.iv 2 = v2
          ∧ (save_context L ctx hw).2.1.iv 3 = v3
          ∧ ∀ i, 4 ≤ i → (save_context L ctx hw).2.1.iv i = ctx.iv i) := by
  have h1 : ¬ ((mmio_read_32 ctx.base Reg.ISR hw).1 &&& _SAES_I_CCF L ≠ 0) := by
    simpa [mmio_read_32] using h
  have h4 : AES_IVSIZE / 4 = 3 + 1 := rfl
  have hc : (mmio_read_32 ctx.base Reg.CR (mmio_read_32 ctx.base Reg.ISR hw).2).1
      = hw.cr % 2 ^ 32 := by
    simp [mmio_read_32]
  have hs : save_context L ctx hw
      = (0,
        { ctx with
          cr := hw.cr % 2 ^ 32
          iv := (if does_chaining_mode_need_iv L (hw.cr % 2 ^ 32) = true then
              read_words ctx.base Reg.IVR (3 + 1)
                (ctx.iv, (mmio_read_32 ctx.base Reg.CR (mmio_read_32 ctx.base Reg.ISR hw).2).2)
            else (ctx.iv, (mmio_read_32 ctx.base Reg.CR (mmio_read_32 ctx.base Reg.ISR hw).2).2)).1 },
        mmio_clrbits_32 ctx.base Reg.CR _SAES_CR_EN
          (if does_chaining_mode_need_iv L (hw.cr % 2 ^ 32) = true then
              read_words ctx.base Reg.IVR (3 + 1)
                (ctx.iv, (mmio_read_32 ctx.base Reg.CR (mmio_read_32 ctx.base Reg.ISR hw).2).2)
            else (ctx.iv, (mmio_read_32 ctx.base Reg.CR (mmio_read_32 ctx.base Reg.ISR hw).2).2)).2) := by
    unfold save_context
    simp only [h1, if_false, hc, h4]
  refine ⟨by rw [hs], by rw [hs], by rw [hs], by rw [hs], by rw [hs], by rw [hs], ?_, ?_,
    ?_, ?_⟩
  · rw [hs]
    by_cases hiv : does_chaining_mode_need_iv L (hw.cr % 2 ^ 32) = true
    · rw [if_pos hiv]
      simp [read_words, mmio_clrbits_32, mmio_write_32, mmio_read_32]
    · rw [if_neg hiv]
      simp [mmio_clrbits_32, mmio_write_32, mmio_read_32]
  · rw [hs]
    by_cases hiv : does_chaining_mode_need_iv L (hw.cr % 2 ^ 32) = true
    · rw [if_pos hiv]
      simp [read_words, mmio_clrbits_32, mmio_write_32, mmio_read_32, reg_writes]
    · rw [if_neg hiv]
      simp [mmio_clrbits_32, mmio_write_32, mmio_read_32, reg_writes]
  · intro hiv
    have hiv2 : ¬ (does_chaining_mode_need_iv L (hw.cr % 2 ^ 32) = true) := by
      rw [hiv]; decide
    rw [hs, if_neg hiv2]
    refine ⟨rfl, ?_⟩
    simp [mmio_clrbits_32, mmio_write_32, mmio_read_32, reg_reads]
  · intro hiv
    refine ⟨(save_context L ctx hw).2.1.iv 0, (save_context L ctx hw).2.1.iv 1,
      (save_context L ctx hw).2.1.iv 2, (save_context L ctx hw).2.1.iv 3, ?_, rfl, rfl, rfl, rfl,
      ?_⟩
    · rw [hs, if_pos hiv]
      simp [read_words, set_word, mmio_clrbits_32, mmio_write_32, mmio_read_32, reg_reads]
    · intro i hi
      have e0 : ¬ i = 0 := by omega
      have e1 : ¬ i = 1 := by omega
      have e2 : ¬ i = 2 := by omega
      have e3 : ¬ i = 3 := by omega
      rw [hs, if_pos hiv]
      simp [read_words, set_word, e0, e1, e2, e3]

/-- C10: `save_context` returns `-EINVAL` if and only if the
computation-complete flag is set in the interrupt status register read on
entry; in that case the context is unchanged, no register is written and the
only access is that read.  Otherwise it returns 0; the control shadow becomes
the control register value read; the IV shadow words 0..3 become the values
read from IV registers 0..3 when that value's chaining mode is not ECB, and the
IV shadow is untouched (no IV register is read) when it is ECB; the only
register write clears the enable bit; the key shadow, both bit-length counters
and the base are unchanged. -/
theorem C10_save_context (L : Layout) (ctx : stm32_saes_context) (hw : Hw) :
    ((save_context L ctx hw).1 = -EINVAL
        ↔ (hw.dev hw.log ctx.base Reg.ISR % 2 ^ 32) &&& _SAES_I_CCF L ≠ 0)
      ∧ ((hw.dev hw.log ctx.base Reg.ISR % 2 ^ 32) &&& _SAES_I_CCF L ≠ 0 →
        (save_context L ctx hw).2.1 = ctx
        ∧ (save_context L ctx hw).2.2.cr = hw.cr
        ∧ reg_writes (save_context L ctx hw).2.2.log = reg_writes hw.log
        ∧ reg_reads (save_context L ctx hw).2.2.log
          = reg_reads hw.log ++ [(Reg.ISR, hw.dev hw.log ctx.base Reg.ISR % 2 ^ 32)])
      ∧ ((hw.dev hw.log ctx.base Reg.ISR % 2 ^ 32) &&& _SAES_I_CCF L = 0 →
        (save_context L ctx hw).1 = 0
        ∧ (save_context L ctx hw).2.1.cr = hw.cr % 2 ^ 32
        ∧ (save_context L ctx hw).2.1.base = ctx.base
        ∧ (save_context L ctx hw).2.1.key = ctx.key
        ∧ (save_context L ctx hw).2.1.assoc_len = ctx.assoc_len
        ∧ (save_context L ctx hw).2.1.load_len = ctx.load_len
        ∧ (save_context L ctx hw).2.2.cr = clrbits32 (hw.cr % 2 ^ 32) _SAES_CR_EN
        ∧ (save_context L ctx hw).2.2.cr &&& _SAES_CR_EN = 0
        ∧ reg_writes (save_context L ctx hw).2.2.log
          = reg_writes hw.log ++ [(Reg.CR, clrbits32 (hw.cr % 2 ^ 32) _SAES_CR_EN)]
        ∧ (does_chaining_mode_need_iv L (hw.cr % 2 ^ 32) = false →
          (save_context L ctx hw).2.1.iv = ctx.iv
          ∧ reg_reads (save_context L ctx hw).2.2.log
            = reg_reads hw.log
              ++ [(Reg.ISR, hw.dev hw.log ctx.base Reg.ISR % 2 ^ 32), (Reg.CR, hw.cr % 2 ^ 32),
                  (Reg.CR, hw.cr % 2 ^ 32)])
        ∧ (does_chaining_mode_need_iv L (hw.cr % 2 ^ 32) = true →
          ∃ v0 v1 v2 v3,
            reg_reads (save_context L ctx hw).2.2.log
              = reg_reads hw.log
                ++ [(Reg.ISR, hw.dev hw.log ctx.base Reg.ISR % 2 ^ 32), (Reg.CR, hw.cr % 2 ^ 32),
                    (Reg.IVR 0, v0), (Reg.IVR 1, v1), (Reg.IVR 2, v2), (Reg.IVR 3, v3),
                    (Reg.CR, hw.cr % 2 ^ 32)]
            ∧ (save_context L ctx hw).2.1.iv 0 = v0
            ∧ (save_context L ctx hw).2.1.iv 1 = v1
            ∧ (save_context L ctx hw).2.1.iv 2 = v2
            ∧ (save_context L ctx hw).2.1.iv 3 = v3
            ∧ ∀ i, 4 ≤ i → (save_context L ctx hw).2.1.iv i = ctx.iv i)) := by
  have hEN : _SAES_CR_EN < 2 ^ 32 := by decide
  have hE : (-EINVAL : Int) ≠ 0 := by decide
  refine ⟨?_, ?_, ?_⟩
  · constructor
    · intro h hz
      have := (save_context_idle L ctx hw hz).1
      rw [this] at h
      exact hE h.symm
    · intro h
      rw [save_context_busy L ctx hw h]
  · intro h
    rw [save_context_busy L ctx hw h]
    refine ⟨rfl, rfl, ?_, ?_⟩
    · simp [mmio_read_32, reg_writes]
    · simp [mmio_read_32, reg_reads]
  · intro h
    obtain ⟨a1, a2, a3, a4, a5, a6, a7, a8, a9, a10⟩ := save_context_idle L ctx hw h
    refine ⟨a1, a2, a3, a4, a5, a6, a7, ?_, a8, a9, a10⟩
    rw [a7]
    exact clrbits32_self _ _ hEN

theorem C10_save_context_witness :
    ((hw_silent.dev hw_silent.log ctx_gcm.base Reg.ISR % 2 ^ 32) &&& _SAES_I_CCF Layout.CRYP2 = 0)
      ∧ (save_context Layout.CRYP2 ctx_gcm hw_silent).1 = 0
      ∧ (save_context Layout.CRYP2 ctx_gcm hw_silent).2.1.key = ctx_gcm.key
      ∧ ((hw_ready.dev hw_ready.log ctx_gcm.base Reg.ISR % 2 ^ 32)
          &&& _SAES_I_CCF Layout.CRYP2 ≠ 0)
      ∧ (save_context Layout.CRYP2 ctx_gcm hw_ready).2.1 = ctx_gcm :=
  ⟨by decide,
    ((C10_save_context Layout.CRYP2 ctx_gcm hw_silent).2.2 (by decide)).1,
    ((C10_save_context Layout.CRYP2 ctx_gcm hw_silent).2.2 (by decide)).2.2.2.1,
    by decide,
    ((C10_save_context Layout.CRYP2 ctx_gcm hw_ready).2.1 (by decide)).1⟩

theorem wait_kv_loop_spec (base : Nat) (k : Nat) (hw : Hw) :
    ((wait_key_valid_loop base k hw).1 = 0 ∨ (wait_key_valid_loop base k hw).1 = -ETIMEDOUT)
      ∧ reads_only hw (wait_key_valid_loop base k hw).2 := by
  induction k generalizing hw with
  | zero =>
    simp only [wait_key_valid_loop]
    split
    · exact ⟨Or.inr rfl, reads_only_read base Reg.SR (by decide) hw⟩
    · exact ⟨Or.inl rfl, reads_only_read base Reg.SR (by decide) hw⟩
  | succ k ih =>
    simp only [wait_key_valid_loop]
    split
    · have h := ih (mmio_read_32 base Reg.SR hw).2
      exact ⟨h.1, reads_only_trans (reads_only_read base Reg.SR (by decide) hw) h.2⟩
    · exact ⟨Or.inl rfl, reads_only_read base Reg.SR (by decide) hw⟩

theorem wait_kv_spec (base : Nat) (hw : Hw) :
    ((wait_key_valid base hw).1 = 0 ∨ (wait_key_valid base hw).1 = -ETIMEDOUT)
      ∧ reads_only hw (wait_key_valid base hw).2 :=
  wait_kv_loop_spec base _ hw

theorem reg_writes_append (a b : List Ev) : reg_writes (a ++ b) = reg_writes b ++ reg_writes a := by
  induction a with
  | nil => simp [reg_writes]
  | cons e a ih =>
    cases e <;> simp [reg_writes, ih]

theorem write_words_spec (base : Nat) (reg : Nat → Reg) (src : Nat → Nat) (n : Nat) (hw : Hw)
    (hreg : ∀ i, reg i ≠ Reg.CR) :
    (write_words base reg src n hw).cr = hw.cr
      ∧ (write_words base reg src n hw).dev = hw.dev
      ∧ (write_words base reg src n hw).window = hw.window
      ∧ reg_writes (write_words base reg src n hw).log
          = reg_writes hw.log ++ (List.range n).map (fun i => (reg i, src i % 2 ^ 32))
      ∧ reg_reads (write_words base reg src n hw).log = reg_reads hw.log
      ∧ doutr_reads (write_words base reg src n hw).log = doutr_reads hw.log
      ∧ delays (write_words base reg src n hw).log = delays hw.log := by
  induction n with
  | zero => simp [write_words]
  | succ n ih =>
    obtain ⟨h1, h2, h3, h4, h5, h6, h7⟩ := ih
    simp only [write_words, mmio_write_32, reg_writes, reg_reads, doutr_reads, delays, h4, h5, h6,
      h7, h2, h3, if_neg (hreg n), h1, List.range_succ, List.map_append, List.map_cons,
      List.map_nil, List.append_assoc]
    exact ⟨trivial, trivial, trivial, trivial, trivial, trivial, trivial⟩
theorem testBit_ge32 (m i : Nat) (hm : m < 2 ^ 32) (hi : ¬ i < 32) : m.testBit i = false := by
  apply Nat.testBit_eq_false_of_lt
  have : 2 ^ 32 ≤ 2 ^ i := Nat.pow_le_pow_right (by decide) (by omega)
  omega

theorem testBit_word_mask (i : Nat) : (0xFFFFFFFF : Nat).testBit i = decide (i < 32) := by
  have : (0xFFFFFFFF : Nat) = 2 ^ 32 - 1 := by decide
  rw [this, Nat.testBit_two_pow_sub_one]

theorem testBit_setbits32 (v s i : Nat) :
    (setbits32 v s).testBit i = (decide (i < 32) && (v.testBit i || s.testBit i)) := by
  unfold setbits32
  rw [Nat.testBit_mod_two_pow, Nat.testBit_or]

theorem testBit_clrbits32 (v c i : Nat) :
    (clrbits32 v c).testBit i = (decide (i < 32) && (v.testBit i && !c.testBit i)) := by
  unfold clrbits32
  rw [Nat.testBit_mod_two_pow, Nat.testBit_and, Nat.testBit_xor, testBit_word_mask]
  by_cases hi : i < 32 <;> simp [hi]

theorem testBit_clrsetbits32 (v c s i : Nat) :
    (clrsetbits32 v c s).testBit i
      = (decide (i < 32) && ((v.testBit i && !c.testBit i) || s.testBit i)) := by
  unfold clrsetbits32
  rw [Nat.testBit_mod_two_pow, Nat.testBit_or, Nat.testBit_and, Nat.testBit_xor, testBit_word_mask]
  by_cases hi : i < 32 <;> simp [hi]

/-- Bits outside the cleared mask are kept by `clrbits32`. -/
theorem clrbits32_other (v s m : Nat) (hm : m < 2 ^ 32) (hs : s &&& m = 0) :
    clrbits32 v s &&& m = v &&& m := by
  apply Nat.eq_of_testBit_eq
  intro i
  have h1 := congrArg (fun x => x.testBit i) hs
  simp only [Nat.testBit_and, Nat.zero_testBit, testBit_clrbits32] at h1 ⊢
  by_cases hi : i < 32
  · revert h1
    cases v.testBit i <;> cases m.testBit i <;> cases s.testBit i <;> simp [hi]
  · simp [testBit_ge32 m i hm hi]

/-- Bits outside both masks are kept by `clrsetbits32`. -/
theorem clrsetbits32_other (v c s m : Nat) (hm : m < 2 ^ 32) (hc : c &&& m = 0)
    (hs : s &&& m = 0) : clrsetbits32 v c s &&& m = v &&& m := by
  apply Nat.eq_of_testBit_eq
  intro i
  have h1 := congrArg (fun x => x.testBit i) hs
  have h2 := congrArg (fun x => x.testBit i) hc
  simp only [Nat.testBit_and, Nat.zero_testBit, testBit_clrsetbits32] at h1 h2 ⊢
  by_cases hi : i < 32
  · revert h1 h2
    cases v.testBit i <;> cases m.testBit i <;> cases s.testBit i <;> cases c.testBit i <;>
      simp [hi]
  · simp [testBit_ge32 m i hm hi]

theorem saes_get_keysize_cases (L : Layout) (ctx : stm32_saes_context) :
    saes_get_keysize L ctx = 32 ∨ saes_get_keysize L ctx = 24 ∨ saes_get_keysize L ctx = 16
      ∨ saes_get_keysize L ctx = 0 := by
  unfold saes_get_keysize
  simp only
  split
  · exact Or.inl rfl
  · split
    · exact Or.inr (Or.inl rfl)
    · split
      · exact Or.inr (Or.inr (Or.inl rfl))
      · exact Or.inr (Or.inr (Or.inr rfl))

/-- The two loops of `saes_write_key` for a key of `4 + m` words. -/
theorem write_key_words (base : Nat) (key : Nat → Nat) (m : Nat) (hw : Hw) :
    let r := write_words base (fun i => Reg.KEYR (4 + i)) (fun i => key (i + 4)) m
      (write_words base Reg.KEYR key 4 hw)
    r.cr = hw.cr ∧ r.dev = hw.dev ∧ r.window = hw.window
      ∧ reg_writes r.log
        = reg_writes hw.log ++ (List.range (4 + m)).map (fun i => (Reg.KEYR i, key i % 2 ^ 32))
      ∧ reg_reads r.log = reg_reads hw.log
      ∧ doutr_reads r.log = doutr_reads hw.log
      ∧ delays r.log = delays hw.log := by
  intro r
  have hA := write_words_spec base Reg.KEYR key 4 hw (by intro i; simp)
  have hB := write_words_spec base (fun i => Reg.KEYR (4 + i)) (fun i => key (i + 4)) m
    (write_words base Reg.KEYR key 4 hw) (by intro i; simp)
  refine ⟨hB.1.trans hA.1, hB.2.1.trans hA.2.1, hB.2.2.1.trans hA.2.2.1, ?_,
    hB.2.2.2.2.1.trans hA.2.2.2.2.1, hB.2.2.2.2.2.1.trans hA.2.2.2.2.2.1,
    hB.2.2.2.2.2.2.trans hA.2.2.2.2.2.2⟩
  show reg_writes (write_words base _ _ m _).log = _
  rw [hB.2.2.2.1, hA.2.2.2.1, List.append_assoc, List.range_add, List.map_append, List.map_map]
  congr 2
  apply List.map_congr_left
  intro i _
  simp [Nat.add_comm]

theorem saes_write_key_spec (L : Layout) (ctx : stm32_saes_context) (hw hw3 : Hw)
    (h : saes_write_key L ctx hw = some hw3) :
    hw3.cr = hw.cr ∧ hw3.dev = hw.dev ∧ hw3.window = hw.window
      ∧ reg_writes hw3.log = reg_writes hw.log ++ key_writes L ctx
      ∧ reg_reads hw3.log = reg_reads hw.log
      ∧ doutr_reads hw3.log = doutr_reads hw.log
      ∧ delays hw3.log = delays hw.log := by
  unfold saes_write_key at h
  unfold key_writes
  by_cases hsel : (ctx.cr &&& _SAES_CR_KEYSEL_MASK) = (_SAES_CR_KEYSEL_SOFT <<< _SAES_CR_KEYSEL_SHIFT)
  · rw [if_pos hsel] at h
    rw [if_pos hsel]
    rcases saes_get_keysize_cases L ctx with hk | hk | hk | hk
    · simp only [hk, AES_KEYSIZE_128] at h ⊢
      have h2 := Option.some.inj h
      subst h2
      exact write_key_words ctx.base ctx.key 4 hw
    · simp only [hk, AES_KEYSIZE_128] at h ⊢
      have h2 := Option.some.inj h
      subst h2
      exact write_key_words ctx.base ctx.key 2 hw
    · simp only [hk, AES_KEYSIZE_128] at h ⊢
      have h2 := Option.some.inj h
      subst h2
      exact write_key_words ctx.base ctx.key 0 hw
    · simp [hk] at h
  · rw [if_neg hsel] at h
    rw [if_neg hsel]
    cases h
    simp

/-- The first two steps of `saes_prepare_key` (disable, key-size field): every
write goes to the control register, leaves the enable bit clear and keeps the
mode field found on entry. -/
theorem prepare_key_entry (L : Layout) (ctx : stm32_saes_context) (hw : Hw) :
    let hw2 := prepare_key_size L ctx (mmio_clrbits_32 ctx.base Reg.CR _SAES_CR_EN hw)
    hw2.dev = hw.dev ∧ hw2.window = hw.window
      ∧ hw2.cr < 2 ^ 32
      ∧ hw2.cr &&& _SAES_CR_EN = 0
      ∧ hw2.cr &&& _SAES_CR_MODE_MASK = (hw.cr % 2 ^ 32) &&& _SAES_CR_MODE_MASK
      ∧ delays hw2.log = delays hw.log
      ∧ doutr_reads hw2.log = doutr_reads hw.log
      ∧ ∃ ws, reg_writes hw2.log = reg_writes hw.log ++ ws
        ∧ ∀ p ∈ ws, p.1 = Reg.CR ∧ p.2 &&& _SAES_CR_EN = 0
          ∧ p.2 &&& _SAES_CR_MODE_MASK = (hw.cr % 2 ^ 32) &&& _SAES_CR_MODE_MASK := by
  intro hw2
  have hEN : _SAES_CR_EN < 2 ^ 32 := by decide
  have hMM : _SAES_CR_MODE_MASK < 2 ^ 32 := by decide
  have c1 : clrbits32 (hw.cr % 2 ^ 32) _SAES_CR_EN &&& _SAES_CR_EN = 0 := clrbits32_self _ _ hEN
  have c2 : clrbits32 (hw.cr % 2 ^ 32) _SAES_CR_EN &&& _SAES_CR_MODE_MASK
      = (hw.cr % 2 ^ 32) &&& _SAES_CR_MODE_MASK := clrbits32_other _ _ _ hMM (by decide)
  cases L with
  | CRYP2 =>
    have hcr : hw2.cr = clrbits32 (hw.cr % 2 ^ 32) _SAES_CR_EN := by
      simp [hw2, prepare_key_size, mmio_clrbits_32, mmio_read_32, mmio_write_32]
    refine ⟨rfl, rfl, ?_, ?_, ?_, ?_, ?_, [(Reg.CR, clrbits32 (hw.cr % 2 ^ 32) _SAES_CR_EN)], ?_, ?_⟩
    · rw [hcr]; exact clrbits32_lt _ _
    · rw [hcr]; exact c1
    · rw [hcr]; exact c2
    · simp [hw2, prepare_key_size, mmio_clrbits_32, mmio_read_32, mmio_write_32, delays]
    · simp [hw2, prepare_key_size, mmio_clrbits_32, mmio_read_32, mmio_write_32, doutr_reads]
    · simp [hw2, prepare_key_size, mmio_clrbits_32, mmio_read_32, mmio_write_32, reg_writes]
    · intro p hp
      rw [List.mem_singleton.mp hp]
      exact ⟨rfl, c1, c2⟩
  | SAES =>
    by_cases hk : (ctx.cr &&& _SAES_CR_KEYSIZE_MASK Layout.SAES) ≠ 0
    · have e : hw2 = mmio_setbits_32 ctx.base Reg.CR (_SAES_CR_KEYSIZE_MASK Layout.SAES)
          (mmio_clrbits_32 ctx.base Reg.CR _SAES_CR_EN hw) := by
        simp only [hw2, prepare_key_size, if_pos hk]
      have d1 : setbits32 (clrbits32 (hw.cr % 2 ^ 32) _SAES_CR_EN) (_SAES_CR_KEYSIZE_MASK Layout.SAES)
          &&& _SAES_CR_EN = 0 := by
        rw [setbits32_other _ _ _ hEN (by decide)]; exact c1
      have d2 : setbits32 (clrbits32 (hw.cr % 2 ^ 32) _SAES_CR_EN) (_SAES_CR_KEYSIZE_MASK Layout.SAES)
          &&& _SAES_CR_MODE_MASK = (hw.cr % 2 ^ 32) &&& _SAES_CR_MODE_MASK := by
        rw [setbits32_other _ _ _ hMM (by decide)]; exact c2
      have hcr : hw2.cr
          = setbits32 (clrbits32 (hw.cr % 2 ^ 32) _SAES_CR_EN) (_SAES_CR_KEYSIZE_MASK Layout.SAES) := by
        rw [e]
        simp [mmio_setbits_32, mmio_clrbits_32, mmio_read_32, mmio_write_32]
      refine ⟨by rw [e]; rfl, by rw [e]; rfl, ?_, ?_, ?_, ?_, ?_,
        [(Reg.CR, clrbits32 (hw.cr % 2 ^ 32) _SAES_CR_EN),
          (Reg.CR, setbits32 (clrbits32 (hw.cr % 2 ^ 32) _SAES_CR_EN)
            (_SAES_CR_KEYSIZE_MASK Layout.SAES))], ?_, ?_⟩
      · rw [hcr]; exact setbits32_lt _ _
      · rw [hcr]; exact d1
      · rw [hcr]; exact d2
      · rw [e]; simp [mmio_setbits_32, mmio_clrbits_32, mmio_read_32, mmio_write_32, delays]
      · rw [e]; simp [mmio_setbits_32, mmio_clrbits_32, mmio_read_32, mmio_write_32, doutr_reads]
      · rw [e]; simp [mmio_setbits_32, mmio_clrbits_32, mmio_read_32, mmio_write_32, reg_writes]
      · intro p hp
        simp only [List.mem_cons, List.mem_singleton, List.not_mem_nil, or_false] at hp
        rcases hp with hp | hp
        · rw [hp]; exact ⟨rfl, c1, c2⟩
        · rw [hp]; exact ⟨rfl, d1, d2⟩
    · have e : hw2 = mmio_clrbits_32 ctx.base Reg.CR (_SAES_CR_KEYSIZE_MASK Layout.SAES)
          (mmio_clrbits_32 ctx.base Reg.CR _SAES_CR_EN hw) := by
        simp only [hw2, prepare_key_size, if_neg hk]
      have d1 : clrbits32 (clrbits32 (hw.cr % 2 ^ 32) _SAES_CR_EN) (_SAES_CR_KEYSIZE_MASK Layout.SAES)
          &&& _SAES_CR_EN = 0 := by
        rw [clrbits32_other _ _ _ hEN (by decide)]; exact c1
      have d2 : clrbits32 (clrbits32 (hw.cr % 2 ^ 32) _SAES_CR_EN) (_SAES_CR_KEYSIZE_MASK Layout.SAES)
          &&& _SAES_CR_MODE_MASK = (hw.cr % 2 ^ 32) &&& _SAES_CR_MODE_MASK := by
        rw [clrbits32_other _ _ _ hMM (by decide)]; exact c2
      have hcr : hw2.cr
          = clrbits32 (clrbits32 (hw.cr % 2 ^ 32) _SAES_CR_EN) (_SAES_CR_KEYSIZE_MASK Layout.SAES) := by
        rw [e]
        simp [mmio_clrbits_32, mmio_read_32, mmio_write_32]
      refine ⟨by rw [e]; rfl, by rw [e]; rfl, ?_, ?_, ?_, ?_, ?_,
        [(Reg.CR, clrbits32 (hw.cr % 2 ^ 32) _SAES_CR_EN),
          (Reg.CR, clrbits32 (clrbits32 (hw.cr % 2 ^ 32) _SAES_CR_EN)
            (_SAES_CR_KEYSIZE_MASK Layout.SAES))], ?_, ?_⟩
      · rw [hcr]; exact clrbits32_lt _ _
      · rw [hcr]; exact d1
      · rw [hcr]; exact d2
      · rw [e]; simp [mmio_clrbits_32, mmio_read_32, mmio_write_32, delays]
      · rw [e]; simp [mmio_clrbits_32, mmio_read_32, mmio_write_32, doutr_reads]
      · rw [e]; simp [mmio_clrbits_32, mmio_read_32, mmio_write_32, reg_writes]
      · intro p hp
        simp only [List.mem_cons, List.mem_singleton, List.not_mem_nil, or_false] at hp
        rcases hp with hp | hp
        · rw [hp]; exact ⟨rfl, c1, c2⟩
        · rw [hp]; exact ⟨rfl, d1, d2⟩

theorem testBit_EN (i : Nat) : _SAES_CR_EN.testBit i = decide (i = 0) := by
  have : _SAES_CR_EN = 2 ^ 0 := by decide
  rw [this, Nat.testBit_two_pow]
  by_cases h : i = 0 <;> simp [h, eq_comm]

theorem testBit_KEYSIZE_SAES (i : Nat) :
    (_SAES_CR_KEYSIZE_MASK Layout.SAES).testBit i = decide (i = 18) := by
  have : _SAES_CR_KEYSIZE_MASK Layout.SAES = 2 ^ 18 := by decide
  rw [this, Nat.testBit_two_pow]
  by_cases h : i = 18 <;> simp [h, eq_comm]

theorem testBit_MODE_MASK (i : Nat) :
    _SAES_CR_MODE_MASK.testBit i = (decide (i = 3) || decide (i = 4)) := by
  have : _SAES_CR_MODE_MASK = 2 ^ 3 ||| 2 ^ 4 := by decide
  rw [this, Nat.testBit_or, Nat.testBit_two_pow, Nat.testBit_two_pow]
  by_cases h : i = 3 <;> by_cases h' : i = 4 <;> simp [h, h', eq_comm]

theorem testBit_MODE_KEYPREP (i : Nat) :
    (_SAES_CR_MODE_KEYPREP <<< _SAES_CR_MODE_SHIFT).testBit i = decide (i = 3) := by
  have : _SAES_CR_MODE_KEYPREP <<< _SAES_CR_MODE_SHIFT = 2 ^ 3 := by decide
  rw [this, Nat.testBit_two_pow]
  by_cases h : i = 3 <;> simp [h, eq_comm]

theorem testBit_MODE_DEC (i : Nat) :
    (_SAES_CR_MODE_DEC <<< _SAES_CR_MODE_SHIFT).testBit i = decide (i = 4) := by
  have : _SAES_CR_MODE_DEC <<< _SAES_CR_MODE_SHIFT = 2 ^ 4 := by decide
  rw [this, Nat.testBit_two_pow]
  by_cases h : i = 4 <;> simp [h, eq_comm]

/-- A control value whose mode field says decrypt has bit 4 set and bit 3
clear. -/
theorem is_decrypt_bits (c : Nat) (h : is_decrypt c = true) :
    c.testBit 3 = false ∧ c.testBit 4 = true := by
  unfold is_decrypt at h
  have h1 : c &&& _SAES_CR_MODE_MASK = _SAES_CR_MODE_DEC <<< _SAES_CR_MODE_SHIFT := by
    simpa using h
  have a := congrArg (fun x => x.testBit 3) h1
  have b := congrArg (fun x => x.testBit 4) h1
  simp only [Nat.testBit_and, testBit_MODE_MASK, testBit_MODE_DEC] at a b
  constructor
  · simpa using a
  · simpa using b

/-- The key-expansion pass gives back the control value it found, with the
enable bit set, when the mode field found says decrypt. -/
theorem keyprep_round_trip (c : Nat) (h3 : c.testBit 3 = false) (h4 : c.testBit 4 = true) :
    setbits32 (clrsetbits32 (setbits32 (clrsetbits32 c _SAES_CR_MODE_MASK
        (_SAES_CR_MODE_KEYPREP <<< _SAES_CR_MODE_SHIFT)) _SAES_CR_EN) _SAES_CR_MODE_MASK
        (_SAES_CR_MODE_DEC <<< _SAES_CR_MODE_SHIFT)) _SAES_CR_EN
      = setbits32 c _SAES_CR_EN := by
  apply Nat.eq_of_testBit_eq
  intro i
  simp only [testBit_setbits32, testBit_clrsetbits32, testBit_EN, testBit_MODE_MASK,
    testBit_MODE_KEYPREP, testBit_MODE_DEC]
  by_cases a : i = 3
  · subst a; simp [h3]
  · by_cases b : i = 4
    · subst b; simp [h4]
    · simp only [a, b, decide_False, Bool.or_false, Bool.not_false, Bool.and_true]
      cases decide (i < 32) <;> cases c.testBit i <;> cases decide (i = 0) <;> rfl

theorem setbits32_clrbits32_same (c s : Nat) :
    setbits32 (clrbits32 c s) s = setbits32 c s := by
  apply Nat.eq_of_testBit_eq
  intro i
  simp only [testBit_setbits32, testBit_clrbits32]
  cases c.testBit i <;> cases s.testBit i <;> simp

theorem setbits32_idem (c s : Nat) (h : c &&& s = s) (hc : c < 2 ^ 32) :
    setbits32 c s = c := by
  apply Nat.eq_of_testBit_eq
  intro i
  have h1 := congrArg (fun x => x.testBit i) h
  simp only [Nat.testBit_and, testBit_setbits32] at h1 ⊢
  by_cases hi : i < 32
  · revert h1
    cases c.testBit i <;> cases s.testBit i <;> simp [hi]
  · simp [hi, testBit_ge32 c i hc hi]

theorem clrbits32_idem (c s : Nat) (h : c &&& s = 0) (hc : c < 2 ^ 32) :
    clrbits32 c s = c := by
  apply Nat.eq_of_testBit_eq
  intro i
  have h1 := congrArg (fun x => x.testBit i) h
  simp only [Nat.testBit_and, testBit_clrbits32, Nat.zero_testBit] at h1 ⊢
  by_cases hi : i < 32
  · revert h1
    cases c.testBit i <;> cases s.testBit i <;> simp [hi]
  · simp [hi, testBit_ge32 c i hc hi]

theorem and_single_bit (x n : Nat) (h : x &&& 2 ^ n ≠ 0) : x &&& 2 ^ n = 2 ^ n := by
  apply Nat.eq_of_testBit_eq
  intro i
  simp only [Nat.testBit_and, Nat.testBit_two_pow]
  by_cases hi : n = i
  · subst hi
    have : x.testBit n = true := by
      by_contra hx
      apply h
      apply Nat.eq_of_testBit_eq
      intro j
      simp only [Nat.testBit_and, Nat.testBit_two_pow, Nat.zero_testBit]
      by_cases hj : n = j
      · subst hj; simp [hx]
      · simp [hj]
    simp [this]
  · simp [hi]

/-- The key-size step leaves a control register alone whose key-size bit
already agrees with the control shadow. -/
theorem prepare_key_size_same (L : Layout) (ctx : stm32_saes_context) (hw1 : Hw)
    (hlt : hw1.cr < 2 ^ 32)
    (hks : hw1.cr &&& _SAES_CR_KEYSIZE_MASK Layout.SAES
      = ctx.cr &&& _SAES_CR_KEYSIZE_MASK Layout.SAES) :
    (prepare_key_size L ctx hw1).cr = hw1.cr := by
  have hmod : hw1.cr % 2 ^ 32 = hw1.cr := Nat.mod_eq_of_lt hlt
  cases L with
  | CRYP2 => rfl
  | SAES =>
    have hK : _SAES_CR_KEYSIZE_MASK Layout.SAES = 2 ^ 18 := by decide
    by_cases hk : (ctx.cr &&& _SAES_CR_KEYSIZE_MASK Layout.SAES) ≠ 0
    · have e : (prepare_key_size Layout.SAES ctx hw1).cr
          = setbits32 (hw1.cr % 2 ^ 32) (_SAES_CR_KEYSIZE_MASK Layout.SAES) := by
        simp only [prepare_key_size, if_pos hk]
        exact (setbits_cr_spec _ _ _).1
      rw [e, hmod]
      apply setbits32_idem _ _ _ hlt
      rw [hks, hK]
      rw [hK] at hk
      exact and_single_bit _ _ hk
    · have e : (prepare_key_size Layout.SAES ctx hw1).cr
          = clrbits32 (hw1.cr % 2 ^ 32) (_SAES_CR_KEYSIZE_MASK Layout.SAES) := by
        simp only [prepare_key_size, if_neg hk]
        exact (clrbits_cr_spec _ _ _).1
      rw [e, hmod]
      apply clrbits32_idem _ _ _ hlt
      rw [hks]
      simpa using hk

/-- What every return of `saes_prepare_key` has in common: the result is 0 or
`-ETIMEDOUT`, no data is read, no reset pulse is made, and on success from a
control register that holds the control shadow the register holds the shadow
again, up to the enable bit. -/
theorem prepare_key_spec (L : Layout) (ctx : stm32_saes_context) (hw : Hw) (e : Int) (h : Hw)
    (hres : saes_prepare_key L ctx hw = some (e, h)) :
    (e = 0 ∨ e = -ETIMEDOUT) ∧ h.dev = hw.dev ∧ h.window = hw.window
      ∧ delays h.log = delays hw.log ∧ doutr_reads h.log = doutr_reads hw.log
      ∧ h.cr < 2 ^ 32
      ∧ (e = 0 → hw.cr % 2 ^ 32 = ctx.cr % 2 ^ 32 →
          setbits32 h.cr _SAES_CR_EN = setbits32 (ctx.cr % 2 ^ 32) _SAES_CR_EN) := by
  have hEN : _SAES_CR_EN < 2 ^ 32 := by decide
  have hKS : _SAES_CR_KEYSIZE_MASK Layout.SAES < 2 ^ 32 := by decide
  obtain ⟨e1, e2, e3, -, -, e6, e7, -⟩ := prepare_key_entry L ctx hw
  unfold saes_prepare_key at hres
  cases hkey : saes_write_key L ctx
      (prepare_key_size L ctx (mmio_clrbits_32 ctx.base Reg.CR _SAES_CR_EN hw)) with
  | none => simp [hkey] at hres
  | some hw3 =>
    simp only [hkey] at hres
    obtain ⟨f1, f2, f3, -, -, f6, f7⟩ := saes_write_key_spec L ctx _ hw3 hkey
    obtain ⟨g0, g1, g2, g3, -, g5, g6⟩ := wait_kv_spec ctx.base hw3
    -- the state after the key-valid poll
    have kdev : (wait_key_valid ctx.base hw3).2.dev = hw.dev := by rw [g2, f2, e1]
    have kwin : (wait_key_valid ctx.base hw3).2.window = hw.window := by rw [g3, f3, e2]
    have kdel : delays (wait_key_valid ctx.base hw3).2.log = delays hw.log := by rw [g6, f7, e6]
    have kdout : doutr_reads (wait_key_valid ctx.base hw3).2.log = doutr_reads hw.log := by
      rw [g5, f6, e7]
    have klt : (wait_key_valid ctx.base hw3).2.cr < 2 ^ 32 := by rw [g1, f1]; exact e3
    have kcr : hw.cr % 2 ^ 32 = ctx.cr % 2 ^ 32 →
        (wait_key_valid ctx.base hw3).2.cr = clrbits32 (ctx.cr % 2 ^ 32) _SAES_CR_EN := by
      intro hc
      have a1 : (mmio_clrbits_32 ctx.base Reg.CR _SAES_CR_EN hw).cr
          = clrbits32 (ctx.cr % 2 ^ 32) _SAES_CR_EN := by
        rw [(clrbits_cr_spec _ _ _).1, hc]
      rw [g1, f1, prepare_key_size_same L ctx _ (by rw [a1]; exact clrbits32_lt _ _), a1]
      rw [a1, clrbits32_other _ _ _ hKS (by decide), and_mod32 _ _ hKS]
    by_cases hk : (wait_key_valid ctx.base hw3).1 ≠ 0
    · rw [if_pos hk] at hres
      cases hres
      refine ⟨g0, kdev, kwin, kdel, kdout, klt, fun h0 => absurd h0 hk⟩
    · rw [if_neg hk] at hres
      by_cases hp : ((IS_CHAINING_MODE L STM32_SAES_MODE_ECB ctx.cr
          || IS_CHAINING_MODE L STM32_SAES_MODE_CBC ctx.cr) && is_decrypt ctx.cr) = true
      · rw [if_pos hp] at hres
        have hdec : is_decrypt ctx.cr = true := by
          simp only [Bool.and_eq_true] at hp
          exact hp.2
        obtain ⟨s1, s2, s3, -, s5, s6⟩ := clrsetbits_cr_spec ctx.base _SAES_CR_MODE_MASK
          (_SAES_CR_MODE_KEYPREP <<< _SAES_CR_MODE_SHIFT) (wait_key_valid ctx.base hw3).2
        obtain ⟨t1, t2, t3, -, t5, t6⟩ := setbits_cr_spec ctx.base _SAES_CR_EN
          (mmio_clrsetbits_32 ctx.base Reg.CR _SAES_CR_MODE_MASK
            (_SAES_CR_MODE_KEYPREP <<< _SAES_CR_MODE_SHIFT) (wait_key_valid ctx.base hw3).2)
        generalize mmio_setbits_32 ctx.base Reg.CR _SAES_CR_EN
          (mmio_clrsetbits_32 ctx.base Reg.CR _SAES_CR_MODE_MASK
            (_SAES_CR_MODE_KEYPREP <<< _SAES_CR_MODE_SHIFT) (wait_key_valid ctx.base hw3).2)
          = hw6 at hres t1 t2 t3 t5 t6
        obtain ⟨r0, r1, r2, r3, -, r5, r6⟩ := wait_cc_spec L ctx.base hw6
        by_cases hc : (wait_computation_completed L ctx.base hw6).1 ≠ 0
        · rw [if_pos hc] at hres
          cases hres
          refine ⟨r0, ?_, ?_, ?_, ?_, ?_, fun h0 => absurd h0 hc⟩
          · rw [r2, t2, s2, kdev]
          · rw [r3, t3, s3, kwin]
          · rw [r6, t6, s6, kdel]
          · rw [r5, t5, s5, kdout]
          · rw [r1, t1]; exact setbits32_lt _ _
        · rw [if_neg hc] at hres
          cases hres
          obtain ⟨u1, u2, u3, -, u5, u6⟩ := clear_cc_kept L ctx.base
            (wait_computation_completed L ctx.base hw6).2
          obtain ⟨w1, w2, w3, -, w5, w6⟩ := clrsetbits_cr_spec ctx.base _SAES_CR_MODE_MASK
            (_SAES_CR_MODE_DEC <<< _SAES_CR_MODE_SHIFT)
            (clear_computation_completed L ctx.base (wait_computation_completed L ctx.base hw6).2)
          refine ⟨Or.inl rfl, ?_, ?_, ?_, ?_, ?_, ?_⟩
          · show (mmio_clrsetbits_32 _ _ _ _ _).dev = _
            rw [w2, u2, r2, t2, s2, kdev]
          · show (mmio_clrsetbits_32 _ _ _ _ _).window = _
            rw [w3, u3, r3, t3, s3, kwin]
          · show delays (mmio_clrsetbits_32 _ _ _ _ _).log = _
            rw [w6, u6, r6, t6, s6, kdel]
          · show doutr_reads (mmio_clrsetbits_32 _ _ _ _ _).log = _
            rw [w5, u5, r5, t5, s5, kdout]
          · show (mmio_clrsetbits_32 _ _ _ _ _).cr < _
            rw [w1]; exact clrsetbits32_lt _ _ _
          · intro _ hcr
            show setbits32 (mmio_clrsetbits_32 _ _ _ _ _).cr _ = _
            rw [w1, u1, r1, t1, s1, kcr hcr, clrsetbits32_mod, setbits32_mod, clrbits32_mod]
            obtain ⟨b3, b4⟩ := is_decrypt_bits ctx.cr hdec
            rw [keyprep_round_trip _ (by
                rw [testBit_clrbits32, Nat.testBit_mod_two_pow, b3]; simp) (by
                rw [testBit_clrbits32, Nat.testBit_mod_two_pow, b4, testBit_EN]; simp)]
            exact setbits32_clrbits32_same _ _
      · rw [if_neg hp] at hres
        cases hres
        refine ⟨Or.inl rfl, kdev, kwin, kdel, kdout, klt, fun _ hcr => ?_⟩
        rw [kcr hcr]
        exact setbits32_clrbits32_same _ _

/-- The state in which `restore_context` calls `saes_prepare_key`: the enable
check read the control register once, the reset bit was set by a
read-modify-write, and the control shadow was written. -/
theorem restore_entry (L : Layout) (ctx : stm32_saes_context) (hw : Hw)
    (hen : (hw.cr % 2 ^ 32) &&& _SAES_CR_EN = 0) :
    restore_context L ctx hw
      = match saes_prepare_key L ctx
          { hw with
            cr := ctx.cr % 2 ^ 32
            log := [Ev.wr ctx.base Reg.CR (ctx.cr % 2 ^ 32),
              Ev.wr ctx.base Reg.CR (setbits32 (hw.cr % 2 ^ 32) _SAES_CR_IPRST),
              Ev.rd ctx.base Reg.CR (hw.cr % 2 ^ 32), Ev.rd ctx.base Reg.CR (hw.cr % 2 ^ 32)]
              ++ hw.log } with
        | none => none
        | some r =>
          if r.1 ≠ 0 then some (r.1, r.2)
          else some (0, mmio_setbits_32 ctx.base Reg.CR _SAES_CR_EN (saes_write_iv L ctx r.2)) := by
  unfold restore_context
  have h1 : ¬ ((mmio_read_32 ctx.base Reg.CR hw).1 &&& _SAES_CR_EN ≠ 0) := by
    simpa [mmio_read_32] using hen
  simp only [if_neg h1]
  have h2 : mmio_write_32 ctx.base Reg.CR ctx.cr
      (mmio_setbits_32 ctx.base Reg.CR _SAES_CR_IPRST (mmio_read_32 ctx.base Reg.CR hw).2)
      = { hw with
          cr := ctx.cr % 2 ^ 32
          log := [Ev.wr ctx.base Reg.CR (ctx.cr % 2 ^ 32),
            Ev.wr ctx.base Reg.CR (setbits32 (hw.cr % 2 ^ 32) _SAES_CR_IPRST),
            Ev.rd ctx.base Reg.CR (hw.cr % 2 ^ 32), Ev.rd ctx.base Reg.CR (hw.cr % 2 ^ 32)]
            ++ hw.log } := by
    simp [mmio_write_32, mmio_setbits_32, mmio_read_32]
  rw [h2]
  try rfl

theorem saes_write_iv_spec (L : Layout) (ctx : stm32_saes_context) (hw : Hw) :
    (saes_write_iv L ctx hw).cr = hw.cr
      ∧ (saes_write_iv L ctx hw).dev = hw.dev
      ∧ (saes_write_iv L ctx hw).window = hw.window
      ∧ reg_writes (saes_write_iv L ctx hw).log
        = reg_writes hw.log
          ++ (if does_chaining_mode_need_iv L ctx.cr then
              [(Reg.IVR 0, ctx.iv 0 % 2 ^ 32), (Reg.IVR 1, ctx.iv 1 % 2 ^ 32),
                (Reg.IVR 2, ctx.iv 2 % 2 ^ 32), (Reg.IVR 3, ctx.iv 3 % 2 ^ 32)]
            else [])
      ∧ reg_reads (saes_write_iv L ctx hw).log = reg_reads hw.log
      ∧ doutr_reads (saes_write_iv L ctx hw).log = doutr_reads hw.log
      ∧ delays (saes_write_iv L ctx hw).log = delays hw.log := by
  unfold saes_write_iv
  by_cases hiv : does_chaining_mode_need_iv L ctx.cr = true
  · rw [if_pos hiv, if_pos hiv]
    exact write_words_spec ctx.base Reg.IVR ctx.iv 4 hw (by intro i; simp)
  · rw [if_neg hiv, if_neg hiv]
    simp

/-- What every return of `restore_context` has in common. -/
theorem restore_context_spec (L : Layout) (ctx : stm32_saes_context) (hw : Hw) (e : Int) (h : Hw)
    (hres : restore_context L ctx hw = some (e, h)) :
    h.dev = hw.dev ∧ h.window = hw.window
      ∧ delays h.log = delays hw.log ∧ doutr_reads h.log = doutr_reads hw.log
      ∧ (e = 0 ∨ e = -ETIMEDOUT ∨ e = -EINVAL)
      ∧ (e = -EINVAL ↔ (hw.cr % 2 ^ 32) &&& _SAES_CR_EN ≠ 0)
      ∧ (e = 0 → h.cr = setbits32 (ctx.cr % 2 ^ 32) _SAES_CR_EN) := by
  by_cases hen : (hw.cr % 2 ^ 32) &&& _SAES_CR_EN = 0
  · rw [restore_entry L ctx hw hen] at hres
    generalize hhw2 : ({ hw with
            cr := ctx.cr % 2 ^ 32
            log := [Ev.wr ctx.base Reg.CR (ctx.cr % 2 ^ 32),
              Ev.wr ctx.base Reg.CR (setbits32 (hw.cr % 2 ^ 32) _SAES_CR_IPRST),
              Ev.rd ctx.base Reg.CR (hw.cr % 2 ^ 32), Ev.rd ctx.base Reg.CR (hw.cr % 2 ^ 32)]
              ++ hw.log } : Hw) = hw2 at hres
    have b1 : hw2.dev = hw.dev := by rw [← hhw2]
    have b2 : hw2.window = hw.window := by rw [← hhw2]
    have b3 : delays hw2.log = delays hw.log := by rw [← hhw2]; simp [delays]
    have b4 : doutr_reads hw2.log = doutr_reads hw.log := by rw [← hhw2]; simp [doutr_reads]
    have b5 : hw2.cr % 2 ^ 32 = ctx.cr % 2 ^ 32 := by rw [← hhw2]; simp
    cases hp : saes_prepare_key L ctx hw2 with
    | none => simp [hp] at hres
    | some r =>
      obtain ⟨e3, h3⟩ := r
      simp only [hp] at hres
      obtain ⟨p0, p1, p2, p3, p4, p5, p6⟩ := prepare_key_spec L ctx hw2 e3 h3 hp
      by_cases he : e3 ≠ 0
      · rw [if_pos he] at hres
        cases hres
        refine ⟨p1.trans b1, p2.trans b2, p3.trans b3, p4.trans b4, ?_, ?_, fun h0 => absurd h0 he⟩
        · rcases p0 with h0 | h0
          · exact Or.inl h0
          · exact Or.inr (Or.inl h0)
        · constructor
          · intro h0
            rcases p0 with h1 | h1
            · exact absurd h1 he
            · rw [h1] at h0; exact absurd h0 (by decide)
          · intro h0; exact absurd hen h0
      · rw [if_neg he] at hres
        cases hres
        obtain ⟨i1, i2, i3, -, -, i6, i7⟩ := saes_write_iv_spec L ctx h3
        obtain ⟨s1, s2, s3, -, s5, s6⟩ := setbits_cr_spec ctx.base _SAES_CR_EN
          (saes_write_iv L ctx h3)
        refine ⟨?_, ?_, ?_, ?_, Or.inl rfl, ?_, fun _ => ?_⟩
        · rw [s2, i2, p1, b1]
        · rw [s3, i3, p2, b2]
        · rw [s6, i7, p3, b3]
        · rw [s5, i6, p4, b4]
        · constructor
          · intro h0; exact absurd h0 (by decide)
          · intro h0; exact absurd hen h0
        · rw [s1, i1, Nat.mod_eq_of_lt p5]
          exact p6 (by simpa using he) b5
  · unfold restore_context at hres
    have h1 : (mmio_read_32 ctx.base Reg.CR hw).1 &&& _SAES_CR_EN ≠ 0 := by
      simpa [mmio_read_32] using hen
    simp only [if_pos h1] at hres
    cases hres
    refine ⟨rfl, rfl, ?_, ?_, Or.inr (Or.inr rfl), ⟨fun _ => hen, fun _ => rfl⟩,
      fun h0 => absurd h0 (by decide)⟩
    · simp [mmio_read_32, delays]
    · simp [mmio_read_32, doutr_reads]

/-- C11: `restore_context` returns `-EINVAL` if and only if the enable bit is set
in the control register read on entry, and then no register is written.
Otherwise it sets the reset bit, writes the control shadow to the control
register and runs `saes_prepare_key`; a `panic()` or an error of
`saes_prepare_key` is the result, with no further write; on success the IV
shadow words 0..3 are written to IV registers 0..3 when the chaining mode of the
control shadow is not ECB (none is written when it is ECB), then the enable bit
is set and the result is 0.  The session context is only read: a final
`stm32_saes_update`, which restores and does not save, returns the context it
was given. -/
theorem C11_restore_context (L : Layout) (ctx : stm32_saes_context) (hw : Hw) :
    let c := hw.cr % 2 ^ 32
    let hw2 : Hw :=
      { hw with
        cr := ctx.cr % 2 ^ 32
        log := [Ev.wr ctx.base Reg.CR (ctx.cr % 2 ^ 32),
          Ev.wr ctx.base Reg.CR (setbits32 (hw.cr % 2 ^ 32) _SAES_CR_IPRST),
          Ev.rd ctx.base Reg.CR (hw.cr % 2 ^ 32), Ev.rd ctx.base Reg.CR (hw.cr % 2 ^ 32)]
          ++ hw.log }
    ((∃ h, restore_context L ctx hw = some (-EINVAL, h)) ↔ c &&& _SAES_CR_EN ≠ 0)
      ∧ (c &&& _SAES_CR_EN ≠ 0 →
        ∃ h, restore_context L ctx hw = some (-EINVAL, h)
          ∧ reg_writes h.log = reg_writes hw.log ∧ h.cr = hw.cr)
      ∧ (c &&& _SAES_CR_EN = 0 →
        reg_writes hw2.log
            = reg_writes hw.log
              ++ [(Reg.CR, setbits32 c _SAES_CR_IPRST), (Reg.CR, ctx.cr % 2 ^ 32)]
          ∧ (saes_prepare_key L ctx hw2 = none → restore_context L ctx hw = none)
          ∧ (∀ e h3, saes_prepare_key L ctx hw2 = some (e, h3) → e ≠ 0 →
            restore_context L ctx hw = some (e, h3))
          ∧ (∀ h3, saes_prepare_key L ctx hw2 = some (0, h3) →
            ∃ h5, restore_context L ctx hw = some (0, h5)
              ∧ reg_writes h5.log
                = reg_writes h3.log
                  ++ (if does_chaining_mode_need_iv L ctx.cr then
                      [(Reg.IVR 0, ctx.iv 0 % 2 ^ 32), (Reg.IVR 1, ctx.iv 1 % 2 ^ 32),
                        (Reg.IVR 2, ctx.iv 2 % 2 ^ 32), (Reg.IVR 3, ctx.iv 3 % 2 ^ 32)]
                    else [])
                  ++ [(Reg.CR, setbits32 (h3.cr % 2 ^ 32) _SAES_CR_EN)]
              ∧ h5.cr &&& _SAES_CR_EN = _SAES_CR_EN))
      ∧ (∀ d o n r, stm32_saes_update L ctx true d o n hw = some r → r.ctx = ctx) := by
  intro c hw2
  have hEN : _SAES_CR_EN < 2 ^ 32 := by decide
  have hset : c &&& _SAES_CR_EN ≠ 0 →
      restore_context L ctx hw = some (-EINVAL, (mmio_read_32 ctx.base Reg.CR hw).2) := by
    intro hen
    unfold restore_context
    have h1 : (mmio_read_32 ctx.base Reg.CR hw).1 &&& _SAES_CR_EN ≠ 0 := by
      simpa [mmio_read_32] using hen
    simp only [if_pos h1]
  refine ⟨⟨?_, fun hen => ⟨_, hset hen⟩⟩, ?_, ?_, ?_⟩
  · rintro ⟨h, hh⟩
    exact (restore_context_spec L ctx hw _ h hh).2.2.2.2.2.1.mp rfl
  · intro hen
    refine ⟨_, hset hen, ?_, rfl⟩
    simp [mmio_read_32, reg_writes]
  · intro hen
    have hre := restore_entry L ctx hw hen
    refine ⟨by simp [hw2, c, reg_writes], ?_, ?_, ?_⟩
    · intro hp
      rw [hre]
      simp only [hw2] at hp
      simp only [hp]
    · intro e h3 hp he
      rw [hre]
      simp only [hw2] at hp
      simp only [hp, if_pos he]
    · intro h3 hp
      rw [hre]
      simp only [hw2] at hp
      simp only [hp]
      refine ⟨mmio_setbits_32 ctx.base Reg.CR _SAES_CR_EN (saes_write_iv L ctx h3), by simp,
        ?_, ?_⟩
      · have hi := (saes_write_iv_spec L ctx h3).2.2.2.1
        have hc := (saes_write_iv_spec L ctx h3).1
        simp only [mmio_setbits_32, mmio_read_32, mmio_write_32, reg_writes, hi, hc, if_true,
          setbits32_mod]
      · rw [(setbits_cr_spec _ _ _).1]
        exact setbits32_self _ _ hEN
  · intro d o n r hr
    unfold stm32_saes_update at hr
    simp only [Bool.not_true, Bool.false_and, Bool.true_and, Bool.false_eq_true, if_false] at hr
    split at hr
    · split at hr <;> (cases hr; rfl)
    · split at hr
      · exact absurd hr (by simp)
      · split at hr
        · cases hr; rfl
        · split at hr
          · cases hr; rfl
          · split at hr
            · cases hr; rfl
            · cases hr; rfl
theorem C11_restore_context_witness :
    ((hw_enabled.cr % 2 ^ 32) &&& _SAES_CR_EN ≠ 0)
      ∧ (∃ h, restore_context Layout.CRYP2 ctx_gcm hw_enabled = some (-EINVAL, h)
          ∧ reg_writes h.log = reg_writes hw_enabled.log ∧ h.cr = hw_enabled.cr)
      ∧ (restore_context Layout.CRYP2 ctx_gcm hw_ready).map (fun r => (r.1, reg_writes r.2.log))
        = some (0, [(Reg.CR, 0x80000000), (Reg.CR, 0x64), (Reg.CR, 0x64), (Reg.KEYR 0, 0),
            (Reg.KEYR 1, 0), (Reg.KEYR 2, 0), (Reg.KEYR 3, 0), (Reg.IVR 0, 0), (Reg.IVR 1, 0),
            (Reg.IVR 2, 0), (Reg.IVR 3, 0), (Reg.CR, 0x65)]) :=
  ⟨by decide, (C11_restore_context Layout.CRYP2 ctx_gcm hw_enabled).2.1 (by decide), by decide⟩

theorem update_loop_frame (L : Layout) (base : Nat) (d : Nat → Nat) (n : Nat) (out : Nat → Nat)
    (hw : Hw) :
    ((update_loop L base d n 0 out hw).1 = 0 ∨ (update_loop L base d n 0 out hw).1 = -ETIMEDOUT)
      ∧ (update_loop L base d n 0 out hw).2.2.2.cr = hw.cr
      ∧ (update_loop L base d n 0 out hw).2.2.2.dev = hw.dev
      ∧ (update_loop L base d n 0 out hw).2.2.2.window = hw.window
      ∧ delays (update_loop L base d n 0 out hw).2.2.2.log = delays hw.log := by
  have he := update_loop_eq_load_loop L d n 0
    { base := base, cr := 0, assoc_len := 0, load_len := 0, key := fun _ => 0, iv := fun _ => 0 }
    out hw
  simp only at he
  obtain ⟨l1, -, ⟨a1, a2, a3, -, a5⟩, -, -⟩ := load_loop_spec L d n 0
    { base := base, cr := 0, assoc_len := 0, load_len := 0, key := fun _ => 0, iv := fun _ => 0 }
    out hw rfl
  rw [he]
  exact ⟨l1, a1, a2, a3, a5⟩

theorem read_words_frame (base : Nat) (reg : Nat → Reg) (n : Nat) (s : (Nat → Nat) × Hw) :
    (read_words base reg n s).2.cr = s.2.cr
      ∧ (read_words base reg n s).2.dev = s.2.dev
      ∧ (read_words base reg n s).2.window = s.2.window
      ∧ delays (read_words base reg n s).2.log = delays s.2.log
      ∧ reg_writes (read_words base reg n s).2.log = reg_writes s.2.log := by
  induction n with
  | zero => exact ⟨rfl, rfl, rfl, rfl, rfl⟩
  | succ n ih =>
    obtain ⟨h1, h2, h3, h4, h5⟩ := ih
    simp only [read_words, mmio_read_32, delays, reg_writes]
    exact ⟨h1, h2, h3, h4, h5⟩

/-- What every return of `save_context` has in common: the result is 0 or
`-EINVAL`, no reset pulse is made, on success the enable bit is clear, and on
failure the context and the control register are unchanged. -/
theorem save_context_frame (L : Layout) (ctx : stm32_saes_context) (hw : Hw) :
    ((save_context L ctx hw).1 = 0 ∨ (save_context L ctx hw).1 = -EINVAL)
      ∧ (save_context L ctx hw).2.2.dev = hw.dev
      ∧ (save_context L ctx hw).2.2.window = hw.window
      ∧ delays (save_context L ctx hw).2.2.log = delays hw.log
      ∧ (save_context L ctx hw).2.1.base = ctx.base
      ∧ ((save_context L ctx hw).1 = 0 →
        (save_context L ctx hw).2.2.cr &&& _SAES_CR_EN = 0
          ∧ (save_context L ctx hw).2.1.cr = hw.cr % 2 ^ 32)
      ∧ ((save_context L ctx hw).1 ≠ 0 →
        (save_context L ctx hw).2.1 = ctx ∧ (save_context L ctx hw).2.2.cr = hw.cr) := by
  have hEN : _SAES_CR_EN < 2 ^ 32 := by decide
  by_cases h : (hw.dev hw.log ctx.base Reg.ISR % 2 ^ 32) &&& _SAES_I_CCF L = 0
  · obtain ⟨a1, a2, a3, -, -, -, a7, -⟩ := save_context_idle L ctx hw h
    refine ⟨Or.inl a1, ?_, ?_, ?_, a3, fun _ => ⟨?_, a2⟩, fun h0 => absurd a1 h0⟩
    · unfold save_context
      have h1 : ¬ ((mmio_read_32 ctx.base Reg.ISR hw).1 &&& _SAES_I_CCF L ≠ 0) := by
        simpa [mmio_read_32] using h
      simp only [if_neg h1]
      split
      · rw [(clrbits_cr_spec _ _ _).2.1, (read_words_frame _ _ _ _).2.1]; rfl
      · rw [(clrbits_cr_spec _ _ _).2.1]; rfl
    · unfold save_context
      have h1 : ¬ ((mmio_read_32 ctx.base Reg.ISR hw).1 &&& _SAES_I_CCF L ≠ 0) := by
        simpa [mmio_read_32] using h
      simp only [if_neg h1]
      split
      · rw [(clrbits_cr_spec _ _ _).2.2.1, (read_words_frame _ _ _ _).2.2.1]; rfl
      · rw [(clrbits_cr_spec _ _ _).2.2.1]; rfl
    · unfold save_context
      have h1 : ¬ ((mmio_read_32 ctx.base Reg.ISR hw).1 &&& _SAES_I_CCF L ≠ 0) := by
        simpa [mmio_read_32] using h
      simp only [if_neg h1]
      split
      · rw [(clrbits_cr_spec _ _ _).2.2.2.2.2, (read_words_frame _ _ _ _).2.2.2.1]
        simp [mmio_read_32, delays]
      · rw [(clrbits_cr_spec _ _ _).2.2.2.2.2]
        simp [mmio_read_32, delays]
    · rw [a7]; exact clrbits32_self _ _ hEN
  · rw [save_context_busy L ctx hw h]
    have hE : (-EINVAL : Int) ≠ 0 := by decide
    refine ⟨Or.inr rfl, rfl, rfl, ?_, rfl, fun h0 => absurd h0 hE, fun _ => ⟨rfl, rfl⟩⟩
    simp [mmio_read_32, delays]

/-- A rejected call of `stm32_saes_update` goes to the label `out:` with a
nonzero result from the state it was entered in. -/
theorem update_rejected (L : Layout) (ctx : stm32_saes_context) (last_block : Bool)
    (d o : Nat → Nat) (n : Nat) (hw : Hw) (hrej : update_rejects L ctx last_block n = true) :
    ∃ e : Int, (e = -EINVAL ∨ e = -ENODEV)
      ∧ stm32_saes_update L ctx last_block d o n hw = some (update_out last_block e 0 ctx o hw) := by
  unfold update_rejects at hrej
  unfold stm32_saes_update
  by_cases h1 : (!last_block && decide (round_down n AES_BLOCK_SIZE ≠ n)) = true
  · rw [if_pos h1]
    exact ⟨_, Or.inl rfl, rfl⟩
  · rw [if_neg h1]
    have h2 : (last_block && IS_CHAINING_MODE L STM32_SAES_MODE_CBC ctx.cr && is_encrypt ctx.cr
        && decide (round_down n AES_BLOCK_SIZE ≠ n)) = true := by
      rcases Bool.or_eq_true _ _ |>.mp hrej with h | h
      · exact absurd h h1
      · exact h
    rw [if_pos h2]
    by_cases h3 : n < AES_BLOCK_SIZE * 2
    · rw [if_pos h3]; exact ⟨_, Or.inl rfl, rfl⟩
    · rw [if_neg h3]; exact ⟨_, Or.inr rfl, rfl⟩

/-- A call of `stm32_saes_update` that passes the argument checks starts with
`restore_context`. -/
theorem update_accepted (L : Layout) (ctx : stm32_saes_context) (last_block : Bool)
    (d o : Nat → Nat) (n : Nat) (hw : Hw) (hrej : update_rejects L ctx last_block n = false) :
    stm32_saes_update L ctx last_block d o n hw
      = match restore_context L ctx hw with
        | none => none
        | some r =>
          if r.1 ≠ 0 then some (update_out last_block r.1 0 ctx o r.2)
          else
            let l := update_loop L ctx.base d (round_down n AES_BLOCK_SIZE / AES_BLOCK_SIZE) 0 o r.2
            if l.1 ≠ 0 then some (update_out last_block l.1 l.2.1 ctx l.2.2.1 l.2.2.2)
            else if last_block && decide (l.2.1 < n) then
              some (update_out last_block (-ENODEV) l.2.1 ctx l.2.2.1 l.2.2.2)
            else if !last_block then
              some (update_out last_block (save_context L ctx l.2.2.2).1 l.2.1
                (save_context L ctx l.2.2.2).2.1 l.2.2.1 (save_context L ctx l.2.2.2).2.2)
            else some (update_out last_block 0 l.2.1 ctx l.2.2.1 l.2.2.2) := by
  unfold update_rejects at hrej
  obtain ⟨h1, h2⟩ := Bool.or_eq_false_iff.mp hrej
  unfold stm32_saes_update
  rw [if_neg (by rw [h1]; simp), if_neg (by rw [h2]; simp)]
  try rfl

/-- The paths of `stm32_saes_update`: which of `restore_context`, the block loop,
`save_context` and `saes_end` ran, with the reset pulses and the enable bit on
return. -/
theorem update_spec (L : Layout) (ctx : stm32_saes_context) (last_block : Bool)
    (d o : Nat → Nat) (n : Nat) (hw : Hw) (r : DataResult)
    (hr : stm32_saes_update L ctx last_block d o n hw = some r) :
    (update_rejects L ctx last_block n = true →
      r.ret ≠ 0 ∧ r.ctx = ctx ∧ r.hw = saes_end ctx r.ret hw)
    ∧ (update_rejects L ctx last_block n = false →
      ∃ e h1 l s, restore_context L ctx hw = some (e, h1)
        ∧ l = update_loop L ctx.base d (round_down n AES_BLOCK_SIZE / AES_BLOCK_SIZE) 0 o h1
        ∧ s = save_context L ctx l.2.2.2
        ∧ (e ≠ 0 → r.ret = e ∧ r.ctx = ctx ∧ r.hw = saes_end ctx e h1)
        ∧ (e = 0 →
          (l.1 ≠ 0 → r.ret = l.1 ∧ r.ctx = ctx ∧ r.hw = saes_end ctx l.1 l.2.2.2)
            ∧ (l.1 = 0 → last_block = true →
              r.ret = (if l.2.1 < n then -ENODEV else 0) ∧ r.ctx = ctx
                ∧ r.hw = saes_end ctx r.ret l.2.2.2)
            ∧ (l.1 = 0 → last_block = false →
              r.ret = s.1 ∧ r.ctx = s.2.1
                ∧ r.hw = (if s.1 ≠ 0 then saes_end ctx s.1 s.2.2 else s.2.2))))
    ∧ delays r.hw.log = delays hw.log + (if r.ret ≠ 0 then 1 else 0)
    ∧ r.hw.cr &&& _SAES_CR_EN = 0 := by
  have hEN : _SAES_CR_EN < 2 ^ 32 := by decide
  have hEI : (-EINVAL : Int) ≠ 0 := by decide
  have hED : (-ENODEV : Int) ≠ 0 := by decide
  -- the last three conjuncts follow from the first two
  have hend : ∀ (e : Int) (h : Hw), delays h.log = delays hw.log → r.ret = e →
      r.hw = saes_end ctx e h →
      delays r.hw.log = delays hw.log + (if r.ret ≠ 0 then 1 else 0)
        ∧ r.hw.cr &&& _SAES_CR_EN = 0 := by
    intro e h hd he hh
    obtain ⟨-, s2, -, s4, -, -⟩ := saes_end_spec ctx e h
    rw [hh, he, s4, hd]
    exact ⟨rfl, s2⟩

  cases hrej : update_rejects L ctx last_block n with
  | true =>
    obtain ⟨e, he, hu⟩ := update_rejected L ctx last_block d o n hw hrej
    rw [hu] at hr
    have hr' := (Option.some.inj hr).symm
    have he0 : e ≠ 0 := by rcases he with h | h <;> rw [h] <;> decide
    have hret : r.ret = e := by rw [hr']; rfl
    have hhw : r.hw = saes_end ctx e hw := by
      rw [hr']; simp [update_out, he0]
    refine ⟨fun _ => ⟨by rw [hret]; exact he0, by rw [hr']; rfl, by rw [hret]; exact hhw⟩,
      fun h => absurd h (by simp), hend e hw rfl hret hhw⟩
  | false =>
    rw [update_accepted L ctx last_block d o n hw hrej] at hr
    cases hrc : restore_context L ctx hw with
    | none => simp [hrc] at hr
    | some p =>
      obtain ⟨e, h1⟩ := p
      simp only [hrc] at hr
      obtain ⟨c1, c2, c3, -, -, -, -⟩ := restore_context_spec L ctx hw e h1 hrc
      by_cases he : e ≠ 0
      · rw [if_pos he] at hr
        have hr' := (Option.some.inj hr).symm
        have hret : r.ret = e := by rw [hr']; rfl
        have hhw : r.hw = saes_end ctx e h1 := by rw [hr']; simp [update_out, he]
        refine ⟨fun h => absurd h (by simp), fun _ => ⟨e, h1, _, _, rfl, rfl, rfl,
          fun _ => ⟨hret, by rw [hr']; rfl, hhw⟩, fun h0 => absurd h0 he⟩, hend e h1 c3 hret hhw⟩
      · rw [if_neg he] at hr
        have he0 : e = 0 := by simpa using he
        obtain ⟨l0, l1, l2, l3, l4⟩ := update_loop_frame L ctx.base d
          (round_down n AES_BLOCK_SIZE / AES_BLOCK_SIZE) o h1
        have ld : delays (update_loop L ctx.base d
            (round_down n AES_BLOCK_SIZE / AES_BLOCK_SIZE) 0 o h1).2.2.2.log = delays hw.log := by
          rw [l4, c3]
        by_cases hl : (update_loop L ctx.base d
            (round_down n AES_BLOCK_SIZE / AES_BLOCK_SIZE) 0 o h1).1 ≠ 0
        · rw [if_pos hl] at hr
          have hr' := (Option.some.inj hr).symm
          have hret : r.ret = (update_loop L ctx.base d
              (round_down n AES_BLOCK_SIZE / AES_BLOCK_SIZE) 0 o h1).1 := by rw [hr']; rfl
          have hhw : r.hw = saes_end ctx (update_loop L ctx.base d
              (round_down n AES_BLOCK_SIZE / AES_BLOCK_SIZE) 0 o h1).1 (update_loop L ctx.base d
              (round_down n AES_BLOCK_SIZE / AES_BLOCK_SIZE) 0 o h1).2.2.2 := by
            rw [hr']; simp [update_out, hl]
          refine ⟨fun h => absurd h (by simp), fun _ => ⟨e, h1, _, _, rfl, rfl, rfl, fun h0 => absurd he0 h0,
            fun _ => ⟨fun _ => ⟨hret, by rw [hr']; rfl, hhw⟩, fun h0 => absurd h0 hl,
              fun h0 => absurd h0 hl⟩⟩, hend _ _ ld hret hhw⟩
        · rw [if_neg hl] at hr
          have hl0 : (update_loop L ctx.base d
            (round_down n AES_BLOCK_SIZE / AES_BLOCK_SIZE) 0 o h1).1 = 0 := by simpa using hl
          cases last_block with
          | true =>
            simp only [Bool.true_and, Bool.not_true, Bool.false_eq_true, if_false,
              decide_eq_true_eq] at hr
            by_cases hi : (update_loop L ctx.base d
                (round_down n AES_BLOCK_SIZE / AES_BLOCK_SIZE) 0 o h1).2.1 < n
            · rw [if_pos hi] at hr
              have hr' := (Option.some.inj hr).symm
              have hret : r.ret = -ENODEV := by rw [hr']; rfl
              have hhw : r.hw = saes_end ctx (-ENODEV) (update_loop L ctx.base d
                  (round_down n AES_BLOCK_SIZE / AES_BLOCK_SIZE) 0 o h1).2.2.2 := by
                rw [hr']; simp [update_out]
              refine ⟨fun h => absurd h (by simp), fun _ => ⟨e, h1, _, _, rfl, rfl, rfl, fun h0 => absurd he0 h0,
                fun _ => ⟨fun h0 => absurd hl0 h0, fun _ _ => ⟨by rw [if_pos hi]; exact hret,
                  by rw [hr']; rfl, by rw [hret]; exact hhw⟩, fun _ h0 => absurd h0 (by simp)⟩⟩,
                hend _ _ ld hret hhw⟩
            · rw [if_neg hi] at hr
              have hr' := (Option.some.inj hr).symm
              have hret : r.ret = 0 := by rw [hr']; rfl
              have hhw : r.hw = saes_end ctx 0 (update_loop L ctx.base d
                  (round_down n AES_BLOCK_SIZE / AES_BLOCK_SIZE) 0 o h1).2.2.2 := by
                rw [hr']; simp [update_out]
              refine ⟨fun h => absurd h (by simp), fun _ => ⟨e, h1, _, _, rfl, rfl, rfl, fun h0 => absurd he0 h0,
                fun _ => ⟨fun h0 => absurd hl0 h0, fun _ _ => ⟨by rw [if_neg hi]; exact hret,
                  by rw [hr']; rfl, by rw [hret]; exact hhw⟩, fun _ h0 => absurd h0 (by simp)⟩⟩,
                hend _ _ ld hret hhw⟩
          | false =>
            simp only [Bool.false_and, Bool.false_eq_true, if_false, Bool.not_false,
              if_true] at hr
            have hr' := (Option.some.inj hr).symm
            obtain ⟨v0, v1, v2, v3, v4, v5, v6⟩ := save_context_frame L ctx
              (update_loop L ctx.base d (round_down n AES_BLOCK_SIZE / AES_BLOCK_SIZE) 0 o h1).2.2.2
            have hret : r.ret = (save_context L ctx (update_loop L ctx.base d
                (round_down n AES_BLOCK_SIZE / AES_BLOCK_SIZE) 0 o h1).2.2.2).1 := by
              rw [hr']; rfl
            have hctx : r.ctx = (save_context L ctx (update_loop L ctx.base d
                (round_down n AES_BLOCK_SIZE / AES_BLOCK_SIZE) 0 o h1).2.2.2).2.1 := by
              rw [hr']; rfl
            have key : r.hw
                = (if (save_context L ctx (update_loop L ctx.base d
                    (round_down n AES_BLOCK_SIZE / AES_BLOCK_SIZE) 0 o h1).2.2.2).1 ≠ 0 then
                  saes_end ctx (save_context L ctx (update_loop L ctx.base d
                    (round_down n AES_BLOCK_SIZE / AES_BLOCK_SIZE) 0 o h1).2.2.2).1
                    (save_context L ctx (update_loop L ctx.base d
                    (round_down n AES_BLOCK_SIZE / AES_BLOCK_SIZE) 0 o h1).2.2.2).2.2
                  else (save_context L ctx (update_loop L ctx.base d
                    (round_down n AES_BLOCK_SIZE / AES_BLOCK_SIZE) 0 o h1).2.2.2).2.2)
                ∧ delays r.hw.log = delays hw.log + (if r.ret ≠ 0 then 1 else 0)
                ∧ r.hw.cr &&& _SAES_CR_EN = 0 := by
              by_cases hs : (save_context L ctx (update_loop L ctx.base d
                  (round_down n AES_BLOCK_SIZE / AES_BLOCK_SIZE) 0 o h1).2.2.2).1 ≠ 0
              · have hhw : r.hw = saes_end ctx (save_context L ctx (update_loop L ctx.base d
                    (round_down n AES_BLOCK_SIZE / AES_BLOCK_SIZE) 0 o h1).2.2.2).1
                    (save_context L ctx (update_loop L ctx.base d
                    (round_down n AES_BLOCK_SIZE / AES_BLOCK_SIZE) 0 o h1).2.2.2).2.2 := by
                  rw [hr']; simp [update_out, hs]
                  rw [(v6 hs).1]
                rw [if_pos hs]
                exact ⟨hhw, hend _ _ (by rw [v3, ld]) hret hhw⟩
              · have hs0 : (save_context L ctx (update_loop L ctx.base d
                    (round_down n AES_BLOCK_SIZE / AES_BLOCK_SIZE) 0 o h1).2.2.2).1 = 0 := by
                  simpa using hs
                have hhw : r.hw = (save_context L ctx (update_loop L ctx.base d
                    (round_down n AES_BLOCK_SIZE / AES_BLOCK_SIZE) 0 o h1).2.2.2).2.2 := by
                  rw [hr']; simp [update_out, hs0]
                rw [if_neg hs]
                refine ⟨hhw, ?_, ?_⟩
                · rw [hhw, hret, hs0, v3, ld]; simp
                · rw [hhw]; exact (v5 hs0).1
            exact ⟨fun h => absurd h (by simp), fun _ => ⟨e, h1, _, _, rfl, rfl, rfl,
              fun h0 => absurd he0 h0, fun _ => ⟨fun h0 => absurd hl0 h0,
                fun _ h0 => absurd h0 (by simp),
                fun _ _ => ⟨hret, hctx, key.1⟩⟩⟩, key.2.1, key.2.2⟩
/-- C13: for every call of `stm32_saes_update` that returns: `save_context`
runs exactly when the call is not final, the arguments were accepted,
`restore_context` returned 0 and the block loop returned 0, and then its result
is the return value and its context the context returned; on every other path
the context is returned unchanged and `saes_end` runs with the return value, as
it does after a failed `save_context`; after a successful `save_context`
`saes_end` does not run.  The call makes one reset pulse if the return value is
nonzero and none if it is zero; the enable bit is clear on return, so that no
later `restore_context` returns `-EINVAL`. -/
theorem C13_update_save_or_end (L : Layout) (ctx : stm32_saes_context) (last_block : Bool)
    (d o : Nat → Nat) (n : Nat) (hw : Hw) (r : DataResult)
    (hr : stm32_saes_update L ctx last_block d o n hw = some r) :
    (update_rejects L ctx last_block n = true →
        r.ret ≠ 0 ∧ r.ctx = ctx ∧ r.hw = saes_end ctx r.ret hw)
      ∧ (update_rejects L ctx last_block n = false →
        ∃ e h1, restore_context L ctx hw = some (e, h1)
          ∧ (e ≠ 0 → r.ret = e ∧ r.ctx = ctx ∧ r.hw = saes_end ctx e h1)
          ∧ (e = 0 →
            let l := update_loop L ctx.base d (round_down n AES_BLOCK_SIZE / AES_BLOCK_SIZE) 0 o h1
            let s := save_context L ctx l.2.2.2
            (l.1 ≠ 0 → r.ret = l.1 ∧ r.ctx = ctx ∧ r.hw = saes_end ctx l.1 l.2.2.2)
              ∧ (l.1 = 0 → last_block = true →
                r.ret = (if l.2.1 < n then -ENODEV else 0) ∧ r.ctx = ctx
                  ∧ r.hw = saes_end ctx r.ret l.2.2.2)
              ∧ (l.1 = 0 → last_block = false →
                r.ret = s.1 ∧ r.ctx = s.2.1
                  ∧ r.hw = (if s.1 ≠ 0 then saes_end ctx s.1 s.2.2 else s.2.2))))
      ∧ delays r.hw.log = delays hw.log + (if r.ret ≠ 0 then 1 else 0)
      ∧ r.hw.cr &&& _SAES_CR_EN = 0
      ∧ (∀ ctx2 h, restore_context L ctx2 r.hw ≠ some (-EINVAL, h)) := by
  have hEN : _SAES_CR_EN < 2 ^ 32 := by decide
  obtain ⟨m1, m2, m3, m4⟩ := update_spec L ctx last_block d o n hw r hr
  refine ⟨m1, fun h => ?_, m3, m4, ?_⟩
  · obtain ⟨e, h1, l, s, a1, rfl, rfl, a2, a3⟩ := m2 h
    exact ⟨e, h1, a1, a2, a3⟩
  · intro ctx2 h hres
    have := (restore_context_spec L ctx2 r.hw _ h hres).2.2.2.2.2.1.mp rfl
    rw [and_mod32 _ _ hEN] at this
    exact this m4
theorem C13_update_save_or_end_witness :
    ∃ r, stm32_saes_update Layout.CRYP2 ctx_ctr false buf_count (fun _ => 0) 0 hw_keyed = some r
      ∧ r.ret = 0 ∧ r.ctx.cr = 0x45
      ∧ delays r.hw.log = delays hw_keyed.log + (if r.ret ≠ 0 then 1 else 0)
      ∧ r.hw.cr &&& _SAES_CR_EN = 0 :=
  ⟨(stm32_saes_update Layout.CRYP2 ctx_ctr false buf_count (fun _ => 0) 0 hw_keyed).getD
      (update_out false 0 0 ctx_ctr (fun _ => 0) hw_keyed),
    rfl, by decide, by decide,
    (C13_update_save_or_end Layout.CRYP2 ctx_ctr false buf_count (fun _ => 0) 0 hw_keyed _
      rfl).2.2.1,
    (C13_update_save_or_end Layout.CRYP2 ctx_ctr false buf_count (fun _ => 0) 0 hw_keyed _
      rfl).2.2.2.1⟩

/-- C14, the code at the failing input: a GCM session on a device whose key is
valid and whose completion flag never shows.  `stm32_saes_update_assodata`
returns `-ETIMEDOUT` from the completion wait that follows `restore_context`
with the enable bit set and without a reset pulse: no `udelay` was made and the
last write to the control register is the enable of `restore_context`.  On the
same device the timeouts of `stm32_saes_final`, `stm32_saes_update_load` and
`stm32_saes_update`, and on a device without a valid key the timeout inside
`restore_context` of `stm32_saes_update_assodata`, are followed by the cleanup:
one reset pulse, and the enable bit is clear. -/
theorem C14_assodata_timeout_skips_cleanup :
    (stm32_saes_update_assodata Layout.CRYP2 ctx_gcm true (some buf_count) 16 hw_keyed).map
        (fun r => (r.ret, r.hw.cr &&& _SAES_CR_EN, delays r.hw.log, cr_writes r.hw.log))
      = some (-ETIMEDOUT, _SAES_CR_EN, 0, [0x80000000, 0x64, 0x64, 0x65])
    ∧ (stm32_saes_update_assodata Layout.CRYP2 ctx_gcm true (some buf_count) 16 hw_silent).map
        (fun r => (r.ret, r.hw.cr &&& _SAES_CR_EN, delays r.hw.log))
      = some (-ETIMEDOUT, 0, 1)
    ∧ (fun r : TagResult => (r.ret, r.hw.cr &&& _SAES_CR_EN, delays r.hw.log))
        (stm32_saes_final Layout.CRYP2 ctx_gcm (fun _ => 0) 16 hw_keyed)
      = (-ETIMEDOUT, 0, 1)
    ∧ (fun r : DataResult => (r.ret, r.hw.cr &&& _SAES_CR_EN, delays r.hw.log))
        (stm32_saes_update_load Layout.CRYP2 ctx_gcm true (some buf_count) (fun _ => 0) 16
          hw_keyed)
      = (-ETIMEDOUT, 0, 1)
    ∧ (stm32_saes_update Layout.CRYP2 ctx_ctr true buf_count (fun _ => 0) 16 hw_keyed).map
        (fun r => (r.ret, r.hw.cr &&& _SAES_CR_EN, delays r.hw.log))
      = some (-ETIMEDOUT, 0, 1) := by
  refine ⟨by decide, by decide, by decide, by decide, by decide⟩

theorem saes_start_loop_frame (L : Layout) (base : Nat) (k : Nat) (hw : Hw) :
    (saes_start_loop L base k hw).2.cr = hw.cr := by
  induction k generalizing hw with
  | zero =>
    simp only [saes_start_loop]
    split <;> rfl
  | succ k ih =>
    simp only [saes_start_loop]
    split
    · rw [ih]; rfl
    · rfl

/-- The reset pulse of `saes_start` does not touch the enable bit. -/
theorem saes_start_en (L : Layout) (ctx : stm32_saes_context) (hw : Hw) :
    (saes_start L ctx hw).2.cr &&& _SAES_CR_EN = hw.cr &&& _SAES_CR_EN := by
  have hEN : _SAES_CR_EN < 2 ^ 32 := by decide
  unfold saes_start
  simp only
  rw [saes_start_loop_frame]
  split
  · rw [(clrbits_cr_spec _ _ _).1]
    simp only [udelay]
    rw [(setbits_cr_spec _ _ _).1, clrbits32_other _ _ _ hEN (by decide), and_mod32 _ _ hEN,
      setbits32_other _ _ _ hEN (by decide), and_mod32 _ _ hEN]
    rfl
  · rfl

/-- Session creation leaves the enable bit as it found it. -/
theorem init_en (L : Layout) (pdata_base : Nat) (ctx : stm32_saes_context) (is_dec : Bool)
    (ch_mode : stm32_saes_chaining_mode) (key_select : stm32_saes_key_selection)
    (key : Nat → Nat) (key_size : Nat) (iv : Option (Nat → Nat)) (iv_size : Nat) (hw : Hw) :
    (stm32_saes_init L pdata_base ctx is_dec ch_mode key_select key key_size iv iv_size hw).2.2.cr
        &&& _SAES_CR_EN = hw.cr &&& _SAES_CR_EN := by
  unfold stm32_saes_init
  simp only
  split
  · rfl
  · split
    · rfl
    · split
      · split
        · rfl
        · split
          · rfl
          · exact saes_start_en L _ hw
      · exact saes_start_en L _ hw

/-- The label `out:` of the authenticated operations: the cleanup runs exactly
on a nonzero result. -/
theorem load_out_en (ret : Int) (i : Nat) (ctx : stm32_saes_context) (out : Nat → Nat) (hw : Hw) :
    (load_out ret i ctx out hw).ret = ret
      ∧ (ret ≠ 0 → (load_out ret i ctx out hw).hw.cr &&& _SAES_CR_EN = 0
          ∧ delays (load_out ret i ctx out hw).hw.log = delays hw.log + 1)
      ∧ (ret = 0 → (load_out ret i ctx out hw).hw = hw) := by
  refine ⟨rfl, fun h => ?_, fun h => ?_⟩
  · obtain ⟨-, s2, -, s4, -, -⟩ := saes_end_spec ctx ret hw
    simp only [load_out, if_pos h]
    rw [s4, if_pos h]
    exact ⟨s2, rfl⟩
  · simp [load_out, h]

/-- The enable bit and the reset pulses of the second half of
`stm32_saes_update_load`. -/
theorem load_blocks_en (L : Layout) (ctx : stm32_saes_context) (last_block : Bool)
    (d out : Nat → Nat) (n : Nat) (hw2 : Hw) :
    ((load_blocks L ctx last_block d out n hw2).ret ≠ 0 →
        (load_blocks L ctx last_block d out n hw2).hw.cr &&& _SAES_CR_EN = 0
          ∧ delays (load_blocks L ctx last_block d out n hw2).hw.log = delays hw2.log + 1)
      ∧ ((load_blocks L ctx last_block d out n hw2).ret = 0 →
        (load_blocks L ctx last_block d out n hw2).hw.cr = hw2.cr
          ∧ delays (load_blocks L ctx last_block d out n hw2).hw.log = delays hw2.log) := by
  obtain ⟨-, ⟨lb, -, -, -, -⟩, ⟨lc1, -, -, -, lc5⟩, -, -⟩ := load_loop_spec L d
    (round_down n AES_BLOCK_SIZE / AES_BLOCK_SIZE) 0 ctx out hw2 rfl
  unfold load_blocks
  simp only
  generalize load_loop L d (round_down n AES_BLOCK_SIZE / AES_BLOCK_SIZE) 0 ctx out hw2 = l
    at lb lc1 lc5
  have hcase : ∀ (e : Int) (i : Nat) (c : stm32_saes_context) (o : Nat → Nat) (h : Hw),
      h.cr = hw2.cr → delays h.log = delays hw2.log →
      ((load_out e i c o h).ret ≠ 0 →
          (load_out e i c o h).hw.cr &&& _SAES_CR_EN = 0
            ∧ delays (load_out e i c o h).hw.log = delays hw2.log + 1)
        ∧ ((load_out e i c o h).ret = 0 →
          (load_out e i c o h).hw.cr = hw2.cr
            ∧ delays (load_out e i c o h).hw.log = delays hw2.log) := by
    intro e i c o h hc hd
    obtain ⟨a1, a2, a3⟩ := load_out_en e i c o h
    rw [a1]
    refine ⟨fun h0 => ?_, fun h0 => ?_⟩
    · rw [← hd]; exact a2 h0
    · rw [a3 h0]; exact ⟨hc, hd⟩
  split
  · exact hcase _ _ _ _ _ lc1 lc5
  · split
    · obtain ⟨w1, -, -, -, -, w6⟩ := write_block_spec ctx.base
        (load32 (block_in d l.i (n - l.i))) 0 l.hw
      obtain ⟨-, r1, -, -, -, -, r6⟩ := wait_cc_spec L ctx.base
        (write_block ctx.base (load32 (block_in d l.i (n - l.i))) 0 l.hw)
      split
      · exact hcase _ _ _ _ _ (by rw [r1, w1, lc1]) (by rw [r6, w6, lc5])
      · obtain ⟨v0, v1, v2, v3, -, -, b3, -, -, -, b7⟩ := read_block_spec ctx.base (fun _ => 0) 0
          (wait_computation_completed L ctx.base
            (write_block ctx.base (load32 (block_in d l.i (n - l.i))) 0 l.hw)).2
        obtain ⟨k1, -, -, -, -, k6⟩ := clear_cc_kept L ctx.base
          (read_block ctx.base (fun _ => 0) 0 (wait_computation_completed L ctx.base
            (write_block ctx.base (load32 (block_in d l.i (n - l.i))) 0 l.hw)).2).2
        exact hcase _ _ _ _ _ (by rw [k1, b3, r1, w1, lc1]) (by rw [k6, b7, r6, w6, lc5])
    · exact hcase _ _ _ _ _ lc1 lc5

theorem clrsetbits_cr_en (base m s : Nat) (hw : Hw) (hm : m &&& _SAES_CR_EN = 0)
    (hs : s &&& _SAES_CR_EN = 0) :
    (mmio_clrsetbits_32 base Reg.CR m s hw).cr &&& _SAES_CR_EN = hw.cr &&& _SAES_CR_EN := by
  have hEN : _SAES_CR_EN < 2 ^ 32 := by decide
  rw [(clrsetbits_cr_spec _ _ _ _).1, clrsetbits32_other _ _ _ _ hEN hm hs, and_mod32 _ _ hEN]

theorem setbits_cr_en (base : Nat) (hw : Hw) :
    (mmio_setbits_32 base Reg.CR _SAES_CR_EN hw).cr &&& _SAES_CR_EN = _SAES_CR_EN := by
  rw [(setbits_cr_spec _ _ _).1]
  exact setbits32_self _ _ (by decide)

/-- The enable bit on return from `stm32_saes_update_load`: clear after an
error; after a success it is set when the call enabled the engine (data
present, phase INIT on entry) and otherwise as on entry. -/
theorem update_load_en (L : Layout) (ctx : stm32_saes_context) (last_block : Bool)
    (data_in : Option (Nat → Nat)) (out : Nat → Nat) (n : Nat) (hw : Hw) :
    ((stm32_saes_update_load L ctx last_block data_in out n hw).ret ≠ 0 →
        (stm32_saes_update_load L ctx last_block data_in out n hw).hw.cr &&& _SAES_CR_EN = 0
          ∧ delays (stm32_saes_update_load L ctx last_block data_in out n hw).hw.log
            = delays hw.log + 1)
      ∧ ((stm32_saes_update_load L ctx last_block data_in out n hw).ret = 0 →
        delays (stm32_saes_update_load L ctx last_block data_in out n hw).hw.log = delays hw.log
          ∧ (stm32_saes_update_load L ctx last_block data_in out n hw).hw.cr &&& _SAES_CR_EN
            = (if data_in.isSome = true ∧ n ≠ 0
                ∧ (hw.cr % 2 ^ 32) &&& _SAES_CR_GCMPH_MASK
                  = _SAES_CR_GCMPH_INIT <<< _SAES_CR_GCMPH_SHIFT then _SAES_CR_EN
              else hw.cr &&& _SAES_CR_EN)) := by
  have hE0 : ¬ ((0 : Int) ≠ 0) := by simp
  unfold stm32_saes_update_load
  simp only
  cases data_in with
  | none =>
    simp only [load_out, hE0, if_false, Option.isSome_none, Bool.false_eq_true, false_and]
    refine ⟨fun h => h.elim, fun _ => ⟨by simp [mmio_read_32, delays], rfl⟩⟩
  | some d =>
    simp only
    by_cases hn : n = 0
    · simp only [hn, if_true, load_out, hE0, if_false, ne_eq, not_true_eq_false, false_and,
        and_false]
      refine ⟨fun h => h.elim, fun _ => ⟨by simp [mmio_read_32, delays], rfl⟩⟩
    · rw [if_neg hn]
      have hp : (mmio_read_32 ctx.base Reg.CR hw).1 = hw.cr % 2 ^ 32 := by simp [mmio_read_32]
      have h1en : (mmio_clrsetbits_32 ctx.base Reg.CR _SAES_CR_GCMPH_MASK
          (_SAES_CR_GCMPH_PAYLOAD <<< _SAES_CR_GCMPH_SHIFT) (mmio_read_32 ctx.base Reg.CR hw).2).cr
          &&& _SAES_CR_EN = hw.cr &&& _SAES_CR_EN := by
        rw [clrsetbits_cr_en _ _ _ _ (by decide) (by decide)]
        rfl
      have h1d : delays (mmio_clrsetbits_32 ctx.base Reg.CR _SAES_CR_GCMPH_MASK
          (_SAES_CR_GCMPH_PAYLOAD <<< _SAES_CR_GCMPH_SHIFT) (mmio_read_32 ctx.base Reg.CR hw).2).log
          = delays hw.log := by
        rw [(clrsetbits_cr_spec _ _ _ _).2.2.2.2.2]
        simp [mmio_read_32, delays]
      rw [hp]
      by_cases hph : (hw.cr % 2 ^ 32) &&& _SAES_CR_GCMPH_MASK
          = _SAES_CR_GCMPH_INIT <<< _SAES_CR_GCMPH_SHIFT
      · rw [if_pos hph]
        obtain ⟨b1, b2⟩ := load_blocks_en L ctx last_block d out n
          (mmio_setbits_32 ctx.base Reg.CR _SAES_CR_EN
            (mmio_clrsetbits_32 ctx.base Reg.CR _SAES_CR_GCMPH_MASK
              (_SAES_CR_GCMPH_PAYLOAD <<< _SAES_CR_GCMPH_SHIFT) (mmio_read_32 ctx.base Reg.CR hw).2))
        have h2d := (setbits_cr_spec ctx.base _SAES_CR_EN
          (mmio_clrsetbits_32 ctx.base Reg.CR _SAES_CR_GCMPH_MASK
            (_SAES_CR_GCMPH_PAYLOAD <<< _SAES_CR_GCMPH_SHIFT)
            (mmio_read_32 ctx.base Reg.CR hw).2)).2.2.2.2.2
        refine ⟨fun h => ?_, fun h => ?_⟩
        · obtain ⟨c1, c2⟩ := b1 h
          exact ⟨c1, by rw [c2, h2d, h1d]⟩
        · obtain ⟨c1, c2⟩ := b2 h
          refine ⟨by rw [c2, h2d, h1d], ?_⟩
          rw [c1, setbits_cr_en, if_pos ⟨rfl, hn, hph⟩]
      · rw [if_neg hph]
        obtain ⟨b1, b2⟩ := load_blocks_en L ctx last_block d out n
          (mmio_clrsetbits_32 ctx.base Reg.CR _SAES_CR_GCMPH_MASK
            (_SAES_CR_GCMPH_PAYLOAD <<< _SAES_CR_GCMPH_SHIFT) (mmio_read_32 ctx.base Reg.CR hw).2)
        refine ⟨fun h => ?_, fun h => ?_⟩
        · obtain ⟨c1, c2⟩ := b1 h
          exact ⟨c1, by rw [c2, h1d]⟩
        · obtain ⟨c1, c2⟩ := b2 h
          refine ⟨by rw [c2, h1d], ?_⟩
          rw [c1, h1en, if_neg (fun h3 => hph h3.2.2)]

theorem auth_out_en (ret : Int) (ctx : stm32_saes_context) (hw : Hw) :
    (auth_out ret ctx hw).ret = ret
      ∧ (ret ≠ 0 → (auth_out ret ctx hw).hw.cr &&& _SAES_CR_EN = 0
          ∧ delays (auth_out ret ctx hw).hw.log = delays hw.log + 1)
      ∧ (ret = 0 → (auth_out ret ctx hw).hw = hw) := by
  obtain ⟨a1, -, a3⟩ := auth_out_spec ret ctx hw
  refine ⟨a1, fun h => ?_, fun h => ?_⟩
  · obtain ⟨-, s2, -, s4, -, -⟩ := saes_end_spec ctx ret hw
    rw [a3, if_pos h, s4, if_pos h]
    exact ⟨s2, rfl⟩
  · rw [a3, if_neg (by simpa using h)]

/-- The enable bit and the reset pulses of the second half of
`stm32_saes_update_assodata`. -/
theorem assodata_blocks_en (L : Layout) (ctx : stm32_saes_context) (last_block : Bool)
    (d : Nat → Nat) (n : Nat) (hw4 : Hw) :
    ((assodata_blocks L ctx last_block d n hw4).ret ≠ 0 →
        (assodata_blocks L ctx last_block d n hw4).hw.cr &&& _SAES_CR_EN = 0
          ∧ delays (assodata_blocks L ctx last_block d n hw4).hw.log = delays hw4.log + 1)
      ∧ ((assodata_blocks L ctx last_block d n hw4).ret = 0 →
        (assodata_blocks L ctx last_block d n hw4).hw.cr = hw4.cr
          ∧ delays (assodata_blocks L ctx last_block d n hw4).hw.log = delays hw4.log) := by
  obtain ⟨-, ⟨lb, -, -, -, -⟩, ⟨lc1, -, -, -, lc5, -⟩, -⟩ := assodata_loop_spec L d
    (round_down n AES_BLOCK_SIZE / AES_BLOCK_SIZE) 0 ctx hw4 rfl
  unfold assodata_blocks
  simp only
  generalize assodata_loop L d (round_down n AES_BLOCK_SIZE / AES_BLOCK_SIZE) 0 ctx hw4 = l
    at lb lc1 lc5
  have hcase : ∀ (e : Int),
      ((auth_out e l.2.2.1 l.2.2.2).ret ≠ 0 →
          (auth_out e l.2.2.1 l.2.2.2).hw.cr &&& _SAES_CR_EN = 0
            ∧ delays (auth_out e l.2.2.1 l.2.2.2).hw.log = delays hw4.log + 1)
        ∧ ((auth_out e l.2.2.1 l.2.2.2).ret = 0 →
          (auth_out e l.2.2.1 l.2.2.2).hw.cr = hw4.cr
            ∧ delays (auth_out e l.2.2.1 l.2.2.2).hw.log = delays hw4.log) := by
    intro e
    obtain ⟨a1, a2, a3⟩ := auth_out_en e l.2.2.1 l.2.2.2
    rw [a1]
    refine ⟨fun h0 => ?_, fun h0 => ?_⟩
    · rw [← lc5]; exact a2 h0
    · rw [a3 h0]; exact ⟨lc1, lc5⟩
  split
  · exact hcase _
  · split
    · exact hcase _
    · exact hcase _

/-- The enable bit and the reset pulses of `stm32_saes_update_assodata`, by the
result of `restore_context` and of the completion wait that follows it. -/
theorem update_assodata_en (L : Layout) (ctx : stm32_saes_context) (last_block : Bool)
    (data : Option (Nat → Nat)) (n : Nat) (hw : Hw) (r : CtxResult)
    (hr : stm32_saes_update_assodata L ctx last_block data n hw = some r) :
    ∃ e h1, restore_context L ctx hw = some (e, h1)
      ∧ (e ≠ 0 → r.ret = e ∧ r.hw.cr &&& _SAES_CR_EN = 0
          ∧ delays r.hw.log = delays hw.log + 1)
      ∧ (e = 0 → (wait_computation_completed L ctx.base h1).1 ≠ 0 →
          r.ret = -ETIMEDOUT ∧ r.hw.cr &&& _SAES_CR_EN = _SAES_CR_EN
            ∧ delays r.hw.log = delays hw.log)
      ∧ (e = 0 → (wait_computation_completed L ctx.base h1).1 = 0 →
          (r.ret ≠ 0 → r.hw.cr &&& _SAES_CR_EN = 0 ∧ delays r.hw.log = delays hw.log + 1)
            ∧ (r.ret = 0 → r.hw.cr &&& _SAES_CR_EN = _SAES_CR_EN
              ∧ delays r.hw.log = delays hw.log)) := by
  have hEN : _SAES_CR_EN < 2 ^ 32 := by decide
  unfold stm32_saes_update_assodata at hr
  cases hrc : restore_context L ctx hw with
  | none => simp [hrc] at hr
  | some p =>
    obtain ⟨e, h1⟩ := p
    simp only [hrc] at hr
    obtain ⟨-, -, c3, -, -, -, c7⟩ := restore_context_spec L ctx hw e h1 hrc
    refine ⟨e, h1, rfl, ?_⟩
    by_cases he : e ≠ 0
    · rw [if_pos he] at hr
      have hr' := (Option.some.inj hr).symm
      obtain ⟨a1, a2, -⟩ := auth_out_en e ctx h1
      refine ⟨fun _ => ?_, fun h0 => absurd h0 he, fun h0 => absurd h0 he⟩
      rw [hr', a1, ← c3]
      exact ⟨rfl, a2 he⟩
    · rw [if_neg he] at hr
      have he0 : e = 0 := by simpa using he
      have h1en : h1.cr &&& _SAES_CR_EN = _SAES_CR_EN := by
        rw [c7 he0]; exact setbits32_self _ _ hEN
      obtain ⟨w0, w1, -, -, -, -, w6⟩ := wait_cc_spec L ctx.base h1
      refine ⟨fun h0 => absurd he0 h0, fun _ hc => ?_, fun _ hc => ?_⟩
      · rw [if_pos hc] at hr
        have hr' := (Option.some.inj hr).symm
        rw [hr']
        refine ⟨?_, by show (wait_computation_completed L ctx.base h1).2.cr &&& _ = _
                       rw [w1]; exact h1en,
          by show delays (wait_computation_completed L ctx.base h1).2.log = _
             rw [w6, c3]⟩
        rcases w0 with h | h
        · exact absurd h hc
        · exact h
      · rw [if_neg (by simpa using hc)] at hr
        obtain ⟨k1, -, -, -, -, k6⟩ := clear_cc_kept L ctx.base
          (wait_computation_completed L ctx.base h1).2
        have h2en : (clear_computation_completed L ctx.base
            (wait_computation_completed L ctx.base h1).2).cr &&& _SAES_CR_EN = _SAES_CR_EN := by
          rw [k1, w1]; exact h1en
        have h2d : delays (clear_computation_completed L ctx.base
            (wait_computation_completed L ctx.base h1).2).log = delays hw.log := by
          rw [k6, w6, c3]
        have hnone : ∀ r', some (auth_out 0 ctx (clear_computation_completed L ctx.base
            (wait_computation_completed L ctx.base h1).2)) = some r' →
            (r'.ret ≠ 0 → r'.hw.cr &&& _SAES_CR_EN = 0 ∧ delays r'.hw.log = delays hw.log + 1)
              ∧ (r'.ret = 0 → r'.hw.cr &&& _SAES_CR_EN = _SAES_CR_EN
                ∧ delays r'.hw.log = delays hw.log) := by
          intro r' h'
          have hr' := (Option.some.inj h').symm
          obtain ⟨a1, -, a3⟩ := auth_out_en 0 ctx (clear_computation_completed L ctx.base
            (wait_computation_completed L ctx.base h1).2)
          rw [hr', a1, a3 rfl]
          exact ⟨fun h => absurd rfl h, fun _ => ⟨h2en, h2d⟩⟩
        cases data with
        | none => exact hnone r hr
        | some d =>
          simp only at hr
          by_cases hn : n = 0
          · rw [if_pos hn] at hr
            exact hnone r hr
          · rw [if_neg hn] at hr
            have hr' := (Option.some.inj hr).symm
            obtain ⟨b1, b2⟩ := assodata_blocks_en L ctx last_block d n
              (mmio_setbits_32 ctx.base Reg.CR _SAES_CR_EN
                (mmio_clrsetbits_32 ctx.base Reg.CR _SAES_CR_GCMPH_MASK
                  (_SAES_CR_GCMPH_HEADER <<< _SAES_CR_GCMPH_SHIFT)
                  (clear_computation_completed L ctx.base
                    (wait_computation_completed L ctx.base h1).2)))
            have h4d : delays (mmio_setbits_32 ctx.base Reg.CR _SAES_CR_EN
                (mmio_clrsetbits_32 ctx.base Reg.CR _SAES_CR_GCMPH_MASK
                  (_SAES_CR_GCMPH_HEADER <<< _SAES_CR_GCMPH_SHIFT)
                  (clear_computation_completed L ctx.base
                    (wait_computation_completed L ctx.base h1).2))).log = delays hw.log := by
              rw [(setbits_cr_spec _ _ _).2.2.2.2.2, (clrsetbits_cr_spec _ _ _ _).2.2.2.2.2, h2d]
            rw [hr']
            refine ⟨fun h => ?_, fun h => ?_⟩
            · obtain ⟨c1, c2⟩ := b1 h
              exact ⟨c1, by rw [c2, h4d]⟩
            · obtain ⟨c1, c2⟩ := b2 h
              exact ⟨by rw [c1]; exact setbits_cr_en _ _, by rw [c2, h4d]⟩

/-- C15, counterexample: on an engine that is disabled on entry, a successful
`stm32_saes_update_assodata` (here without associated data) and a successful
`stm32_saes_update_load` (here of one block) return 0 with the enable bit
set. -/
theorem C15_enable_left_set :
    hw_ready.cr &&& _SAES_CR_EN = 0
      ∧ (stm32_saes_update_assodata Layout.CRYP2 ctx_gcm false none 0 hw_ready).map
          (fun r => (r.ret, r.hw.cr &&& _SAES_CR_EN)) = some (0, _SAES_CR_EN)
      ∧ (fun r : DataResult => (r.ret, r.hw.cr &&& _SAES_CR_EN))
          (stm32_saes_update_load Layout.CRYP2 ctx_gcm false (some buf_count) (fun _ => 0) 16
            hw_ready) = (0, _SAES_CR_EN) := by
  refine ⟨by decide, by decide, by decide⟩

/-- C15, amended: from an engine that is disabled on entry, the enable bit is
clear on return from `stm32_saes_init`, `stm32_saes_final` and
`stm32_saes_update`, whatever they return, from `stm32_saes_update_load` when it
returns an error, and from `stm32_saes_update_assodata` when it returns the
error of `restore_context` or, after the completion wait that follows
`restore_context` succeeded, any error.  A successful
`stm32_saes_update_assodata` returns with the enable bit set; a successful
`stm32_saes_update_load` returns with it set when it had data to process and
found the phase INIT, and clear otherwise. -/
theorem C15_enable_bit_on_return (L : Layout) (ctx : stm32_saes_context) (hw : Hw)
    (hdis : hw.cr &&& _SAES_CR_EN = 0) :
    (∀ pdata_base is_dec ch_mode key_select key key_size iv iv_size,
        (stm32_saes_init L pdata_base ctx is_dec ch_mode key_select key key_size iv iv_size
          hw).2.2.cr &&& _SAES_CR_EN = 0)
      ∧ (∀ tag tag_size, (stm32_saes_final L ctx tag tag_size hw).hw.cr &&& _SAES_CR_EN = 0)
      ∧ (∀ last_block d o n r, stm32_saes_update L ctx last_block d o n hw = some r →
        r.hw.cr &&& _SAES_CR_EN = 0)
      ∧ (∀ last_block data_in o n,
        ((stm32_saes_update_load L ctx last_block data_in o n hw).ret ≠ 0 →
          (stm32_saes_update_load L ctx last_block data_in o n hw).hw.cr &&& _SAES_CR_EN = 0)
        ∧ ((stm32_saes_update_load L ctx last_block data_in o n hw).ret = 0 →
          (stm32_saes_update_load L ctx last_block data_in o n hw).hw.cr &&& _SAES_CR_EN
            = (if data_in.isSome = true ∧ n ≠ 0
                ∧ (hw.cr % 2 ^ 32) &&& _SAES_CR_GCMPH_MASK
                  = _SAES_CR_GCMPH_INIT <<< _SAES_CR_GCMPH_SHIFT then _SAES_CR_EN
              else 0)))
      ∧ (∀ last_block data n r,
        stm32_saes_update_assodata L ctx last_block data n hw = some r →
        ∃ e h1, restore_context L ctx hw = some (e, h1)
          ∧ (e ≠ 0 → r.ret = e ∧ r.hw.cr &&& _SAES_CR_EN = 0)
          ∧ (e = 0 → (wait_computation_completed L ctx.base h1).1 = 0 →
            (r.ret ≠ 0 → r.hw.cr &&& _SAES_CR_EN = 0)
              ∧ (r.ret = 0 → r.hw.cr &&& _SAES_CR_EN = _SAES_CR_EN))) := by
  refine ⟨?_, ?_, ?_, ?_, ?_⟩
  · intro pdata_base is_dec ch_mode key_select key key_size iv iv_size
    rw [init_en, hdis]
  · intro tag tag_size
    exact (final_spec L ctx tag tag_size hw).2.2.1
  · intro last_block d o n r hr
    exact (update_spec L ctx last_block d o n hw r hr).2.2.2
  · intro last_block data_in o n
    obtain ⟨a1, a2⟩ := update_load_en L ctx last_block data_in o n hw
    refine ⟨fun h => (a1 h).1, fun h => ?_⟩
    rw [(a2 h).2, hdis]
  · intro last_block data n r hr
    obtain ⟨e, h1, b1, b2, -, b4⟩ := update_assodata_en L ctx last_block data n hw r hr
    refine ⟨e, h1, b1, fun h => ⟨(b2 h).1, (b2 h).2.1⟩, fun h0 hc => ?_⟩
    obtain ⟨c1, c2⟩ := b4 h0 hc
    exact ⟨fun h => (c1 h).1, fun h => (c2 h).1⟩

theorem C15_enable_bit_on_return_witness :
    hw_ready.cr &&& _SAES_CR_EN = 0
      ∧ (stm32_saes_final Layout.CRYP2 ctx_gcm (fun _ => 0) 16 hw_ready).hw.cr &&& _SAES_CR_EN = 0
      ∧ (stm32_saes_init Layout.CRYP2 0x42050000 ctx_zero false STM32_SAES_MODE_GCM
          STM32_SAES_KEY_SOFT buf_count 16 (some buf_count) 16 hw_ready).2.2.cr
          &&& _SAES_CR_EN = 0 :=
  ⟨by decide, (C15_enable_bit_on_return Layout.CRYP2 ctx_gcm hw_ready (by decide)).2.1 _ _,
    (C15_enable_bit_on_return Layout.CRYP2 ctx_zero hw_ready (by decide)).1 _ _ _ _ _ _ _ _⟩

theorem update_assodata_cr (L : Layout) (ctx : stm32_saes_context) (last_block : Bool)
    (data : Option (Nat → Nat)) (n : Nat) (hw : Hw) (r : CtxResult)
    (hr : stm32_saes_update_assodata L ctx last_block data n hw = some r) : r.ctx.cr = ctx.cr := by
  unfold stm32_saes_update_assodata at hr
  have hb : ∀ d hw4, (assodata_blocks L ctx last_block d n hw4).ctx.cr = ctx.cr := by
    intro d hw4
    obtain ⟨-, ⟨-, lcr, -, -, -⟩, -, -⟩ := assodata_loop_spec L d
      (round_down n AES_BLOCK_SIZE / AES_BLOCK_SIZE) 0 ctx hw4 rfl
    unfold assodata_blocks
    simp only
    split
    · rw [(auth_out_spec _ _ _).2.1]; exact lcr
    · split <;> (rw [(auth_out_spec _ _ _).2.1]; exact lcr)
  cases hrc : restore_context L ctx hw with
  | none => simp [hrc] at hr
  | some p =>
    simp only [hrc] at hr
    by_cases he : p.1 ≠ 0
    · rw [if_pos he] at hr
      cases hr; rw [(auth_out_spec _ _ _).2.1]
    · rw [if_neg he] at hr
      by_cases hc : (wait_computation_completed L ctx.base p.2).1 ≠ 0
      · rw [if_pos hc] at hr
        cases hr; rfl
      · rw [if_neg hc] at hr
        cases data with
        | none =>
          simp only at hr
          cases hr; rw [(auth_out_spec _ _ _).2.1]
        | some d =>
          simp only at hr
          by_cases hn : n = 0
          · rw [if_pos hn] at hr
            cases hr; rw [(auth_out_spec _ _ _).2.1]
          · rw [if_neg hn] at hr
            cases hr; exact hb _ _

theorem update_load_cr (L : Layout) (ctx : stm32_saes_context) (last_block : Bool)
    (data_in : Option (Nat → Nat)) (out : Nat → Nat) (n : Nat) (hw : Hw) :
    (stm32_saes_update_load L ctx last_block data_in out n hw).ctx.cr = ctx.cr := by
  have hb : ∀ d hw2, (load_blocks L ctx last_block d out n hw2).ctx.cr = ctx.cr := by
    intro d hw2
    obtain ⟨-, ⟨-, lcr, -, -, -⟩, -, -, -⟩ := load_loop_spec L d
      (round_down n AES_BLOCK_SIZE / AES_BLOCK_SIZE) 0 ctx out hw2 rfl
    unfold load_blocks
    simp only
    split
    · exact lcr
    · split
      · split
        · exact lcr
        · exact lcr
      · exact lcr
  unfold stm32_saes_update_load
  simp only
  split
  · rfl
  · split
    · rfl
    · exact hb _ _

/-- The control shadow after one streaming call is the one before it, or that
one with the enable bit set (after the `save_context` of a non-final
`stm32_saes_update`). -/
theorem run_call_cr (L : Layout) (c : stream_call) (ctx ctx1 : stm32_saes_context)
    (hw hw1 : Hw) (h : run_call L c ctx hw = some (ctx1, hw1)) :
    ctx1.cr = ctx.cr ∨ ctx1.cr = setbits32 (ctx.cr % 2 ^ 32) _SAES_CR_EN := by
  cases c with
  | assodata last_block data n =>
    simp only [run_call, Option.map_eq_some'] at h
    obtain ⟨r, hr, he⟩ := h
    cases he
    exact Or.inl (update_assodata_cr L ctx last_block data n hw r hr)
  | load last_block data_in out n =>
    simp only [run_call, Option.some.injEq, Prod.mk.injEq] at h
    rw [← h.1]
    exact Or.inl (update_load_cr L ctx last_block data_in out n hw)
  | final tag n =>
    simp only [run_call, Option.some.injEq, Prod.mk.injEq] at h
    rw [← h.1]
    exact Or.inl rfl
  | update last_block d o n =>
    simp only [run_call, Option.map_eq_some'] at h
    obtain ⟨r, hr, he⟩ := h
    cases he
    obtain ⟨m1, m2, -, -⟩ := update_spec L ctx last_block d o n hw r hr
    cases hrej : update_rejects L ctx last_block n with
    | true => rw [(m1 hrej).2.1]; exact Or.inl rfl
    | false =>
      obtain ⟨e, h1, l, s, a1, hl, hs, a2, a3⟩ := m2 hrej
      by_cases he : e ≠ 0
      · rw [(a2 he).2.1]; exact Or.inl rfl
      · have he0 : e = 0 := by simpa using he
        obtain ⟨b1, b2, b3⟩ := a3 he0
        by_cases hl0 : l.1 ≠ 0
        · rw [(b1 hl0).2.1]; exact Or.inl rfl
        · have hl1 : l.1 = 0 := by simpa using hl0
          cases last_block with
          | true => rw [(b2 hl1 rfl).2.1]; exact Or.inl rfl
          | false =>
            rw [(b3 hl1 rfl).2.1]
            obtain ⟨-, -, -, -, -, v5, v6⟩ := save_context_frame L ctx l.2.2.2
            rw [hs]
            by_cases hs0 : (save_context L ctx l.2.2.2).1 = 0
            · right
              rw [(v5 hs0).2, hl, (update_loop_frame _ _ _ _ _ _).2.1,
                (restore_context_spec L ctx hw e h1 a1).2.2.2.2.2.2 he0, setbits32_mod]
            · left
              rw [(v6 hs0).1]

theorem setbits32_twice (c s : Nat) : setbits32 (setbits32 c s) s = setbits32 c s := by
  apply Nat.eq_of_testBit_eq
  intro i
  simp only [testBit_setbits32]
  cases decide (i < 32) <;> cases c.testBit i <;> cases s.testBit i <;> rfl

/-- The control shadow after a sequence of streaming calls is the one the
sequence started with, or that one with the enable bit set. -/
theorem run_calls_cr (L : Layout) (env : Nat → Hw → Hw) (cs : List stream_call) :
    ∀ (ctx0 ctx : stm32_saes_context) (hw h : Hw),
      run_calls L env cs ctx0 hw = some (ctx, h) →
      ctx.cr = ctx0.cr ∨ ctx.cr = setbits32 (ctx0.cr % 2 ^ 32) _SAES_CR_EN := by
  induction cs with
  | nil =>
    intro ctx0 ctx hw h hrun
    simp only [run_calls, Option.some.injEq, Prod.mk.injEq] at hrun
    rw [← hrun.1]
    exact Or.inl rfl
  | cons c cs ih =>
    intro ctx0 ctx hw h hrun
    simp only [run_calls] at hrun
    cases hc : run_call L c ctx0 (env cs.length hw) with
    | none => simp [hc] at hrun
    | some p =>
      simp only [hc] at hrun
      have h1 := run_call_cr L c ctx0 p.1 _ p.2 hc
      have h2 := ih p.1 ctx p.2 h hrun
      rcases h2 with h2 | h2 <;> rcases h1 with h1 | h1
      · exact Or.inl (h2.trans h1)
      · exact Or.inr (h2.trans h1)
      · rw [h1] at h2; exact Or.inr h2
      · rw [h1, setbits32_mod, setbits32_twice] at h2; exact Or.inr h2

/-- C16, amended: after every sequence of streaming calls on a session, with
the engine used in any way by others between the calls, the control shadow is
the one the sequence started with or that one with the enable bit set; so its
chaining-mode field, its direction field and its phase field keep their values,
and so does every other bit of the 32-bit word except the enable bit. -/
theorem C16_control_shadow_fields (L : Layout) (env : Nat → Hw → Hw) (cs : List stream_call)
    (ctx0 ctx : stm32_saes_context) (hw h : Hw)
    (hrun : run_calls L env cs ctx0 hw = some (ctx, h)) :
    (ctx.cr = ctx0.cr ∨ ctx.cr = setbits32 (ctx0.cr % 2 ^ 32) _SAES_CR_EN)
      ∧ ctx.cr &&& _SAES_CR_CHMOD_MASK L = ctx0.cr &&& _SAES_CR_CHMOD_MASK L
      ∧ ctx.cr &&& _SAES_CR_MODE_MASK = ctx0.cr &&& _SAES_CR_MODE_MASK
      ∧ ctx.cr &&& _SAES_CR_GCMPH_MASK = ctx0.cr &&& _SAES_CR_GCMPH_MASK
      ∧ (∀ m, m < 2 ^ 32 → _SAES_CR_EN &&& m = 0 → ctx.cr &&& m = ctx0.cr &&& m) := by
  have h0 := run_calls_cr L env cs ctx0 ctx hw h hrun
  have hm : ∀ m, m < 2 ^ 32 → _SAES_CR_EN &&& m = 0 → ctx.cr &&& m = ctx0.cr &&& m := by
    intro m hm hen
    rcases h0 with h1 | h1
    · rw [h1]
    · rw [h1, setbits32_other _ _ _ hm hen, and_mod32 _ _ hm]
  refine ⟨h0, hm _ ?_ ?_, hm _ (by decide) (by decide), hm _ (by decide) (by decide), hm⟩
  · cases L <;> decide
  · cases L <;> decide
/-- C16, counterexample: a CTR encryption session is created (control shadow
`0x44`) and makes one non-final `stm32_saes_update` of one block, which returns
0: the control shadow is then `0x45`.  It differs from its creation value in
the enable bit, which is not a phase bit. -/
theorem C16_shadow_gains_enable_bit :
    (fun i : Int × stm32_saes_context × Hw =>
        (i.1, i.2.1.cr,
          (stm32_saes_update Layout.CRYP2 i.2.1 false buf_count (fun _ => 0) 16 i.2.2).map
            (fun r => (r.ret, r.ctx.cr,
              (r.ctx.cr ^^^ i.2.1.cr) &&& (0xFFFFFFFF ^^^ _SAES_CR_GCMPH_MASK)))))
        (stm32_saes_init Layout.CRYP2 0x42050000 ctx_zero false STM32_SAES_MODE_CTR
          STM32_SAES_KEY_SOFT buf_count 16 (some buf_count) 16 hw_engine)
      = (0, 0x44, some (0, 0x45, _SAES_CR_EN)) := by
  decide

theorem C16_control_shadow_fields_witness :
    ∃ ctx h,
      run_calls Layout.CRYP2 (fun _ hw => hw)
          [stream_call.update false buf_count (fun _ => 0) 16,
            stream_call.update true (fun j => buf_count (16 + j)) (fun _ => 0) 16]
          ctx_ctr hw_engine = some (ctx, h)
        ∧ ctx.cr = 0x45
        ∧ ctx.cr &&& _SAES_CR_CHMOD_MASK Layout.CRYP2
          = ctx_ctr.cr &&& _SAES_CR_CHMOD_MASK Layout.CRYP2
        ∧ ctx.cr &&& _SAES_CR_MODE_MASK = ctx_ctr.cr &&& _SAES_CR_MODE_MASK := by
  have hrun : run_calls Layout.CRYP2 (fun _ hw => hw)
      [stream_call.update false buf_count (fun _ => 0) 16,
        stream_call.update true (fun j => buf_count (16 + j)) (fun _ => 0) 16]
      ctx_ctr hw_engine
      = some ((run_calls Layout.CRYP2 (fun _ hw => hw)
          [stream_call.update false buf_count (fun _ => 0) 16,
            stream_call.update true (fun j => buf_count (16 + j)) (fun _ => 0) 16]
          ctx_ctr hw_engine).getD (ctx_ctr, hw_engine)) := rfl
  have hc := C16_control_shadow_fields Layout.CRYP2 (fun _ hw => hw) _ ctx_ctr _ hw_engine _ hrun
  exact ⟨_, _, hrun, by decide, hc.2.1, hc.2.2.1⟩

/-- C17, the code at the failing input: a session is created with key source
`STM32_SAES_KEY_WRAPPED` in a context whose key shadow holds left-over words.
`stm32_saes_init` returns 0 and writes no key shadow word, but it encodes the
key-select field of the control shadow as `SOFT`, so the `restore_context` of
the first streaming call writes key registers 0..3 from the left-over key
shadow.  For the key sources DHU, BH and BHU_XOR_BH the same steps write no key
register, and for every key source other than `SOFT` the key shadow is left as
it was. -/
theorem C17_wrapped_key_written_from_shadow :
    (init_stale STM32_SAES_KEY_WRAPPED).1 = 0
    ∧ (init_stale STM32_SAES_KEY_WRAPPED).2.1.cr &&& _SAES_CR_KEYSEL_MASK
      = _SAES_CR_KEYSEL_SOFT <<< _SAES_CR_KEYSEL_SHIFT
    ∧ (init_stale STM32_SAES_KEY_WRAPPED).2.1.key = ctx_stale.key
    ∧ (restore_context Layout.CRYP2 (init_stale STM32_SAES_KEY_WRAPPED).2.1
          (init_stale STM32_SAES_KEY_WRAPPED).2.2).map (fun r => (r.1, key_reg_writes r.2.log))
      = some (0, [(Reg.KEYR 0, 0xDEAD0000), (Reg.KEYR 1, 0xDEAD0001), (Reg.KEYR 2, 0xDEAD0002),
          (Reg.KEYR 3, 0xDEAD0003)])
    ∧ (∀ ks, ks = STM32_SAES_KEY_DHU ∨ ks = STM32_SAES_KEY_BH ∨ ks = STM32_SAES_KEY_BHU_XOR_BH →
        (init_stale ks).1 = 0
          ∧ (restore_context Layout.CRYP2 (init_stale ks).2.1 (init_stale ks).2.2).map
              (fun r => (r.1, key_reg_writes r.2.log)) = some (0, []))
    ∧ (∀ L pdata_base ctx is_dec ch_mode key_select key key_size iv iv_size hw,
        key_select ≠ STM32_SAES_KEY_SOFT →
        (stm32_saes_init L pdata_base ctx is_dec ch_mode key_select key key_size iv iv_size
          hw).2.1.key = ctx.key) := by
  have hgen : ∀ L pdata_base ctx is_dec ch_mode key_select key key_size iv iv_size hw,
      key_select ≠ STM32_SAES_KEY_SOFT →
      (stm32_saes_init L pdata_base ctx is_dec ch_mode key_select key key_size iv iv_size
        hw).2.1.key = ctx.key := by
    intro L pdata_base ctx is_dec ch_mode key_select key key_size iv iv_size hw hsel
    unfold stm32_saes_init
    simp only [if_neg hsel]
    split
    · rfl
    · split
      · split
        · rfl
        · split
          · rfl
          · rfl
      · rfl
  refine ⟨by decide, by decide, hgen _ _ _ _ _ _ _ _ _ _ _ (by decide), by decide, ?_, hgen⟩
  intro ks hks
  rcases hks with h | h | h <;> subst h <;> exact ⟨by decide, by decide⟩

/-- C18, counterexample: the engine is enabled (another session owns it); a
non-final `stm32_saes_update` with 20 bytes and a final CBC encryption
`stm32_saes_update` with 20 and with 40 bytes are rejected, and each rejection
writes the control register three times (reset bit set, reset bit cleared,
enable bit cleared) with one `udelay`: the engine is reset and disabled. -/
theorem C18_rejection_resets_engine :
    hw_enabled.cr &&& _SAES_CR_EN = _SAES_CR_EN
    ∧ (stm32_saes_update Layout.CRYP2 ctx_ctr false buf_count (fun _ => 0) 20 hw_enabled).map
        (fun r => (r.ret, reg_writes r.hw.log, delays r.hw.log, r.hw.cr))
      = some (-EINVAL, [(Reg.CR, 0x80000001), (Reg.CR, 1), (Reg.CR, 0)], 1, 0)
    ∧ (stm32_saes_update Layout.CRYP2 ctx_cbc_enc true buf_count (fun _ => 0) 20 hw_enabled).map
        (fun r => (r.ret, reg_writes r.hw.log, delays r.hw.log, r.hw.cr))
      = some (-EINVAL, [(Reg.CR, 0x80000001), (Reg.CR, 1), (Reg.CR, 0)], 1, 0)
    ∧ (stm32_saes_update Layout.CRYP2 ctx_cbc_enc true buf_count (fun _ => 0) 40 hw_enabled).map
        (fun r => (r.ret, reg_writes r.hw.log, delays r.hw.log, r.hw.cr))
      = some (-ENODEV, [(Reg.CR, 0x80000001), (Reg.CR, 1), (Reg.CR, 0)], 1, 0) := by
  refine ⟨by decide, by decide, by decide, by decide⟩

/-- C18, amended: `stm32_saes_update` rejects a call before `restore_context`
exactly when the length is not a multiple of the block size and the call is
not final or is a final CBC encryption call.  A rejected call returns `-EINVAL`
or `-ENODEV` with the context and the output buffer unchanged; on the hardware
it does the error cleanup of `saes_end` and nothing else: three
read-modify-writes of the control register (set the reset bit, `udelay`, clear
the reset bit, clear the enable bit).  No key, IV or data register is accessed;
the engine is left reset and disabled. -/
theorem C18_update_rejections (L : Layout) (ctx : stm32_saes_context) (last_block : Bool)
    (d o : Nat → Nat) (n : Nat) (hw : Hw) (hrej : update_rejects L ctx last_block n = true) :
    let c := hw.cr % 2 ^ 32
    let v1 := setbits32 c _SAES_CR_IPRST
    let v2 := clrbits32 v1 _SAES_CR_IPRST
    let v3 := clrbits32 v2 _SAES_CR_EN
    (update_rejects L ctx last_block n = true
        ↔ n % 16 ≠ 0 ∧ (last_block = false
          ∨ (IS_CHAINING_MODE L STM32_SAES_MODE_CBC ctx.cr = true ∧ is_encrypt ctx.cr = true)))
      ∧ ∃ r, stm32_saes_update L ctx last_block d o n hw = some r
        ∧ (r.ret = -EINVAL ∨ r.ret = -ENODEV)
        ∧ r.ctx = ctx ∧ r.out = o
        ∧ r.hw.log
          = [Ev.wr ctx.base Reg.CR v3, Ev.rd ctx.base Reg.CR v2, Ev.wr ctx.base Reg.CR v2,
              Ev.rd ctx.base Reg.CR v1, Ev.delay SAES_RESET_DELAY, Ev.wr ctx.base Reg.CR v1,
              Ev.rd ctx.base Reg.CR c] ++ hw.log
        ∧ r.hw.cr = v3 ∧ v3 &&& _SAES_CR_EN = 0 ∧ v1 &&& _SAES_CR_IPRST = _SAES_CR_IPRST
        ∧ r.hw.dev = hw.dev := by
  intro c v1 v2 v3
  have hEN : _SAES_CR_EN < 2 ^ 32 := by decide
  have hIP : _SAES_CR_IPRST < 2 ^ 32 := by decide
  constructor
  · unfold update_rejects
    have hrd := round_down_ne n
    cases last_block <;> cases IS_CHAINING_MODE L STM32_SAES_MODE_CBC ctx.cr <;>
      cases is_encrypt ctx.cr <;> simp [hrd]
  · obtain ⟨e, he, hu⟩ := update_rejected L ctx last_block d o n hw hrej
    have he0 : e ≠ 0 := by rcases he with h | h <;> rw [h] <;> decide
    refine ⟨_, hu, he, rfl, rfl, ?_, ?_, clrbits32_self _ _ hEN, setbits32_self _ _ hIP, ?_⟩
    · simp [update_out, he0, saes_end, mmio_clrbits_32, mmio_setbits_32, mmio_read_32,
        mmio_write_32, udelay, v1, v2, v3, c]
    · simp [update_out, he0, saes_end, mmio_clrbits_32, mmio_setbits_32, mmio_read_32,
        mmio_write_32, udelay, v1, v2, v3, c]
    · simp [update_out, he0, saes_end, mmio_clrbits_32, mmio_setbits_32, mmio_read_32,
        mmio_write_32, udelay]

theorem C18_update_rejections_witness :
    update_rejects Layout.CRYP2 ctx_cbc_enc true 40 = true
      ∧ ∃ r, stm32_saes_update Layout.CRYP2 ctx_cbc_enc true buf_count (fun _ => 0) 40 hw_enabled
          = some r
        ∧ (r.ret = -EINVAL ∨ r.ret = -ENODEV) ∧ r.ctx = ctx_cbc_enc :=
  ⟨by decide,
    (C18_update_rejections Layout.CRYP2 ctx_cbc_enc true buf_count (fun _ => 0) 40 hw_enabled
      (by decide)).2.elim (fun r hr => ⟨r, hr.1, hr.2.1, hr.2.2.1⟩)⟩

theorem check_peripheral_loop_spec (D : RifscDefs) (mem : RifscReg → Nat) (ids : List Nat) :
    ∀ ret : Int, check_peripheral_loop D mem ids ret
      = if ∃ id ∈ ids, stm32_rifsc_access_check D mem id ≠ 0 then -EACCES else ret := by
  induction ids with
  | nil => intro ret; simp [check_peripheral_loop]
  | cons id ids ih =>
    intro ret
    simp only [check_peripheral_loop]
    by_cases h : stm32_rifsc_access_check D mem id ≠ 0
    · rw [if_pos h, ih]
      have : ∃ x ∈ id :: ids, stm32_rifsc_access_check D mem x ≠ 0 := ⟨id, by simp, h⟩
      rw [if_pos this]
      split <;> rfl
    · rw [if_neg h, ih]
      have h0 : stm32_rifsc_access_check D mem id = 0 := by simpa using h
      by_cases h2 : ∃ x ∈ ids, stm32_rifsc_access_check D mem x ≠ 0
      · obtain ⟨x, hx, hx2⟩ := h2
        rw [if_pos ⟨x, hx, hx2⟩, if_pos ⟨x, List.mem_cons_of_mem _ hx, hx2⟩]
      · rw [if_neg h2, if_neg]
        rintro ⟨x, hx, hx2⟩
        rcases List.mem_cons.mp hx with h3 | h3
        · rw [h3] at hx2; exact hx2 h0
        · exact h2 ⟨x, h3, hx2⟩

/-- C19, the code at the failing input: peripheral 94 is filtered (`CFEN` set),
statically assigned to CID 1 and secure, but not privileged;
`stm32_rifsc_access_check` accepts it, and so does
`stm32_rifsc_check_peripheral_access` for a table that holds it: the check
denies only a peripheral that is neither secure nor privileged.  The loop part
of the claim holds for every table: the result is 0 exactly when every entry is
accepted by `stm32_rifsc_access_check`, and `-EACCES` exactly when one is
denied, whatever the order. -/
theorem C19_unprivileged_peripheral_accepted :
    (rifsc_secure_unprivileged (RifscReg.PERy_CIDCFGR 94) % 2 ^ 32)
        &&& rifsc_defs._RIFSC_CIDCFGR_CFEN ≠ 0
    ∧ (rifsc_secure_unprivileged (RifscReg.SECCFGR 94) % 2 ^ 32) &&& BIT_32 (94 % 32) ≠ 0
    ∧ (rifsc_secure_unprivileged (RifscReg.PRIVCFGR 94) % 2 ^ 32) &&& BIT_32 (94 % 32) = 0
    ∧ stm32_rifsc_access_check rifsc_defs rifsc_secure_unprivileged 94 = 0
    ∧ stm32_rifsc_check_peripheral_access rifsc_defs rifsc_secure_unprivileged [92, 93, 94, 95]
      = 0
    ∧ (∀ D mem ids,
        (stm32_rifsc_check_peripheral_access D mem ids = 0
          ↔ ∀ id ∈ ids, stm32_rifsc_access_check D mem id = 0)
        ∧ (stm32_rifsc_check_peripheral_access D mem ids = -EACCES
          ↔ ∃ id ∈ ids, stm32_rifsc_access_check D mem id ≠ 0)) := by
  refine ⟨by decide, by decide, by decide, by decide, by decide, ?_⟩
  intro D mem ids
  unfold stm32_rifsc_check_peripheral_access
  rw [check_peripheral_loop_spec]
  have hE : (-EACCES : Int) ≠ 0 := by decide
  by_cases h : ∃ id ∈ ids, stm32_rifsc_access_check D mem id ≠ 0
  · rw [if_pos h]
    refine ⟨⟨fun h0 => absurd h0 hE, fun hall => ?_⟩, ⟨fun _ => h, fun _ => rfl⟩⟩
    obtain ⟨id, hid, hne⟩ := h
    exact absurd (hall id hid) hne
  · rw [if_neg h]
    refine ⟨⟨fun _ id hid => ?_, fun _ => rfl⟩, ⟨fun h0 => absurd h0.symm hE, fun h1 => absurd h1 h⟩⟩
    by_contra hne
    exact h ⟨id, hid, hne⟩

theorem engine_of_read (blk : BlockFn) (base : Nat) (r : Reg) (hw : Hw) (hr : r ≠ Reg.DOUTR) :
    engine_of blk (mmio_read_32 base r hw).2.log = engine_of blk hw.log := by
  simp only [mmio_read_32, engine_of]
  cases r <;> first | rfl | exact absurd rfl hr

theorem engine_of_read_doutr (blk : BlockFn) (base : Nat) (hw : Hw) :
    engine_of blk (mmio_read_32 base Reg.DOUTR hw).2.log
      = { engine_of blk hw.log with dout := (engine_of blk hw.log).dout.tail } := rfl

theorem engine_of_write (blk : BlockFn) (base : Nat) (r : Reg) (v : Nat) (hw : Hw) :
    engine_of blk (mmio_write_32 base r v hw).log
      = Engine.step blk (engine_of blk hw.log) (Ev.wr base r (v % 2 ^ 32)) := rfl

/-- A write to the control register keeps an engine at a block boundary in
step with the driver. -/
theorem sync_write_cr (blk : BlockFn) (base v : Nat) (hw : Hw) (key iv : Nat → Nat)
    (h : engine_sync blk hw key iv) :
    engine_sync blk (mmio_write_32 base Reg.CR v hw) key iv := by
  unfold engine_sync at h ⊢
  rw [engine_of_write, h]
  simp only [Engine.step, mmio_write_32, if_true]
  split <;> rfl

theorem sync_read (blk : BlockFn) (base : Nat) (r : Reg) (hw : Hw) (key iv : Nat → Nat)
    (hr : r ≠ Reg.DOUTR)
    (h : engine_sync blk hw key iv) : engine_sync blk (mmio_read_32 base r hw).2 key iv := by
  unfold engine_sync at h ⊢
  rw [engine_of_read blk base r hw hr, h]
  rfl

theorem sync_setbits_cr (blk : BlockFn) (base m : Nat) (hw : Hw) (key iv : Nat → Nat)
    (h : engine_sync blk hw key iv) :
    engine_sync blk (mmio_setbits_32 base Reg.CR m hw) key iv :=
  sync_write_cr blk base _ _ key iv (sync_read blk base Reg.CR hw key iv (by decide) h)

theorem sync_clrbits_cr (blk : BlockFn) (base m : Nat) (hw : Hw) (key iv : Nat → Nat)
    (h : engine_sync blk hw key iv) :
    engine_sync blk (mmio_clrbits_32 base Reg.CR m hw) key iv :=
  sync_write_cr blk base _ _ key iv (sync_read blk base Reg.CR hw key iv (by decide) h)

theorem sync_clrsetbits_cr (blk : BlockFn) (base m s : Nat) (hw : Hw) (key iv : Nat → Nat)
    (h : engine_sync blk hw key iv) :
    engine_sync blk (mmio_clrsetbits_32 base Reg.CR m s hw) key iv :=
  sync_write_cr blk base _ _ key iv (sync_read blk base Reg.CR hw key iv (by decide) h)

/-- Setting the reset bit brings the engine to a block boundary, whatever its
state was. -/
theorem sync_reset (blk : BlockFn) (base : Nat) (hw : Hw) :
    engine_sync blk (mmio_setbits_32 base Reg.CR _SAES_CR_IPRST hw)
      (engine_of blk hw.log).key (engine_of blk hw.log).iv := by
  have hIP : _SAES_CR_IPRST < 2 ^ 32 := by decide
  have hv : setbits32 (hw.cr % 2 ^ 32) _SAES_CR_IPRST % 2 ^ 32 &&& _SAES_CR_IPRST ≠ 0 := by
    rw [setbits32_mod, setbits32_self _ _ hIP]
    decide
  unfold engine_sync
  show engine_of blk (mmio_write_32 base Reg.CR _ (mmio_read_32 base Reg.CR hw).2).log = _
  rw [engine_of_write, engine_of_read blk base Reg.CR hw (by decide)]
  simp only [Engine.step, mmio_read_32, if_true]
  rw [if_pos hv]
  rfl

theorem sync_wait_kv_loop (blk : BlockFn) (base k : Nat) (hw : Hw) (key iv : Nat → Nat)
    (h : engine_sync blk hw key iv) :
    engine_sync blk (wait_key_valid_loop base k hw).2 key iv := by
  induction k generalizing hw with
  | zero =>
    simp only [wait_key_valid_loop]
    split <;> exact sync_read blk base Reg.SR hw key iv (by decide) h
  | succ k ih =>
    simp only [wait_key_valid_loop]
    split
    · exact ih _ (sync_read blk base Reg.SR hw key iv (by decide) h)
    · exact sync_read blk base Reg.SR hw key iv (by decide) h

theorem engine_of_wait_cc_loop (blk : BlockFn) (L : Layout) (base k : Nat) (hw : Hw) :
    engine_of blk (wait_computation_completed_loop L base k hw).2.log = engine_of blk hw.log := by
  induction k generalizing hw with
  | zero =>
    simp only [wait_computation_completed_loop]
    split <;> exact engine_of_read blk base Reg.ISR hw (by decide)
  | succ k ih =>
    simp only [wait_computation_completed_loop]
    split
    · rw [ih]; exact engine_of_read blk base Reg.ISR hw (by decide)
    · exact engine_of_read blk base Reg.ISR hw (by decide)

theorem engine_of_wait_cc (blk : BlockFn) (L : Layout) (base : Nat) (hw : Hw) :
    engine_of blk (wait_computation_completed L base hw).2.log = engine_of blk hw.log :=
  engine_of_wait_cc_loop blk L base _ hw

theorem engine_of_clear_cc (blk : BlockFn) (L : Layout) (base : Nat) (hw : Hw) :
    engine_of blk (clear_computation_completed L base hw).log = engine_of blk hw.log := by
  show engine_of blk (mmio_write_32 base Reg.ICR _ (mmio_read_32 base Reg.ICR hw).2).log = _
  rw [engine_of_write, engine_of_read blk base Reg.ICR hw (by decide)]
  rfl

theorem sync_of_engine_eq (blk : BlockFn) (hw hw1 : Hw) (key iv : Nat → Nat)
    (he : engine_of blk hw1.log = engine_of blk hw.log)
    (hc : hw1.cr = hw.cr) (h : engine_sync blk hw key iv) : engine_sync blk hw1 key iv := by
  unfold engine_sync at h ⊢
  rw [he, h, hc]

theorem sync_write_key_words (blk : BlockFn) (base off : Nat) (src : Nat → Nat) (n : Nat) (hw : Hw)
    (key iv : Nat → Nat) (h : engine_sync blk hw key iv) :
    engine_sync blk (write_words base (fun i => Reg.KEYR (off + i)) (fun i => src (off + i)) n hw)
      (fun j => if off ≤ j ∧ j < off + n then src j % 2 ^ 32 else key j) iv := by
  induction n with
  | zero =>
    simp only [write_words]
    have : (fun j => if off ≤ j ∧ j < off + 0 then src j % 2 ^ 32 else key j) = key := by
      funext j
      rw [if_neg (by omega)]
    rw [this]
    exact h
  | succ n ih =>
    unfold engine_sync at ih ⊢
    simp only [write_words]
    rw [engine_of_write, ih]
    simp only [Engine.step, mmio_write_32, Engine.mk.injEq, and_true, true_and]
    refine ⟨by simp, ?_⟩
    funext j
    by_cases hj : j = off + n
    · subst hj
      simp
    · by_cases h2 : off ≤ j ∧ j < off + n
      · rw [if_neg hj, if_pos h2, if_pos (by omega)]
      · rw [if_neg hj, if_neg h2, if_neg (by omega)]

theorem sync_write_iv (blk : BlockFn) (L : Layout) (ctx : stm32_saes_context) (hw : Hw)
    (key iv : Nat → Nat) (h : engine_sync blk hw key iv) :
    engine_sync blk (saes_write_iv L ctx hw) key
      (fun j => if does_chaining_mode_need_iv L ctx.cr = true ∧ j < 4 then ctx.iv j % 2 ^ 32
        else iv j) := by
  unfold saes_write_iv
  by_cases hiv : does_chaining_mode_need_iv L ctx.cr = true
  · rw [if_pos hiv]
    have h4 : AES_IVSIZE / 4 = 4 := rfl
    rw [h4]
    have hk : ∀ n, engine_sync blk (write_words ctx.base Reg.IVR ctx.iv n hw) key
        (fun j => if j < n then ctx.iv j % 2 ^ 32 else iv j) := by
      intro n
      induction n with
      | zero => simpa [write_words] using h
      | succ n ih =>
        unfold engine_sync at ih ⊢
        simp only [write_words]
        rw [engine_of_write, ih]
        simp only [Engine.step, mmio_write_32, Engine.mk.injEq, and_true, true_and]
        refine ⟨by simp, ?_⟩
        funext j
        by_cases hj : j = n
        · subst hj; simp
        · by_cases h2 : j < n
          · rw [if_neg hj, if_pos h2, if_pos (by omega)]
          · rw [if_neg hj, if_neg h2, if_neg (by omega)]
    have := hk 4
    simpa [hiv] using this
  · rw [if_neg hiv]
    have : (fun j => if does_chaining_mode_need_iv L ctx.cr = true ∧ j < 4 then ctx.iv j % 2 ^ 32
        else iv j) = iv := by
      funext j
      rw [if_neg (fun h1 => hiv h1.1)]
    rw [this]
    exact h

theorem key_words_ctx (L : Layout) (ctx : stm32_saes_context) :
    key_words L ctx.cr
      = if (ctx.cr &&& _SAES_CR_KEYSEL_MASK) = (_SAES_CR_KEYSEL_SOFT <<< _SAES_CR_KEYSEL_SHIFT)
        then saes_get_keysize L ctx / 4 else 0 := rfl

theorem sync_write_key (blk : BlockFn) (L : Layout) (ctx : stm32_saes_context) (hw hw3 : Hw)
    (key iv : Nat → Nat) (h : engine_sync blk hw key iv)
    (hk : saes_write_key L ctx hw = some hw3) :
    engine_sync blk hw3 (fun j => if j < key_words L ctx.cr then ctx.key j % 2 ^ 32 else key j)
      iv := by
  rw [key_words_ctx]
  unfold saes_write_key at hk
  by_cases hsel : (ctx.cr &&& _SAES_CR_KEYSEL_MASK) = (_SAES_CR_KEYSEL_SOFT <<< _SAES_CR_KEYSEL_SHIFT)
  · rw [if_pos hsel] at hk
    rw [if_pos hsel]
    have h1 := sync_write_key_words blk ctx.base 0 ctx.key 4 hw key iv h
    simp only [Nat.zero_add, Nat.zero_le, true_and] at h1
    have hR : (fun i => Reg.KEYR i) = Reg.KEYR := rfl
    have hS : (fun i => ctx.key i) = ctx.key := rfl
    rw [hR, hS] at h1
    have key_eq : ∀ m, (m = 0 ∨ m = 2 ∨ m = 4) →
        engine_sync blk (write_words ctx.base (fun i => Reg.KEYR (4 + i))
          (fun i => ctx.key (i + 4)) m (write_words ctx.base Reg.KEYR ctx.key 4 hw))
          (fun j => if j < 4 + m then ctx.key j % 2 ^ 32 else key j) iv := by
      intro m _
      have h2 := sync_write_key_words blk ctx.base 4 ctx.key m _ _ iv h1
      have hS2 : (fun i => ctx.key (4 + i)) = (fun i => ctx.key (i + 4)) := by
        funext i; rw [Nat.add_comm]
      rw [hS2] at h2
      have hK : (fun j => if 4 ≤ j ∧ j < 4 + m then ctx.key j % 2 ^ 32
          else if j < 4 then ctx.key j % 2 ^ 32 else key j)
          = (fun j => if j < 4 + m then ctx.key j % 2 ^ 32 else key j) := by
        funext j
        by_cases a : j < 4
        · rw [if_neg (by omega), if_pos a, if_pos (by omega)]
        · by_cases b : j < 4 + m
          · rw [if_pos ⟨by omega, b⟩, if_pos b]
          · rw [if_neg (by omega), if_neg a, if_neg b]
      rw [hK] at h2
      exact h2
    rcases saes_get_keysize_cases L ctx with hks | hks | hks | hks
    · simp only [hks, AES_KEYSIZE_128] at hk ⊢
      have h2 := Option.some.inj hk
      subst h2
      exact key_eq 4 (Or.inr (Or.inr rfl))
    · simp only [hks, AES_KEYSIZE_128] at hk ⊢
      have h2 := Option.some.inj hk
      subst h2
      exact key_eq 2 (Or.inr (Or.inl rfl))
    · simp only [hks, AES_KEYSIZE_128] at hk ⊢
      have h2 := Option.some.inj hk
      subst h2
      exact key_eq 0 (Or.inl rfl)
    · simp [hks] at hk
  · rw [if_neg hsel] at hk
    rw [if_neg hsel]
    cases hk
    simpa using h

theorem sync_prepare_key_size (blk : BlockFn) (L : Layout) (ctx : stm32_saes_context) (hw : Hw)
    (key iv : Nat → Nat) (h : engine_sync blk hw key iv) :
    engine_sync blk (prepare_key_size L ctx hw) key iv := by
  cases L with
  | CRYP2 => exact h
  | SAES =>
    simp only [prepare_key_size]
    split
    · exact sync_setbits_cr blk _ _ _ key iv h
    · exact sync_clrbits_cr blk _ _ _ key iv h

/-- `saes_prepare_key` leaves the engine at a block boundary, with the key
registers that the control shadow selects loaded from the key shadow. -/
theorem sync_prepare_key (blk : BlockFn) (L : Layout) (ctx : stm32_saes_context) (hw : Hw)
    (e : Int) (h : Hw) (key iv : Nat → Nat) (hs : engine_sync blk hw key iv)
    (hres : saes_prepare_key L ctx hw = some (e, h)) :
    engine_sync blk h (fun j => if j < key_words L ctx.cr then ctx.key j % 2 ^ 32 else key j)
      iv := by
  unfold saes_prepare_key at hres
  have s2 := sync_prepare_key_size blk L ctx _ key iv
    (sync_clrbits_cr blk ctx.base _SAES_CR_EN hw key iv hs)
  cases hkey : saes_write_key L ctx
      (prepare_key_size L ctx (mmio_clrbits_32 ctx.base Reg.CR _SAES_CR_EN hw)) with
  | none => simp [hkey] at hres
  | some hw3 =>
    simp only [hkey] at hres
    have s3 := sync_write_key blk L ctx _ hw3 key iv s2 hkey
    have s4 := sync_wait_kv_loop blk ctx.base (hw3.window hw3.log) hw3 _ iv s3
    by_cases hk : (wait_key_valid ctx.base hw3).1 ≠ 0
    · rw [if_pos hk] at hres
      cases hres
      exact s4
    · rw [if_neg hk] at hres
      by_cases hp : ((IS_CHAINING_MODE L STM32_SAES_MODE_ECB ctx.cr
          || IS_CHAINING_MODE L STM32_SAES_MODE_CBC ctx.cr) && is_decrypt ctx.cr) = true
      · rw [if_pos hp] at hres
        have s6 := sync_setbits_cr blk ctx.base _SAES_CR_EN _ _ iv
          (sync_clrsetbits_cr blk ctx.base _SAES_CR_MODE_MASK
            (_SAES_CR_MODE_KEYPREP <<< _SAES_CR_MODE_SHIFT) _ _ iv s4)
        have s7 := sync_of_engine_eq blk _ _ _ iv (engine_of_wait_cc blk L ctx.base _)
          (wait_cc_spec L ctx.base _).2.1 s6
        by_cases hc : (wait_computation_completed L ctx.base
            (mmio_setbits_32 ctx.base Reg.CR _SAES_CR_EN
              (mmio_clrsetbits_32 ctx.base Reg.CR _SAES_CR_MODE_MASK
                (_SAES_CR_MODE_KEYPREP <<< _SAES_CR_MODE_SHIFT)
                (wait_key_valid ctx.base hw3).2))).1 ≠ 0
        · rw [if_pos hc] at hres
          cases hres
          exact s7
        · rw [if_neg hc] at hres
          cases hres
          have s8 := sync_of_engine_eq blk _ _ _ iv (engine_of_clear_cc blk L ctx.base _)
            (clear_cc_kept L ctx.base _).1 s7
          exact sync_clrsetbits_cr blk ctx.base _SAES_CR_MODE_MASK
            (_SAES_CR_MODE_DEC <<< _SAES_CR_MODE_SHIFT) _ _ iv s8
      · rw [if_neg hp] at hres
        cases hres
        exact s4

/-- A successful `restore_context` leaves the engine at a block boundary, with
the control register of the control shadow (enable bit set), the key registers
that the control shadow selects loaded from the key shadow and, outside ECB,
the four IV registers loaded from the IV shadow. -/
theorem sync_restore (blk : BlockFn) (L : Layout) (ctx : stm32_saes_context) (hw h : Hw)
    (hres : restore_context L ctx hw = some (0, h)) :
    engine_sync blk h
        (fun j => if j < key_words L ctx.cr then ctx.key j % 2 ^ 32
          else (engine_of blk hw.log).key j)
        (fun j => if does_chaining_mode_need_iv L ctx.cr = true ∧ j < 4 then ctx.iv j % 2 ^ 32
          else (engine_of blk hw.log).iv j)
      ∧ h.cr = setbits32 (ctx.cr % 2 ^ 32) _SAES_CR_EN ∧ h.dev = hw.dev := by
  obtain ⟨c1, -, -, -, -, -, c7⟩ := restore_context_spec L ctx hw 0 h hres
  refine ⟨?_, c7 rfl, c1⟩
  unfold restore_context at hres
  simp only at hres
  split at hres
  · exact absurd (Option.some.inj hres) (by simp [EINVAL])
  · have s1 := sync_reset blk ctx.base (mmio_read_32 ctx.base Reg.CR hw).2
    rw [engine_of_read blk ctx.base Reg.CR hw (by decide)] at s1
    have s2 := sync_write_cr blk ctx.base ctx.cr _ _ _ s1
    cases hp : saes_prepare_key L ctx
        (mmio_write_32 ctx.base Reg.CR ctx.cr
          (mmio_setbits_32 ctx.base Reg.CR _SAES_CR_IPRST (mmio_read_32 ctx.base Reg.CR hw).2)) with
    | none => simp [hp] at hres
    | some r =>
      obtain ⟨e3, h3⟩ := r
      simp only [hp] at hres
      have s3 := sync_prepare_key blk L ctx _ e3 h3 _ _ s2 hp
      by_cases he : e3 ≠ 0
      · rw [if_pos he] at hres
        have := Option.some.inj hres
        simp only [Prod.mk.injEq] at this
        exact absurd this.1 he
      · rw [if_neg he] at hres
        have := Option.some.inj hres
        simp only [Prod.mk.injEq, true_and] at this
        rw [← this]
        exact sync_setbits_cr blk ctx.base _SAES_CR_EN _ _ _ (sync_write_iv blk L ctx h3 _ _ s3)

theorem live_cr_and (c m : Nat) (hm : m < 2 ^ 32) (hs : _SAES_CR_EN &&& m = 0) :
    setbits32 (c % 2 ^ 32) _SAES_CR_EN &&& m = c &&& m := by
  rw [setbits32_other _ _ m hm hs, and_mod32 _ _ hm]

/-- The enable bit does not change which key registers the control value
selects. -/
theorem key_words_live (L : Layout) (c : Nat) :
    key_words L (setbits32 (c % 2 ^ 32) _SAES_CR_EN) = key_words L c := by
  have h1 := live_cr_and c _SAES_CR_KEYSEL_MASK (by decide) (by decide)
  have h2 : setbits32 (c % 2 ^ 32) _SAES_CR_EN &&& _SAES_CR_KEYSIZE_MASK L
      = c &&& _SAES_CR_KEYSIZE_MASK L := by
    cases L
    · exact live_cr_and c _ (by decide) (by decide)
    · exact live_cr_and c _ (by decide) (by decide)
  unfold key_words saes_get_keysize
  simp only [h1, h2]

/-- The enable bit does not change the chaining mode of the control value. -/
theorem need_iv_live (L : Layout) (c : Nat) :
    does_chaining_mode_need_iv L (setbits32 (c % 2 ^ 32) _SAES_CR_EN)
      = does_chaining_mode_need_iv L c := by
  have h2 : setbits32 (c % 2 ^ 32) _SAES_CR_EN &&& _SAES_CR_CHMOD_MASK L
      = c &&& _SAES_CR_CHMOD_MASK L := by
    cases L
    · exact live_cr_and c _ (by decide) (by decide)
    · exact live_cr_and c _ (by decide) (by decide)
  unfold does_chaining_mode_need_iv IS_CHAINING_MODE
  rw [h2]

theorem take_four_words (l : List Nat) :
    (l.take 4).headD 0 = l.getD 0 0 ∧ (l.take 4).tail.headD 0 = l.getD 1 0
      ∧ (l.take 4).tail.tail.headD 0 = l.getD 2 0
      ∧ (l.take 4).tail.tail.tail.headD 0 = l.getD 3 0
      ∧ (l.take 4).tail.tail.tail.tail = [] := by
  rcases l with _ | ⟨a, _ | ⟨b, _ | ⟨c, _ | ⟨d, l⟩⟩⟩⟩ <;> simp

/-- The four data-in writes of one block, on an engine at a block boundary:
the block transform runs once, on the four words written. -/
theorem engine_of_write_block (blk : BlockFn) (base : Nat) (f : Nat → Nat) (w : Nat) (hw : Hw)
    (key iv : Nat → Nat) (h : engine_sync blk hw key iv) :
    engine_of blk (write_block base f w hw).log
      = { cr := hw.cr, key := key
          iv := fun j => (blk hw.cr key iv
            [f (w + 0) % 2 ^ 32, f (w + 1) % 2 ^ 32, f (w + 2) % 2 ^ 32, f (w + 3) % 2 ^ 32]).2 j
              % 2 ^ 32
          din := []
          dout := (blk hw.cr key iv
            [f (w + 0) % 2 ^ 32, f (w + 1) % 2 ^ 32, f (w + 2) % 2 ^ 32,
              f (w + 3) % 2 ^ 32]).1.take 4 } := by
  unfold engine_sync at h
  unfold write_block
  rw [engine_of_write, engine_of_write, engine_of_write, engine_of_write, h]
  rfl

/-- The four data-out reads of one block, on an engine that holds a finished
block: the words read are the output words of the block transform, and the
engine is back at a block boundary. -/
theorem engine_of_read_block (blk : BlockFn) (flags : List Ev → Reg → Nat) (base : Nat)
    (out : Nat → Nat) (w : Nat) (hw : Hw) (c : Nat) (key iv : Nat → Nat) (l : List Nat)
    (hd : hw.dev = engine_dev blk flags)
    (h : engine_of blk hw.log = { cr := c, key := key, iv := iv, din := [], dout := l.take 4 }) :
    (read_block base out w hw).1
        = store32 (store32 (store32 (store32 out (w + 0) (l.getD 0 0 % 2 ^ 32))
            (w + 1) (l.getD 1 0 % 2 ^ 32)) (w + 2) (l.getD 2 0 % 2 ^ 32))
            (w + 3) (l.getD 3 0 % 2 ^ 32)
      ∧ engine_of blk (read_block base out w hw).2.log
        = { cr := c, key := key, iv := iv, din := [], dout := [] } := by
  obtain ⟨t0, t1, t2, t3, t4⟩ := take_four_words l
  unfold read_block
  simp only [mmio_read_32, hd, engine_dev, engine_of, Engine.step, h, if_false,
    t0, t1, t2, t3, t4, reduceCtorEq]
  exact ⟨trivial, trivial⟩

/-- One block of the loop of `stm32_saes_update` on the engine, from a block
boundary: the words stored are the output words of the block transform on the
four words of the block, and the engine is at a block boundary again, with the
IV registers that the block transform left. -/
theorem engine_block_step (blk : BlockFn) (flags : List Ev → Reg → Nat) (L : Layout)
    (base : Nat) (d : Nat → Nat) (w : Nat) (out : Nat → Nat) (hw : Hw) (key iv : Nat → Nat)
    (hd : hw.dev = engine_dev blk flags) (hs : engine_sync blk hw key iv) :
    (read_block base out w
        (wait_computation_completed L base (write_block base (load32 d) w hw)).2).1
        = store32 (store32 (store32 (store32 out (w + 0)
            ((blk hw.cr key iv
              [load32 d w, load32 d (w + 1), load32 d (w + 2), load32 d (w + 3)]).1.getD 0 0
                % 2 ^ 32))
            (w + 1) ((blk hw.cr key iv
              [load32 d w, load32 d (w + 1), load32 d (w + 2), load32 d (w + 3)]).1.getD 1 0
                % 2 ^ 32))
            (w + 2) ((blk hw.cr key iv
              [load32 d w, load32 d (w + 1), load32 d (w + 2), load32 d (w + 3)]).1.getD 2 0
                % 2 ^ 32))
            (w + 3) ((blk hw.cr key iv
              [load32 d w, load32 d (w + 1), load32 d (w + 2), load32 d (w + 3)]).1.getD 3 0
                % 2 ^ 32)
      ∧ engine_sync blk
          (clear_computation_completed L base
            (read_block base out w
              (wait_computation_completed L base (write_block base (load32 d) w hw)).2).2)
          key
          (fun j => (blk hw.cr key iv
            [load32 d w, load32 d (w + 1), load32 d (w + 2), load32 d (w + 3)]).2 j % 2 ^ 32)
      ∧ (clear_computation_completed L base
            (read_block base out w
              (wait_computation_completed L base (write_block base (load32 d) w hw)).2).2).cr
          = hw.cr
      ∧ (clear_computation_completed L base
            (read_block base out w
              (wait_computation_completed L base (write_block base (load32 d) w hw)).2).2).dev
          = hw.dev := by
  have e1 := engine_of_write_block blk base (load32 d) w hw key iv hs
  simp only [load32_mod, Nat.add_zero] at e1
  have e2 := engine_of_wait_cc blk L base (write_block base (load32 d) w hw)
  obtain ⟨-, c1, c2, -⟩ := wait_cc_spec L base (write_block base (load32 d) w hw)
  obtain ⟨w1, w2, -⟩ := write_block_spec base (load32 d) w hw
  obtain ⟨o1, o2⟩ := engine_of_read_block blk flags base out w
    (wait_computation_completed L base (write_block base (load32 d) w hw)).2 hw.cr key _ _
    (by rw [c2, w2, hd]) (e2.trans e1)
  obtain ⟨_, _, _, _, -, -, b3, b4, -⟩ := read_block_spec base out w
    (wait_computation_completed L base (write_block base (load32 d) w hw)).2
  obtain ⟨k1, k2, -⟩ := clear_cc_kept L base
    (read_block base out w
      (wait_computation_completed L base (write_block base (load32 d) w hw)).2).2
  have hcr := k1.trans (b3.trans (c1.trans w1))
  refine ⟨o1, ?_, hcr, k2.trans (b4.trans (c2.trans w2))⟩
  unfold engine_sync
  rw [engine_of_clear_cc, o2, hcr]

theorem update_loop_frame_at (L : Layout) (base : Nat) (d : Nat → Nat) (n i : Nat)
    (out : Nat → Nat) (hw : Hw) (hi : i % 4 = 0) :
    (update_loop L base d n i out hw).2.2.2.cr = hw.cr
      ∧ (update_loop L base d n i out hw).2.2.2.dev = hw.dev
      ∧ (∀ j, j < i ∨ i + 16 * n ≤ j → (update_loop L base d n i out hw).2.2.1 j = out j)
      ∧ ((update_loop L base d n i out hw).1 = 0 →
        (update_loop L base d n i out hw).2.1 = i + 16 * n) := by
  have he := update_loop_eq_load_loop L d n i
    { base := base, cr := 0, assoc_len := 0, load_len := 0, key := fun _ => 0, iv := fun _ => 0 }
    out hw
  simp only at he
  obtain ⟨-, -, ⟨a1, a2, -⟩, a4, a5⟩ := load_loop_spec L d n i
    { base := base, cr := 0, assoc_len := 0, load_len := 0, key := fun _ => 0, iv := fun _ => 0 }
    out hw hi
  rw [he]
  exact ⟨a1, a2, a4, fun h0 => (a5 h0).1⟩

/-- The block loop over `a + b` blocks is the loop over `a` blocks followed, if
no poll timed out, by the loop over `b` blocks from where the first stopped. -/
theorem update_loop_add (L : Layout) (base : Nat) (d : Nat → Nat) (a b : Nat) :
    ∀ (i : Nat) (out : Nat → Nat) (hw : Hw),
      update_loop L base d (a + b) i out hw
        = if (update_loop L base d a i out hw).1 ≠ 0 then update_loop L base d a i out hw
          else update_loop L base d b (update_loop L base d a i out hw).2.1
            (update_loop L base d a i out hw).2.2.1 (update_loop L base d a i out hw).2.2.2 := by
  induction a with
  | zero =>
    intro i out hw
    simp [update_loop]
  | succ a ih =>
    intro i out hw
    have hab : a + 1 + b = (a + b) + 1 := by omega
    rw [hab]
    simp only [update_loop]
    split
    · rfl
    · exact ih _ _ _

/-- Two runs of the block loop on the engine, from block boundaries with the
same control register, key registers that agree where the control value selects
them and, outside ECB, the same 32-bit IV registers, over the same data words
and without timeout: the output bytes are the same, and the two engines end at
block boundaries that agree in the same way. -/
theorem update_loop_engine (L : Layout) (blk : BlockFn) (hcong : blk_respects L blk)
    (base base1 : Nat) (d d1 : Nat → Nat) (n : Nat) :
    ∀ (i i1 : Nat) (out out1 : Nat → Nat) (hw hw1 : Hw) (flags flags1 : List Ev → Reg → Nat)
      (key key1 iv iv1 : Nat → Nat),
      i % 4 = 0 → i1 % 4 = 0 →
      hw.dev = engine_dev blk flags → hw1.dev = engine_dev blk flags1 →
      engine_sync blk hw key iv → engine_sync blk hw1 key1 iv1 →
      hw1.cr = hw.cr →
      (∀ k, k < key_words L hw.cr → key k = key1 k) →
      (does_chaining_mode_need_iv L hw.cr = true →
        ∀ k, k < 4 → iv k = iv1 k ∧ iv k < 2 ^ 32) →
      (∀ k, k < 4 * n → load32 d (i / 4 + k) = load32 d1 (i1 / 4 + k)) →
      (update_loop L base d n i out hw).1 = 0 →
      (update_loop L base1 d1 n i1 out1 hw1).1 = 0 →
      (∀ j, j < 16 * n → (update_loop L base d n i out hw).2.2.1 (i + j)
          = (update_loop L base1 d1 n i1 out1 hw1).2.2.1 (i1 + j))
        ∧ ∃ iv2 iv3, engine_sync blk (update_loop L base d n i out hw).2.2.2 key iv2
          ∧ engine_sync blk (update_loop L base1 d1 n i1 out1 hw1).2.2.2 key1 iv3
          ∧ (does_chaining_mode_need_iv L hw.cr = true →
            ∀ k, k < 4 → iv2 k = iv3 k ∧ iv2 k < 2 ^ 32) := by
  induction n with
  | zero =>
    intro i i1 out out1 hw hw1 flags flags1 key key1 iv iv1 _ _ _ _ hs hs1 _ _ hiv _ _ _
    exact ⟨fun j hj => absurd hj (by omega), iv, iv1, hs, hs1, hiv⟩
  | succ n ih =>
    intro i i1 out out1 hw hw1 flags flags1 key key1 iv iv1 hi hi1 hd hd1 hs hs1 hcr hkey hiv
      hdat h0 h1
    have hB16 : AES_BLOCK_SIZE = 16 := rfl
    simp only [update_loop, hB16] at h0 h1 ⊢
    have hc : (wait_computation_completed L base
        (write_block base (load32 d) (i / 4) hw)).1 = 0 := by
      by_contra hne
      rw [if_pos hne] at h0
      exact hne h0
    have hc1 : (wait_computation_completed L base1
        (write_block base1 (load32 d1) (i1 / 4) hw1)).1 = 0 := by
      by_contra hne
      rw [if_pos hne] at h1
      exact hne h1
    rw [if_neg (fun h => h hc)] at h0 ⊢
    rw [if_neg (fun h => h hc1)] at h1 ⊢
    obtain ⟨s1, s2, s3, s4⟩ := engine_block_step blk flags L base d (i / 4) out hw key iv hd hs
    obtain ⟨t1, t2, t3, t4⟩ :=
      engine_block_step blk flags1 L base1 d1 (i1 / 4) out1 hw1 key1 iv1 hd1 hs1
    have e0 : load32 d1 (i1 / 4) = load32 d (i / 4) := by
      simpa using (hdat 0 (by omega)).symm
    have e1 : load32 d1 (i1 / 4 + 1) = load32 d (i / 4 + 1) := (hdat 1 (by omega)).symm
    have e2 : load32 d1 (i1 / 4 + 2) = load32 d (i / 4 + 2) := (hdat 2 (by omega)).symm
    have e3 : load32 d1 (i1 / 4 + 3) = load32 d (i / 4 + 3) := (hdat 3 (by omega)).symm
    rw [e0, e1, e2, e3, hcr] at t1 t2
    obtain ⟨hB1, hB2⟩ := hcong hw.cr key key1 iv iv1
      [load32 d (i / 4), load32 d (i / 4 + 1), load32 d (i / 4 + 2), load32 d (i / 4 + 3)]
      hkey (fun h k hk => (hiv h k hk).1)
    rw [← hB1] at t1
    simp only [Nat.add_zero] at s1 t1
    have hi' : (i + 16) % 4 = 0 := by omega
    have hi1' : (i1 + 16) % 4 = 0 := by omega
    have h44 : (i + 16) / 4 = i / 4 + 4 := by omega
    have h441 : (i1 + 16) / 4 = i1 / 4 + 4 := by omega
    obtain ⟨r1, iv2, iv3, r2, r3, r4⟩ := ih (i + 16) (i1 + 16) _ _ _ _ flags flags1 key key1
      _ _ hi' hi1' (s4.trans hd) (t4.trans hd1) s2 t2 (t3.trans (hcr.trans s3.symm))
      (by rw [s3]; exact hkey)
      (by
        rw [s3]
        intro hn k hk
        exact ⟨by rw [hB2 hn k hk], Nat.mod_lt _ (by decide)⟩)
      (by
        intro k hk
        rw [h44, h441]
        have := hdat (4 + k) (by omega)
        simpa [Nat.add_assoc] using this)
      h0 h1
    refine ⟨fun j hj => ?_, iv2, iv3, r2, r3, by rwa [s3] at r4⟩
    by_cases hj16 : j < 16
    · obtain ⟨-, -, f3, -⟩ := update_loop_frame_at L base d n (i + 16)
        (read_block base out (i / 4)
          (wait_computation_completed L base (write_block base (load32 d) (i / 4) hw)).2).1
        (clear_computation_completed L base
          (read_block base out (i / 4)
            (wait_computation_completed L base (write_block base (load32 d) (i / 4) hw)).2).2)
        hi'
      obtain ⟨-, -, g3, -⟩ := update_loop_frame_at L base1 d1 n (i1 + 16)
        (read_block base1 out1 (i1 / 4)
          (wait_computation_completed L base1
            (write_block base1 (load32 d1) (i1 / 4) hw1)).2).1
        (clear_computation_completed L base1
          (read_block base1 out1 (i1 / 4)
            (wait_computation_completed L base1
              (write_block base1 (load32 d1) (i1 / 4) hw1)).2).2)
        hi1'
      rw [f3 (i + j) (Or.inl (by omega)), g3 (i1 + j) (Or.inl (by omega)), s1, t1,
        store32_block, store32_block, if_pos (by omega), if_pos (by omega)]
      have q1 : (i + j) / 4 - i / 4 = j / 4 := by omega
      have q2 : (i1 + j) / 4 - i1 / 4 = j / 4 := by omega
      have q3 : (i + j) % 4 = j % 4 := by omega
      have q4 : (i1 + j) % 4 = j % 4 := by omega
      rw [q1, q2, q3, q4]
    · have := r1 (j - 16) (by omega)
      have q1 : i + 16 + (j - 16) = i + j := by omega
      have q2 : i1 + 16 + (j - 16) = i1 + j := by omega
      rw [q1, q2] at this
      exact this

/-- Reading the IV registers of the engine returns their contents and leaves
the engine as it is. -/
theorem read_words_engine (blk : BlockFn) (flags : List Ev → Reg → Nat) (base n : Nat)
    (s : (Nat → Nat) × Hw) (hd : s.2.dev = engine_dev blk flags) :
    engine_of blk (read_words base Reg.IVR n s).2.log = engine_of blk s.2.log
      ∧ (read_words base Reg.IVR n s).2.dev = s.2.dev
      ∧ ∀ k, (read_words base Reg.IVR n s).1 k
          = if k < n then (engine_of blk s.2.log).iv k % 2 ^ 32 else s.1 k := by
  induction n with
  | zero => exact ⟨rfl, rfl, fun k => by simp [read_words]⟩
  | succ n ih =>
    obtain ⟨a1, a2, a3⟩ := ih
    simp only [read_words]
    refine ⟨?_, a2, fun k => ?_⟩
    · rw [engine_of_read blk base (Reg.IVR n) _ (by simp), a1]
    · simp only [set_word, mmio_read_32, a2, hd, engine_dev, a1, reduceCtorEq, if_false]
      by_cases hk : k = n
      · subst hk
        simp
      · rw [if_neg hk, a3 k]
        by_cases hlt : k < n
        · rw [if_pos hlt, if_pos (by omega)]
        · rw [if_neg hlt, if_neg (by omega)]

/-- A successful `save_context` on an engine at a block boundary: the control
shadow is the control register, the key shadow is kept and, outside ECB, the IV
shadow holds the four IV registers. -/
theorem save_context_engine (blk : BlockFn) (flags : List Ev → Reg → Nat) (L : Layout)
    (ctx : stm32_saes_context) (hw : Hw) (key iv : Nat → Nat)
    (hd : hw.dev = engine_dev blk flags) (hs : engine_sync blk hw key iv)
    (h0 : (save_context L ctx hw).1 = 0) :
    (save_context L ctx hw).2.1.cr = hw.cr % 2 ^ 32
      ∧ (save_context L ctx hw).2.1.key = ctx.key
      ∧ (save_context L ctx hw).2.1.base = ctx.base
      ∧ (does_chaining_mode_need_iv L (hw.cr % 2 ^ 32) = true →
        ∀ k, k < 4 → (save_context L ctx hw).2.1.iv k = iv k % 2 ^ 32) := by
  unfold save_context at h0 ⊢
  simp only at h0 ⊢
  by_cases hc : (mmio_read_32 ctx.base Reg.ISR hw).1 &&& _SAES_I_CCF L ≠ 0
  · rw [if_pos hc] at h0
    exact absurd h0 (by simp [EINVAL])
  · rw [if_neg hc]
    refine ⟨rfl, rfl, rfl, fun hn k hk => ?_⟩
    have hn1 : does_chaining_mode_need_iv L
        (mmio_read_32 ctx.base Reg.CR (mmio_read_32 ctx.base Reg.ISR hw).2).1 = true := hn
    simp only [hn1, if_true]
    obtain ⟨-, -, a3⟩ := read_words_engine blk flags ctx.base (AES_IVSIZE / 4)
      (ctx.iv, (mmio_read_32 ctx.base Reg.CR (mmio_read_32 ctx.base Reg.ISR hw).2).2) hd
    rw [a3 k, if_pos (by simpa [AES_IVSIZE] using hk)]
    have he : engine_of blk
        (mmio_read_32 ctx.base Reg.CR (mmio_read_32 ctx.base Reg.ISR hw).2).2.log
        = engine_of blk hw.log := by
      rw [engine_of_read blk ctx.base Reg.CR _ (by decide),
        engine_of_read blk ctx.base Reg.ISR _ (by decide)]
    unfold engine_sync at hs
    rw [he, hs]

/-- A call of `stm32_saes_update` over `n` whole blocks that returns 0:
`restore_context` succeeded, no poll of the block loop timed out, the output is
the output of the loop and, for a non-final call, `save_context` succeeded and
gave the context returned. -/
theorem update_blocks_ok (L : Layout) (ctx : stm32_saes_context) (last_block : Bool)
    (d o : Nat → Nat) (n : Nat) (hw : Hw) (r : DataResult)
    (h : stm32_saes_update L ctx last_block d o (16 * n) hw = some r) (h0 : r.ret = 0) :
    ∃ h1, restore_context L ctx hw = some (0, h1)
      ∧ (update_loop L ctx.base d n 0 o h1).1 = 0
      ∧ r.out = (update_loop L ctx.base d n 0 o h1).2.2.1
      ∧ (last_block = false →
        (save_context L ctx (update_loop L ctx.base d n 0 o h1).2.2.2).1 = 0
          ∧ r.ctx = (save_context L ctx (update_loop L ctx.base d n 0 o h1).2.2.2).2.1) := by
  have hrd : round_down (16 * n) AES_BLOCK_SIZE = 16 * n := by
    have hB16 : AES_BLOCK_SIZE = 16 := rfl
    rw [hB16]
    unfold round_down
    omega
  have hn : round_down (16 * n) AES_BLOCK_SIZE / AES_BLOCK_SIZE = n := by
    rw [hrd]
    have hB16 : AES_BLOCK_SIZE = 16 := rfl
    rw [hB16]
    omega
  have hrej : update_rejects L ctx last_block (16 * n) = false := by
    unfold update_rejects
    rw [hrd]
    simp
  rw [update_accepted L ctx last_block d o (16 * n) hw hrej, hn] at h
  cases hrc : restore_context L ctx hw with
  | none =>
    rw [hrc] at h
    exact absurd h (by simp)
  | some p =>
    obtain ⟨e, h1⟩ := p
    rw [hrc] at h
    simp only at h
    by_cases he : e ≠ 0
    · rw [if_pos he] at h
      have := Option.some.inj h
      rw [← this] at h0
      exact absurd h0 he
    · rw [if_neg he] at h
      have he0 : e = 0 := not_not.mp he
      subst he0
      refine ⟨h1, rfl, ?_⟩
      by_cases hl : (update_loop L ctx.base d n 0 o h1).1 ≠ 0
      · rw [if_pos hl] at h
        have := Option.some.inj h
        rw [← this] at h0
        exact absurd h0 hl
      · rw [if_neg hl] at h
        refine ⟨not_not.mp hl, ?_⟩
        cases last_block with
        | true =>
          simp only [Bool.true_and, Bool.not_true, Bool.false_eq_true, if_false] at h
          split at h
          · have := Option.some.inj h
            rw [← this] at h0
            exact absurd h0 (by simp [update_out, ENODEV])
          · have := Option.some.inj h
            rw [← this]
            exact ⟨rfl, fun hf => absurd hf (by simp)⟩
        | false =>
          simp only [Bool.false_and, Bool.false_eq_true, if_false, Bool.not_false, if_true] at h
          have := Option.some.inj h
          rw [← this] at h0 ⊢
          exact ⟨rfl, fun _ => ⟨h0, rfl⟩⟩

theorem load32_shift (d : Nat → Nat) (a k : Nat) :
    load32 d (16 * a / 4 + k) = load32 (fun j => d (16 * a + j)) (0 / 4 + k) := by
  have h1 : 16 * a / 4 = 4 * a := by omega
  have h2 : 4 * (4 * a + k) = 16 * a + 4 * k := by ring
  simp only [load32, h1, h2, Nat.zero_div, Nat.zero_add, Nat.add_assoc]

/-- C12: suspend/resume equivalence of `stm32_saes_update` on an engine that is a
deterministic machine of this form (`engine_dev blk flags`): its whole chaining
state is the contents of the IV registers, which a read returns; the output
words of a block and the next contents of the IV registers are `blk` of the
control register, the key registers, the IV registers and the four words of the
block; and `blk` reads only the registers that the control value selects, the
key registers of the configured key size (none for a hardware key) and, outside
ECB, the four IV registers.  For a block-aligned input of `a + b` blocks: a
non-final call over the first `a` blocks, which saves the context, followed by
a final call with the saved context over the other `b` blocks, which restores
it, gives the output bytes of one final call over all `a + b` blocks, whenever
the three calls return 0.  The three calls start from any three states `hwA`,
`hwB`, `hwC` of the engine: the state `hwC` that the second call finds is not
tied to the state the first call left, so any use of the engine by another
session in between is covered.  The chaining mode is not restricted: ECB, CBC
and CTR are instances.  The total length is below `2 ^ 32`, the range in which
the `unsigned int` block index of the code does not wrap. -/
theorem C12_suspend_resume (L : Layout) (blk : BlockFn) (flags : List Ev → Reg → Nat)
    (ctx : stm32_saes_context) (d o o1 o2 : Nat → Nat) (a b : Nat) (hwA hwB hwC : Hw)
    (r r1 r2 : DataResult)
    (hcong : blk_respects L blk)
    (hA : hwA.dev = engine_dev blk flags) (hB : hwB.dev = engine_dev blk flags)
    (hC : hwC.dev = engine_dev blk flags)
    (_hsize : 16 * (a + b) < 2 ^ 32)
    (h : stm32_saes_update L ctx true d o (16 * (a + b)) hwA = some r) (h0 : r.ret = 0)
    (h1 : stm32_saes_update L ctx false d o1 (16 * a) hwB = some r1) (h10 : r1.ret = 0)
    (h2 : stm32_saes_update L r1.ctx true (fun j => d (16 * a + j)) o2 (16 * b) hwC = some r2)
    (h20 : r2.ret = 0) :
    (∀ j, j < 16 * a → r1.out j = r.out j)
      ∧ (∀ j, j < 16 * b → r2.out j = r.out (16 * a + j)) := by
  obtain ⟨hA0, ra, la, oa, -⟩ := update_blocks_ok L ctx true d o (a + b) hwA r h h0
  obtain ⟨hB0, rb, lb, ob, sb⟩ := update_blocks_ok L ctx false d o1 a hwB r1 h1 h10
  obtain ⟨sb0, sbc⟩ := sb rfl
  obtain ⟨hC0, rc, lc, oc, -⟩ := update_blocks_ok L r1.ctx true _ o2 b hwC r2 h2 h20
  obtain ⟨sA, crA, dA⟩ := sync_restore blk L ctx hwA hA0 ra
  obtain ⟨sB, crB, dB⟩ := sync_restore blk L ctx hwB hB0 rb
  obtain ⟨sC, crC, dC⟩ := sync_restore blk L r1.ctx hwC hC0 rc
  rw [update_loop_add] at la oa
  have la1 : (update_loop L ctx.base d a 0 o hA0).1 = 0 := by
    by_contra hne
    rw [if_pos hne] at la
    exact hne la
  rw [if_neg (fun h => h la1)] at la oa
  obtain ⟨fA1, fA2, -, fA4⟩ := update_loop_frame_at L ctx.base d a 0 o hA0 rfl
  obtain ⟨fB1, fB2, -, -⟩ := update_loop_frame_at L ctx.base d a 0 o1 hB0 rfl
  have idx : (update_loop L ctx.base d a 0 o hA0).2.1 = 16 * a := by
    simpa using fA4 la1
  rw [idx] at la oa
  have hkw : key_words L hA0.cr = key_words L ctx.cr := by rw [crA, key_words_live]
  have hnv : does_chaining_mode_need_iv L hA0.cr = does_chaining_mode_need_iv L ctx.cr := by
    rw [crA, need_iv_live]
  obtain ⟨out1, iv2, iv3, s2, s3, hiv2⟩ := update_loop_engine L blk hcong ctx.base ctx.base
    d d a 0 0 o o1 hA0 hB0 flags flags _ _ _ _ rfl rfl (dA.trans hA) (dB.trans hB) sA sB
    (crB.trans crA.symm)
    (by
      intro k hk
      rw [hkw] at hk
      simp only [hk, if_true])
    (by
      intro hn k hk
      rw [hnv] at hn
      simp only [hn, hk, and_self, if_true, true_and]
      exact Nat.mod_lt _ (by decide))
    (fun k _ => rfl) la1 lb
  obtain ⟨-, -, fA3, -⟩ := update_loop_frame_at L ctx.base d b (16 * a)
    (update_loop L ctx.base d a 0 o hA0).2.2.1 (update_loop L ctx.base d a 0 o hA0).2.2.2
    (by omega)
  refine ⟨fun j hj => ?_, ?_⟩
  · rw [ob, oa, fA3 j (Or.inl hj)]
    have := out1 j hj
    simp only [Nat.zero_add] at this
    exact this.symm
  obtain ⟨c1, c2, c3, c4⟩ := save_context_engine blk flags L ctx
    (update_loop L ctx.base d a 0 o1 hB0).2.2.2 _ iv3 (fB2.trans (dB.trans hB)) s3 sb0
  rw [← sbc, fB1, crB, setbits32_mod] at c1
  rw [← sbc] at c2 c3
  rw [← sbc, fB1, crB, setbits32_mod, need_iv_live] at c4
  have hcrC : hC0.cr = (update_loop L ctx.base d a 0 o hA0).2.2.2.cr := by
    rw [crC, c1, setbits32_mod, setbits32_twice, fA1, crA]
  have hkwC : key_words L r1.ctx.cr = key_words L ctx.cr := by rw [c1, key_words_live]
  have hnvC : does_chaining_mode_need_iv L r1.ctx.cr = does_chaining_mode_need_iv L ctx.cr := by
    rw [c1, need_iv_live]
  obtain ⟨out2, -⟩ := update_loop_engine L blk hcong ctx.base r1.ctx.base
    d (fun j => d (16 * a + j)) b (16 * a) 0 (update_loop L ctx.base d a 0 o hA0).2.2.1 o2
    (update_loop L ctx.base d a 0 o hA0).2.2.2 hC0 flags flags _ _ iv2 _ (by omega) rfl
    (fA2.trans (dA.trans hA)) (dC.trans hC) s2 sC hcrC
    (by
      intro k hk
      rw [fA1, hkw] at hk
      simp only [hkwC, c2, hk, if_true])
    (by
      intro hn k hk
      rw [fA1] at hn
      obtain ⟨q1, q2⟩ := hiv2 hn k hk
      rw [hnv] at hn
      refine ⟨?_, q2⟩
      simp only [hnvC, hn, hk, and_self, if_true]
      rw [c4 hn k hk, Nat.mod_mod, ← q1, Nat.mod_eq_of_lt q2])
    (fun k _ => load32_shift d a k) la lc
  intro j hj
  rw [oc, oa]
  have := out2 j hj
  simp only [Nat.zero_add] at this
  exact this.symm

theorem C12_suspend_resume_witness :
    ∃ r r1 r2, blk_respects Layout.CRYP2 (toy_blk Layout.CRYP2)
      ∧ stm32_saes_update Layout.CRYP2 ctx_ctr true buf_count (fun _ => 0) (16 * (1 + 1))
          hw_engine = some r ∧ r.ret = 0
      ∧ stm32_saes_update Layout.CRYP2 ctx_ctr false buf_count (fun _ => 0) (16 * 1)
          hw_engine = some r1 ∧ r1.ret = 0
      ∧ stm32_saes_update Layout.CRYP2 r1.ctx true (fun j => buf_count (16 * 1 + j))
          (fun _ => 0) (16 * 1) hw_engine_shared = some r2 ∧ r2.ret = 0
      ∧ (∀ j, j < 16 * 1 → r1.out j = r.out j)
      ∧ (∀ j, j < 16 * 1 → r2.out j = r.out (16 * 1 + j)) := by
  have hresp : blk_respects Layout.CRYP2 (toy_blk Layout.CRYP2) := by
    intro cr k k1 v v1 b hk hv
    unfold toy_blk
    refine ⟨?_, fun hn i hi => ?_⟩
    · simp only [Prod.mk.injEq, and_true]
      apply List.map_congr_left
      intro i hi
      have hi4 : i < 4 := List.mem_range.mp hi
      have e1 : (if does_chaining_mode_need_iv Layout.CRYP2 cr = true then v i else 0)
          = (if does_chaining_mode_need_iv Layout.CRYP2 cr = true then v1 i else 0) := by
        by_cases hn : does_chaining_mode_need_iv Layout.CRYP2 cr = true
        · rw [if_pos hn, if_pos hn, hv hn i hi4]
        · rw [if_neg hn, if_neg hn]
      have e2 : (if i < key_words Layout.CRYP2 cr then k i else 0)
          = (if i < key_words Layout.CRYP2 cr then k1 i else 0) := by
        by_cases hlt : i < key_words Layout.CRYP2 cr
        · rw [if_pos hlt, if_pos hlt, hk i hlt]
        · rw [if_neg hlt, if_neg hlt]
      rw [e1, e2]
    · simp only
      rw [hv hn 3 (by omega), hv hn i hi]
  have hr : stm32_saes_update Layout.CRYP2 ctx_ctr true buf_count (fun _ => 0) (16 * (1 + 1))
      hw_engine = some ((stm32_saes_update Layout.CRYP2 ctx_ctr true buf_count (fun _ => 0)
        (16 * (1 + 1)) hw_engine).getD (update_out true 0 0 ctx_ctr (fun _ => 0) hw_engine)) :=
    rfl
  have hr1 : stm32_saes_update Layout.CRYP2 ctx_ctr false buf_count (fun _ => 0) (16 * 1)
      hw_engine = some ((stm32_saes_update Layout.CRYP2 ctx_ctr false buf_count (fun _ => 0)
        (16 * 1) hw_engine).getD (update_out true 0 0 ctx_ctr (fun _ => 0) hw_engine)) :=
    rfl
  have hr2 : stm32_saes_update Layout.CRYP2
      ((stm32_saes_update Layout.CRYP2 ctx_ctr false buf_count (fun _ => 0)
        (16 * 1) hw_engine).getD (update_out true 0 0 ctx_ctr (fun _ => 0) hw_engine)).ctx
      true (fun j => buf_count (16 * 1 + j)) (fun _ => 0) (16 * 1) hw_engine_shared
      = some ((stm32_saes_update Layout.CRYP2
        ((stm32_saes_update Layout.CRYP2 ctx_ctr false buf_count (fun _ => 0)
          (16 * 1) hw_engine).getD (update_out true 0 0 ctx_ctr (fun _ => 0) hw_engine)).ctx
        true (fun j => buf_count (16 * 1 + j)) (fun _ => 0) (16 * 1) hw_engine_shared).getD
          (update_out true 0 0 ctx_ctr (fun _ => 0) hw_engine)) := rfl
  have hc := C12_suspend_resume Layout.CRYP2 (toy_blk Layout.CRYP2) toy_flags ctx_ctr buf_count
    (fun _ => 0) (fun _ => 0) (fun _ => 0) 1 1 hw_engine hw_engine hw_engine_shared _ _ _
    hresp rfl rfl rfl (by decide) hr (by decide) hr1 (by decide) hr2 (by decide)
  exact ⟨_, _, _, hresp, hr, by decide, hr1, by decide, hr2, by decide, hc.1, hc.2⟩

/-- The second half of a non-final `stm32_saes_update_load` over `16 q + r`
bytes, `r < 16`: only the block loop over the `q` full blocks runs. -/
theorem load_blocks_nonfinal (L : Layout) (ctx : stm32_saes_context) (d out : Nat → Nat)
    (q r : Nat) (hw2 : Hw) (hr : r < 16) :
    load_blocks L ctx false d out (16 * q + r) hw2
      = load_out (load_loop L d q 0 ctx out hw2).ret (load_loop L d q 0 ctx out hw2).i
          (load_loop L d q 0 ctx out hw2).ctx (load_loop L d q 0 ctx out hw2).out
          (load_loop L d q 0 ctx out hw2).hw := by
  unfold load_blocks
  simp only [round_down_blocks q r hr]
  by_cases hl : (load_loop L d q 0 ctx out hw2).ret ≠ 0
  · rw [if_pos hl]
  · rw [if_neg hl]
    simp only [ne_eq, not_not] at hl
    simp only [Bool.false_and, Bool.false_eq_true, if_false, hl]

theorem load_blocks_nonfinal_spec (L : Layout) (ctx : stm32_saes_context) (d out : Nat → Nat)
    (q r : Nat) (hw2 : Hw) (hr : r < 16) :
    ((load_blocks L ctx false d out (16 * q + r) hw2).ret = 0
        ∨ (load_blocks L ctx false d out (16 * q + r) hw2).ret = -ETIMEDOUT)
      ∧ ((load_blocks L ctx false d out (16 * q + r) hw2).ret = 0 →
        (load_blocks L ctx false d out (16 * q + r) hw2).i = 16 * q
        ∧ (∀ j, 16 * q ≤ j → (load_blocks L ctx false d out (16 * q + r) hw2).out j = out j)
        ∧ (∃ R, doutr_reads (load_blocks L ctx false d out (16 * q + r) hw2).hw.log
              = doutr_reads hw2.log ++ R
            ∧ R.length = 4 * q
            ∧ ∀ j, j < 16 * q →
              (load_blocks L ctx false d out (16 * q + r) hw2).out j
                = byte_of (R.getD (j / 4) 0) (j % 4))
        ∧ dinr_writes (load_blocks L ctx false d out (16 * q + r) hw2).hw.log
            = dinr_writes hw2.log ++ (List.range (4 * q)).map (load32 d)
        ∧ (load_blocks L ctx false d out (16 * q + r) hw2).ctx.load_len % 2 ^ 32
            = (ctx.load_len + 128 * q) % 2 ^ 32) := by
  obtain ⟨l1, -, -, l4, l5⟩ := load_loop_spec L d q 0 ctx out hw2 rfl
  rw [load_blocks_nonfinal L ctx d out q r hw2 hr]
  refine ⟨l1, fun h0 => ?_⟩
  have h0l : (load_loop L d q 0 ctx out hw2).ret = 0 := h0
  obtain ⟨s1, s2, s3, R, s4, s5, s6⟩ := l5 h0l
  have hhw : (load_out (load_loop L d q 0 ctx out hw2).ret (load_loop L d q 0 ctx out hw2).i
      (load_loop L d q 0 ctx out hw2).ctx (load_loop L d q 0 ctx out hw2).out
      (load_loop L d q 0 ctx out hw2).hw).hw = (load_loop L d q 0 ctx out hw2).hw := by
    simp [load_out, h0l]
  rw [hhw]
  have hi : (load_loop L d q 0 ctx out hw2).i = 16 * q := by omega
  refine ⟨hi,
    fun j hj => l4 j (Or.inr (by omega)), ⟨R, s4, s5, fun j hj => ?_⟩, ?_, s2⟩
  · have := s6 j (by omega) (by omega)
    simpa using this
  · rw [dinr_writes_of_cd, s3, dinr_writes_of_cd]
    simp only [List.filterMap_append, filterMap_dinr_map, Nat.zero_div, Nat.zero_add]

/-- C22: a non-final `stm32_saes_update_load` call with `data_size = 16 q + r`,
`0 < r < 16`, is not rejected: it returns 0 or `-ETIMEDOUT` (a completion poll
failed), while `stm32_saes_update` returns `-EINVAL` for the same arguments.
When it returns 0, that is when every completion poll succeeded, only the first
`16 q` bytes were processed: the block index stops at `16 q`; the words written
to the data-in register are the `4 q` words of the full blocks and no word of
the tail; output bytes at offsets `16 q` and above are unchanged, the bytes
below are the bytes of the `4 q` words read from the data-out register; and
`load_len` has grown by `128 q` modulo `2 ^ 32`, so the `r` tail bytes are
counted neither in the output nor in the authenticated length.  A device that
shows the completion flag at every read of the interrupt status register makes
the call return 0. -/
theorem C22_update_load_nonfinal_drops_tail (L : Layout) (ctx : stm32_saes_context)
    (d out : Nat → Nat) (q r : Nat) (hw : Hw) (hr0 : 0 < r) (hr : r < 16)
    (_hsize : 16 * q + r < 2 ^ 32) :
    ((stm32_saes_update_load L ctx false (some d) out (16 * q + r) hw).ret = 0
        ∨ (stm32_saes_update_load L ctx false (some d) out (16 * q + r) hw).ret = -ETIMEDOUT)
      ∧ ((stm32_saes_update_load L ctx false (some d) out (16 * q + r) hw).ret = 0 →
        (stm32_saes_update_load L ctx false (some d) out (16 * q + r) hw).i = 16 * q
        ∧ dinr_writes (stm32_saes_update_load L ctx false (some d) out (16 * q + r) hw).hw.log
            = dinr_writes hw.log ++ (List.range (4 * q)).map (load32 d)
        ∧ (∀ j, 16 * q ≤ j →
          (stm32_saes_update_load L ctx false (some d) out (16 * q + r) hw).out j = out j)
        ∧ (∃ R, doutr_reads (stm32_saes_update_load L ctx false (some d) out (16 * q + r)
                hw).hw.log = doutr_reads hw.log ++ R
            ∧ R.length = 4 * q
            ∧ ∀ j, j < 16 * q →
              (stm32_saes_update_load L ctx false (some d) out (16 * q + r) hw).out j
                = byte_of (R.getD (j / 4) 0) (j % 4))
        ∧ (stm32_saes_update_load L ctx false (some d) out (16 * q + r) hw).ctx.load_len % 2 ^ 32
            = (ctx.load_len + 128 * q) % 2 ^ 32)
      ∧ ((∀ log, (hw.dev log ctx.base Reg.ISR % 2 ^ 32) &&& _SAES_I_CCF L = _SAES_I_CCF L) →
        (stm32_saes_update_load L ctx false (some d) out (16 * q + r) hw).ret = 0)
      ∧ ∃ u, stm32_saes_update L ctx false d out (16 * q + r) hw = some u
        ∧ u.ret = -EINVAL := by
  have aux : ∀ hw2 : Hw, dinr_writes hw2.log = dinr_writes hw.log →
      doutr_reads hw2.log = doutr_reads hw.log →
      ((load_blocks L ctx false d out (16 * q + r) hw2).ret = 0
        ∨ (load_blocks L ctx false d out (16 * q + r) hw2).ret = -ETIMEDOUT)
      ∧ ((load_blocks L ctx false d out (16 * q + r) hw2).ret = 0 →
        (load_blocks L ctx false d out (16 * q + r) hw2).i = 16 * q
        ∧ dinr_writes (load_blocks L ctx false d out (16 * q + r) hw2).hw.log
            = dinr_writes hw.log ++ (List.range (4 * q)).map (load32 d)
        ∧ (∀ j, 16 * q ≤ j → (load_blocks L ctx false d out (16 * q + r) hw2).out j = out j)
        ∧ (∃ R, doutr_reads (load_blocks L ctx false d out (16 * q + r) hw2).hw.log
              = doutr_reads hw.log ++ R
            ∧ R.length = 4 * q
            ∧ ∀ j, j < 16 * q →
              (load_blocks L ctx false d out (16 * q + r) hw2).out j
                = byte_of (R.getD (j / 4) 0) (j % 4))
        ∧ (load_blocks L ctx false d out (16 * q + r) hw2).ctx.load_len % 2 ^ 32
            = (ctx.load_len + 128 * q) % 2 ^ 32) := by
    intro hw2 h1 h2
    obtain ⟨t1, t2⟩ := load_blocks_nonfinal_spec L ctx d out q r hw2 hr
    refine ⟨t1, fun h0 => ?_⟩
    obtain ⟨u1, u2, u3, u4, u5⟩ := t2 h0
    rw [h2] at u3
    rw [h1] at u4
    exact ⟨u1, u4, u2, u3, u5⟩
  have hne : ¬ (16 * q + r = 0) := by omega
  have hnd : (16 * q + r) % 16 ≠ 0 := by omega
  refine ⟨?_, ?_, ?_, update_out false (-EINVAL) 0 ctx out hw, ?_, rfl⟩
  · unfold stm32_saes_update_load
    simp only [hne, if_false]
    refine (aux _ ?_ ?_).1
    · split <;>
        simp [mmio_setbits_32, mmio_clrsetbits_32, mmio_write_32, mmio_read_32, dinr_writes,
          reg_writes]
    · split <;>
        simp [mmio_setbits_32, mmio_clrsetbits_32, mmio_write_32, mmio_read_32, doutr_reads]
  · unfold stm32_saes_update_load
    simp only [hne, if_false]
    refine (aux _ ?_ ?_).2
    · split <;>
        simp [mmio_setbits_32, mmio_clrsetbits_32, mmio_write_32, mmio_read_32, dinr_writes,
          reg_writes]
    · split <;>
        simp [mmio_setbits_32, mmio_clrsetbits_32, mmio_write_32, mmio_read_32, doutr_reads]
  · intro hdev
    unfold stm32_saes_update_load
    simp only [hne, if_false]
    apply load_blocks_ready
    intro log
    have hd : ∀ h2 : Hw, h2.dev = hw.dev →
        (h2.dev log ctx.base Reg.ISR % 2 ^ 32) &&& _SAES_I_CCF L = _SAES_I_CCF L := by
      intro h2 e
      rw [e]
      exact hdev log
    apply hd
    split <;> rfl
  · have h1 := (round_down_ne (16 * q + r)).2 hnd
    unfold stm32_saes_update
    simp [h1]

theorem C22_update_load_nonfinal_drops_tail_witness :
    (0 < 4 ∧ 4 < 16 ∧ 16 * 1 + 4 < 2 ^ 32)
      ∧ (stm32_saes_update_load Layout.CRYP2 ctx_zero false (some buf_count) (fun _ => 0xAA)
          (16 * 1 + 4) hw_ready).ret = 0
      ∧ (stm32_saes_update_load Layout.CRYP2 ctx_zero false (some buf_count) (fun _ => 0xAA)
          (16 * 1 + 4) hw_ready).i = 16 * 1
      ∧ dinr_writes (stm32_saes_update_load Layout.CRYP2 ctx_zero false (some buf_count)
          (fun _ => 0xAA) (16 * 1 + 4) hw_ready).hw.log
        = [0x03020100, 0x07060504, 0x0B0A0908, 0x0F0E0D0C]
      ∧ (stm32_saes_update_load Layout.CRYP2 ctx_zero false (some buf_count) (fun _ => 0xAA)
          (16 * 1 + 4) hw_ready).out 16 = 0xAA
      ∧ (stm32_saes_update_load Layout.CRYP2 ctx_zero false (some buf_count) (fun _ => 0xAA)
          (16 * 1 + 4) hw_ready).ctx.load_len = 128 :=
  have h0 : (stm32_saes_update_load Layout.CRYP2 ctx_zero false (some buf_count) (fun _ => 0xAA)
      (16 * 1 + 4) hw_ready).ret = 0 := by decide
  ⟨⟨by decide, by decide, by decide⟩, h0,
    ((C22_update_load_nonfinal_drops_tail Layout.CRYP2 ctx_zero buf_count (fun _ => 0xAA) 1 4
      hw_ready (by decide) (by decide) (by decide)).2.1 h0).1,
    (((C22_update_load_nonfinal_drops_tail Layout.CRYP2 ctx_zero buf_count (fun _ => 0xAA) 1 4
      hw_ready (by decide) (by decide) (by decide)).2.1 h0).2.1).trans (by decide),
    ((C22_update_load_nonfinal_drops_tail Layout.CRYP2 ctx_zero buf_count (fun _ => 0xAA) 1 4
      hw_ready (by decide) (by decide) (by decide)).2.1 h0).2.2.1 16 (by decide),
    by decide⟩

/-- A call of `stm32_saes_init` that returns 0 passed validation. -/
theorem init_ok_valid (L : Layout) (pdata_base : Nat) (ctx : stm32_saes_context) (is_dec : Bool)
    (ch_mode : stm32_saes_chaining_mode) (key_select : stm32_saes_key_selection)
    (key : Nat → Nat) (key_size : Nat) (iv : Option (Nat → Nat)) (iv_size : Nat) (hw : Hw)
    (h0 : (stm32_saes_init L pdata_base ctx is_dec ch_mode key_select key key_size iv iv_size
      hw).1 = 0) :
    init_args_valid L ch_mode key_size iv iv_size := by
  have hE : ¬ (-EINVAL = (0 : Int)) := by decide
  unfold stm32_saes_init at h0
  simp only [] at h0
  split at h0
  · exact absurd h0 hE
  · rename_i cr4 hks
    have hv := init_keysize_some _ _ _ _ hks
    refine ⟨hv, ?_⟩
    split at h0
    · exact absurd h0 hE
    · split at h0
      · rename_i hm
        right
        split at h0
        · exact absurd h0 hE
        · split at h0
          · exact absurd h0 hE
          · rename_i hiv
            simp only [AES_IVSIZE, ne_eq, not_not] at hiv
            exact ⟨by simp, hiv⟩
      · rename_i hm
        simp only [ne_eq, not_not] at hm
        exact Or.inl hm

/-- Decoding undoes the key-size encoding of `stm32_saes_init`, under both
layouts. -/
theorem init_cr_keysize (L : Layout) (is_dec : Bool) (ch_mode : stm32_saes_chaining_mode)
    (key_select : stm32_saes_key_selection) (key_size : Nat) (c : stm32_saes_context)
    (hc : c.cr = init_cr L is_dec ch_mode key_select key_size)
    (hk : key_size = 16 ∨ key_size = 32 ∨ (key_size = 24 ∧ L = Layout.CRYP2)) :
    saes_get_keysize L c = key_size := by
  unfold saes_get_keysize
  rw [hc]
  rcases hk with hk | hk | ⟨hk, hL⟩
  · subst hk
    cases L <;> cases is_dec <;> cases ch_mode <;> cases key_select <;> decide
  · subst hk
    cases L <;> cases is_dec <;> cases ch_mode <;> cases key_select <;> decide
  · subst hk hL
    cases is_dec <;> cases ch_mode <;> cases key_select <;> decide

theorem init_cr_keysel_soft (L : Layout) (is_dec : Bool) (ch_mode : stm32_saes_chaining_mode)
    (key_size : Nat)
    (hk : key_size = 16 ∨ key_size = 32 ∨ (key_size = 24 ∧ L = Layout.CRYP2)) :
    init_cr L is_dec ch_mode STM32_SAES_KEY_SOFT key_size &&& _SAES_CR_KEYSEL_MASK
      = _SAES_CR_KEYSEL_SOFT <<< _SAES_CR_KEYSEL_SHIFT := by
  rcases hk with hk | hk | ⟨hk, hL⟩
  · subst hk
    cases L <;> cases is_dec <;> cases ch_mode <;> decide
  · subst hk
    cases L <;> cases is_dec <;> cases ch_mode <;> decide
  · subst hk hL
    cases is_dec <;> cases ch_mode <;> decide

/-- C21: for every call of `stm32_saes_init` with key source `SOFT` and
`key_size = k` that returns 0, under both register layouts:
`saes_get_keysize` applied to the control shadow of the context created returns
`k`, which is 16, 32 or (second layout only) 24, so it does not return 0 and
`saes_write_key` does not reach `panic()` (its result is not `none`), from any
hardware state.  `saes_write_key` then makes exactly `k / 4` register writes
and no read: key register `i` receives `key_shadow[i]` for `i < k / 4`, first
registers 0..3 and then, when `k > 16`, registers `4 .. k / 4 - 1`; and
`key_shadow[i]` is `htobe32` of caller key word `k / 4 - 1 - i`. -/
theorem C21_created_key_size_round_trip (L : Layout) (pdata_base : Nat)
    (ctx : stm32_saes_context) (is_dec : Bool) (ch_mode : stm32_saes_chaining_mode)
    (key : Nat → Nat) (key_size : Nat) (iv : Option (Nat → Nat)) (iv_size : Nat) (hw : Hw)
    (c : stm32_saes_context) (hw1 : Hw)
    (h : stm32_saes_init L pdata_base ctx is_dec ch_mode STM32_SAES_KEY_SOFT key key_size iv
      iv_size hw = (0, c, hw1)) :
    saes_get_keysize L c = key_size
      ∧ saes_get_keysize L c ≠ 0
      ∧ (key_size = 16 ∨ key_size = 32 ∨ (key_size = 24 ∧ L = Layout.CRYP2))
      ∧ (∀ i, i < key_size / 4 → c.key i = htobe32 (load32 key (key_size / 4 - 1 - i)))
      ∧ ∀ hw2, ∃ hw3, saes_write_key L c hw2 = some hw3
        ∧ reg_writes hw3.log
          = reg_writes hw2.log
            ++ (List.range (key_size / 4)).map (fun i => (Reg.KEYR i, c.key i))
        ∧ reg_writes hw3.log
          = reg_writes hw2.log ++ (List.range 4).map (fun i => (Reg.KEYR i, c.key i))
            ++ (List.range (key_size / 4 - 4)).map (fun i => (Reg.KEYR (4 + i), c.key (4 + i)))
        ∧ reg_writes hw3.log
          = reg_writes hw2.log ++ (List.range (key_size / 4)).map
              (fun i => (Reg.KEYR i, htobe32 (load32 key (key_size / 4 - 1 - i))))
        ∧ reg_reads hw3.log = reg_reads hw2.log
        ∧ hw3.cr = hw2.cr := by
  have h0 : (stm32_saes_init L pdata_base ctx is_dec ch_mode STM32_SAES_KEY_SOFT key key_size iv
      iv_size hw).1 = 0 := by rw [h]
  have hv := init_ok_valid L pdata_base ctx is_dec ch_mode STM32_SAES_KEY_SOFT key key_size iv
    iv_size hw h0
  have hk := hv.1
  rw [init_valid L pdata_base ctx is_dec ch_mode STM32_SAES_KEY_SOFT key key_size iv iv_size hw
    hv] at h
  have hc : c = init_ctx L pdata_base ctx is_dec ch_mode STM32_SAES_KEY_SOFT key key_size iv :=
    (congrArg (fun p => p.2.1) h).symm
  have hcr : c.cr = init_cr L is_dec ch_mode STM32_SAES_KEY_SOFT key_size := by rw [hc]; rfl
  have hkey : ∀ i, i < key_size / 4 →
      c.key i = htobe32 (load32 key (key_size / 4 - 1 - i)) := by
    intro i hi
    rw [hc]
    simp only [init_ctx, if_true]
    rw [save_words_apply, if_pos hi]
  have hks := init_cr_keysize L is_dec ch_mode STM32_SAES_KEY_SOFT key_size c hcr hk
  have hsel : (c.cr &&& _SAES_CR_KEYSEL_MASK)
      = (_SAES_CR_KEYSEL_SOFT <<< _SAES_CR_KEYSEL_SHIFT) := by
    rw [hcr]
    exact init_cr_keysel_soft L is_dec ch_mode key_size hk
  have hne : key_size ≠ 0 := by
    rcases hk with hk | hk | ⟨hk, -⟩ <;> omega
  refine ⟨hks, by rw [hks]; exact hne, hk, hkey, fun hw2 => ?_⟩
  have hsome : ∃ hw3, saes_write_key L c hw2 = some hw3 := by
    unfold saes_write_key
    rw [if_pos hsel]
    simp only [hks, if_neg hne]
    split <;> exact ⟨_, rfl⟩
  obtain ⟨hw3, h3⟩ := hsome
  obtain ⟨a1, -, -, a4, a5, -⟩ := saes_write_key_spec L c hw2 hw3 h3
  have hkw : key_writes L c
      = (List.range (key_size / 4)).map (fun i => (Reg.KEYR i, c.key i)) := by
    unfold key_writes
    rw [if_pos hsel, hks]
    apply List.map_congr_left
    intro i hi
    have hi4 : i < key_size / 4 := List.mem_range.mp hi
    rw [hkey i hi4, Nat.mod_eq_of_lt (htobe32_lt _)]
  rw [hkw] at a4
  refine ⟨hw3, h3, a4, ?_, ?_, a5, a1⟩
  · rw [a4, List.append_assoc]
    congr 1
    have h4 : key_size / 4 = 4 + (key_size / 4 - 4) := by
      rcases hk with hk | hk | ⟨hk, -⟩ <;> omega
    conv_lhs => rw [h4]
    rw [List.range_add, List.map_append, List.map_map]
    rfl
  · rw [a4]
    congr 1
    apply List.map_congr_left
    intro i hi
    rw [hkey i (List.mem_range.mp hi)]

theorem C21_created_key_size_round_trip_witness :
    ∃ c hw1 hw3,
      stm32_saes_init Layout.CRYP2 0x42050000 ctx_zero false STM32_SAES_MODE_CBC
          STM32_SAES_KEY_SOFT buf_count 24 (some buf_count) 16 hw_keyed = (0, c, hw1)
        ∧ saes_get_keysize Layout.CRYP2 c = 24
        ∧ saes_write_key Layout.CRYP2 c hw_ready = some hw3
        ∧ reg_writes hw3.log
          = [(Reg.KEYR 0, 0x14151617), (Reg.KEYR 1, 0x10111213), (Reg.KEYR 2, 0x0C0D0E0F),
              (Reg.KEYR 3, 0x08090A0B), (Reg.KEYR 4, 0x04050607), (Reg.KEYR 5, 0x00010203)] := by
  have hrun : stm32_saes_init Layout.CRYP2 0x42050000 ctx_zero false STM32_SAES_MODE_CBC
      STM32_SAES_KEY_SOFT buf_count 24 (some buf_count) 16 hw_keyed
      = (0, (stm32_saes_init Layout.CRYP2 0x42050000 ctx_zero false STM32_SAES_MODE_CBC
          STM32_SAES_KEY_SOFT buf_count 24 (some buf_count) 16 hw_keyed).2.1,
        (stm32_saes_init Layout.CRYP2 0x42050000 ctx_zero false STM32_SAES_MODE_CBC
          STM32_SAES_KEY_SOFT buf_count 24 (some buf_count) 16 hw_keyed).2.2) := rfl
  have hc := C21_created_key_size_round_trip Layout.CRYP2 0x42050000 ctx_zero false
    STM32_SAES_MODE_CBC buf_count 24 (some buf_count) 16 hw_keyed _ _ hrun
  obtain ⟨hw3, w1, -, -, w4, -⟩ := hc.2.2.2.2 hw_ready
  exact ⟨_, _, hw3, hrun, hc.1, w1, w4.trans (by decide)⟩

/-! ## Final unaligned update -/

/-- C5: a final `stm32_saes_update` call whose `data_size` is not a multiple of
16 never returns 0.  In CBC encryption it returns `-EINVAL` when
`data_size < 32` and `-ENODEV` otherwise, with the output buffer and the
context untouched and with `saes_end` as its only effect on the engine (no
restore).  In every other mode and direction it calls `restore_context`: if
that fails its error is returned; otherwise the result is `-ENODEV` exactly
when no poll of the block loop failed, `-ETIMEDOUT` when one did, and a device
that shows the completion flag at every read of the interrupt status register
gives `-ENODEV`.  With `-ENODEV` all full blocks were streamed: their words
were written to the data-in register in order, the words read back fill the
first `16 * (data_size / 16)` output bytes, and the bytes above are
unchanged. -/
theorem C5_update_final_unaligned (L : Layout) (ctx : stm32_saes_context)
    (data_in data_out : Nat → Nat) (data_size : Nat) (hw : Hw) (hna : data_size % 16 ≠ 0)
    (_hsize : data_size < 2 ^ 32) :
    (∀ res, stm32_saes_update L ctx true data_in data_out data_size hw = some res → res.ret ≠ 0)
      ∧ (IS_CHAINING_MODE L STM32_SAES_MODE_CBC ctx.cr = true ∧ is_encrypt ctx.cr = true →
        ∃ res, stm32_saes_update L ctx true data_in data_out data_size hw = some res
          ∧ res.ret = (if data_size < 32 then -EINVAL else -ENODEV)
          ∧ res.out = data_out ∧ res.ctx = ctx ∧ res.hw = saes_end ctx res.ret hw)
      ∧ (¬ (IS_CHAINING_MODE L STM32_SAES_MODE_CBC ctx.cr = true ∧ is_encrypt ctx.cr = true) →
        ∀ rc hw1, restore_context L ctx hw = some (rc, hw1) →
          ∃ res, stm32_saes_update L ctx true data_in data_out data_size hw = some res
            ∧ res.ctx = ctx
            ∧ (rc ≠ 0 → res.ret = rc ∧ res.out = data_out ∧ res.hw = saes_end ctx rc hw1)
            ∧ (rc = 0 → (res.ret = -ENODEV ∨ res.ret = -ETIMEDOUT)
              ∧ (res.ret = -ENODEV
                ↔ (update_loop L ctx.base data_in (data_size / 16) 0 data_out hw1).1 = 0)
              ∧ ((∀ log, (hw.dev log ctx.base Reg.ISR % 2 ^ 32) &&& _SAES_I_CCF L
                  = _SAES_I_CCF L) → res.ret = -ENODEV)
              ∧ (res.ret = -ENODEV →
                cd_writes res.hw.log
                  = cd_writes hw1.log
                    ++ (List.range (4 * (data_size / 16))).map
                      (fun k => (Reg.DINR, load32 data_in k))
                    ++ (saes_end_writes (-ENODEV) hw1.cr).map (fun v => (Reg.CR, v))
                ∧ (∃ R, doutr_reads res.hw.log = doutr_reads hw1.log ++ R
                  ∧ R.length = 4 * (data_size / 16)
                  ∧ ∀ j, j < 16 * (data_size / 16) →
                    res.out j = byte_of (R.getD (j / 4) 0) (j % 4))
                ∧ ∀ j, 16 * (data_size / 16) ≤ j → res.out j = data_out j))) := by
  have hE : (-EINVAL : Int) ≠ 0 := by decide
  have hN : (-ENODEV : Int) ≠ 0 := by decide
  have hT : (-ETIMEDOUT : Int) ≠ 0 := by decide
  have hNT : (-ETIMEDOUT : Int) ≠ -ENODEV := by decide
  have part3 : ¬ (IS_CHAINING_MODE L STM32_SAES_MODE_CBC ctx.cr = true ∧ is_encrypt ctx.cr = true) →
      ∀ rc hw1, restore_context L ctx hw = some (rc, hw1) →
        ∃ res, stm32_saes_update L ctx true data_in data_out data_size hw = some res
          ∧ res.ctx = ctx
          ∧ (rc ≠ 0 → res.ret = rc ∧ res.out = data_out ∧ res.hw = saes_end ctx rc hw1)
          ∧ (rc = 0 → (res.ret = -ENODEV ∨ res.ret = -ETIMEDOUT)
            ∧ (res.ret = -ENODEV
              ↔ (update_loop L ctx.base data_in (data_size / 16) 0 data_out hw1).1 = 0)
            ∧ ((∀ log, (hw.dev log ctx.base Reg.ISR % 2 ^ 32) &&& _SAES_I_CCF L
                = _SAES_I_CCF L) → res.ret = -ENODEV)
            ∧ (res.ret = -ENODEV →
              cd_writes res.hw.log
                = cd_writes hw1.log
                  ++ (List.range (4 * (data_size / 16))).map
                    (fun k => (Reg.DINR, load32 data_in k))
                  ++ (saes_end_writes (-ENODEV) hw1.cr).map (fun v => (Reg.CR, v))
              ∧ (∃ R, doutr_reads res.hw.log = doutr_reads hw1.log ++ R
                ∧ R.length = 4 * (data_size / 16)
                ∧ ∀ j, j < 16 * (data_size / 16) →
                  res.out j = byte_of (R.getD (j / 4) 0) (j % 4))
              ∧ ∀ j, 16 * (data_size / 16) ≤ j → res.out j = data_out j)) := by
    intro hcbc rc hw1 hr
    have hdev : hw1.dev = hw.dev := (restore_context_spec L ctx hw rc hw1 hr).1
    have hrdy : (∀ log, (hw.dev log ctx.base Reg.ISR % 2 ^ 32) &&& _SAES_I_CCF L
        = _SAES_I_CCF L) →
        (update_loop L ctx.base data_in (data_size / 16) 0 data_out hw1).1 = 0 := by
      intro hready
      exact update_loop_ready L ctx.base data_in (data_size / 16) 0 data_out hw1
        (by rw [hdev]; exact hready)
    rw [update_final_other L ctx data_in data_out data_size hw hna hcbc, hr]
    simp only
    obtain ⟨l1, lc, l4, l5⟩ := update_loop_spec L ctx.base data_in (data_size / 16) data_out hw1
    by_cases h0 : rc ≠ 0
    · rw [if_pos h0]
      refine ⟨_, rfl, rfl, fun _ => ⟨rfl, rfl, ?_⟩, fun h => absurd h h0⟩
      simp [update_out]
    · rw [if_neg h0]
      simp only [ne_eq, not_not] at h0
      by_cases hl : (update_loop L ctx.base data_in (data_size / 16) 0 data_out hw1).1 ≠ 0
      · rw [if_pos hl]
        have hTO : (update_loop L ctx.base data_in (data_size / 16) 0 data_out hw1).1
            = -ETIMEDOUT := by
          rcases l1 with h | h
          · exact absurd h hl
          · exact h
        refine ⟨_, rfl, rfl, fun h => absurd h0 h, fun _ => ⟨Or.inr hTO,
          ⟨fun h => absurd (hTO.symm.trans h) hNT, fun h => absurd h hl⟩,
          fun hready => absurd (hrdy hready) hl, fun h => ?_⟩⟩
        exact absurd (hTO.symm.trans h) hNT
      · rw [if_neg hl]
        simp only [ne_eq, not_not] at hl
        obtain ⟨_, s3, R, s4, s5, s6⟩ := l5 hl
        obtain ⟨e1, _, e3, _, _, _⟩ := saes_end_spec ctx (-ENODEV)
          (update_loop L ctx.base data_in (data_size / 16) 0 data_out hw1).2.2.2
        refine ⟨_, rfl, rfl, fun h => absurd h0 h, fun _ => ⟨Or.inl rfl,
          ⟨fun _ => hl, fun _ => rfl⟩, fun _ => rfl, fun _ => ⟨?_, ?_, ?_⟩⟩⟩
        · simp only [update_out, Bool.true_or, if_true]
          rw [e1, s3, lc]
        · refine ⟨R, ?_, s5, s6⟩
          simp only [update_out, Bool.true_or, if_true]
          rw [e3, s4]
        · exact l4
  refine ⟨?_, ?_, part3⟩
  · intro res hres
    by_cases hcbc : IS_CHAINING_MODE L STM32_SAES_MODE_CBC ctx.cr = true ∧ is_encrypt ctx.cr = true
    · rw [update_final_cbc_enc L ctx data_in data_out data_size hw hna hcbc] at hres
      cases hres
      simp only [update_out]
      split <;> assumption
    · cases hr : restore_context L ctx hw with
      | none =>
        rw [update_final_other L ctx data_in data_out data_size hw hna hcbc, hr] at hres
        cases hres
      | some r =>
        obtain ⟨res2, h1, _, h3, h4⟩ := part3 hcbc r.1 r.2 hr
        rw [h1] at hres
        cases hres
        by_cases h0 : r.1 ≠ 0
        · rw [(h3 h0).1]
          exact h0
        · simp only [ne_eq, not_not] at h0
          rcases (h4 h0).1 with h | h <;> rw [h]
          · exact hN
          · exact hT
  · intro hcbc
    rw [update_final_cbc_enc L ctx data_in data_out data_size hw hna hcbc]
    refine ⟨_, rfl, rfl, rfl, rfl, ?_⟩
    simp [update_out]

theorem C5_update_final_unaligned_witness :
    (20 % 16 ≠ 0 ∧ 20 < 2 ^ 32
        ∧ restore_context Layout.CRYP2 ctx_gcm hw_ready = some (0, hw_gcm_restored))
      ∧ (∀ res, stm32_saes_update Layout.CRYP2 ctx_gcm true buf_count (fun _ => 0xAA) 20 hw_ready
          = some res → res.ret ≠ 0)
      ∧ ∃ res, stm32_saes_update Layout.CRYP2 ctx_gcm true buf_count (fun _ => 0xAA) 20 hw_ready
          = some res
        ∧ res.ret = -ENODEV
        ∧ cd_writes res.hw.log
          = cd_writes hw_gcm_restored.log
            ++ [(Reg.DINR, 0x03020100), (Reg.DINR, 0x07060504), (Reg.DINR, 0x0B0A0908),
                (Reg.DINR, 0x0F0E0D0C)]
            ++ [(Reg.CR, 0x80000065), (Reg.CR, 0x65), (Reg.CR, 0x64)]
        ∧ res.out 16 = 0xAA := by
  have hr : restore_context Layout.CRYP2 ctx_gcm hw_ready = some (0, hw_gcm_restored) := rfl
  refine ⟨⟨by decide, by decide, hr⟩,
    (C5_update_final_unaligned Layout.CRYP2 ctx_gcm buf_count (fun _ => 0xAA) 20 hw_ready
      (by decide) (by decide)).1, ?_⟩
  obtain ⟨res, h1, -, -, h4⟩ := (C5_update_final_unaligned Layout.CRYP2 ctx_gcm buf_count
    (fun _ => 0xAA) 20 hw_ready (by decide) (by decide)).2.2 (by decide) 0 hw_gcm_restored hr
  obtain ⟨-, -, g3, g4⟩ := h4 rfl
  have hrdy : ∀ log : List Ev, (hw_ready.dev log ctx_gcm.base Reg.ISR % 2 ^ 32)
      &&& _SAES_I_CCF Layout.CRYP2 = _SAES_I_CCF Layout.CRYP2 := by
    intro log
    show (0xFFFFFFFF % 2 ^ 32) &&& _SAES_I_CCF Layout.CRYP2 = _SAES_I_CCF Layout.CRYP2
    decide
  have hret : res.ret = -ENODEV := g3 hrdy
  obtain ⟨w1, -, w3⟩ := g4 hret
  exact ⟨res, h1, hret, w1.trans (by decide), (w3 16 (by decide)).trans rfl⟩

/-! ## Engines outside the model of the suspend/resume equivalence -/

/-- C12, the claim on engines of the class it names (deterministic, the block
output a function of the control, key and IV register contents and of the
blocks fed since the last restore) that are not of the form the equivalence
needs.  A CTR or ECB session with a 128-bit key streams the bytes `0 .. 31`,
once by one final `stm32_saes_update` and once by a non-final call over the
first block followed by a final call with the saved context over the second;
`single_run` and `split_run` give the results of the calls and the output
bytes of the second block.

First, an engine that keeps its chaining state inside (`hidden_dev`: an IV
register reads back as written): `save_context` saves the IV of the start, so
the second call repeats the counter of the first block; all calls return 0 and
output byte 28 is 27 in the single run and 28 in the split run.  Second, an
engine whose transform reads key register 7 under a 128-bit key
(`leaky_key_blk`), with a session of a 256-bit key in between: `saes_write_key`
restores key registers 0..3 only; all calls return 0 and the outputs differ.
Third, an engine whose transform reads IV register 0 in ECB (`leaky_iv_blk`),
with a CBC session in between: `restore_context` writes no IV register in ECB;
all calls return 0 and the outputs differ.  Fourth, an engine that completes
only the first block after a reset (`stall_flags`): the single call returns
`-ETIMEDOUT` and leaves the second block of the output unwritten, while both
calls of the split run return 0. -/
theorem C12_engine_class_too_wide :
    (single_run ctx_ctr (hw_of (hidden_dev (toy_blk Layout.CRYP2) toy_flags))
        = some (0, [16, 18, 18, 19, 20, 22, 22, 23, 24, 26, 26, 27, 27, 30, 30, 31])
      ∧ split_run ctx_ctr (hw_of (hidden_dev (toy_blk Layout.CRYP2) toy_flags)) id
        = some (0, 0, [16, 18, 18, 19, 20, 22, 22, 23, 24, 26, 26, 27, 28, 30, 30, 31]))
    ∧ (single_run ctx_ctr (hw_of (engine_dev leaky_key_blk toy_flags))
        = some (0, [16, 17, 18, 19, 20, 21, 22, 23, 24, 25, 26, 27, 28, 29, 30, 31])
      ∧ split_run ctx_ctr (hw_of (engine_dev leaky_key_blk toy_flags)) other_session
        = some (0, 0, [23, 177, 18, 19, 19, 181, 22, 23, 31, 185, 26, 27, 27, 189, 30, 31]))
    ∧ (single_run ctx_ecb_enc (hw_of (engine_dev leaky_iv_blk toy_flags))
        = some (0, [16, 17, 18, 19, 20, 21, 22, 23, 24, 25, 26, 27, 28, 29, 30, 31])
      ∧ split_run ctx_ecb_enc (hw_of (engine_dev leaky_iv_blk toy_flags)) other_session
        = some (0, 0, [16, 161, 18, 19, 20, 165, 22, 23, 24, 169, 26, 27, 28, 173, 30, 31]))
    ∧ (single_run ctx_ctr (hw_of (engine_dev (toy_blk Layout.CRYP2) stall_flags))
        = some (-ETIMEDOUT, [0, 0, 0, 0, 0, 0, 0, 0, 0, 0, 0, 0, 0, 0, 0, 0])
      ∧ split_run ctx_ctr (hw_of (engine_dev (toy_blk Layout.CRYP2) stall_flags)) id
        = some (0, 0, [16, 18, 18, 19, 20, 22, 22, 23, 24, 26, 26, 27, 27, 30, 30, 31])) := by
  refine ⟨⟨?_, ?_⟩, ⟨?_, ?_⟩, ⟨?_, ?_⟩, ⟨?_, ?_⟩⟩ <;> decide

end Saes
